import Mathlib

/-!
# Manta engine build driver: JSON query engine and staleness cache

A shallow embedding of `source/core/json.cpp` and of the cache logic of
`source/build/build.cpp`, together with theorems about them.

Conventions of the embedding
* a text buffer (`String`, `const char *`) is a `List Char`, one `Char` per byte;
* `usize` values are natural numbers; `USIZE_MAX` is `2 ^ 64 - 1`;
* every `for( usize i = start; i < end; i++ )` loop is a function recursing on the
  number `end - i` of iterations that remain, carrying the loop variables.
-/

namespace Manta

/-- A text buffer: the bytes of a `String` or of a `const char *`, without the terminator. -/
abbrev Text := List Char

/-- The largest `usize`, used by the scanners as the "not found" offset. -/
def USIZE_MAX : Nat := 2 ^ 64 - 1

/-- The string terminator `'\0'`. -/
def NUL : Char := Char.ofNat 0

/-! ## String primitives -/

/-- Modelled from the spec: `String::length_bytes` (core/string.hpp is not among the
sources): the number of bytes of the buffer. -/
def length_bytes (s : Text) : Nat := s.length

/-- Modelled from the spec: `String::operator[]` (core/string.hpp is not among the
sources): the byte at offset `i`; the offset `length_bytes` holds the terminator. -/
def char_at (s : Text) (i : Nat) : Char := s.getD i NUL

/-- Modelled from the spec: `String::contains_at` (core/string.hpp is not among the
sources): the bytes of `sub` stand in the buffer at offset `i`. -/
def contains_at (s sub : Text) (i : Nat) : Bool := sub.isPrefixOf (s.drop i)

/-- Modelled from the spec: `String::substr` (core/string.hpp is not among the
sources): the bytes of the range `[a, b)`. -/
def substr (s : Text) (a b : Nat) : Text := (s.take b).drop a

/-- Modelled from the spec: `String::remove` (core/string.hpp is not among the
sources): the buffer without the `n` bytes that start at offset `i`. -/
def remove (s : Text) (i n : Nat) : Text := s.take i ++ s.drop (i + n)

/-- Worker of `replace`: `skip` counts the bytes of a match still to be dropped. -/
def replace_go (pat rep : Text) : Nat → Text → Text
  | _, [] => []
  | skip + 1, _ :: cs => replace_go pat rep skip cs
  | 0, c :: cs =>
    if pat ≠ [] ∧ pat.isPrefixOf (c :: cs) then rep ++ replace_go pat rep (pat.length - 1) cs
    else c :: replace_go pat rep 0 cs

/-- Modelled from the spec: `String::replace` (core/string.hpp is not among the
sources): every occurrence of `pat`, found left to right without overlap, becomes `rep`. -/
def replace (s pat rep : Text) : Text := replace_go pat rep 0 s

/-- Modelled from the spec: `char_whitespace` (core/string.hpp is not among the
sources): space, tab, line feed and carriage return. -/
def char_whitespace (c : Char) : Bool :=
  decide (c = ' ') || decide (c = '\t') || decide (c = '\n') || decide (c = '\r')

/-! ## The JSON view -/

/-- The class `JSON`: a window `[start, end)` into a text buffer. -/
structure JSON where
  string : Text
  start : Nat
  end_ : Nat
  deriving DecidableEq, Repr

/-- The struct `JSON::JSONElement`: the span `[start, end)` of one value. -/
structure JSONElement where
  start : Nat
  end_ : Nat
  deriving DecidableEq, Repr

/-- Modelled from the spec: the boolean conversion of `JSONElement` (core/json.hpp is
not among the sources): the element `{ 0, 0 }` stands for "not found". -/
def JSONElement.found (e : JSONElement) : Bool := !(decide (e.start = 0) && decide (e.end_ = 0))

/-- The test `buffer[i] == '"' && ( i == 0 || buffer[i-1] != '\\' )` of the scanners. -/
def quote_at (buffer : Text) (i : Nat) : Bool :=
  decide (char_at buffer i = '"') && (decide (i = 0) || decide (char_at buffer (i - 1) ≠ '\\'))

/-- The fatal errors raised by the constructor's two assertions. -/
inductive JSONError where
  | no_open_brace
  | no_closing_brace
  deriving DecidableEq, Repr

deriving instance DecidableEq for Except

/-- The whitespace stripping loop of `JSON::JSON`: `for( i = length; i > 0; i-- )`. -/
def strip_loop : Nat → Text → Bool → Text
  | 0, string, _ => string
  | i + 1, string, inQuotes =>
    if char_at string i = '"' ∧ (i + 1 ≤ 1 ∨ char_at string (i - 1) ≠ '\\') then
      strip_loop i string (!inQuotes)
    else if !inQuotes ∧ char_whitespace (char_at string i) then
      strip_loop i (remove string i 1) inQuotes
    else strip_loop i string inQuotes

/-- The buffer after the stripping pass of the constructor. -/
def strip_whitespace (string : Text) : Text := strip_loop (length_bytes string) string false

/-- The constructor `JSON::JSON( String &string )`. A failed `AssertMsg` is an error value;
`MemoryAssert( string.data != nullptr )` has no counterpart, a `Text` always has its data. -/
def JSON.construct (string : Text) : Except JSONError JSON :=
  let string := strip_whitespace string
  if char_at string 0 ≠ '{' then .error .no_open_brace
  else
    let end_ := (length_bytes string + 2 ^ 64 - 1) % 2 ^ 64
    if char_at string end_ ≠ '}' then .error .no_closing_brace
    else .ok { string := string, start := 1, end_ := end_ }

/-! ## The scanners -/

/-- The loop of `json_find_element_key`. -/
def json_find_element_key_loop (buffer key : Text) :
    Nat → Nat → Bool → Nat → Nat → Nat
  | 0, _, _, _, _ => USIZE_MAX
  | fuel + 1, i, inQuotes, depthBraces, depthBrackets =>
    -- Process Braces/Brackets
    let braces :=
      if char_at buffer i = '}' then
        if depthBraces > 0 then
          json_find_element_key_loop buffer key fuel (i + 1) inQuotes (depthBraces - 1)
            depthBrackets
        else USIZE_MAX
      else if char_at buffer i = ']' then
        if depthBrackets > 0 then
          json_find_element_key_loop buffer key fuel (i + 1) inQuotes depthBraces
            (depthBrackets - 1)
        else USIZE_MAX
      else if char_at buffer i = '{' then
        json_find_element_key_loop buffer key fuel (i + 1) inQuotes (depthBraces + 1) depthBrackets
      else if char_at buffer i = '[' then
        json_find_element_key_loop buffer key fuel (i + 1) inQuotes depthBraces (depthBrackets + 1)
      else json_find_element_key_loop buffer key fuel (i + 1) inQuotes depthBraces depthBrackets
    -- Length check / null terminator
    if i ≥ length_bytes buffer ∨ char_at buffer i = NUL then USIZE_MAX
    -- Find Key / Skip Quotes
    else if depthBraces = 0 ∧ depthBrackets = 0 then
      if quote_at buffer i then
        if inQuotes then
          json_find_element_key_loop buffer key fuel (i + 1) false depthBraces depthBrackets
        else if contains_at buffer key (i + 1) ∧
            contains_at buffer ['"', ':'] (i + 1 + key.length) then
          i + key.length + 3
        else json_find_element_key_loop buffer key fuel (i + 1) true depthBraces depthBrackets
      else if inQuotes then
        json_find_element_key_loop buffer key fuel (i + 1) inQuotes depthBraces depthBrackets
      else braces
    else braces

/-- The function `json_find_element_key( buffer, key, start, end )`. -/
def json_find_element_key (buffer key : Text) (start end_ : Nat) : Nat :=
  json_find_element_key_loop buffer key (end_ - start) start false 0 0

/-- The loop of `json_find_element_index`. -/
def json_find_element_index_loop (buffer : Text) (index : Nat) :
    Nat → Nat → Bool → Nat → Nat → Nat → Nat → Nat
  | 0, _, _, _, _, last, count => if count = index then last else USIZE_MAX
  | fuel + 1, i, inQuotes, depthBraces, depthBrackets, last, count =>
    if i ≥ length_bytes buffer ∨ char_at buffer i = NUL then
      if count = index then last else USIZE_MAX
    else
      let inQuotes := if quote_at buffer i then !inQuotes else inQuotes
      if inQuotes then
        json_find_element_index_loop buffer index fuel (i + 1) inQuotes depthBraces depthBrackets
          last count
      else if char_at buffer i = '{' then
        json_find_element_index_loop buffer index fuel (i + 1) inQuotes (depthBraces + 1)
          depthBrackets last count
      else if char_at buffer i = '[' then
        json_find_element_index_loop buffer index fuel (i + 1) inQuotes depthBraces
          (depthBrackets + 1) last count
      else if char_at buffer i = '}' then
        if depthBraces > 0 then
          json_find_element_index_loop buffer index fuel (i + 1) inQuotes (depthBraces - 1)
            depthBrackets last count
        else if count = index then last else USIZE_MAX
      else if char_at buffer i = ']' then
        if depthBrackets > 0 then
          json_find_element_index_loop buffer index fuel (i + 1) inQuotes depthBraces
            (depthBrackets - 1) last count
        else if count = index then last else USIZE_MAX
      else if depthBraces > 0 ∨ depthBrackets > 0 then
        json_find_element_index_loop buffer index fuel (i + 1) inQuotes depthBraces depthBrackets
          last count
      else if char_at buffer i = ',' then
        if count = index then last
        else
          json_find_element_index_loop buffer index fuel (i + 1) inQuotes depthBraces
            depthBrackets (i + 1) (count + 1)
      else
        json_find_element_index_loop buffer index fuel (i + 1) inQuotes depthBraces depthBrackets
          last count

/-- The function `json_find_element_index( buffer, index, start, end )`. -/
def json_find_element_index (buffer : Text) (index start end_ : Nat) : Nat :=
  json_find_element_index_loop buffer index (end_ - start) start false 0 0 start 0

/-- The loop of `json_find_element_delimiter`; when the loop runs out it returns `end`. -/
def json_find_element_delimiter_loop (buffer : Text) (end_ : Nat) :
    Nat → Nat → Bool → Nat → Nat → Nat
  | 0, _, _, _, _ => end_
  | fuel + 1, i, inQuotes, depthBraces, depthBrackets =>
    if i ≥ length_bytes buffer ∨ char_at buffer i = NUL then i
    else
      let inQuotes := if quote_at buffer i then !inQuotes else inQuotes
      if inQuotes then
        json_find_element_delimiter_loop buffer end_ fuel (i + 1) inQuotes depthBraces depthBrackets
      else if char_at buffer i = '{' then
        json_find_element_delimiter_loop buffer end_ fuel (i + 1) inQuotes (depthBraces + 1)
          depthBrackets
      else if char_at buffer i = '[' then
        json_find_element_delimiter_loop buffer end_ fuel (i + 1) inQuotes depthBraces
          (depthBrackets + 1)
      else if char_at buffer i = '}' then
        if depthBraces > 0 then
          json_find_element_delimiter_loop buffer end_ fuel (i + 1) inQuotes (depthBraces - 1)
            depthBrackets
        else i
      else if char_at buffer i = ']' then
        if depthBrackets > 0 then
          json_find_element_delimiter_loop buffer end_ fuel (i + 1) inQuotes depthBraces
            (depthBrackets - 1)
        else i
      else if depthBraces > 0 ∨ depthBrackets > 0 then
        json_find_element_delimiter_loop buffer end_ fuel (i + 1) inQuotes depthBraces depthBrackets
      else if char_at buffer i = ',' then i
      else
        json_find_element_delimiter_loop buffer end_ fuel (i + 1) inQuotes depthBraces depthBrackets

/-- The function `json_find_element_delimiter( buffer, start, end )`. -/
def json_find_element_delimiter (buffer : Text) (start end_ : Nat) : Nat :=
  json_find_element_delimiter_loop buffer end_ (end_ - start) start false 0 0

/-- The method `JSON::find_element_key`. -/
def JSON.find_element_key (j : JSON) (key : Text) : JSONElement :=
  let indexStart := json_find_element_key j.string key j.start j.end_
  if indexStart > j.end_ then { start := 0, end_ := 0 }
  else
    let indexEnd := json_find_element_delimiter j.string indexStart j.end_
    if indexEnd > j.end_ ∨ indexEnd ≤ indexStart then { start := 0, end_ := 0 }
    else { start := indexStart, end_ := indexEnd }

/-- The method `JSON::find_element_index`. -/
def JSON.find_element_index (j : JSON) (index : Nat) : JSONElement :=
  let indexStart := json_find_element_index j.string index j.start j.end_
  if indexStart > j.end_ then { start := 0, end_ := 0 }
  else
    let indexEnd := json_find_element_delimiter j.string indexStart j.end_
    if indexEnd > j.end_ ∨ indexEnd ≤ indexStart then { start := 0, end_ := 0 }
    else { start := indexStart, end_ := indexEnd }

/-! ## Scope navigation -/

/-- The common tail of `object`, `object_at`, `array`, `array_at`: check the two
delimiters of the element and return the inner view, or the view `{ string, 0, 0 }`. -/
def JSON.scope_of (j : JSON) (element : JSONElement) (open_ close : Char) : JSON :=
  if !element.found then { string := j.string, start := 0, end_ := 0 }
  else if char_at j.string element.start ≠ open_ then { string := j.string, start := 0, end_ := 0 }
  else if char_at j.string (element.end_ - 1) ≠ close then
    { string := j.string, start := 0, end_ := 0 }
  else { string := j.string, start := element.start + 1, end_ := element.end_ - 1 }

/-- The element is found and its first and last bytes are the two delimiters. -/
def JSON.delimited (j : JSON) (element : JSONElement) (open_ close : Char) : Prop :=
  element.found = true ∧ char_at j.string element.start = open_ ∧
    char_at j.string (element.end_ - 1) = close

/-- What scope navigation promises for the result `r` of a lookup that gave the element
`e`: the inner view on a delimiter match, the view (0,0) otherwise, and the two differ. -/
def JSON.navigates (j r : JSON) (e : JSONElement) (open_ close : Char) : Prop :=
  (j.delimited e open_ close → r = ⟨j.string, e.start + 1, e.end_ - 1⟩) ∧
    (¬ j.delimited e open_ close → r = ⟨j.string, 0, 0⟩) ∧
    (⟨j.string, e.start + 1, e.end_ - 1⟩ : JSON) ≠ ⟨j.string, 0, 0⟩

/-- The method `JSON::object( key )`. -/
def JSON.object (j : JSON) (key : Text) : JSON := j.scope_of (j.find_element_key key) '{' '}'

/-- The method `JSON::object_at( index )`. -/
def JSON.object_at (j : JSON) (index : Nat) : JSON :=
  j.scope_of (j.find_element_index index) '{' '}'

/-- The method `JSON::array( key )`. -/
def JSON.array (j : JSON) (key : Text) : JSON := j.scope_of (j.find_element_key key) '[' ']'

/-- The method `JSON::array_at( index )`. -/
def JSON.array_at (j : JSON) (index : Nat) : JSON :=
  j.scope_of (j.find_element_index index) '[' ']'


/-- The loop of `JSON::count`. -/
def count_loop (string : Text) : Nat → Nat → Bool → Nat → Nat → Nat → Nat
  | 0, _, _, _, _, count => count
  | fuel + 1, i, inQuotes, depthBraces, depthBrackets, count =>
    if i ≥ length_bytes string ∨ char_at string i = NUL then count
    else
      let inQuotes := if quote_at string i then !inQuotes else inQuotes
      if inQuotes then count_loop string fuel (i + 1) inQuotes depthBraces depthBrackets count
      else if char_at string i = '{' then
        count_loop string fuel (i + 1) inQuotes (depthBraces + 1) depthBrackets count
      else if char_at string i = '[' then
        count_loop string fuel (i + 1) inQuotes depthBraces (depthBrackets + 1) count
      else if char_at string i = '}' then
        if depthBraces > 0 then
          count_loop string fuel (i + 1) inQuotes (depthBraces - 1) depthBrackets count
        else count
      else if char_at string i = ']' then
        if depthBrackets > 0 then
          count_loop string fuel (i + 1) inQuotes depthBraces (depthBrackets - 1) count
        else count
      else if depthBraces > 0 ∨ depthBrackets > 0 then
        count_loop string fuel (i + 1) inQuotes depthBraces depthBrackets count
      else if char_at string i = ',' then
        count_loop string fuel (i + 1) inQuotes depthBraces depthBrackets (count + 1)
      else count_loop string fuel (i + 1) inQuotes depthBraces depthBrackets count

/-- The method `JSON::count`; `end - start` is a `usize` difference. -/
def JSON.count (j : JSON) : Nat :=
  if (j.end_ + 2 ^ 64 - j.start) % 2 ^ 64 ≤ 1 then 0
  else count_loop j.string (j.end_ - j.start) j.start false 0 0 1


/-! ## Leaf accessors -/

/-- The common tail of `get_string` and `get_string_at`: check the quotes of the element,
take the inner text and undo the three escapes. -/
def JSON.string_of (j : JSON) (element : JSONElement) (defaultValue : Text) : Text :=
  if !element.found then defaultValue
  else if char_at j.string element.start ≠ '"' then defaultValue
  else if char_at j.string (element.end_ - 1) ≠ '"' then defaultValue
  else
    let out := substr j.string (element.start + 1) (element.end_ - 1)
    replace (replace (replace out ['\\', '"'] ['"']) ['\\', 'n'] ['\n']) ['\\', 't'] ['\t']

/-- The method `JSON::get_string( key, defaultValue )`. -/
def JSON.get_string (j : JSON) (key defaultValue : Text) : Text :=
  j.string_of (j.find_element_key key) defaultValue

/-- The method `JSON::get_string_at( index, defaultValue )`. -/
def JSON.get_string_at (j : JSON) (index : Nat) (defaultValue : Text) : Text :=
  j.string_of (j.find_element_index index) defaultValue

/-- The method `JSON::get_double( key, defaultValue )`; the C library function `atof` and the
type `double` are parameters. -/
def JSON.get_double {D : Type} (atof : Text → D) (j : JSON) (key : Text) (defaultValue : D) : D :=
  let element := j.find_element_key key
  if !element.found then defaultValue
  else atof (substr j.string element.start element.end_)

/-- The method `JSON::get_double_at( index, defaultValue )`. -/
def JSON.get_double_at {D : Type} (atof : Text → D) (j : JSON) (index : Nat)
    (defaultValue : D) : D :=
  let element := j.find_element_index index
  if !element.found then defaultValue
  else atof (substr j.string element.start element.end_)

/-- The method `JSON::get_float( key, defaultValue )`; the two `static_cast`s between
`float` and `double` are the parameters `to_double` and `to_float`. -/
def JSON.get_float {F D : Type} (atof : Text → D) (to_double : F → D) (to_float : D → F)
    (j : JSON) (key : Text) (defaultValue : F) : F :=
  to_float (j.get_double atof key (to_double defaultValue))

/-- The method `JSON::get_float_at( index, defaultValue )`. -/
def JSON.get_float_at {F D : Type} (atof : Text → D) (to_double : F → D) (to_float : D → F)
    (j : JSON) (index : Nat) (defaultValue : F) : F :=
  to_float (j.get_double_at atof index (to_double defaultValue))

/-- The method `JSON::get_int( key, defaultValue )`; the C library function `atoi` is a
parameter. -/
def JSON.get_int (atoi : Text → Int) (j : JSON) (key : Text) (defaultValue : Int) : Int :=
  let element := j.find_element_key key
  if !element.found then defaultValue
  else atoi (substr j.string element.start element.end_)

/-- The method `JSON::get_int_at( index, defaultValue )`. -/
def JSON.get_int_at (atoi : Text → Int) (j : JSON) (index : Nat) (defaultValue : Int) : Int :=
  let element := j.find_element_index index
  if !element.found then defaultValue
  else atoi (substr j.string element.start element.end_)

/-- The method `JSON::get_bool( key, defaultValue )`. -/
def JSON.get_bool (j : JSON) (key : Text) (defaultValue : Bool) : Bool :=
  let element := j.find_element_key key
  if !element.found then defaultValue
  else contains_at j.string ['t', 'r', 'u', 'e'] element.start ||
    contains_at j.string ['1'] element.start

/-- The method `JSON::get_bool_at( index, defaultValue )`. -/
def JSON.get_bool_at (j : JSON) (index : Nat) (defaultValue : Bool) : Bool :=
  let element := j.find_element_index index
  if !element.found then defaultValue
  else contains_at j.string ['t', 'r', 'u', 'e'] element.start ||
    contains_at j.string ['1'] element.start


/-! ## The staleness cache of the build driver (`source/build/build.cpp`) -/

/-- Modelled from the spec: the class `Buffer` (core/buffer.hpp is not among the sources):
an ordered sequence of fixed-width counters with a read cursor. -/
structure Buffer where
  data : List Nat := []
  tell : Nat := 0
  deriving DecidableEq, Repr

/-- Modelled from the spec: `Buffer::read<usize>` (core/buffer.hpp is not among the
sources): the counter at the cursor, which then advances; past the last stored counter
there is no counter to return. -/
def Buffer.read (b : Buffer) : Option Nat × Buffer :=
  (b.data.get? b.tell, { b with tell := b.tell + 1 })

/-- Modelled from the spec: `Buffer::write` (core/buffer.hpp is not among the sources):
append one counter. -/
def Buffer.write (b : Buffer) (x : Nat) : Buffer := { b with data := b.data ++ [x] }

/-- The calls the driver makes, in the order of `BuilderCore::build`: the collaborators
(`Objects::`, `Gfx::`, `Assets::`, file saves, the `ninja` subprocess, the produced program)
and the four cache checks. -/
inductive Step where
  | objects_begin | objects_gather | objects_cache | objects_parse | objects_resolve
  | objects_validate | objects_generate | objects_write
  | gfx_begin | shaders_gather | shaders_cache | gfx_build | gfx_write
  | assets_begin | assets_gather | assets_cache | assets_build
  | assets_save_header | assets_save_source
  | binary_cache | binary_save
  | compile_project | compile_engine | compile_write_ninja | compile_run_ninja
  | cache_save | executable_run
  deriving DecidableEq, Repr

/-- The inputs of one invocation that the driver does not compute itself: the command line
(`Build::args`), the counters the gather steps find, the size of `Assets::binary` when
`binary_cache` looks at it, and which collaborator calls end in a fatal error. -/
structure World where
  clean : Text
  codegen : Text
  build : Text
  run : Text
  objectFilesCount : Nat
  shaderFileCount : Nat
  assetFileCount : Nat
  binarySize : Nat
  fails : Step → Bool

/-- The globals of `namespace Build` that the cache logic uses, the stored cache file
`build.cache` (`none` when it cannot be loaded), the calls made so far and the
call that aborted the process, if one did. -/
structure Build where
  cacheDirty : Bool := false
  cacheDirtyObjects : Bool := false
  cacheDirtyAssets : Bool := false
  cacheDirtyBinary : Bool := false
  cacheDirtyShaders : Bool := false
  cacheBufferPrevious : Buffer := {}
  cacheBufferCurrent : Buffer := {}
  cacheFile : Option (List Nat) := none
  log : List Step := []
  fatal : Option Step := none
  deriving DecidableEq, Repr

/-- A fatal error ends the process: once `fatal` is set no later statement runs. -/
def Build.running (f : Build → Build) (s : Build) : Build :=
  if s.fatal.isSome then s else f s

/-- One call of a collaborator: it is recorded, and it aborts the process when the world
says that it raises a fatal error. -/
def call (w : World) (step : Step) : Build → Build :=
  Build.running fun s =>
    if w.fails step then { s with log := s.log ++ [step], fatal := some step }
    else { s with log := s.log ++ [step] }

/-- A call that is recorded and cannot abort the process (`executable_run` only reports
the exit code of the program). -/
def record (step : Step) : Build → Build :=
  Build.running fun s => { s with log := s.log ++ [step] }

/-- One call of a collaborator guarded by `if( !dirty ) { return; }`. -/
def call_if (dirty : Build → Bool) (w : World) (step : Step) (s : Build) : Build :=
  if dirty s then call w step s else s

/-- The method `BuilderCore::build_cache`. `Buffer::load` fails when there is no stored file. -/
def build_cache (w : World) : Build → Build :=
  Build.running fun s =>
    let force := decide (w.clean = ['1'])
    let s := { s with cacheDirty := s.cacheDirty || force }
    match s.cacheFile with
    | none => { s with cacheDirty := true }
    | some counters => { s with cacheBufferPrevious := { data := counters, tell := 0 } }

/-- The method `BuilderCore::objects_cache`; the read of the previous buffer is the right
operand of `||` and is evaluated only when `cacheDirty` is false. -/
def objects_cache (w : World) : Build → Build :=
  Build.running fun s =>
    let s := { s with log := s.log ++ [Step.objects_cache] }
    let s := { s with cacheDirtyObjects := s.cacheDirtyObjects || s.cacheDirty }
    let s :=
      if s.cacheDirty then { s with cacheDirtyObjects := true }
      else
        let r := s.cacheBufferPrevious.read
        { s with
          cacheDirtyObjects := s.cacheDirtyObjects || decide (some w.objectFilesCount ≠ r.1)
          cacheBufferPrevious := r.2 }
    { s with cacheBufferCurrent := s.cacheBufferCurrent.write w.objectFilesCount }

/-- The method `BuilderCore::shaders_cache`. -/
def shaders_cache (w : World) : Build → Build :=
  Build.running fun s =>
    let s := { s with log := s.log ++ [Step.shaders_cache] }
    let s := { s with cacheDirtyShaders := s.cacheDirtyShaders || s.cacheDirty }
    let s :=
      if s.cacheDirty then { s with cacheDirtyShaders := true }
      else
        let r := s.cacheBufferPrevious.read
        { s with
          cacheDirtyShaders := s.cacheDirtyShaders || decide (some w.shaderFileCount ≠ r.1)
          cacheBufferPrevious := r.2 }
    let s := { s with cacheBufferCurrent := s.cacheBufferCurrent.write w.shaderFileCount }
    { s with cacheDirtyAssets := s.cacheDirtyAssets || s.cacheDirtyShaders }

/-- The method `BuilderCore::assets_cache`. -/
def assets_cache (w : World) : Build → Build :=
  Build.running fun s =>
    let s := { s with log := s.log ++ [Step.assets_cache] }
    let s := { s with cacheDirtyAssets := s.cacheDirtyAssets || s.cacheDirty }
    let s :=
      if s.cacheDirty then { s with cacheDirtyAssets := true }
      else
        let r := s.cacheBufferPrevious.read
        { s with
          cacheDirtyAssets := s.cacheDirtyAssets || decide (some w.assetFileCount ≠ r.1)
          cacheBufferPrevious := r.2 }
    { s with cacheBufferCurrent := s.cacheBufferCurrent.write w.assetFileCount }

/-- The method `BuilderCore::binary_cache`. -/
def binary_cache (w : World) : Build → Build :=
  Build.running fun s =>
    let s := { s with log := s.log ++ [Step.binary_cache] }
    let s := { s with cacheDirtyBinary := s.cacheDirtyBinary || s.cacheDirty }
    { s with cacheDirtyBinary := s.cacheDirtyBinary || decide (w.binarySize > 0) }

/-- The block "Build Objects" of `BuilderCore::build`: `Objects::begin`, `objects_gather`,
`objects_cache`, `objects_parse`, `objects_write`. -/
def build_objects (w : World) (s : Build) : Build :=
  s |> call w .objects_begin |> call w .objects_gather |> objects_cache w
    |> call_if (·.cacheDirtyObjects) w .objects_parse
    |> call_if (·.cacheDirtyObjects) w .objects_resolve
    |> call_if (·.cacheDirtyObjects) w .objects_validate
    |> call_if (·.cacheDirtyObjects) w .objects_generate
    |> call_if (·.cacheDirtyObjects) w .objects_write

/-- The block "Build Graphics": `Gfx::begin`, `shaders_gather`, `shaders_cache`,
`shaders_build`, `shaders_write`. -/
def build_graphics (w : World) (s : Build) : Build :=
  s |> call w .gfx_begin |> call w .shaders_gather |> shaders_cache w
    |> call_if (·.cacheDirtyShaders) w .gfx_build
    |> call_if (·.cacheDirtyShaders) w .gfx_write

/-- The block "Build Assets": `Assets::begin`, `assets_gather`, `assets_cache`,
`assets_build`, `assets_write` (which saves the generated header, then the source). -/
def build_assets (w : World) (s : Build) : Build :=
  s |> call w .assets_begin |> call w .assets_gather |> assets_cache w
    |> call_if (·.cacheDirtyAssets) w .assets_build
    |> call_if (·.cacheDirtyAssets) w .assets_save_header
    |> call_if (·.cacheDirtyAssets) w .assets_save_source

/-- The block "Build Binary": `binary_cache`, `binary_write`. -/
def build_binary (w : World) (s : Build) : Build :=
  s |> binary_cache w |> call_if (·.cacheDirtyBinary) w .binary_save

/-- The block "Compile Executable": `compile_project`, `compile_engine`,
`compile_write_ninja`, `compile_run_ninja`. -/
def build_compile (w : World) (s : Build) : Build :=
  s |> call w .compile_project |> call w .compile_engine |> call w .compile_write_ninja
    |> call w .compile_run_ninja

/-- The block "Finish": `Build::cacheBufferCurrent.save( Build::pathOutputBuildCache )`. -/
def cache_save : Build → Build :=
  Build.running fun s =>
    { s with log := s.log ++ [Step.cache_save], cacheFile := some s.cacheBufferCurrent.data }

/-- One block of `BuilderCore::build` under its switch `if( codegen )` or `if( build )`. -/
def stage (enabled : Bool) (f : Build → Build) (s : Build) : Build :=
  if enabled then f s else s

/-- The method `BuilderCore::build`, from "Check Cache" on, started in the state `s`. -/
def build_from (w : World) (s : Build) : Build :=
  let codegen := decide (w.codegen = ['1'])
  let build := decide (w.build = ['1'])
  let run := decide (w.run = ['1'])
  s |> build_cache w
    |> stage codegen (build_objects w)
    |> stage build (build_graphics w)
    |> stage build (build_assets w)
    |> stage build (build_binary w)
    |> stage build (build_compile w)
    |> cache_save
    |> stage run (record .executable_run)

/-- The state of a fresh process: the initial values of the globals of `namespace Build`,
with the cache file stored by earlier invocations. -/
def Build.initial (cacheFile : Option (List Nat)) : Build := { cacheFile := cacheFile }

/-- One invocation of the driver. -/
def build (w : World) (cacheFile : Option (List Nat)) : Build :=
  build_from w (Build.initial cacheFile)


/-- The part of the state that the cache logic reads and writes: the five dirty flags, the
two buffers and the stored cache file. -/
def Build.data (s : Build) :
    Bool × Bool × Bool × Bool × Bool × Buffer × Buffer × Option (List Nat) :=
  (s.cacheDirty, s.cacheDirtyObjects, s.cacheDirtyShaders, s.cacheDirtyAssets,
    s.cacheDirtyBinary, s.cacheBufferPrevious, s.cacheBufferCurrent, s.cacheFile)

/-- The four cache checks among the calls. -/
def Step.is_check : Step → Bool
  | .objects_cache => true
  | .shaders_cache => true
  | .assets_cache => true
  | .binary_cache => true
  | _ => false

/-- The dirty flag of the stage of a cache check; `true` for every other call. -/
def Build.flag_of (s : Build) : Step → Bool
  | .objects_cache => s.cacheDirtyObjects
  | .shaders_cache => s.cacheDirtyShaders
  | .assets_cache => s.cacheDirtyAssets
  | .binary_cache => s.cacheDirtyBinary
  | _ => true

/-- A step that leaves the cache state alone, does not revive an aborted process and
records no cache check. -/
def Frame (f : Build → Build) : Prop :=
  ∀ s, (f s).data = s.data ∧ ((f s).fatal = none → s.fatal = none) ∧
    ∀ c ∈ (f s).log, c ∈ s.log ∨ c.is_check = false

/-- While the process is alive the current buffer holds the counters `written`, and the
stored cache file holds them too once `saved` is set. -/
def run_writes (written : List Nat) (saved : Bool) (s : Build) : Prop :=
  s.fatal = none →
    s.cacheBufferCurrent.data = written ∧ (saved = true → s.cacheFile = some written)

/-- Nothing is dirty so far: the global, objects, shaders and assets flags are false, the
binary flag is false under the condition `blob_empty`, and while the process is alive the
previous buffer holds `previous` with its cursor after `consumed` counters. -/
def run_clean (previous : List Nat) (consumed : Nat) (blob_empty : Prop) (s : Build) : Prop :=
  s.cacheDirty = false ∧ s.cacheDirtyObjects = false ∧ s.cacheDirtyShaders = false ∧
    s.cacheDirtyAssets = false ∧ (blob_empty → s.cacheDirtyBinary = false) ∧
    (s.fatal = none → s.cacheBufferPrevious = ⟨previous, consumed⟩)

/-- A world in which every phase runs and no call fails. -/
def world_full : World :=
  { clean := [], codegen := ['1'], build := ['1'], run := [], objectFilesCount := 3,
    shaderFileCount := 4, assetFileCount := 5, binarySize := 0, fails := fun _ => false }

/-! ## Well-formed documents

The documents the theorems quantify over are given by their syntax tree and written out
without optional whitespace by `render`. A string is kept as its characters, free of
backslashes, and is written with the escapes `\"`, `\n`, `\t`; a literal (number,
`true`, `false`, `null`) is kept as its text. -/

mutual
/-- A JSON value. -/
inductive JValue where
  | str (s : Text)
  | lit (t : Text)
  | obj (members : JMembers)
  | arr (elems : JElems)
/-- The members of an object, in document order. -/
inductive JMembers where
  | nil
  | cons (key : Text) (value : JValue) (rest : JMembers)
/-- The elements of an array, in document order. -/
inductive JElems where
  | nil
  | cons (value : JValue) (rest : JElems)
end

/-- The escaped form of one character of a string. -/
def escape_char (c : Char) : Text :=
  if c = '"' then ['\\', '"']
  else if c = '\n' then ['\\', 'n']
  else if c = '\t' then ['\\', 't']
  else [c]

/-- The text of a string between its quotes: each double quote becomes `\"`, each line
feed `\n`, each tab `\t`. -/
def escape : Text → Text
  | [] => []
  | c :: cs => escape_char c ++ escape cs

/-- The escaped form of one character once `\"` has been replaced. -/
def escape_char_nt (c : Char) : Text :=
  if c = '\n' then ['\\', 'n'] else if c = '\t' then ['\\', 't'] else [c]

/-- The escaped form of one character once `\"` and `\n` have been replaced. -/
def escape_char_t (c : Char) : Text :=
  if c = '\t' then ['\\', 't'] else [c]

/-- A quoted string. -/
def quoted (s : Text) : Text := '"' :: (escape s ++ ['"'])

mutual
/-- The text of a value. -/
def render : JValue → Text
  | .str s => quoted s
  | .lit t => t
  | .obj ms => '{' :: (render_members ms ++ ['}'])
  | .arr es => '[' :: (render_elems es ++ [']'])
/-- The text of the members of an object, separated by commas. -/
def render_members : JMembers → Text
  | .nil => []
  | .cons k v rest => quoted k ++ ':' :: (render v ++ render_more_members rest)
/-- The text of further members, each preceded by a comma. -/
def render_more_members : JMembers → Text
  | .nil => []
  | .cons k v rest => ',' :: (quoted k ++ ':' :: (render v ++ render_more_members rest))
/-- The text of the elements of an array, separated by commas. -/
def render_elems : JElems → Text
  | .nil => []
  | .cons v rest => render v ++ render_more_elems rest
/-- The text of further elements, each preceded by a comma. -/
def render_more_elems : JElems → Text
  | .nil => []
  | .cons v rest => ',' :: (render v ++ render_more_elems rest)
end

/-- The number of members. -/
def JMembers.length : JMembers → Nat
  | .nil => 0
  | .cons _ _ rest => rest.length + 1

/-- The number of elements. -/
def JElems.length : JElems → Nat
  | .nil => 0
  | .cons _ rest => rest.length + 1

/-- Members followed by further members. -/
def JMembers.append : JMembers → JMembers → JMembers
  | .nil, ys => ys
  | .cons k v rest, ys => .cons k v (rest.append ys)

/-- The keys of the members, as they are written in the document. -/
def JMembers.key_texts : JMembers → List Text
  | .nil => []
  | .cons k _ rest => escape k :: rest.key_texts

/-- The text of the members that come before a further member: empty when there is none,
else their text and the comma that follows it. -/
def render_lead : JMembers → Text
  | .nil => []
  | .cons k v rest => render_members (.cons k v rest) ++ [',']

/-- The characters of a string: no backslash (so that the only escapes of its text are
`\"`, `\n`, `\t`) and no terminator. -/
def str_ok (s : Text) : Bool := s.all fun c => decide (c ≠ '\\') && decide (c ≠ NUL)

/-- The characters of a literal: letters, digits, sign and decimal point. -/
def is_lit_char (c : Char) : Bool :=
  c.isAlphanum || decide (c = '-') || decide (c = '+') || decide (c = '.')

/-- The text of a literal: not empty, made of literal characters. -/
def lit_ok (t : Text) : Bool := !t.isEmpty && t.all is_lit_char

mutual
/-- Well-formed values. -/
def JValue.wf : JValue → Bool
  | .str s => str_ok s
  | .lit t => lit_ok t
  | .obj ms => ms.wf
  | .arr es => es.wf
/-- Well-formed members. -/
def JMembers.wf : JMembers → Bool
  | .nil => true
  | .cons k v rest => str_ok k && v.wf && rest.wf
/-- Well-formed elements. -/
def JElems.wf : JElems → Bool
  | .nil => true
  | .cons v rest => v.wf && rest.wf
end

/-- A string without braces and brackets. -/
def str_plain (s : Text) : Bool :=
  s.all fun c => decide (c ≠ '{') && decide (c ≠ '}') && decide (c ≠ '[') && decide (c ≠ ']')

mutual
/-- No string of the value (key or string value, at any depth) holds a brace or bracket. -/
def JValue.plain : JValue → Bool
  | .str s => str_plain s
  | .lit _ => true
  | .obj ms => ms.plain
  | .arr es => es.plain
/-- No string of the members holds a brace or bracket. -/
def JMembers.plain : JMembers → Bool
  | .nil => true
  | .cons k v rest => str_plain k && v.plain && rest.plain
/-- No string of the elements holds a brace or bracket. -/
def JElems.plain : JElems → Bool
  | .nil => true
  | .cons v rest => v.plain && rest.plain
end

/-- No string nested inside an object or array value holds a brace or bracket; a value
that is itself a string may hold them. -/
def JValue.nested_plain : JValue → Bool
  | .str _ => true
  | .lit _ => true
  | .obj ms => ms.plain
  | .arr es => es.plain

/-- The values of the members satisfy `nested_plain`. -/
def JMembers.nested_plain : JMembers → Bool
  | .nil => true
  | .cons _ v rest => v.nested_plain && rest.nested_plain

/-- The root view of a document that is an object with the members `ms`: the window between
the outer braces of its text. -/
def root_view (ms : JMembers) : JSON :=
  { string := render (.obj ms), start := 1, end_ := (render (.obj ms)).length - 1 }

/-! ## Sample documents -/

/-- The members of `{"a":1,"b":2}`. -/
def members_ab : JMembers := .cons ['a'] (.lit ['1']) (.cons ['b'] (.lit ['2']) .nil)

/-- The members of `{"a":"x,y","b":2}`. -/
def members_comma : JMembers :=
  .cons ['a'] (.str ['x', ',', 'y']) (.cons ['b'] (.lit ['2']) .nil)

/-- The members of `{"a":[1,2,{"x":3}]}`. -/
def members_array : JMembers :=
  .cons ['a'] (.arr (.cons (.lit ['1']) (.cons (.lit ['2'])
    (.cons (.obj (.cons ['x'] (.lit ['3']) .nil)) .nil)))) .nil

/-- The members of `{"a":[1]}`. -/
def members_single : JMembers := .cons ['a'] (.arr (.cons (.lit ['1']) .nil)) .nil

/-- The members of `{"a":"say \"hi\""}`: the string holds the two quotes themselves. -/
def members_say : JMembers := .cons ['a'] (.str ['s', 'a', 'y', ' ', '"', 'h', 'i', '"']) .nil

/-- The members of `{"a":"b","c":[7,8]}`. -/
def members_bc : JMembers :=
  .cons ['a'] (.str ['b']) (.cons ['c'] (.arr (.cons (.lit ['7']) (.cons (.lit ['8']) .nil))) .nil)

/-- The key `a":"b","c`, which holds double quotes. -/
def key_with_quotes : Text := ['a', '"', ':', '"', 'b', '"', ',', '"', 'c']

/-- The members of `{"a":{"x":"}"},"b":":[7,8],"}`: a string nested in an object holds a
brace. -/
def members_nested_brace : JMembers :=
  .cons ['a'] (.obj (.cons ['x'] (.str ['}']) .nil))
    (.cons ['b'] (.str [':', '[', '7', ',', '8', ']', ',']) .nil)

/-- The members of `{"z":["]"],"a":"hi"}`: a string nested in an array holds a bracket. -/
def members_nested_bracket : JMembers :=
  .cons ['z'] (.arr (.cons (.str [']']) .nil)) (.cons ['a'] (.str ['h', 'i']) .nil)

/-- The text `{"a":"\\","b":":[7,8],"}`: the first string is one escaped backslash. -/
def text_backslash : Text :=
  ['{', '"', 'a', '"', ':', '"', '\\', '\\', '"', ',', '"', 'b', '"', ':', '"', ':', '[', '7',
    ',', '8', ']', ',', '"', '}']

/-- The text `{"z":"\\","a":"hi"}`: the first string is one escaped backslash. -/
def text_backslash_hi : Text :=
  ['{', '"', 'z', '"', ':', '"', '\\', '\\', '"', ',', '"', 'a', '"', ':', '"', 'h', 'i',
    '"', '}']

/-- The text `{ "a b" : [1, "c d"] }`, with whitespace inside and outside strings. -/
def text_spaced : Text :=
  ['{', ' ', '"', 'a', ' ', 'b', '"', ' ', ':', ' ', '[', '1', ',', ' ', '"', 'c', ' ', 'd',
    '"', ']', ' ', '}']

/-! ## Scanning a text character by character

The scanners read the buffer through offsets. The functions below walk the same steps over
the list of the characters from the current offset on; they serve the proofs. `esc` says
that the character before the current one is a backslash. -/

/-- The byte before offset `i` exists and is a backslash. -/
def esc_at (buffer : Text) (i : Nat) : Bool :=
  decide (i ≠ 0) && decide (char_at buffer (i - 1) = '\\')

/-- The loop of `JSON::count` over the characters from the current offset on. -/
def count_scan : Nat → Bool → Bool → Nat → Nat → Nat → Text → Nat
  | 0, _, _, _, _, count, _ => count
  | _ + 1, _, _, _, _, count, [] => count
  | fuel + 1, esc, inQuotes, depthBraces, depthBrackets, count, c :: cs =>
    if c = NUL then count
    else
      let inQuotes := if c = '"' ∧ esc = false then !inQuotes else inQuotes
      if inQuotes then
        count_scan fuel (decide (c = '\\')) inQuotes depthBraces depthBrackets count cs
      else if c = '{' then
        count_scan fuel (decide (c = '\\')) inQuotes (depthBraces + 1) depthBrackets count cs
      else if c = '[' then
        count_scan fuel (decide (c = '\\')) inQuotes depthBraces (depthBrackets + 1) count cs
      else if c = '}' then
        if depthBraces > 0 then
          count_scan fuel (decide (c = '\\')) inQuotes (depthBraces - 1) depthBrackets count cs
        else count
      else if c = ']' then
        if depthBrackets > 0 then
          count_scan fuel (decide (c = '\\')) inQuotes depthBraces (depthBrackets - 1) count cs
        else count
      else if depthBraces > 0 ∨ depthBrackets > 0 then
        count_scan fuel (decide (c = '\\')) inQuotes depthBraces depthBrackets count cs
      else if c = ',' then
        count_scan fuel (decide (c = '\\')) inQuotes depthBraces depthBrackets (count + 1) cs
      else count_scan fuel (decide (c = '\\')) inQuotes depthBraces depthBrackets count cs

/-- The loop of `json_find_element_delimiter` over the characters from offset `i` on. -/
def delimiter_scan (end_ : Nat) : Nat → Nat → Bool → Bool → Nat → Nat → Text → Nat
  | 0, _, _, _, _, _, _ => end_
  | _ + 1, i, _, _, _, _, [] => i
  | fuel + 1, i, esc, inQuotes, depthBraces, depthBrackets, c :: cs =>
    if c = NUL then i
    else
      let inQuotes := if c = '"' ∧ esc = false then !inQuotes else inQuotes
      if inQuotes then
        delimiter_scan end_ fuel (i + 1) (decide (c = '\\')) inQuotes depthBraces depthBrackets cs
      else if c = '{' then
        delimiter_scan end_ fuel (i + 1) (decide (c = '\\')) inQuotes (depthBraces + 1)
          depthBrackets cs
      else if c = '[' then
        delimiter_scan end_ fuel (i + 1) (decide (c = '\\')) inQuotes depthBraces
          (depthBrackets + 1) cs
      else if c = '}' then
        if depthBraces > 0 then
          delimiter_scan end_ fuel (i + 1) (decide (c = '\\')) inQuotes (depthBraces - 1)
            depthBrackets cs
        else i
      else if c = ']' then
        if depthBrackets > 0 then
          delimiter_scan end_ fuel (i + 1) (decide (c = '\\')) inQuotes depthBraces
            (depthBrackets - 1) cs
        else i
      else if depthBraces > 0 ∨ depthBrackets > 0 then
        delimiter_scan end_ fuel (i + 1) (decide (c = '\\')) inQuotes depthBraces depthBrackets cs
      else if c = ',' then i
      else
        delimiter_scan end_ fuel (i + 1) (decide (c = '\\')) inQuotes depthBraces depthBrackets cs

/-- The loop of `json_find_element_key` over the characters from offset `i` on. -/
def key_scan (key : Text) : Nat → Nat → Bool → Bool → Nat → Nat → Text → Nat
  | 0, _, _, _, _, _, _ => USIZE_MAX
  | _ + 1, _, _, _, _, _, [] => USIZE_MAX
  | fuel + 1, i, esc, inQuotes, depthBraces, depthBrackets, c :: cs =>
    let braces :=
      if c = '}' then
        if depthBraces > 0 then
          key_scan key fuel (i + 1) (decide (c = '\\')) inQuotes (depthBraces - 1) depthBrackets cs
        else USIZE_MAX
      else if c = ']' then
        if depthBrackets > 0 then
          key_scan key fuel (i + 1) (decide (c = '\\')) inQuotes depthBraces (depthBrackets - 1) cs
        else USIZE_MAX
      else if c = '{' then
        key_scan key fuel (i + 1) (decide (c = '\\')) inQuotes (depthBraces + 1) depthBrackets cs
      else if c = '[' then
        key_scan key fuel (i + 1) (decide (c = '\\')) inQuotes depthBraces (depthBrackets + 1) cs
      else key_scan key fuel (i + 1) (decide (c = '\\')) inQuotes depthBraces depthBrackets cs
    if c = NUL then USIZE_MAX
    else if depthBraces = 0 ∧ depthBrackets = 0 then
      if c = '"' ∧ esc = false then
        if inQuotes then
          key_scan key fuel (i + 1) (decide (c = '\\')) false depthBraces depthBrackets cs
        else if key.isPrefixOf cs ∧ ['"', ':'].isPrefixOf (cs.drop key.length) then
          i + key.length + 3
        else key_scan key fuel (i + 1) (decide (c = '\\')) true depthBraces depthBrackets cs
      else if inQuotes then
        key_scan key fuel (i + 1) (decide (c = '\\')) inQuotes depthBraces depthBrackets cs
      else braces
    else braces

/-- The outcome of one step of the key scanner. -/
inductive KeyStep where
  | leave
  | found
  | next (inQuotes : Bool) (depthBraces depthBrackets : Nat)

/-- One step of the loop of `json_find_element_key` on the character `c`; `hit` says that
the key and the two bytes `":` stand right after `c`. -/
def key_step (esc inQuotes : Bool) (depthBraces depthBrackets : Nat) (c : Char) (hit : Bool) :
    KeyStep :=
  let braces :=
    if c = '}' then
      if depthBraces > 0 then .next inQuotes (depthBraces - 1) depthBrackets else .leave
    else if c = ']' then
      if depthBrackets > 0 then .next inQuotes depthBraces (depthBrackets - 1) else .leave
    else if c = '{' then .next inQuotes (depthBraces + 1) depthBrackets
    else if c = '[' then .next inQuotes depthBraces (depthBrackets + 1)
    else .next inQuotes depthBraces depthBrackets
  if depthBraces = 0 ∧ depthBrackets = 0 then
    if c = '"' ∧ esc = false then
      if inQuotes then .next false depthBraces depthBrackets
      else if hit then .found
      else .next true depthBraces depthBrackets
    else if inQuotes then .next inQuotes depthBraces depthBrackets
    else braces
  else braces

/-- A key as the caller may write it: no double quote except right after a backslash, and
no backslash left without a character after it. -/
def key_text_ok : Text → Bool
  | [] => true
  | [c] => decide (c ≠ '\\') && decide (c ≠ '"')
  | c :: d :: cs =>
    if c = '\\' then key_text_ok cs else decide (c ≠ '"') && key_text_ok (d :: cs)

/-- One step of the lexer shared by `JSON::count`, `json_find_element_index` and
`json_find_element_delimiter`: the new quote state and depths and whether the step reached
the comma test; `none` when the step leaves the loop at an unmatched closing delimiter. -/
def lex_step (esc inQuotes : Bool) (depthBraces depthBrackets : Nat) (c : Char) :
    Option (Bool × Nat × Nat × Bool) :=
  let inQuotes := if c = '"' ∧ esc = false then !inQuotes else inQuotes
  if inQuotes then some (true, depthBraces, depthBrackets, false)
  else if c = '{' then some (false, depthBraces + 1, depthBrackets, false)
  else if c = '[' then some (false, depthBraces, depthBrackets + 1, false)
  else if c = '}' then
    if depthBraces > 0 then some (false, depthBraces - 1, depthBrackets, false) else none
  else if c = ']' then
    if depthBrackets > 0 then some (false, depthBraces, depthBrackets - 1, false) else none
  else if depthBraces > 0 ∨ depthBrackets > 0 then some (false, depthBraces, depthBrackets, false)
  else some (false, depthBraces, depthBrackets, true)

/-- The lexer run over a segment that the scanners pass without effect: no terminator, no
unmatched closing delimiter, no comma at depth 0 and no whitespace outside quotes. The
result is the state after the segment. -/
def lex_run : Bool → Bool → Nat → Nat → Text → Option (Bool × Bool × Nat × Nat)
  | esc, inQuotes, depthBraces, depthBrackets, [] =>
    some (esc, inQuotes, depthBraces, depthBrackets)
  | esc, inQuotes, depthBraces, depthBrackets, c :: cs =>
    if c = NUL then none
    else
      match lex_step esc inQuotes depthBraces depthBrackets c with
      | none => none
      | some (inQuotes', depthBraces', depthBrackets', top) =>
        if top ∧ c = ',' then none
        else if inQuotes' = false ∧ char_whitespace c then none
        else lex_run (decide (c = '\\')) inQuotes' depthBraces' depthBrackets' cs

/-- The key scanner run over a segment in which it handles no quote: outside quotes, no
terminator, no unmatched closing delimiter, and every double quote at a depth above 0. The
result is the state after the segment. -/
def raw_run : Bool → Nat → Nat → Text → Option (Bool × Nat × Nat)
  | esc, depthBraces, depthBrackets, [] => some (esc, depthBraces, depthBrackets)
  | _, depthBraces, depthBrackets, c :: cs =>
    if c = NUL then none
    else if depthBraces = 0 ∧ depthBrackets = 0 ∧ c = '"' then none
    else if c = '}' then
      if depthBraces > 0 then raw_run (decide (c = '\\')) (depthBraces - 1) depthBrackets cs
      else none
    else if c = ']' then
      if depthBrackets > 0 then raw_run (decide (c = '\\')) depthBraces (depthBrackets - 1) cs
      else none
    else if c = '{' then raw_run (decide (c = '\\')) (depthBraces + 1) depthBrackets cs
    else if c = '[' then raw_run (decide (c = '\\')) depthBraces (depthBrackets + 1) cs
    else raw_run (decide (c = '\\')) depthBraces depthBrackets cs

/-! ## The stripping loop of the constructor, read forward

The loop of `JSON::JSON` runs from the last byte to the first and toggles its quote state at
a double quote when `i <= 1 || string[i-2] != '\\'`. The three functions below walk the
same test from the first byte on; they serve the proofs about the loop and say nothing
about what an escaped quote is in a JSON text. `esc` says that the byte before the current
one is a backslash. -/

/-- The number of double quotes at which the loop of `JSON::JSON` toggles its quote state:
those whose preceding byte is not a backslash. -/
def toggling_quotes : Bool → Text → Nat
  | _, [] => 0
  | esc, c :: cs =>
    (if c = '"' ∧ esc = false then 1 else 0) + toggling_quotes (decide (c = '\\')) cs

/-- The loop of `JSON::JSON` toggles its quote state an odd number of times on the text. -/
def toggle_parity : Bool → Text → Bool
  | _, [] => false
  | esc, c :: cs => xor (decide (c = '"' ∧ esc = false)) (toggle_parity (decide (c = '\\')) cs)

/-- The bytes that the loop of `JSON::JSON` keeps, in the order of the text, when the quote
state of the loop at the first byte is `inQuotes`: the state is toggled at a double quote
whose preceding byte is not a backslash, and a whitespace byte is dropped when the state is
false. -/
def strip_forward : Bool → Bool → Text → Text
  | _, _, [] => []
  | esc, inQuotes, c :: cs =>
    if c = '"' ∧ esc = false then c :: strip_forward false (!inQuotes) cs
    else if inQuotes = false ∧ char_whitespace c then
      strip_forward (decide (c = '\\')) inQuotes cs
    else c :: strip_forward (decide (c = '\\')) inQuotes cs

/-- The stripping loop over the reversed list of the bytes not yet visited; `acc` holds
the bytes kept so far. -/
def strip_back : Text → Bool → Text → Text
  | [], _, acc => acc
  | c :: before, inQuotes, acc =>
    if c = '"' ∧ before.head? ≠ some '\\' then strip_back before (!inQuotes) (c :: acc)
    else if !inQuotes ∧ char_whitespace c then strip_back before inQuotes acc
    else strip_back before inQuotes (c :: acc)

/-! ## The run of the build driver in parts -/

/-- The five blocks of `BuilderCore::build` between "Check Cache" and "Finish", each under
its switch. -/
def build_phases (w : World) (s : Build) : Build :=
  let codegen := decide (w.codegen = ['1'])
  let build := decide (w.build = ['1'])
  s |> stage codegen (build_objects w)
    |> stage build (build_graphics w)
    |> stage build (build_assets w)
    |> stage build (build_binary w)
    |> stage build (build_compile w)

/-- The statements of `BuilderCore::build` from `shaders_cache()` to `assets_cache()`:
`shaders_build`, `shaders_write`, `Assets::begin`, `assets_gather`, `assets_cache`. -/
def shaders_to_assets_cache (w : World) (s : Build) : Build :=
  s |> call_if (·.cacheDirtyShaders) w .gfx_build
    |> call_if (·.cacheDirtyShaders) w .gfx_write
    |> call w .assets_begin |> call w .assets_gather |> assets_cache w

/-- A step that does not revive an aborted process and only adds to the record of calls. -/
def Grows (f : Build → Build) : Prop :=
  ∀ s, ((f s).fatal = none → s.fatal = none) ∧ ∀ c ∈ s.log, c ∈ (f s).log

/-- The three cache checks that read the previous buffer and write the current one. -/
def Step.is_counter_check : Step → Bool
  | .objects_cache => true
  | .shaders_cache => true
  | .assets_cache => true
  | _ => false

/-- The calls that can end in a fatal error: every call except the four cache checks, the
save of the cache and the run of the produced program. -/
def Step.can_fail : Step → Bool
  | .objects_cache => false
  | .shaders_cache => false
  | .assets_cache => false
  | .binary_cache => false
  | .cache_save => false
  | .executable_run => false
  | _ => true

/-- The world `world_full` with nine shader files. -/
def world_shaders_changed : World := { world_full with shaderFileCount := 9 }

/-- The world `world_full` with six asset files. -/
def world_assets_changed : World := { world_full with assetFileCount := 6 }

/-- The world `world_full` with the argument `-clean=1`. -/
def world_clean : World := { world_full with clean := ['1'] }

/-- A run with `build` and without `codegen`: three shader files, five asset files. -/
def world_build_only : World :=
  { world_full with codegen := [], shaderFileCount := 3, assetFileCount := 5 }

/-- A run with `codegen` and `build`: three object files, five shader files, seven asset
files. -/
def world_codegen_build : World :=
  { world_full with objectFilesCount := 3, shaderFileCount := 5, assetFileCount := 7 }

/-- The world `world_full` in which the `ninja` subprocess exits with a non-zero code. -/
def world_ninja_fails : World :=
  { world_full with fails := fun c => decide (c = Step.compile_run_ninja) }

/-- The cache checks that read and write a counter, in the order in which a run made
them: the Nth of them made the Nth write to the current buffer and, with the global flag
off, the Nth read from the previous one. -/
def counter_checks (log : List Step) : List Step := log.filter Step.is_counter_check

/-! ## The build graph assembler (`source/build/build.cpp`) -/

/-- Modelled from the spec: the record `Source` (build/build.hpp is not among the
sources): a source path and the object path derived from it. -/
structure Source where
  srcPath : Text
  objPath : Text
  deriving DecidableEq, Repr

/-- Modelled from the spec: the record `FileInfo` (build/filesystem.hpp is not among the
sources): what the directory traversal reports for one file; the assembler reads only
its `path`. -/
structure FileInfo where
  path : Text
  deriving DecidableEq, Repr

/-- The compile-time constants the driver is built with; their definitions are outside the
sources: the path separator `SLASH`, the operating system and graphics API switches, the
names of the backend directories, and the two switches of the build machine. -/
structure Target where
  SLASH : Text
  OS_WINDOWS : Bool
  OS_MACOS : Bool
  OS_LINUX : Bool
  GRAPHICS_OPENGL : Bool
  GRAPHICS_D3D11 : Bool
  BACKEND_AUDIO : Text
  BACKEND_FILESYSTEM : Text
  BACKEND_NETWORK : Text
  BACKEND_GRAPHICS : Text
  BACKEND_THREAD : Text
  BACKEND_TIMER : Text
  BACKEND_WINDOW : Text
  PIPELINE_OS_WINDOWS : Bool
  PIPELINE_COMPILER_MSVC : Bool

/-- Modelled from the spec: the toolchain descriptor `Build::tc` (build/toolchains.hpp is
not among the sources), with the fields the assembler reads. -/
structure Toolchain where
  compilerName : Text
  compilerOutput : Text
  compilerFlags : Text
  compilerFlagsArchitecture : Text
  compilerFlagsWarnings : Text
  compilerFlagsIncludes : Text
  linkerName : Text
  linkerOutput : Text
  linkerFlags : Text
  linkerPrefixLibrary : Text
  linkerExtensionLibrary : Text
  linkerExtensionObj : Text
  linkerExtensionExe : Text

/-- The lists `sources`, `libraries`, `includeDirectories` and `rcs` of `namespace Build`. -/
structure Lists where
  sources : List Source := []
  libraries : List Text := []
  includeDirectories : List Text := []
  rcs : List Source := []
  deriving DecidableEq, Repr

/-- Modelled from the spec: `strjoin` (its header is not among the sources) writes the
concatenation of its arguments to the buffer; the paths are taken to fit their buffers of
`PATH_SIZE` bytes. -/
def strjoin (parts : List Text) : Text := parts.flatten

/-- The path without the extension of its last component: the text before the last `.`
that no path separator follows; the whole path when there is none. -/
def path_stem (path : Text) : Text :=
  let tail := path.reverse.takeWhile fun c => decide (c ≠ '.' ∧ c ≠ '/' ∧ c ≠ '\\')
  match path.reverse.drop tail.length with
  | '.' :: rest => rest.reverse
  | _ => path

/-- Modelled from the spec: `path_change_extension` (build/filesystem.hpp is not among the
sources) replaces the extension of the path. -/
def path_change_extension (path extension : Text) : Text := path_stem path ++ extension

/-- The function `Build::compile_add_source`. -/
def compile_add_source (g : Lists) (pathSrc pathObj extensionObj : Text) : Lists :=
  let buffer := path_change_extension pathObj extensionObj
  { g with sources := g.sources ++ [{ srcPath := pathSrc, objPath := buffer }] }

/-- The function `Build::compile_add_sources`; `directory_iterate` is the traversal of
build/filesystem.hpp, a parameter: the files it appends to the list for a directory, an
extension and the recursion switch. The result is the lists and the returned `u32`. -/
def compile_add_sources (t : Target) (directory_iterate : Text → Text → Bool → List FileInfo)
    (g : Lists) (directory : Text) (recurse : Bool) (extensionSrc extensionObj : Text) :
    Lists × Nat :=
  let sourceFiles := directory_iterate directory extensionSrc recurse
  let g := sourceFiles.foldl
    (fun g sourceFile =>
      let pathObj := strjoin ["objects".toList ++ t.SLASH, sourceFile.path]
      compile_add_source g sourceFile.path pathObj extensionObj) g
  (g, sourceFiles.length % 2 ^ 32)

/-- The function `Build::compile_add_library`. -/
def compile_add_library (g : Lists) (library : Text) : Lists :=
  { g with libraries := g.libraries ++ [library] }

/-- The function `Build::compile_add_include_directory`. -/
def compile_add_include_directory (g : Lists) (includePath : Text) : Lists :=
  { g with includeDirectories := g.includeDirectories ++ [includePath] }

/-- A target with `/` as the path separator, Linux and OpenGL. -/
def target_linux : Target :=
  { SLASH := ['/'], OS_WINDOWS := false, OS_MACOS := false, OS_LINUX := true,
    GRAPHICS_OPENGL := true, GRAPHICS_D3D11 := false, BACKEND_AUDIO := "alsa".toList,
    BACKEND_FILESYSTEM := "posix".toList, BACKEND_NETWORK := "posix".toList,
    BACKEND_GRAPHICS := "opengl".toList, BACKEND_THREAD := "posix".toList,
    BACKEND_TIMER := "posix".toList, BACKEND_WINDOW := "x11".toList,
    PIPELINE_OS_WINDOWS := false, PIPELINE_COMPILER_MSVC := false }

/-- A traversal that reports, for the directory `a`, the files `a/x.cpp` and `a/b/y.cpp`
by their paths from the working directory, and no file elsewhere. -/
def files_under_a (directory _extension : Text) (_recurse : Bool) : List FileInfo :=
  if directory = ['a'] then [⟨"a/x.cpp".toList⟩, ⟨"a/b/y.cpp".toList⟩] else []

/-- A traversal that reports, for the directory `a`, the same two files by their paths
from `a`. -/
def files_relative (directory _extension : Text) (_recurse : Bool) : List FileInfo :=
  if directory = ['a'] then [⟨"x.cpp".toList⟩, ⟨"b/y.cpp".toList⟩] else []

/-- The message of `ErrorIf( !count, "No backend found for 'audio' (%s)", path )` and of its
siblings; `subsystem` is the text between `for` and the parenthesis, such as `'audio'` or
`opengl 'wgl'`. -/
def no_backend (subsystem path : Text) : Text :=
  "No backend found for ".toList ++ subsystem ++ " (".toList ++ path ++ ")".toList

/-- The two statements that `compile_engine` repeats for each backend directory,
`count = Build::compile_add_sources( path, recurse, extension, Build::tc.linkerExtensionObj )`
and `ErrorIf( !count, message, path )`; the macro `ErrorIf` of core/debug.hpp ends the
process with the message when its condition holds. -/
def add_backend_sources (t : Target) (directory_iterate : Text → Text → Bool → List FileInfo)
    (tc : Toolchain) (g : Lists) (subsystem path : Text) (recurse : Bool)
    (extensionSrc : Text) : Except Text Lists :=
  let r := compile_add_sources t directory_iterate g path recurse extensionSrc
    tc.linkerExtensionObj
  let count := r.2
  if count = 0 then .error (no_backend subsystem path) else .ok r.1

/-- The method `BuilderCore::compile_engine`; `pathEngine` and `pathOutput` are the globals
of `namespace Build`. The result is the lists, or the message of the fatal error. -/
def compile_engine (t : Target) (directory_iterate : Text → Text → Bool → List FileInfo)
    (tc : Toolchain) (pathEngine pathOutput : Text) (g : Lists) : Except Text Lists := do
  let SLASH := t.SLASH
  let backend := SLASH ++ "manta".toList ++ SLASH ++ "backend".toList ++ SLASH
  let cpp := ".cpp".toList
  let g := compile_add_include_directory g ("..".toList ++ SLASH ++ "generated".toList)
  let g := compile_add_include_directory g
    ("..".toList ++ SLASH ++ "..".toList ++ SLASH ++ "..".toList ++ SLASH ++ "..".toList
      ++ SLASH ++ "source".toList)
  let g := (compile_add_sources t directory_iterate g
    (strjoin [pathOutput, SLASH ++ "generated".toList]) false cpp tc.linkerExtensionObj).1
  let g := (compile_add_sources t directory_iterate g (strjoin [pathEngine]) false cpp
    tc.linkerExtensionObj).1
  let g := (compile_add_sources t directory_iterate g
    (strjoin [pathEngine, SLASH ++ "vendor".toList]) true cpp tc.linkerExtensionObj).1
  let g := (compile_add_sources t directory_iterate g
    (strjoin [pathEngine, SLASH ++ "core".toList]) true cpp tc.linkerExtensionObj).1
  let g := (compile_add_sources t directory_iterate g
    (strjoin [pathEngine, SLASH ++ "manta".toList]) false cpp tc.linkerExtensionObj).1
  let g ← add_backend_sources t directory_iterate tc g "'audio'".toList
    (strjoin [pathEngine, backend ++ "audio".toList ++ SLASH, Target.BACKEND_AUDIO t]) true cpp
  let g := if t.OS_WINDOWS then compile_add_library g "Ole32".toList else g
  let g := if t.OS_MACOS then compile_add_library g "AudioToolbox".toList else g
  let g := if t.OS_LINUX then compile_add_library g "asound".toList else g
  let g ← add_backend_sources t directory_iterate tc g "'filesystem'".toList
    (strjoin [pathEngine, backend ++ "filesystem".toList ++ SLASH, t.BACKEND_FILESYSTEM])
    true cpp
  let g ← add_backend_sources t directory_iterate tc g "'network'".toList
    (strjoin [pathEngine, backend ++ "network".toList ++ SLASH, t.BACKEND_NETWORK]) true cpp
  let g := if t.OS_WINDOWS then compile_add_library g "ws2_32".toList else g
  let g ← add_backend_sources t directory_iterate tc g "'gfx'".toList
    (strjoin [pathEngine, backend ++ "gfx".toList ++ SLASH, t.BACKEND_GRAPHICS]) false cpp
  let g ←
    if t.GRAPHICS_OPENGL then do
      let g ←
        if t.OS_WINDOWS then do
          let g ← add_backend_sources t directory_iterate tc g "opengl 'wgl'".toList
            (strjoin [pathEngine, backend ++ "gfx".toList ++ SLASH, t.BACKEND_GRAPHICS,
              SLASH ++ "wgl".toList]) false cpp
          let g := compile_add_library g "opengl32".toList
          pure (compile_add_library g "gdi32".toList)
        else pure g
      let g ←
        if t.OS_MACOS then do
          let g ← add_backend_sources t directory_iterate tc g "opengl 'nsgl'".toList
            (strjoin [pathEngine, backend ++ "gfx".toList ++ SLASH, t.BACKEND_GRAPHICS,
              SLASH ++ "nsgl".toList]) false ".mm".toList
          pure (compile_add_library g "OpenGL".toList)
        else pure g
      if t.OS_LINUX then do
        let g ← add_backend_sources t directory_iterate tc g "opengl 'glx'".toList
          (strjoin [pathEngine, backend ++ "gfx".toList ++ SLASH, t.BACKEND_GRAPHICS,
            SLASH ++ "glx".toList]) false cpp
        pure (compile_add_library g "GL".toList)
      else pure g
    else if t.GRAPHICS_D3D11 then
      if t.OS_WINDOWS then
        let g := compile_add_library g "d3d11".toList
        let g := compile_add_library g "d3dcompiler".toList
        pure (compile_add_library g "dxgi".toList)
      else pure g
    else pure g
  let g ← add_backend_sources t directory_iterate tc g "'thread'".toList
    (strjoin [pathEngine, backend ++ "thread".toList ++ SLASH, t.BACKEND_THREAD]) true cpp
  let g ← add_backend_sources t directory_iterate tc g "'time'".toList
    (strjoin [pathEngine, backend ++ "time".toList ++ SLASH, t.BACKEND_TIMER]) true cpp
  let g := if t.OS_WINDOWS then compile_add_library g "winmm".toList else g
  let g ← add_backend_sources t directory_iterate tc g "'window'".toList
    (strjoin [pathEngine, backend ++ "window".toList ++ SLASH, t.BACKEND_WINDOW]) true
    (if t.OS_MACOS then ".mm".toList else cpp)
  let g :=
    if t.OS_WINDOWS then
      compile_add_library (compile_add_library g "user32".toList) "Shell32".toList
    else g
  let g := if t.OS_MACOS then compile_add_library g "Cocoa".toList else g
  let g := if t.OS_LINUX then compile_add_library g "X11".toList else g
  pure g

/-- One backend directory that `compile_engine` probes: the subsystem as the error message
names it, the probed path, the recursion switch and the extension of the sources. -/
structure Probe where
  subsystem : Text
  path : Text
  recurse : Bool
  extension : Text
  deriving DecidableEq, Repr

/-- The backend directories in the order of the specification: audio, filesystem, network, gfx,
the OpenGL sub-backend `wgl`, `nsgl` or `glx` of the platform when OpenGL is selected,
thread, time, window. -/
def backend_probes (t : Target) (pathEngine : Text) : List Probe :=
  let dir := fun (name backend : Text) =>
    pathEngine ++ t.SLASH ++ "manta".toList ++ t.SLASH ++ "backend".toList ++ t.SLASH ++ name
      ++ t.SLASH ++ backend
  let cpp := ".cpp".toList
  [⟨"'audio'".toList, dir "audio".toList (Target.BACKEND_AUDIO t), true, cpp⟩,
    ⟨"'filesystem'".toList, dir "filesystem".toList t.BACKEND_FILESYSTEM, true, cpp⟩,
    ⟨"'network'".toList, dir "network".toList t.BACKEND_NETWORK, true, cpp⟩,
    ⟨"'gfx'".toList, dir "gfx".toList t.BACKEND_GRAPHICS, false, cpp⟩]
  ++ (if t.GRAPHICS_OPENGL then
      (if t.OS_WINDOWS then
        [⟨"opengl 'wgl'".toList, dir "gfx".toList t.BACKEND_GRAPHICS ++ t.SLASH ++ "wgl".toList,
          false, cpp⟩] else [])
      ++ (if t.OS_MACOS then
        [⟨"opengl 'nsgl'".toList,
          dir "gfx".toList t.BACKEND_GRAPHICS ++ t.SLASH ++ "nsgl".toList, false,
          ".mm".toList⟩] else [])
      ++ (if t.OS_LINUX then
        [⟨"opengl 'glx'".toList, dir "gfx".toList t.BACKEND_GRAPHICS ++ t.SLASH ++ "glx".toList,
          false, cpp⟩] else [])
    else [])
  ++ [⟨"'thread'".toList, dir "thread".toList t.BACKEND_THREAD, true, cpp⟩,
    ⟨"'time'".toList, dir "time".toList t.BACKEND_TIMER, true, cpp⟩,
    ⟨"'window'".toList, dir "window".toList t.BACKEND_WINDOW, true,
      if t.OS_MACOS then ".mm".toList else cpp⟩]

/-- The traversal finds no source for the probe. -/
def Probe.empty (directory_iterate : Text → Text → Bool → List FileInfo) (p : Probe) : Bool :=
  (directory_iterate p.path p.extension p.recurse).isEmpty

/-- The outcome that the specification gives to the statements `k` that probe the backend
directories `ps` in turn: the fatal error of the first probe without sources, no error
when every probe has one. -/
def Follows (directory_iterate : Text → Text → Bool → List FileInfo)
    (k : Lists → Except Text Lists) (ps : List Probe) : Prop :=
  ∀ g, (∀ p, ps.find? (Probe.empty directory_iterate) = some p →
      k g = .error (no_backend p.subsystem p.path)) ∧
    (ps.find? (Probe.empty directory_iterate) = none → ∃ g2, k g = .ok g2)

/-- A toolchain in the manner of gcc. -/
def toolchain_gcc : Toolchain :=
  { compilerName := "g++".toList, compilerOutput := "-o ".toList,
    compilerFlags := "-c -MD".toList, compilerFlagsArchitecture := "-m64".toList,
    compilerFlagsWarnings := "-Wall".toList, compilerFlagsIncludes := "-I%s".toList,
    linkerName := "g++".toList, linkerOutput := "-o ".toList, linkerFlags := "-s".toList,
    linkerPrefixLibrary := "-l".toList, linkerExtensionLibrary := [],
    linkerExtensionObj := ".o".toList, linkerExtensionExe := [] }

/-- A traversal that finds no file at all. -/
def files_none (_directory _extension : Text) (_recurse : Bool) : List FileInfo := []

/-- A traversal that finds one file in every directory below a directory `backend` and no
file elsewhere. -/
def files_backends_only (directory _extension : Text) (_recurse : Bool) : List FileInfo :=
  if (List.range directory.length).any fun i => contains_at directory "/backend/".toList i
  then [⟨directory ++ "/main.cpp".toList⟩] else []

/-! ## The build description (`BuilderCore::compile_write_ninja`) -/

/-- The arguments of `Build::args` that `compile_write_ninja` reads. -/
structure Arguments where
  project : Text
  config : Text
  toolchain : Text

/-- The two fatal errors of `compile_write_ninja` before it renders: the configs file
does not load, or the constructor of `JSON` rejects its root scope. -/
inductive NinjaError where
  | configs_load (pathConfig : Text)
  | configs_root (e : JSONError)
  deriving DecidableEq, Repr

/-- The view `configsJSON` of `compile_write_ninja`:
`JSON( configJSONContents ).object( config ).object( "compile" ).object( toolchain )`,
from the root view on. -/
def configsJSON (root : JSON) (args : Arguments) : JSON :=
  ((root.object args.config).object "compile".toList).object args.toolchain

/-- The section "Rule compile"; `snprintf` is the C library function, applied to the size
of the buffer `includeFlag`, the format and its argument. -/
def rule_compile (t : Target) (tc : Toolchain) (snprintf : Nat → Text → Text → Text)
    (includeDirectories : List Text) (configCompilerFlags configCompilerFlagsWarnings : Text)
    (output : Text) : Text :=
  let output := output ++ "rule compile\n".toList
  let output := output ++
    (if t.PIPELINE_COMPILER_MSVC then "  deps = msvc\n".toList
      else "  deps = gcc\n  depfile = $out.d\n".toList)
  let output := output ++ "  command = ".toList
  let output := output ++ tc.compilerName
  let output := output ++ " $in ".toList
  let output := output ++ tc.compilerOutput
  let output := output ++ "$out ".toList
  let output := output ++ tc.compilerFlags
  let output := (output ++ " ".toList) ++ tc.compilerFlagsArchitecture
  let output :=
    if length_bytes configCompilerFlags > 0 then (output ++ " ".toList) ++ configCompilerFlags
    else output
  let output :=
    if length_bytes configCompilerFlagsWarnings > 0 then
      (output ++ " ".toList) ++ configCompilerFlagsWarnings
    else output
  let output := (output ++ " ".toList) ++ tc.compilerFlagsWarnings
  let output := includeDirectories.foldl
    (fun output includeDirectory =>
      let includeFlag := snprintf 1024 tc.compilerFlagsIncludes includeDirectory
      (output ++ " ".toList) ++ includeFlag) output
  output ++ "\n\n".toList

/-- The section "Rule RC", compiled in under `PIPELINE_OS_WINDOWS`. -/
def rule_rc (t : Target) (output : Text) : Text :=
  if t.PIPELINE_OS_WINDOWS then
    let output := output ++ "rule rc\n".toList
    output ++ "  command = windres --input $in --output $out --output-format=coff\n\n".toList
  else output

/-- The section "Rule Link"; the two forms of a library reference are chosen by
`OS_MACOS`. -/
def rule_link (t : Target) (tc : Toolchain) (libraries : List Text) (configLinkerFlags : Text)
    (output : Text) : Text :=
  let output := output ++ "rule link\n  command = ".toList
  let output := output ++ tc.linkerName
  let output := output ++ " $in ".toList
  let output := output ++ tc.linkerOutput
  let output := output ++ "$out ".toList
  let output := output ++ tc.linkerFlags
  let output :=
    if length_bytes configLinkerFlags > 0 then (output ++ " ".toList) ++ configLinkerFlags
    else output
  let output := libraries.foldl
    (fun output library =>
      if t.OS_MACOS then (output ++ " -framework ".toList) ++ library
      else ((output ++ " ".toList) ++ tc.linkerPrefixLibrary ++ library)
        ++ tc.linkerExtensionLibrary) output
  output ++ "\n\n".toList

/-- The section "Build Sources". -/
def build_sources (t : Target) (sources : List Source) (output : Text) : Text :=
  let output := sources.foldl
    (fun output source =>
      let output := output ++ "build ".toList
      let output := output ++ source.objPath
      let output := output ++ (": compile ..".toList ++ t.SLASH ++ "..".toList ++ t.SLASH
        ++ "..".toList ++ t.SLASH ++ "..".toList ++ t.SLASH)
      let output := output ++ source.srcPath
      output ++ "\n".toList) output
  output ++ "\n".toList

/-- The section "Build rc", compiled in under `PIPELINE_OS_WINDOWS`. -/
def build_rc (t : Target) (rcs : List Source) (output : Text) : Text :=
  if t.PIPELINE_OS_WINDOWS then
    let output := rcs.foldl
      (fun output rc =>
        let output := output ++ "build ".toList
        let output := output ++ rc.objPath
        let output := output ++ (": rc ..".toList ++ t.SLASH ++ "..".toList ++ t.SLASH
          ++ "..".toList ++ t.SLASH ++ "..".toList ++ t.SLASH)
        let output := output ++ rc.srcPath
        output ++ "\n".toList) output
    output ++ "\n".toList
  else output

/-- The section "Build Exe". -/
def build_exe (t : Target) (tc : Toolchain) (args : Arguments) (sources rcs : List Source)
    (output : Text) : Text :=
  let output := output ++ "build ".toList
  let output := output ++ args.project
  let output := output ++ tc.linkerExtensionExe
  let output := output ++ ": link".toList
  let output := sources.foldl (fun output source => (output ++ " ".toList) ++ source.objPath)
    output
  let output :=
    if t.PIPELINE_OS_WINDOWS then
      rcs.foldl (fun output rc => (output ++ " ".toList) ++ rc.objPath) output
    else output
  output ++ "\n".toList

/-- The text `output` of `compile_write_ninja` when it is handed to `output.save`, from
the view `configsJSON` on; the default of `get_string` is the empty text. -/
def ninja_output (t : Target) (tc : Toolchain) (args : Arguments)
    (snprintf : Nat → Text → Text → Text) (g : Lists) (configsJSON : JSON) : Text :=
  let configCompilerFlags := configsJSON.get_string "compilerFlags".toList []
  let configCompilerFlagsWarnings := configsJSON.get_string "compilerFlagsWarnings".toList []
  let configLinkerFlags := configsJSON.get_string "linkerFlags".toList []
  let output : Text := []
  let output := rule_compile t tc snprintf g.includeDirectories configCompilerFlags
    configCompilerFlagsWarnings output
  let output := rule_rc t output
  let output := rule_link t tc g.libraries configLinkerFlags output
  let output := build_sources t g.sources output
  let output := build_rc t g.rcs output
  build_exe t tc args g.sources g.rcs output

/-- The method `BuilderCore::compile_write_ninja` up to the save of the text: the contents
of the configs file are `none` when the file does not load. -/
def compile_write_ninja (t : Target) (tc : Toolchain) (args : Arguments)
    (snprintf : Nat → Text → Text → Text) (g : Lists) (configJSONContents : Option Text) :
    Except NinjaError Text :=
  let pathConfig := "projects".toList ++ t.SLASH ++ args.project ++ t.SLASH
    ++ "configs.json".toList
  match configJSONContents with
  | none => .error (.configs_load pathConfig)
  | some contents =>
    match JSON.construct contents with
    | .error e => .error (.configs_root e)
    | .ok root => .ok (ninja_output t tc args snprintf g (configsJSON root args))

/-! ## The build description in the words of the specification -/

/-- The groups of flags of the compile rule in their order: toolchain core flags,
architecture flags, project compiler flags and project warning flags when not empty,
toolchain warning flags, then one include flag per include directory, formatted with the
include template of the toolchain. -/
def compile_flags (tc : Toolchain) (snprintf : Nat → Text → Text → Text)
    (includeDirectories : List Text) (configCompilerFlags configCompilerFlagsWarnings : Text) :
    List Text :=
  [tc.compilerFlags, tc.compilerFlagsArchitecture]
    ++ (if configCompilerFlags = [] then [] else [configCompilerFlags])
    ++ (if configCompilerFlagsWarnings = [] then [] else [configCompilerFlagsWarnings])
    ++ [tc.compilerFlagsWarnings]
    ++ includeDirectories.map (snprintf 1024 tc.compilerFlagsIncludes)

/-- The command of the compile rule: the compiler name, the input and output
placeholders, then the groups of flags separated by one blank. -/
def compile_command (tc : Toolchain) (snprintf : Nat → Text → Text → Text)
    (includeDirectories : List Text) (configCompilerFlags configCompilerFlagsWarnings : Text) :
    Text :=
  tc.compilerName ++ " $in ".toList ++ tc.compilerOutput ++ "$out ".toList
    ++ List.intercalate " ".toList
      (compile_flags tc snprintf includeDirectories configCompilerFlags
        configCompilerFlagsWarnings)

/-- The reference to one library in the link rule. -/
def library_reference (t : Target) (tc : Toolchain) (library : Text) : Text :=
  if t.OS_MACOS then " -framework ".toList ++ library
  else " ".toList ++ tc.linkerPrefixLibrary ++ library ++ tc.linkerExtensionLibrary

/-- The command of the link rule: the linker name, the placeholders, the toolchain linker
flags, the project linker flags when not empty, one reference per library. -/
def link_command (t : Target) (tc : Toolchain) (libraries : List Text)
    (configLinkerFlags : Text) : Text :=
  tc.linkerName ++ " $in ".toList ++ tc.linkerOutput ++ "$out ".toList ++ tc.linkerFlags
    ++ (if configLinkerFlags = [] then [] else " ".toList ++ configLinkerFlags)
    ++ (libraries.map (library_reference t tc)).flatten

/-- The four steps up from the directory of the description to the root. -/
def root_offset (t : Target) : Text :=
  "..".toList ++ t.SLASH ++ "..".toList ++ t.SLASH ++ "..".toList ++ t.SLASH ++ "..".toList
    ++ t.SLASH

/-- The build edge of a source record. -/
def compile_edge (t : Target) (source : Source) : Text :=
  "build ".toList ++ source.objPath ++ ": compile ".toList ++ root_offset t ++ source.srcPath

/-- The build edge of a resource record. -/
def rc_edge (t : Target) (rc : Source) : Text :=
  "build ".toList ++ rc.objPath ++ ": rc ".toList ++ root_offset t ++ rc.srcPath

/-- The final build edge: the executable, linked from every object path in order and then
every resource object path. -/
def link_edge (t : Target) (tc : Toolchain) (args : Arguments) (sources rcs : List Source) :
    Text :=
  "build ".toList ++ args.project ++ tc.linkerExtensionExe ++ ": link".toList
    ++ (sources.map fun s => " ".toList ++ s.objPath).flatten
    ++ (if t.PIPELINE_OS_WINDOWS then (rcs.map fun s => " ".toList ++ s.objPath).flatten
        else [])

/-- The lines of the build description: the compile rule, the resource rule where it is
compiled in, the link rule, one build edge per source record, the resource edges where
they are compiled in, the final edge. -/
def ninja_lines (t : Target) (tc : Toolchain) (args : Arguments)
    (snprintf : Nat → Text → Text → Text) (g : Lists)
    (configCompilerFlags configCompilerFlagsWarnings configLinkerFlags : Text) : List Text :=
  ["rule compile".toList]
    ++ (if t.PIPELINE_COMPILER_MSVC then ["  deps = msvc".toList]
        else ["  deps = gcc".toList, "  depfile = $out.d".toList])
    ++ ["  command = ".toList ++ compile_command tc snprintf g.includeDirectories
          configCompilerFlags configCompilerFlagsWarnings, []]
    ++ (if t.PIPELINE_OS_WINDOWS then
          ["rule rc".toList,
            "  command = windres --input $in --output $out --output-format=coff".toList, []]
        else [])
    ++ ["rule link".toList,
        "  command = ".toList ++ link_command t tc g.libraries configLinkerFlags, []]
    ++ g.sources.map (compile_edge t) ++ [[]]
    ++ (if t.PIPELINE_OS_WINDOWS then g.rcs.map (rc_edge t) ++ [[]] else [])
    ++ [link_edge t tc args g.sources g.rcs]

/-- The text of the lines, each ended by a line feed. -/
def unlines (ls : List Text) : Text := (ls.map fun l => l ++ ['\n']).flatten

/-- The lines of a text: the pieces between its line feeds. -/
def lines_of : Text → List Text
  | [] => [[]]
  | c :: cs =>
    if c = '\n' then [] :: lines_of cs
    else
      match lines_of cs with
      | [] => [[c]]
      | l :: ls => (c :: l) :: ls

/-- A line that declares a build edge. -/
def is_build_edge (line : Text) : Bool := "build ".toList.isPrefixOf line

/-- The build edges of a description, in order. -/
def build_edges (text : Text) : List Text := (lines_of text).filter is_build_edge

/-- A text without a line feed. -/
def single_line (s : Text) : Prop := '\n' ∉ s

instance (s : Text) : Decidable (single_line s) := by
  unfold single_line
  infer_instance

/-- No line feed in the two rule commands, in the paths of the records, in the project
name, in the extension of the executable and in the path separator. -/
def single_line_inputs (t : Target) (tc : Toolchain) (args : Arguments)
    (snprintf : Nat → Text → Text → Text) (g : Lists)
    (configCompilerFlags configCompilerFlagsWarnings configLinkerFlags : Text) : Prop :=
  single_line (compile_command tc snprintf g.includeDirectories configCompilerFlags
      configCompilerFlagsWarnings) ∧
    single_line (link_command t tc g.libraries configLinkerFlags) ∧
    (∀ s ∈ g.sources, single_line s.objPath ∧ single_line s.srcPath) ∧
    (∀ s ∈ g.rcs, single_line s.objPath ∧ single_line s.srcPath) ∧
    single_line args.project ∧ single_line tc.linkerExtensionExe ∧ single_line t.SLASH

instance (t : Target) (tc : Toolchain) (args : Arguments) (snprintf : Nat → Text → Text → Text)
    (g : Lists) (a b c : Text) : Decidable (single_line_inputs t tc args snprintf g a b c) := by
  unfold single_line_inputs
  infer_instance

/-- The arguments of a run for the project `game`, the config `debug` and the toolchain
`gcc`. -/
def args_game : Arguments :=
  { project := "game".toList, config := "debug".toList, toolchain := "gcc".toList }

/-- A stand-in for `snprintf` with one `%s` in the format: the format with the argument in
the place of `%s`. -/
def snprintf_s (_size : Nat) (format argument : Text) : Text :=
  replace format "%s".toList argument

/-- Two source records, one library and one include directory. -/
def lists_two : Lists :=
  { sources := [⟨"source/main.cpp".toList, "objects/source/main.o".toList⟩,
      ⟨"source/core/json.cpp".toList, "objects/source/core/json.o".toList⟩],
    libraries := ["X11".toList], includeDirectories := ["../generated".toList], rcs := [] }

/-- The members of the configs document
`{"debug":{"compile":{"gcc":{"compilerFlags":"-O0 -g","linkerFlags":"-lm"}}}}`. -/
def members_configs : JMembers :=
  .cons "debug".toList (.obj (.cons "compile".toList (.obj (.cons "gcc".toList
    (.obj (.cons "compilerFlags".toList (.str "-O0 -g".toList)
      (.cons "linkerFlags".toList (.str "-lm".toList) .nil))) .nil)) .nil)) .nil

/-! ## Views inside a document -/

/-- The view of an object with the members `ms` whose text stands between the texts `A`
and `R`: the window between its braces. -/
def members_view (A : Text) (ms : JMembers) (R : Text) : JSON :=
  { string := A ++ '{' :: (render_members ms ++ '}' :: R), start := A.length + 1,
    end_ := A.length + 1 + (render_members ms).length }

/-- The value of the first member whose key is written `key` in the document. -/
def JMembers.find (key : Text) : JMembers → Option JValue
  | .nil => none
  | .cons k v rest => if escape k = key then some v else rest.find key

/-- The members of the object reached from `ms` through the keys in turn; `none` when a
key is absent or bound to a value that is not an object. -/
def descend : JMembers → List Text → Option JMembers
  | ms, [] => some ms
  | ms, key :: keys =>
    match ms.find key with
    | some (.obj inner) => descend inner keys
    | _ => none

/-- The view reached from `j` by `object( key )` for the keys in turn. -/
def navigate (j : JSON) (keys : List Text) : JSON := keys.foldl JSON.object j

/-- The members of `{"a":"b","c":{"compile":{"gcc":{"compilerFlags":"-O2"}}}}`. -/
def members_trick : JMembers :=
  .cons ['a'] (.str ['b']) (.cons ['c'] (.obj (.cons "compile".toList (.obj (.cons "gcc".toList
    (.obj (.cons "compilerFlags".toList (.str "-O2".toList) .nil)) .nil)) .nil)) .nil)

/-- The arguments with the config name `a":"b","c` and the toolchain `gcc`. -/
def args_trick : Arguments :=
  { project := "game".toList, config := key_with_quotes, toolchain := "gcc".toList }

/-- A target with `/` as the path separator, macOS and OpenGL. -/
def target_macos : Target :=
  { SLASH := ['/'], OS_WINDOWS := false, OS_MACOS := true, OS_LINUX := false,
    GRAPHICS_OPENGL := true, GRAPHICS_D3D11 := false, BACKEND_AUDIO := "coreaudio".toList,
    BACKEND_FILESYSTEM := "posix".toList, BACKEND_NETWORK := "posix".toList,
    BACKEND_GRAPHICS := "opengl".toList, BACKEND_THREAD := "posix".toList,
    BACKEND_TIMER := "posix".toList, BACKEND_WINDOW := "cocoa".toList,
    PIPELINE_OS_WINDOWS := false, PIPELINE_COMPILER_MSVC := false }

/-- One source record and the libraries `Cocoa`, `OpenGL`, `Cocoa`, as three calls of
`compile_add_library` leave them. -/
def lists_frameworks : Lists :=
  compile_add_library (compile_add_library (compile_add_library
    { sources := [⟨"source/main.cpp".toList, "objects/source/main.o".toList⟩] }
    "Cocoa".toList) "OpenGL".toList) "Cocoa".toList

/-- The members of `{"z":{"s":"}"},"a":1}`: a string of a nested object holds a brace. -/
def members_brace_in_nested : JMembers :=
  .cons ['z'] (.obj (.cons ['s'] (.str ['}']) .nil)) (.cons ['a'] (.lit ['1']) .nil)

/-- The members of `{"z":{"s":"x"},"a":1}`. -/
def members_plain_in_nested : JMembers :=
  .cons ['z'] (.obj (.cons ['s'] (.str ['x']) .nil)) (.cons ['a'] (.lit ['1']) .nil)

/-- The text `{"a":"}`: the value of `a` is one double quote. -/
def text_lone_quote : Text := ['{', '"', 'a', '"', ':', '"', '}']

/-- The text `{"a":["]}`: the only element of the array is one double quote. -/
def text_lone_quote_element : Text := ['{', '"', 'a', '"', ':', '[', '"', ']', '}']

/-- The members of `{"a":10,"b":false,"c":0,"d":"true","e":true,"f":[10,false,0,"true"]}`. -/
def members_bools : JMembers :=
  .cons ['a'] (.lit ['1', '0']) (.cons ['b'] (.lit "false".toList) (.cons ['c'] (.lit ['0'])
    (.cons ['d'] (.str "true".toList) (.cons ['e'] (.lit "true".toList)
      (.cons ['f'] (.arr (.cons (.lit ['1', '0']) (.cons (.lit "false".toList)
        (.cons (.lit ['0']) (.cons (.str "true".toList) .nil))))) .nil)))))

/-- Every dirty flag that is true in `s` is true in `t`. -/
def Build.flags_le (s t : Build) : Prop :=
  (s.cacheDirty = true → t.cacheDirty = true) ∧
    (s.cacheDirtyObjects = true → t.cacheDirtyObjects = true) ∧
    (s.cacheDirtyShaders = true → t.cacheDirtyShaders = true) ∧
    (s.cacheDirtyAssets = true → t.cacheDirtyAssets = true) ∧
    (s.cacheDirtyBinary = true → t.cacheDirtyBinary = true)

/-- A first run with neither `codegen` nor `build`. -/
def world_no_phase : World := { world_full with codegen := [], build := [] }

/-- The view `r` is the failure view (0,0) of the buffer of `v`, or a view of that buffer
strictly inside `v`. -/
def JSON.inside (v r : JSON) : Prop :=
  r = ⟨v.string, 0, 0⟩ ∨
    (r.string = v.string ∧ v.start < r.start ∧ r.start ≤ r.end_ ∧ r.end_ < v.end_)

/-- A view whose window is in order and within its buffer. -/
def JSON.valid (v : JSON) : Prop := v.start ≤ v.end_ ∧ v.end_ ≤ v.string.length

instance (v : JSON) : Decidable v.valid := by
  unfold JSON.valid
  infer_instance

/-- A step that does nothing in an aborted process and that, entered alive, adds to the
record a prefix of the calls `L`, read off the state it leaves, and all of them when the
process is still alive after it. -/
def Emits (f : Build → Build) (L : Build → List Step) : Prop :=
  ∀ s, (s.fatal ≠ none → f s = s) ∧
    (s.fatal = none → ∃ p, (f s).log = s.log ++ p ∧ p <+: L (f s) ∧
      ((f s).fatal = none → p = L (f s)))

/-- The calls `steps` under the guard `dirty`. -/
def guarded (dirty : Bool) (steps : List Step) : List Step := if dirty then steps else []

/-- The calls of the objects stage as the specification lists them: begin, gather and
cache check always, the transform and write steps when the stage is dirty. -/
def objects_calls (dirty : Bool) : List Step :=
  [.objects_begin, .objects_gather, .objects_cache] ++
    guarded dirty [.objects_parse, .objects_resolve, .objects_validate, .objects_generate,
      .objects_write]

/-- The calls of the shaders stage as the specification lists them. -/
def graphics_calls (dirty : Bool) : List Step :=
  [.gfx_begin, .shaders_gather, .shaders_cache] ++ guarded dirty [.gfx_build, .gfx_write]

/-- The calls of the assets stage as the specification lists them: the payload writers,
then the generated header and source. -/
def assets_calls (dirty : Bool) : List Step :=
  [.assets_begin, .assets_gather, .assets_cache] ++
    guarded dirty [.assets_build, .assets_save_header, .assets_save_source]

/-- The calls of the binary stage as the specification lists them. -/
def binary_calls (dirty : Bool) : List Step :=
  [.binary_cache] ++ guarded dirty [.binary_save]

/-- The calls of the compile phase. -/
def compile_calls : List Step :=
  [.compile_project, .compile_engine, .compile_write_ninja, .compile_run_ninja]

/-- The calls of one invocation as the specification lists them, from the three switches
and the four stage dirty flags: objects under `codegen`; shaders, assets, binary and compile
under `build`; the save of the cache; the produced program under `run`. -/
def gated_calls (codegen build run objects shaders assets binary : Bool) : List Step :=
  guarded codegen (objects_calls objects) ++
    guarded build
      (graphics_calls shaders ++ assets_calls assets ++ binary_calls binary ++ compile_calls) ++
    [.cache_save] ++ guarded run [.executable_run]

/-- A world with `codegen`, `build` and `run` in which the asset count changed: the assets
and binary stages are dirty and the objects and shaders stages are clean. -/
def world_assets_run : World :=
  { world_full with run := ['1'], assetFileCount := 6, binarySize := 1 }

/-- The loop of `json_find_element_index` over the characters from offset `i` on. -/
def index_scan (index : Nat) : Nat → Nat → Bool → Bool → Nat → Nat → Nat → Nat → Text → Nat
  | 0, _, _, _, _, _, last, count, _ => if count = index then last else USIZE_MAX
  | _ + 1, _, _, _, _, _, last, count, [] => if count = index then last else USIZE_MAX
  | fuel + 1, i, esc, inQuotes, depthBraces, depthBrackets, last, count, c :: cs =>
    if c = NUL then if count = index then last else USIZE_MAX
    else
      let inQuotes := if c = '"' ∧ esc = false then !inQuotes else inQuotes
      if inQuotes then
        index_scan index fuel (i + 1) (decide (c = '\\')) inQuotes depthBraces depthBrackets
          last count cs
      else if c = '{' then
        index_scan index fuel (i + 1) (decide (c = '\\')) inQuotes (depthBraces + 1)
          depthBrackets last count cs
      else if c = '[' then
        index_scan index fuel (i + 1) (decide (c = '\\')) inQuotes depthBraces
          (depthBrackets + 1) last count cs
      else if c = '}' then
        if depthBraces > 0 then
          index_scan index fuel (i + 1) (decide (c = '\\')) inQuotes (depthBraces - 1)
            depthBrackets last count cs
        else if count = index then last else USIZE_MAX
      else if c = ']' then
        if depthBrackets > 0 then
          index_scan index fuel (i + 1) (decide (c = '\\')) inQuotes depthBraces
            (depthBrackets - 1) last count cs
        else if count = index then last else USIZE_MAX
      else if depthBraces > 0 ∨ depthBrackets > 0 then
        index_scan index fuel (i + 1) (decide (c = '\\')) inQuotes depthBraces depthBrackets
          last count cs
      else if c = ',' then
        if count = index then last
        else
          index_scan index fuel (i + 1) (decide (c = '\\')) inQuotes depthBraces depthBrackets
            (i + 1) (count + 1) cs
      else
        index_scan index fuel (i + 1) (decide (c = '\\')) inQuotes depthBraces depthBrackets
          last count cs

/-- The view of an array with the elements `es` whose text stands between the texts `A`
and `R`: the window between its brackets. -/
def elems_view (A : Text) (es : JElems) (R : Text) : JSON :=
  { string := A ++ '[' :: (render_elems es ++ ']' :: R), start := A.length + 1,
    end_ := A.length + 1 + (render_elems es).length }

/-- The element number `i`, counted from 0. -/
def JElems.nth : JElems → Nat → Option JValue
  | .nil, _ => none
  | .cons v _, 0 => some v
  | .cons _ rest, i + 1 => rest.nth i

/-- The number of bytes of the text of the elements that stand before element number `i`:
the texts of the earlier elements and one comma after each. -/
def JElems.offset : JElems → Nat → Nat
  | .nil, _ => 0
  | .cons _ _, 0 => 0
  | .cons v rest, i + 1 => (render v).length + 1 + rest.offset i

/-- The elements of `[1,"x,y",{"k":[2,3]},[4,5]]`. -/
def elems_mixed : JElems :=
  .cons (.lit ['1']) (.cons (.str ['x', ',', 'y'])
    (.cons (.obj (.cons ['k'] (.arr (.cons (.lit ['2']) (.cons (.lit ['3']) .nil))) .nil))
      (.cons (.arr (.cons (.lit ['4']) (.cons (.lit ['5']) .nil))) .nil)))

/-- The text `{"a":` that stands before the value of the key `a`. -/
def lead_a : Text := ['{', '"', 'a', '"', ':']

/-- The text `{"a":["\\",2]}`: the first element of the array is one escaped backslash. -/
def text_backslash_array : Text :=
  ['{', '"', 'a', '"', ':', '[', '"', '\\', '\\', '"', ',', '2', ']', '}']

/-- The counters of the stages that the switches enable, as the specification lists them:
the objects counter under `codegen`, then the shaders and assets counters under `build`. -/
def enabled_counters (w : World) : List Nat :=
  (if w.codegen = ['1'] then [w.objectFilesCount] else []) ++
    (if w.build = ['1'] then [w.shaderFileCount, w.assetFileCount] else [])

/-- A run with `codegen` and without `build`: three object files. -/
def world_codegen_only : World := { world_full with build := [] }

/-! ## The stripping pass in the words of the specification

A JSON text is read from the left. Outside a quoted string a double quote opens a string.
Inside a string a backslash that is not itself escaped escapes the character after it, and
a double quote that is not escaped closes the string. In the functions below `inQuotes`
says that a string is open at the current character and `esc` that the current character
is escaped. -/

/-- Follows the wording of the specification: the number of unescaped double quotes of a
text, the quotes that open or close a string. -/
def unescaped_quotes : Bool → Bool → Text → Nat
  | _, _, [] => 0
  | inQuotes, esc, c :: cs =>
    if c = '"' ∧ esc = false then 1 + unescaped_quotes (!inQuotes) false cs
    else unescaped_quotes inQuotes (inQuotes && decide (c = '\\') && !esc) cs

/-- Follows the wording of the specification: the text with exactly the whitespace
characters that lie outside double-quoted strings removed; every character inside a quoted
string and every character that is no whitespace is kept, in the original order. -/
def keep_outside_quotes : Bool → Bool → Text → Text
  | _, _, [] => []
  | inQuotes, esc, c :: cs =>
    if c = '"' ∧ esc = false then c :: keep_outside_quotes (!inQuotes) false cs
    else if inQuotes = false ∧ char_whitespace c then
      keep_outside_quotes inQuotes (inQuotes && decide (c = '\\') && !esc) cs
    else c :: keep_outside_quotes inQuotes (inQuotes && decide (c = '\\') && !esc) cs

/-- Every double quote that directly follows a backslash is escaped by that backslash: no
unescaped double quote stands right after a backslash, be it an escaped backslash inside a
string (the escape `\\`) or a backslash outside a string. `prev` says that the character
before the current one is a backslash. -/
def quotes_plain : Bool → Bool → Bool → Text → Bool
  | _, _, _, [] => true
  | prev, inQuotes, esc, c :: cs =>
    if c = '"' ∧ esc = false then !prev && quotes_plain false (!inQuotes) false cs
    else quotes_plain (decide (c = '\\')) inQuotes (inQuotes && decide (c = '\\') && !esc) cs

/-- The text `{ "say \"a b\"" : [1, "c d"] }`, with whitespace and escaped quotes inside a
string and whitespace outside strings. -/
def text_spaced_escaped : Text :=
  ['{', ' ', '"', 's', 'a', 'y', ' ', '\\', '"', 'a', ' ', 'b', '\\', '"', '"', ' ', ':', ' ',
    '[', '1', ',', ' ', '"', 'c', ' ', 'd', '"', ']', ' ', '}']

/-- The text `{"a":"\\","b":"p q","c":"\\"}`: a well-formed document in which two strings
are one escaped backslash each. -/
def text_backslash_strings : Text :=
  ['{', '"', 'a', '"', ':', '"', '\\', '\\', '"', ',', '"', 'b', '"', ':', '"', 'p', ' ', 'q',
    '"', ',', '"', 'c', '"', ':', '"', '\\', '\\', '"', '}']

/-- The world `world_full` in which `Gfx::build` raises a fatal error. -/
def world_gfx_fails : World :=
  { world_full with fails := fun c => decide (c = Step.gfx_build) }

/-- The members of the configs document
`{"debug":{"compile":{"gcc":{"linkerFlags":"-lm\nbuild evil: link"}}}}`: the project linker
flags hold the escape `\n`, which `get_string` turns into a line feed. -/
def members_configs_feed : JMembers :=
  .cons "debug".toList (.obj (.cons "compile".toList (.obj (.cons "gcc".toList
    (.obj (.cons "linkerFlags".toList (.str "-lm\nbuild evil: link".toList) .nil)) .nil))
      .nil)) .nil


theorem char_at_of_lt (b : Text) (i : Nat) (h : i < b.length) :
    b.drop i = char_at b i :: b.drop (i + 1) := by
  have e : char_at b i = b[i] := by
    simp [char_at, List.getD_eq_getElem?_getD, List.getElem?_eq_getElem h]
  rw [e]
  exact List.drop_eq_getElem_cons h

theorem esc_at_succ (b : Text) (i : Nat) : esc_at b (i + 1) = decide (char_at b i = '\\') := by
  simp [esc_at]

theorem quote_at_eq (b : Text) (i : Nat) :
    quote_at b i = (decide (char_at b i = '"') && !esc_at b i) := by
  simp only [quote_at, esc_at]
  by_cases h : i = 0 <;> simp [h]

theorem contains_at_succ (b sub : Text) (i n : Nat) :
    contains_at b sub (i + 1 + n) = sub.isPrefixOf ((b.drop (i + 1)).drop n) := by
  simp only [contains_at, List.drop_drop]

theorem count_loop_eq_scan (b : Text) : ∀ (fuel i : Nat) (inQ : Bool) (dB dK count : Nat),
    count_loop b fuel i inQ dB dK count
      = count_scan fuel (esc_at b i) inQ dB dK count (b.drop i)
  | 0, i, inQ, dB, dK, count => by simp [count_loop, count_scan]
  | fuel + 1, i, inQ, dB, dK, count => by
    by_cases h : i < b.length
    · rw [char_at_of_lt b i h, count_loop, count_scan]
      simp only [count_loop_eq_scan b fuel, esc_at_succ, quote_at_eq, length_bytes]
      have h' : ¬ i ≥ b.length := by omega
      simp [h']
    · have h' : b.length ≤ i := by omega
      rw [List.drop_eq_nil_of_le h', count_loop, count_scan]
      simp [length_bytes, h']

theorem delimiter_loop_eq_scan (b : Text) (end_ : Nat) :
    ∀ (fuel i : Nat) (inQ : Bool) (dB dK : Nat),
    json_find_element_delimiter_loop b end_ fuel i inQ dB dK
      = delimiter_scan end_ fuel i (esc_at b i) inQ dB dK (b.drop i)
  | 0, i, inQ, dB, dK => by simp [json_find_element_delimiter_loop, delimiter_scan]
  | fuel + 1, i, inQ, dB, dK => by
    by_cases h : i < b.length
    · rw [char_at_of_lt b i h, json_find_element_delimiter_loop, delimiter_scan]
      simp only [delimiter_loop_eq_scan b end_ fuel, esc_at_succ, quote_at_eq, length_bytes]
      have h' : ¬ i ≥ b.length := by omega
      simp [h']
    · have h' : b.length ≤ i := by omega
      rw [List.drop_eq_nil_of_le h', json_find_element_delimiter_loop, delimiter_scan]
      simp [length_bytes, h']

theorem key_loop_eq_scan (b key : Text) :
    ∀ (fuel i : Nat) (inQ : Bool) (dB dK : Nat),
    json_find_element_key_loop b key fuel i inQ dB dK
      = key_scan key fuel i (esc_at b i) inQ dB dK (b.drop i)
  | 0, i, inQ, dB, dK => by simp [json_find_element_key_loop, key_scan]
  | fuel + 1, i, inQ, dB, dK => by
    by_cases h : i < b.length
    · rw [char_at_of_lt b i h, json_find_element_key_loop, key_scan]
      simp only [key_loop_eq_scan b key fuel, esc_at_succ, quote_at_eq, length_bytes,
        contains_at_succ]
      have h' : ¬ i ≥ b.length := by omega
      have e : contains_at b key (i + 1) = key.isPrefixOf (b.drop (i + 1)) := rfl
      simp [h', e]
    · have h' : b.length ≤ i := by omega
      rw [List.drop_eq_nil_of_le h', json_find_element_key_loop, key_scan]
      simp [length_bytes, h']

theorem lex_run_append (b : Text) : ∀ (a : Text) (esc inQ : Bool) (dB dK : Nat)
    (r : Bool × Bool × Nat × Nat), lex_run esc inQ dB dK a = some r →
    lex_run esc inQ dB dK (a ++ b) = lex_run r.1 r.2.1 r.2.2.1 r.2.2.2 b
  | [], esc, inQ, dB, dK, r, h => by
    simp only [lex_run, Option.some.injEq] at h
    subst h
    rfl
  | c :: a, esc, inQ, dB, dK, r, h => by
    simp only [lex_run, List.cons_append] at h ⊢
    split at h
    · exact absurd h (by simp)
    · rename_i hc
      rw [if_neg hc]
      split at h
      · exact absurd h (by simp)
      · rename_i q x y top hs
        split at h
        · exact absurd h (by simp)
        · rename_i ht
          rw [if_neg ht]
          split at h
          · exact absurd h (by simp)
          · rename_i hw
            rw [if_neg hw]
            exact lex_run_append b a _ _ _ _ r h

theorem count_scan_step (fuel : Nat) (esc inQ : Bool) (dB dK count : Nat) (c : Char)
    (cs : Text) :
    count_scan (fuel + 1) esc inQ dB dK count (c :: cs) =
      if c = NUL then count
      else match lex_step esc inQ dB dK c with
        | none => count
        | some (q, x, y, top) =>
          count_scan fuel (decide (c = '\\')) q x y
            (if top = true ∧ c = ',' then count + 1 else count) cs := by
  rw [count_scan]
  simp only [lex_step]
  by_cases hc : c = NUL
  · simp [hc]
  simp only [hc, if_false]
  by_cases hq : (if c = '"' ∧ esc = false then !inQ else inQ) = true
  · simp only [hq, if_true]
    simp
  simp only [hq]
  simp only [Bool.not_eq_true] at hq
  by_cases h1 : c = '{'
  · simp [h1, hq]
  by_cases h2 : c = '['
  · simp [h2, hq]
  by_cases h3 : c = '}'
  · by_cases d : dB > 0 <;> simp [h3, hq, d]
  by_cases h4 : c = ']'
  · by_cases d : dK > 0 <;> simp [h4, hq, d]
  by_cases d : dB > 0 ∨ dK > 0
  · simp [h1, h2, h3, h4, hq, d]
  by_cases h5 : c = ','
  · simp [h1, h2, h3, h4, hq, d, h5]
  · simp [h1, h2, h3, h4, hq, d, h5]

theorem count_scan_skip (rest : Text) (count fuel : Nat) :
    ∀ (seg : Text) (esc inQ : Bool) (dB dK : Nat) (r : Bool × Bool × Nat × Nat),
    lex_run esc inQ dB dK seg = some r →
    count_scan (seg.length + fuel) esc inQ dB dK count (seg ++ rest)
      = count_scan fuel r.1 r.2.1 r.2.2.1 r.2.2.2 count rest
  | [], esc, inQ, dB, dK, r, h => by
    simp only [lex_run, Option.some.injEq] at h
    subst h
    simp
  | c :: seg, esc, inQ, dB, dK, r, h => by
    have e : (c :: seg).length + fuel = (seg.length + fuel) + 1 := by
      simp only [List.length_cons]; omega
    rw [e, List.cons_append, count_scan_step]
    simp only [lex_run] at h
    split at h
    · exact absurd h (by simp)
    · rename_i hc
      rw [if_neg hc]
      split at h
      · exact absurd h (by simp)
      · rename_i q x y top hs
        split at h
        · exact absurd h (by simp)
        · rename_i ht
          split at h
          · exact absurd h (by simp)
          · rw [if_neg ht]
            exact count_scan_skip rest count fuel seg _ _ _ _ r h

theorem delimiter_scan_step (end_ fuel i : Nat) (esc inQ : Bool) (dB dK : Nat) (c : Char)
    (cs : Text) :
    delimiter_scan end_ (fuel + 1) i esc inQ dB dK (c :: cs) =
      if c = NUL then i
      else match lex_step esc inQ dB dK c with
        | none => i
        | some (q, x, y, top) =>
          if top = true ∧ c = ',' then i
          else delimiter_scan end_ fuel (i + 1) (decide (c = '\\')) q x y cs := by
  rw [delimiter_scan]
  simp only [lex_step]
  by_cases hc : c = NUL
  · simp [hc]
  simp only [hc, if_false]
  by_cases hq : (if c = '"' ∧ esc = false then !inQ else inQ) = true
  · simp only [hq, if_true]
    simp
  simp only [hq]
  simp only [Bool.not_eq_true] at hq
  by_cases h1 : c = '{'
  · simp [h1, hq]
  by_cases h2 : c = '['
  · simp [h2, hq]
  by_cases h3 : c = '}'
  · by_cases d : dB > 0 <;> simp [h3, hq, d]
  by_cases h4 : c = ']'
  · by_cases d : dK > 0 <;> simp [h4, hq, d]
  by_cases d : dB > 0 ∨ dK > 0
  · simp [h1, h2, h3, h4, hq, d]
  by_cases h5 : c = ','
  · simp [h1, h2, h3, h4, hq, d, h5]
  · simp [h1, h2, h3, h4, hq, d, h5]

theorem delimiter_scan_skip (rest : Text) (end_ fuel : Nat) :
    ∀ (seg : Text) (i : Nat) (esc inQ : Bool) (dB dK : Nat) (r : Bool × Bool × Nat × Nat),
    lex_run esc inQ dB dK seg = some r →
    delimiter_scan end_ (seg.length + fuel) i esc inQ dB dK (seg ++ rest)
      = delimiter_scan end_ fuel (i + seg.length) r.1 r.2.1 r.2.2.1 r.2.2.2 rest
  | [], i, esc, inQ, dB, dK, r, h => by
    simp only [lex_run, Option.some.injEq] at h
    subst h
    simp
  | c :: seg, i, esc, inQ, dB, dK, r, h => by
    have e : (c :: seg).length + fuel = (seg.length + fuel) + 1 := by
      simp only [List.length_cons]; omega
    have e2 : i + (c :: seg).length = i + 1 + seg.length := by
      simp only [List.length_cons]; omega
    rw [e, e2, List.cons_append, delimiter_scan_step]
    simp only [lex_run] at h
    split at h
    · exact absurd h (by simp)
    · rename_i hc
      rw [if_neg hc]
      split at h
      · exact absurd h (by simp)
      · rename_i q x y top hs
        split at h
        · exact absurd h (by simp)
        · rename_i ht
          split at h
          · exact absurd h (by simp)
          · rw [if_neg ht]
            exact delimiter_scan_skip rest end_ fuel seg _ _ _ _ _ r h

/-! ### Characters -/

theorem lit_char_ne {c : Char} (h : is_lit_char c = true) :
    c ≠ NUL ∧ c ≠ '"' ∧ c ≠ '\\' ∧ c ≠ '{' ∧ c ≠ '}' ∧ c ≠ '[' ∧ c ≠ ']' ∧ c ≠ ',' ∧
      c ≠ ':' ∧ char_whitespace c = false := by
  refine ⟨?_, ?_, ?_, ?_, ?_, ?_, ?_, ?_, ?_, ?_⟩
  · rintro rfl; revert h; decide
  · rintro rfl; revert h; decide
  · rintro rfl; revert h; decide
  · rintro rfl; revert h; decide
  · rintro rfl; revert h; decide
  · rintro rfl; revert h; decide
  · rintro rfl; revert h; decide
  · rintro rfl; revert h; decide
  · rintro rfl; revert h; decide
  · by_contra hw
    simp only [char_whitespace, Bool.or_eq_true, decide_eq_true_eq, Bool.not_eq_false] at hw
    rcases hw with ((rfl | rfl) | rfl) | rfl <;> revert h <;> decide

theorem lex_step_top (esc : Bool) (dB dK : Nat) (c : Char) (h1 : c ≠ '"') (h2 : c ≠ '{')
    (h3 : c ≠ '[') (h4 : c ≠ '}') (h5 : c ≠ ']') :
    lex_step esc false dB dK c = some (false, dB, dK, decide (dB = 0 ∧ dK = 0)) := by
  simp only [lex_step, h1, h2, h3, h4, h5, false_and, if_false]
  by_cases d : dB > 0 ∨ dK > 0
  · have : ¬ (dB = 0 ∧ dK = 0) := by omega
    simp [d, this]
  · have : dB = 0 ∧ dK = 0 := by omega
    simp [this]

theorem lex_step_in_string (esc : Bool) (dB dK : Nat) (c : Char) (h : c ≠ '"' ∨ esc = true) :
    lex_step esc true dB dK c = some (true, dB, dK, false) := by
  have : ¬ (c = '"' ∧ esc = false) := by
    rintro ⟨h1, h2⟩
    rcases h with h | h
    · exact h h1
    · simp [h2] at h
  simp [lex_step, this]

theorem lex_step_close_quote (dB dK : Nat) :
    lex_step false true dB dK '"' = some (false, dB, dK, decide (dB = 0 ∧ dK = 0)) := by
  simp only [lex_step]
  by_cases d : dB > 0 ∨ dK > 0
  · have : ¬ (dB = 0 ∧ dK = 0) := by omega
    simp [d, this]
  · have : dB = 0 ∧ dK = 0 := by omega
    simp [this]

theorem lex_step_open_quote (dB dK : Nat) :
    lex_step false false dB dK '"' = some (true, dB, dK, false) := by
  simp [lex_step]

/-- A plain character inside a string: the lexer stays inside the string. -/
theorem lex_run_in_string_cons (esc : Bool) (dB dK : Nat) (c : Char) (cs : Text)
    (h : c ≠ '"' ∨ esc = true) (hn : c ≠ NUL) :
    lex_run esc true dB dK (c :: cs) = lex_run (decide (c = '\\')) true dB dK cs := by
  simp [lex_run, hn, lex_step_in_string esc dB dK c h]

theorem lex_run_string_body (dB dK : Nat) : ∀ s : Text, str_ok s = true →
    lex_run false true dB dK (escape s ++ ['"']) = some (false, false, dB, dK)
  | [], _ => by
    simp [escape, lex_run, lex_step_close_quote, NUL, char_whitespace]
  | c :: s, h => by
    simp only [str_ok, List.all_cons, Bool.and_eq_true, decide_eq_true_eq] at h
    obtain ⟨⟨hb, hn⟩, hs⟩ := h
    have ih := lex_run_string_body dB dK s hs
    simp only [escape, escape_char]
    split_ifs with h1 h2 h3
    · simp only [List.cons_append, List.nil_append]
      rw [lex_run_in_string_cons _ _ _ _ _ (Or.inl (by decide)) (by decide)]
      rw [lex_run_in_string_cons _ _ _ _ _ (Or.inr (by decide)) (by decide)]
      exact ih
    · simp only [List.cons_append, List.nil_append]
      rw [lex_run_in_string_cons _ _ _ _ _ (Or.inl (by decide)) (by decide)]
      rw [lex_run_in_string_cons _ _ _ _ _ (Or.inl (by decide)) (by decide)]
      exact ih
    · simp only [List.cons_append, List.nil_append]
      rw [lex_run_in_string_cons _ _ _ _ _ (Or.inl (by decide)) (by decide)]
      rw [lex_run_in_string_cons _ _ _ _ _ (Or.inl (by decide)) (by decide)]
      exact ih
    · simp only [List.cons_append, List.nil_append]
      rw [lex_run_in_string_cons _ _ _ _ _ (Or.inl h1) hn]
      simp only [hb, decide_False]
      exact ih

theorem lex_run_quoted (dB dK : Nat) (s : Text) (h : str_ok s = true) :
    lex_run false false dB dK (quoted s) = some (false, false, dB, dK) := by
  simp only [quoted, lex_run, lex_step_open_quote]
  simp only [NUL, char_whitespace]
  simpa using lex_run_string_body dB dK s h

theorem lex_run_lit (dB dK : Nat) : ∀ (t : Text) (esc : Bool), t.all is_lit_char = true →
    lex_run esc false dB dK t = some (esc && t.isEmpty, false, dB, dK)
  | [], esc, _ => by simp [lex_run]
  | c :: t, esc, h => by
    simp only [List.all_cons, Bool.and_eq_true] at h
    obtain ⟨hc, ht⟩ := h
    obtain ⟨h0, h1, h2, h3, h4, h5, h6, h7, _, h9⟩ := lit_char_ne hc
    simp only [lex_run, h0, if_false, lex_step_top esc dB dK c h1 h3 h5 h4 h6, h7, and_false,
      h9, h2, decide_False]
    simpa using lex_run_lit dB dK t false ht

theorem lex_run_single (dB dK : Nat) (c : Char) (h0 : c ≠ NUL) (h1 : c ≠ '"') (h2 : c ≠ '{')
    (h3 : c ≠ '[') (h4 : c ≠ '}') (h5 : c ≠ ']') (h6 : c ≠ ',' ∨ 0 < dB + dK)
    (h7 : char_whitespace c = false) (h8 : c ≠ '\\') (esc : Bool) (cs : Text) :
    lex_run esc false dB dK (c :: cs) = lex_run false false dB dK cs := by
  have : ¬ (decide (dB = 0 ∧ dK = 0) = true ∧ c = ',') := by
    rintro ⟨ha, hb⟩
    simp only [decide_eq_true_eq] at ha
    rcases h6 with h6 | h6
    · exact h6 hb
    · omega
  simp only [lex_run, h0, if_false, lex_step_top esc dB dK c h1 h2 h3 h4 h5, this, h7, h8,
    decide_False]
  simp

theorem lex_run_open_brace (dB dK : Nat) (esc : Bool) (cs : Text) :
    lex_run esc false dB dK ('{' :: cs) = lex_run false false (dB + 1) dK cs := by
  simp [lex_run, lex_step, NUL, char_whitespace]

theorem lex_run_open_bracket (dB dK : Nat) (esc : Bool) (cs : Text) :
    lex_run esc false dB dK ('[' :: cs) = lex_run false false dB (dK + 1) cs := by
  simp [lex_run, lex_step, NUL, char_whitespace]

theorem lex_run_close_brace (dB dK : Nat) (esc : Bool) (cs : Text) :
    lex_run esc false (dB + 1) dK ('}' :: cs) = lex_run false false dB dK cs := by
  simp [lex_run, lex_step, NUL, char_whitespace]

theorem lex_run_close_bracket (dB dK : Nat) (esc : Bool) (cs : Text) :
    lex_run esc false dB (dK + 1) (']' :: cs) = lex_run false false dB dK cs := by
  simp [lex_run, lex_step, NUL, char_whitespace]

theorem lex_run_colon (dB dK : Nat) (esc : Bool) (cs : Text) :
    lex_run esc false dB dK (':' :: cs) = lex_run false false dB dK cs :=
  lex_run_single dB dK ':' (by decide) (by decide) (by decide) (by decide) (by decide)
    (by decide) (Or.inl (by decide)) (by decide) (by decide) esc cs

theorem lex_run_comma (dB dK : Nat) (h : 0 < dB + dK) (esc : Bool) (cs : Text) :
    lex_run esc false dB dK (',' :: cs) = lex_run false false dB dK cs :=
  lex_run_single dB dK ',' (by decide) (by decide) (by decide) (by decide) (by decide)
    (by decide) (Or.inr h) (by decide) (by decide) esc cs

mutual
/-- The lexer passes a well-formed value without effect. -/
theorem lex_run_value : ∀ (v : JValue), v.wf = true → ∀ (dB dK : Nat),
    lex_run false false dB dK (render v) = some (false, false, dB, dK)
  | .str s, h, dB, dK => by
    simp only [JValue.wf] at h
    simpa only [render] using lex_run_quoted dB dK s h
  | .lit t, h, dB, dK => by
    simp only [JValue.wf, lit_ok, Bool.and_eq_true, Bool.not_eq_true'] at h
    simp only [render]
    rw [lex_run_lit dB dK t false h.2]
    simp
  | .obj ms, h, dB, dK => by
    simp only [JValue.wf] at h
    simp only [render]
    rw [lex_run_open_brace,
      lex_run_append _ _ _ _ _ _ _ (lex_run_members ms h (dB + 1) dK (by omega))]
    simp only [lex_run_close_brace]
    rfl
  | .arr es, h, dB, dK => by
    simp only [JValue.wf] at h
    simp only [render]
    rw [lex_run_open_bracket,
      lex_run_append _ _ _ _ _ _ _ (lex_run_elems es h dB (dK + 1) (by omega))]
    simp only [lex_run_close_bracket]
    rfl
theorem lex_run_members : ∀ (ms : JMembers), ms.wf = true → ∀ (dB dK : Nat), 0 < dB + dK →
    lex_run false false dB dK (render_members ms) = some (false, false, dB, dK)
  | .nil, _, dB, dK, _ => by simp [render_members, lex_run]
  | .cons k v rest, h, dB, dK, hd => by
    simp only [JMembers.wf, Bool.and_eq_true] at h
    simp only [render_members]
    rw [lex_run_append _ _ _ _ _ _ _ (lex_run_quoted dB dK k h.1.1)]
    simp only [lex_run_colon]
    rw [lex_run_append _ _ _ _ _ _ _ (lex_run_value v h.1.2 dB dK)]
    exact lex_run_more_members rest h.2 dB dK hd
theorem lex_run_more_members : ∀ (ms : JMembers), ms.wf = true → ∀ (dB dK : Nat),
    0 < dB + dK →
    lex_run false false dB dK (render_more_members ms) = some (false, false, dB, dK)
  | .nil, _, dB, dK, _ => by simp [render_more_members, lex_run]
  | .cons k v rest, h, dB, dK, hd => by
    simp only [JMembers.wf, Bool.and_eq_true] at h
    simp only [render_more_members]
    rw [lex_run_comma dB dK hd,
      lex_run_append _ _ _ _ _ _ _ (lex_run_quoted dB dK k h.1.1)]
    simp only [lex_run_colon]
    rw [lex_run_append _ _ _ _ _ _ _ (lex_run_value v h.1.2 dB dK)]
    exact lex_run_more_members rest h.2 dB dK hd
theorem lex_run_elems : ∀ (es : JElems), es.wf = true → ∀ (dB dK : Nat), 0 < dB + dK →
    lex_run false false dB dK (render_elems es) = some (false, false, dB, dK)
  | .nil, _, dB, dK, _ => by simp [render_elems, lex_run]
  | .cons v rest, h, dB, dK, hd => by
    simp only [JElems.wf, Bool.and_eq_true] at h
    simp only [render_elems]
    rw [lex_run_append _ _ _ _ _ _ _ (lex_run_value v h.1 dB dK)]
    exact lex_run_more_elems rest h.2 dB dK hd
theorem lex_run_more_elems : ∀ (es : JElems), es.wf = true → ∀ (dB dK : Nat), 0 < dB + dK →
    lex_run false false dB dK (render_more_elems es) = some (false, false, dB, dK)
  | .nil, _, dB, dK, _ => by simp [render_more_elems, lex_run]
  | .cons v rest, h, dB, dK, hd => by
    simp only [JElems.wf, Bool.and_eq_true] at h
    simp only [render_more_elems]
    rw [lex_run_comma dB dK hd,
      lex_run_append _ _ _ _ _ _ _ (lex_run_value v h.1 dB dK)]
    exact lex_run_more_elems rest h.2 dB dK hd
end

/-! ### Members at the top level of a view -/

theorem render_members_cons (k : Text) (v : JValue) (rest : JMembers) :
    render_members (.cons k v rest) = (quoted k ++ ':' :: render v) ++ render_more_members rest := by
  simp [render_members]

theorem render_more_members_cons (k : Text) (v : JValue) (rest : JMembers) :
    render_more_members (.cons k v rest)
      = ',' :: ((quoted k ++ ':' :: render v) ++ render_more_members rest) := by
  simp [render_more_members]

theorem render_elems_cons (v : JValue) (rest : JElems) :
    render_elems (.cons v rest) = render v ++ render_more_elems rest := by
  simp [render_elems]

theorem render_more_elems_cons (v : JValue) (rest : JElems) :
    render_more_elems (.cons v rest) = ',' :: (render v ++ render_more_elems rest) := by
  simp [render_more_elems]

/-- One member `"key":value` is passed by the lexer without effect, at any depth. -/
theorem lex_run_member (k : Text) (v : JValue) (hk : str_ok k = true) (hv : v.wf = true)
    (dB dK : Nat) :
    lex_run false false dB dK (quoted k ++ ':' :: render v) = some (false, false, dB, dK) := by
  rw [lex_run_append _ _ _ _ _ _ _ (lex_run_quoted dB dK k hk)]
  simp only [lex_run_colon]
  exact lex_run_value v hv dB dK

theorem count_scan_comma (fuel count : Nat) (esc : Bool) (cs : Text) :
    count_scan (fuel + 1) esc false 0 0 count (',' :: cs)
      = count_scan fuel false false 0 0 (count + 1) cs := by
  rw [count_scan_step]
  simp [lex_step, NUL]

theorem count_scan_more_members (tail : Text) (f : Nat) : ∀ (ms : JMembers), ms.wf = true →
    ∀ count : Nat,
    count_scan ((render_more_members ms).length + f) false false 0 0 count
      (render_more_members ms ++ tail) = count_scan f false false 0 0 (count + ms.length) tail
  | .nil, _, count => by simp [render_more_members, JMembers.length]
  | .cons k v rest, h, count => by
    simp only [JMembers.wf, Bool.and_eq_true] at h
    rw [render_more_members_cons]
    have e : (',' :: ((quoted k ++ ':' :: render v) ++ render_more_members rest)).length + f
        = ((quoted k ++ ':' :: render v).length + ((render_more_members rest).length + f)) + 1 := by
      simp only [List.length_cons, List.length_append]; omega
    rw [e, List.cons_append, count_scan_comma, List.append_assoc,
      count_scan_skip _ _ _ _ _ _ _ _ _ (lex_run_member k v h.1.1 h.1.2 0 0)]
    simp only
    rw [count_scan_more_members tail f rest h.2]
    simp only [JMembers.length]
    congr 1
    omega

theorem count_scan_members (tail : Text) (f : Nat) (k : Text) (v : JValue) (rest : JMembers)
    (h : (JMembers.cons k v rest).wf = true) :
    count_scan ((render_members (.cons k v rest)).length + f) false false 0 0 1
      (render_members (.cons k v rest) ++ tail)
      = count_scan f false false 0 0 (JMembers.cons k v rest).length tail := by
  simp only [JMembers.wf, Bool.and_eq_true] at h
  rw [render_members_cons]
  have e : ((quoted k ++ ':' :: render v) ++ render_more_members rest).length + f
      = (quoted k ++ ':' :: render v).length + ((render_more_members rest).length + f) := by
    simp only [List.length_append]; omega
  rw [e, List.append_assoc,
    count_scan_skip _ _ _ _ _ _ _ _ _ (lex_run_member k v h.1.1 h.1.2 0 0)]
  simp only
  rw [count_scan_more_members tail f rest h.2]
  simp only [JMembers.length]
  congr 1
  omega

theorem render_obj_length (ms : JMembers) :
    (render (.obj ms)).length = (render_members ms).length + 2 := by
  simp [render]

theorem usize_sub (a : Nat) (h : a + 1 < 2 ^ 64) : (a + 1 + 2 ^ 64 - 1) % 2 ^ 64 = a := by
  omega

theorem count_root_view (ms : JMembers) (hwf : ms.wf = true)
    (hlen : (render (.obj ms)).length < 2 ^ 64) : (root_view ms).count = ms.length := by
  have hl := render_obj_length ms
  simp only [JSON.count, root_view, hl, Nat.add_sub_cancel]
  rw [show (render_members ms).length + 2 - 1 = (render_members ms).length + 1 by omega]
  rw [usize_sub _ (by omega)]
  cases ms with
  | nil => simp [render_members, JMembers.length]
  | cons k v rest =>
    have hpos : ¬ (render_members (.cons k v rest)).length ≤ 1 := by
      simp [render_members, quoted]
    rw [if_neg hpos, count_loop_eq_scan]
    have hd : (render (.obj (.cons k v rest))).drop 1 = render_members (.cons k v rest) ++ ['}'] := by
      simp [render]
    have he : esc_at (render (.obj (.cons k v rest))) 1 = false := by
      simp [esc_at, render, char_at]
    rw [hd, he]
    have := count_scan_members ['}'] 0 k v rest hwf
    simp only [Nat.add_zero] at this
    rw [Nat.add_sub_cancel, this]
    simp [count_scan]

/-! ### The key scanner -/

theorem key_scan_step (key : Text) (fuel i : Nat) (esc inQ : Bool) (dB dK : Nat) (c : Char)
    (cs : Text) :
    key_scan key (fuel + 1) i esc inQ dB dK (c :: cs) =
      if c = NUL then USIZE_MAX
      else match key_step esc inQ dB dK c
          (key.isPrefixOf cs && ['"', ':'].isPrefixOf (cs.drop key.length)) with
        | .leave => USIZE_MAX
        | .found => i + key.length + 3
        | .next q x y => key_scan key fuel (i + 1) (decide (c = '\\')) q x y cs := by
  rw [key_scan]
  simp only [key_step]
  by_cases hc : c = NUL
  · simp [hc]
  simp only [hc, if_false]
  have hbr : (if c = '}' then
        if dB > 0 then key_scan key fuel (i + 1) (decide (c = '\\')) inQ (dB - 1) dK cs
        else USIZE_MAX
      else if c = ']' then
        if dK > 0 then key_scan key fuel (i + 1) (decide (c = '\\')) inQ dB (dK - 1) cs
        else USIZE_MAX
      else if c = '{' then key_scan key fuel (i + 1) (decide (c = '\\')) inQ (dB + 1) dK cs
      else if c = '[' then key_scan key fuel (i + 1) (decide (c = '\\')) inQ dB (dK + 1) cs
      else key_scan key fuel (i + 1) (decide (c = '\\')) inQ dB dK cs)
      = (match (if c = '}' then
            if dB > 0 then KeyStep.next inQ (dB - 1) dK else KeyStep.leave
          else if c = ']' then
            if dK > 0 then KeyStep.next inQ dB (dK - 1) else KeyStep.leave
          else if c = '{' then KeyStep.next inQ (dB + 1) dK
          else if c = '[' then KeyStep.next inQ dB (dK + 1)
          else KeyStep.next inQ dB dK) with
        | .leave => USIZE_MAX
        | .found => i + key.length + 3
        | .next q x y => key_scan key fuel (i + 1) (decide (c = '\\')) q x y cs) := by
    by_cases h1 : c = '}'
    · by_cases d : dB > 0 <;> simp [h1, d]
    by_cases h2 : c = ']'
    · by_cases d : dK > 0 <;> simp [h2, d]
    by_cases h3 : c = '{'
    · simp [h3]
    by_cases h4 : c = '['
    · simp [h4]
    simp [h1, h2, h3, h4]
  rw [hbr]
  by_cases hd : dB = 0 ∧ dK = 0
  · simp only [hd, and_self, if_true]
    by_cases hq : c = '"' ∧ esc = false
    · simp only [hq, and_self, if_true]
      cases inQ
      · by_cases hm : (key.isPrefixOf cs && ['"', ':'].isPrefixOf (List.drop key.length cs)) = true
        · have hm' := hm
          simp only [Bool.and_eq_true] at hm'
          simp only [hm, hm', and_self, if_true, Bool.false_eq_true, if_false, Bool.and_self]
        · have hm' := hm
          simp only [Bool.and_eq_true] at hm'
          simp only [hm, hm', if_false, Bool.false_eq_true]
      · simp only [if_true]
    · simp only [hq, if_false]
      cases inQ
      · simp
      · simp
  · simp only [hd, if_false]

theorem key_scan_raw_skip (key rest : Text) (fuel : Nat) :
    ∀ (seg : Text) (i : Nat) (esc : Bool) (dB dK : Nat) (r : Bool × Nat × Nat),
    raw_run esc dB dK seg = some r →
    key_scan key (seg.length + fuel) i esc false dB dK (seg ++ rest)
      = key_scan key fuel (i + seg.length) r.1 false r.2.1 r.2.2 rest
  | [], i, esc, dB, dK, r, h => by
    simp only [raw_run, Option.some.injEq] at h
    subst h
    simp
  | c :: seg, i, esc, dB, dK, r, h => by
    have e : (c :: seg).length + fuel = (seg.length + fuel) + 1 := by
      simp only [List.length_cons]; omega
    have e2 : i + (c :: seg).length = i + 1 + seg.length := by
      simp only [List.length_cons]; omega
    rw [e, e2, List.cons_append, key_scan_step]
    simp only [raw_run] at h
    by_cases hc : c = NUL
    · simp [hc] at h
    simp only [hc, if_false] at h ⊢
    by_cases hq : dB = 0 ∧ dK = 0 ∧ c = '"'
    · simp [hq] at h
    simp only [hq, if_false] at h
    have hq' : ¬ (c = '"' ∧ esc = false) ∨ ¬ (dB = 0 ∧ dK = 0) := by
      by_cases hd : dB = 0 ∧ dK = 0
      · left
        rintro ⟨c', _⟩
        exact hq ⟨hd.1, hd.2, c'⟩
      · right; exact hd
    have hks : ∀ hit, key_step esc false dB dK c hit =
        (if c = '}' then
          if dB > 0 then .next false (dB - 1) dK else .leave
        else if c = ']' then
          if dK > 0 then .next false dB (dK - 1) else .leave
        else if c = '{' then .next false (dB + 1) dK
        else if c = '[' then .next false dB (dK + 1)
        else .next false dB dK) := by
      intro hit
      simp only [key_step]
      rcases hq' with h' | h'
      · simp [h']
      · simp [h']
    rw [hks]
    by_cases h1 : c = '}'
    · by_cases d : dB > 0
      · simp only [h1, d, if_true] at h ⊢
        exact key_scan_raw_skip key rest fuel seg _ _ _ _ r h
      · simp [h1, d] at h
    simp only [h1, if_false] at h ⊢
    by_cases h2 : c = ']'
    · by_cases d : dK > 0
      · simp only [h2, d, if_true] at h ⊢
        exact key_scan_raw_skip key rest fuel seg _ _ _ _ r h
      · simp [h2, d] at h
    simp only [h2, if_false] at h ⊢
    by_cases h3 : c = '{'
    · simp only [h3, if_true] at h ⊢
      exact key_scan_raw_skip key rest fuel seg _ _ _ _ r h
    simp only [h3, if_false] at h ⊢
    by_cases h4 : c = '['
    · simp only [h4, if_true] at h ⊢
      exact key_scan_raw_skip key rest fuel seg _ _ _ _ r h
    simp only [h4, if_false] at h ⊢
    exact key_scan_raw_skip key rest fuel seg _ _ _ _ r h

theorem key_step_in_string (esc : Bool) (c : Char) (hit : Bool) (h : c ≠ '"' ∨ esc = true) :
    key_step esc true 0 0 c hit = .next true 0 0 := by
  have : ¬ (c = '"' ∧ esc = false) := by
    rintro ⟨h1, h2⟩
    rcases h with h | h
    · exact h h1
    · simp [h2] at h
  simp [key_step, this]

theorem key_scan_in_string_cons (key : Text) (fuel i : Nat) (esc : Bool) (c : Char) (cs : Text)
    (h : c ≠ '"' ∨ esc = true) (hn : c ≠ NUL) :
    key_scan key (fuel + 1) i esc true 0 0 (c :: cs)
      = key_scan key fuel (i + 1) (decide (c = '\\')) true 0 0 cs := by
  rw [key_scan_step, if_neg hn, key_step_in_string esc c _ h]

theorem key_scan_close_quote (key : Text) (fuel i : Nat) (cs : Text) :
    key_scan key (fuel + 1) i false true 0 0 ('"' :: cs)
      = key_scan key fuel (i + 1) false false 0 0 cs := by
  rw [key_scan_step]
  simp [key_step, NUL]

/-- Inside a string at depth 0 the key scanner runs to the closing quote. -/
theorem key_scan_string_body (key rest : Text) (fuel : Nat) : ∀ (s : Text) (i : Nat),
    str_ok s = true →
    key_scan key ((escape s).length + 1 + fuel) i false true 0 0 (escape s ++ '"' :: rest)
      = key_scan key fuel (i + (escape s).length + 1) false false 0 0 rest
  | [], i, _ => by
    simp only [escape, List.length_nil, List.nil_append, Nat.zero_add, Nat.add_zero]
    rw [Nat.add_comm 1 fuel, key_scan_close_quote]
  | c :: s, i, h => by
    simp only [str_ok, List.all_cons, Bool.and_eq_true, decide_eq_true_eq] at h
    obtain ⟨⟨hb, hn⟩, hs⟩ := h
    have ih := fun j => key_scan_string_body key rest fuel s j hs
    simp only [escape, escape_char]
    split_ifs with h1 h2 h3
    · simp only [List.cons_append, List.nil_append, List.length_cons]
      rw [show (escape s).length + 1 + 1 + 1 + fuel = ((escape s).length + 1 + fuel) + 1 + 1 by omega,
        key_scan_in_string_cons _ _ _ _ _ _ (Or.inl (by decide)) (by decide),
        key_scan_in_string_cons _ _ _ _ _ _ (Or.inr (by decide)) (by decide)]
      simp only [show decide ('"' = '\\') = false by decide]
      rw [ih]
      congr 1
      omega
    · simp only [List.cons_append, List.nil_append, List.length_cons]
      rw [show (escape s).length + 1 + 1 + 1 + fuel = ((escape s).length + 1 + fuel) + 1 + 1 by omega,
        key_scan_in_string_cons _ _ _ _ _ _ (Or.inl (by decide)) (by decide),
        key_scan_in_string_cons _ _ _ _ _ _ (Or.inl (by decide)) (by decide)]
      simp only [show decide ('n' = '\\') = false by decide]
      rw [ih]
      congr 1
      omega
    · simp only [List.cons_append, List.nil_append, List.length_cons]
      rw [show (escape s).length + 1 + 1 + 1 + fuel = ((escape s).length + 1 + fuel) + 1 + 1 by omega,
        key_scan_in_string_cons _ _ _ _ _ _ (Or.inl (by decide)) (by decide),
        key_scan_in_string_cons _ _ _ _ _ _ (Or.inl (by decide)) (by decide)]
      simp only [show decide ('t' = '\\') = false by decide]
      rw [ih]
      congr 1
      omega
    · simp only [List.cons_append, List.nil_append, List.length_cons]
      rw [show (escape s).length + 1 + 1 + fuel = ((escape s).length + 1 + fuel) + 1 by omega,
        key_scan_in_string_cons _ _ _ _ _ _ (Or.inl h1) hn]
      simp only [hb, decide_False]
      rw [ih]
      congr 1
      omega

theorem quoted_length (s : Text) : (quoted s).length = (escape s).length + 2 := by
  simp [quoted]

/-- A string at depth 0 at which the key does not match is passed by the key scanner. -/
theorem key_scan_quoted_skip (key rest : Text) (fuel i : Nat) (s : Text) (hs : str_ok s = true)
    (hm : (key.isPrefixOf (escape s ++ '"' :: rest) &&
      ['"', ':'].isPrefixOf ((escape s ++ '"' :: rest).drop key.length)) = false) :
    key_scan key ((quoted s).length + fuel) i false false 0 0 (quoted s ++ rest)
      = key_scan key fuel (i + (quoted s).length) false false 0 0 rest := by
  rw [quoted_length]
  simp only [quoted, List.cons_append, List.append_assoc, List.singleton_append]
  rw [show (escape s).length + 2 + fuel = ((escape s).length + 1 + fuel) + 1 by omega,
    key_scan_step]
  simp only [List.nil_append, hm]
  simp only [key_step, NUL]
  simp only [show ¬ ('"' = Char.ofNat 0) by decide, if_false, and_self, if_true,
    Bool.false_eq_true, show decide ('"' = '\\') = false by decide]
  rw [key_scan_string_body key rest fuel s (i + 1) hs]
  congr 1
  omega

/-- The key that matches at a quote: the scanner returns the offset after the colon. -/
theorem key_scan_hit (key rest : Text) (fuel i : Nat) :
    key_scan key (fuel + 1) i false false 0 0 ('"' :: (key ++ '"' :: ':' :: rest))
      = i + key.length + 3 := by
  rw [key_scan_step]
  have h1 : key.isPrefixOf (key ++ '"' :: ':' :: rest) = true := by
    simp
  have h2 : ['"', ':'].isPrefixOf ((key ++ '"' :: ':' :: rest).drop key.length) = true := by
    simp
  simp only [h1, h2, Bool.and_self]
  simp [key_step, NUL]

/-! ### Where a key can match -/

theorem escape_char_cases (c : Char) (hb : c ≠ '\\') :
    (∃ e, escape_char c = ['\\', e]) ∨ (escape_char c = [c] ∧ c ≠ '"' ∧ c ≠ '\\') := by
  simp only [escape_char]
  split_ifs with h1 h2 h3
  · exact Or.inl ⟨_, rfl⟩
  · exact Or.inl ⟨_, rfl⟩
  · exact Or.inl ⟨_, rfl⟩
  · exact Or.inr ⟨rfl, h1, hb⟩

theorem key_text_ok_cons (c : Char) (cs : Text) (hb : c ≠ '\\') :
    key_text_ok (c :: cs) = (decide (c ≠ '"') && key_text_ok cs) := by
  cases cs with
  | nil => simp [key_text_ok, hb]
  | cons d cs => simp [key_text_ok, hb]

theorem key_text_ok_escaped (d : Char) (cs : Text) :
    key_text_ok ('\\' :: d :: cs) = key_text_ok cs := by
  simp [key_text_ok]

theorem key_text_ok_quote (cs : Text) : key_text_ok ('"' :: cs) = false := by
  rw [key_text_ok_cons _ _ (by decide)]
  simp

theorem key_text_ok_backslash : key_text_ok ['\\'] = false := by
  simp [key_text_ok]

/-- A key that matches at the opening quote of a string is the whole text of the string, and
the string is followed by a colon. -/
theorem match_in_string (rest : Text) : ∀ (s key : Text), str_ok s = true →
    key_text_ok key = true →
    key.isPrefixOf (escape s ++ '"' :: rest) = true →
    ['"', ':'].isPrefixOf ((escape s ++ '"' :: rest).drop key.length) = true →
    key = escape s ∧ rest.head? = some ':'
  | [], key, _, hk, hp, hd => by
    simp only [escape, List.nil_append] at hp hd ⊢
    cases key with
    | nil =>
      cases rest with
      | nil => simp at hd
      | cons r rest =>
        simp only [List.length_nil, List.drop_zero, List.isPrefixOf, Bool.and_eq_true,
          beq_iff_eq] at hd
        simp [← hd.2.1]
    | cons k ks =>
      simp only [List.isPrefixOf, Bool.and_eq_true, beq_iff_eq] at hp
      obtain ⟨rfl, _⟩ := hp
      rw [key_text_ok_quote] at hk
      exact absurd hk (by decide)
  | c :: s, key, h, hk, hp, hd => by
    simp only [str_ok, List.all_cons, Bool.and_eq_true, decide_eq_true_eq] at h
    obtain ⟨⟨hb, hn⟩, hs⟩ := h
    have ih := fun key => match_in_string rest s key hs
    simp only [escape] at hp hd ⊢
    rcases escape_char_cases c hb with ⟨e, he⟩ | ⟨he, hq, _⟩
    · rw [he] at hp hd ⊢
      simp only [List.cons_append, List.nil_append] at hp hd ⊢
      cases key with
      | nil => simp at hd
      | cons k ks =>
        simp only [List.isPrefixOf, Bool.and_eq_true, beq_iff_eq] at hp
        obtain ⟨rfl, hp⟩ := hp
        cases ks with
        | nil =>
          rw [key_text_ok_backslash] at hk
          exact absurd hk (by decide)
        | cons k2 ks =>
          simp only [List.isPrefixOf, Bool.and_eq_true, beq_iff_eq] at hp
          obtain ⟨rfl, hp⟩ := hp
          rw [key_text_ok_escaped] at hk
          simp only [List.length_cons, List.drop_succ_cons] at hd
          obtain ⟨h1, h2⟩ := ih ks hk hp hd
          exact ⟨by rw [h1], h2⟩
    · rw [he] at hp hd ⊢
      simp only [List.cons_append, List.nil_append] at hp hd ⊢
      cases key with
      | nil =>
        simp only [List.length_nil, List.drop_zero, List.isPrefixOf, Bool.and_eq_true,
          beq_iff_eq] at hd
        exact absurd hd.1.symm hq
      | cons k ks =>
        simp only [List.isPrefixOf, Bool.and_eq_true, beq_iff_eq] at hp
        obtain ⟨rfl, hp⟩ := hp
        rw [key_text_ok_cons _ _ hb] at hk
        simp only [Bool.and_eq_true] at hk
        simp only [List.length_cons, List.drop_succ_cons] at hd
        obtain ⟨h1, h2⟩ := ih ks hk.2 hp hd
        exact ⟨by rw [h1], h2⟩

theorem key_text_ok_of_plain : ∀ key : Text, '"' ∉ key → '\\' ∉ key → key_text_ok key = true
  | [], _, _ => rfl
  | c :: cs, h1, h2 => by
    simp only [List.mem_cons, not_or] at h1 h2
    have hb : ¬ c = '\\' := fun h => h2.1 h.symm
    have hq : c ≠ '"' := fun h => h1.1 h.symm
    rw [key_text_ok_cons _ _ hb, key_text_ok_of_plain cs h1.2 h2.2]
    simp [hq]

theorem key_text_ok_escape : ∀ s : Text, str_ok s = true → key_text_ok (escape s) = true
  | [], _ => rfl
  | c :: s, h => by
    simp only [str_ok, List.all_cons, Bool.and_eq_true, decide_eq_true_eq] at h
    obtain ⟨⟨hb, hn⟩, hs⟩ := h
    simp only [escape]
    rcases escape_char_cases c hb with ⟨e, he⟩ | ⟨he, hq, _⟩
    · rw [he]
      simp only [List.cons_append, List.nil_append]
      rw [key_text_ok_escaped]
      exact key_text_ok_escape s hs
    · rw [he]
      simp only [List.cons_append, List.nil_append]
      rw [key_text_ok_cons _ _ hb, key_text_ok_escape s hs]
      simp [hq]

/-- The key does not match at a string whose text differs from it, or that no colon follows. -/
theorem no_match (rest s key : Text) (hs : str_ok s = true) (hk : key_text_ok key = true)
    (h : key ≠ escape s ∨ rest.head? ≠ some ':') :
    (key.isPrefixOf (escape s ++ '"' :: rest) &&
      ['"', ':'].isPrefixOf ((escape s ++ '"' :: rest).drop key.length)) = false := by
  by_contra hc
  simp only [Bool.not_eq_false, Bool.and_eq_true] at hc
  obtain ⟨h1, h2⟩ := match_in_string rest s key hs hk hc.1 hc.2
  rcases h with h | h
  · exact h h1
  · exact h h2

/-! ### Text the key scanner passes without handling a quote -/

theorem raw_run_append (b : Text) : ∀ (a : Text) (esc : Bool) (dB dK : Nat)
    (r : Bool × Nat × Nat), raw_run esc dB dK a = some r →
    raw_run esc dB dK (a ++ b) = raw_run r.1 r.2.1 r.2.2 b
  | [], esc, dB, dK, r, h => by
    simp only [raw_run, Option.some.injEq] at h
    subst h
    rfl
  | c :: a, esc, dB, dK, r, h => by
    simp only [raw_run, List.cons_append] at h ⊢
    by_cases hc : c = NUL
    · simp [hc] at h
    simp only [hc, if_false] at h ⊢
    by_cases hq : dB = 0 ∧ dK = 0 ∧ c = '"'
    · simp [hq] at h
    simp only [hq, if_false] at h ⊢
    by_cases h1 : c = '}'
    · by_cases d : dB > 0
      · simp only [h1, d, if_true] at h ⊢
        exact raw_run_append b a _ _ _ r h
      · simp [h1, d] at h
    simp only [h1, if_false] at h ⊢
    by_cases h2 : c = ']'
    · by_cases d : dK > 0
      · simp only [h2, d, if_true] at h ⊢
        exact raw_run_append b a _ _ _ r h
      · simp [h2, d] at h
    simp only [h2, if_false] at h ⊢
    by_cases h3 : c = '{'
    · simp only [h3, if_true] at h ⊢
      exact raw_run_append b a _ _ _ r h
    simp only [h3, if_false] at h ⊢
    by_cases h4 : c = '['
    · simp only [h4, if_true] at h ⊢
      exact raw_run_append b a _ _ _ r h
    simp only [h4, if_false] at h ⊢
    exact raw_run_append b a _ _ _ r h

theorem raw_run_single (esc : Bool) (dB dK : Nat) (c : Char) (cs : Text) (h0 : c ≠ NUL)
    (h1 : c ≠ '{') (h2 : c ≠ '}') (h3 : c ≠ '[') (h4 : c ≠ ']')
    (h5 : c ≠ '"' ∨ 0 < dB + dK) :
    raw_run esc dB dK (c :: cs) = raw_run (decide (c = '\\')) dB dK cs := by
  have : ¬ (dB = 0 ∧ dK = 0 ∧ c = '"') := by
    rintro ⟨a, b, c'⟩
    rcases h5 with h5 | h5
    · exact h5 c'
    · omega
  simp [raw_run, h0, h1, h2, h3, h4, this]

theorem raw_run_open_brace (esc : Bool) (dB dK : Nat) (cs : Text) :
    raw_run esc dB dK ('{' :: cs) = raw_run false (dB + 1) dK cs := by
  simp [raw_run, NUL]

theorem raw_run_open_bracket (esc : Bool) (dB dK : Nat) (cs : Text) :
    raw_run esc dB dK ('[' :: cs) = raw_run false dB (dK + 1) cs := by
  simp [raw_run, NUL]

theorem raw_run_close_brace (esc : Bool) (dB dK : Nat) (cs : Text) :
    raw_run esc (dB + 1) dK ('}' :: cs) = raw_run false dB dK cs := by
  simp [raw_run, NUL]

theorem raw_run_close_bracket (esc : Bool) (dB dK : Nat) (cs : Text) :
    raw_run esc dB (dK + 1) (']' :: cs) = raw_run false dB dK cs := by
  simp [raw_run, NUL]

theorem raw_run_colon (esc : Bool) (dB dK : Nat) (cs : Text) :
    raw_run esc dB dK (':' :: cs) = raw_run false dB dK cs := by
  rw [raw_run_single esc dB dK ':' cs (by decide) (by decide) (by decide) (by decide)
    (by decide) (Or.inl (by decide))]
  rfl

theorem raw_run_comma (esc : Bool) (dB dK : Nat) (cs : Text) :
    raw_run esc dB dK (',' :: cs) = raw_run false dB dK cs := by
  rw [raw_run_single esc dB dK ',' cs (by decide) (by decide) (by decide) (by decide)
    (by decide) (Or.inl (by decide))]
  rfl

theorem raw_run_quote (esc : Bool) (dB dK : Nat) (cs : Text) (h : 0 < dB + dK) :
    raw_run esc dB dK ('"' :: cs) = raw_run false dB dK cs := by
  rw [raw_run_single esc dB dK '"' cs (by decide) (by decide) (by decide) (by decide)
    (by decide) (Or.inr h)]
  rfl

theorem raw_run_lit (dB dK : Nat) : ∀ (t : Text) (esc : Bool), t.all is_lit_char = true →
    raw_run esc dB dK t = some (esc && t.isEmpty, dB, dK)
  | [], esc, _ => by simp [raw_run]
  | c :: t, esc, h => by
    simp only [List.all_cons, Bool.and_eq_true] at h
    obtain ⟨hc, ht⟩ := h
    obtain ⟨h0, h1, h2, h3, h4, h5, h6, _, _, _⟩ := lit_char_ne hc
    rw [raw_run_single esc dB dK c t h0 h3 h4 h5 h6 (Or.inl h1), raw_run_lit dB dK t _ ht]
    simp [h2]

/-- The characters of a string without braces and brackets, above depth 0. -/
theorem raw_run_string_body (dB dK : Nat) (hd : 0 < dB + dK) : ∀ (s : Text) (esc : Bool),
    str_ok s = true → str_plain s = true →
    raw_run esc dB dK (escape s ++ ['"']) = some (false, dB, dK)
  | [], esc, _, _ => by
    simp only [escape, List.nil_append]
    rw [raw_run_quote _ _ _ _ hd]
    rfl
  | c :: s, esc, h, hp => by
    simp only [str_ok, List.all_cons, Bool.and_eq_true, decide_eq_true_eq] at h
    simp only [str_plain, List.all_cons, Bool.and_eq_true, decide_eq_true_eq] at hp
    obtain ⟨⟨hb, hn⟩, hs⟩ := h
    obtain ⟨⟨⟨⟨p1, p2⟩, p3⟩, p4⟩, hps⟩ := hp
    have ih := fun esc => raw_run_string_body dB dK hd s esc hs hps
    simp only [escape, escape_char]
    split_ifs with h1 h2 h3
    · simp only [List.cons_append, List.nil_append]
      rw [raw_run_single _ _ _ '\\' _ (by decide) (by decide) (by decide) (by decide)
        (by decide) (Or.inl (by decide)), raw_run_quote _ _ _ _ hd]
      exact ih _
    · simp only [List.cons_append, List.nil_append]
      rw [raw_run_single _ _ _ '\\' _ (by decide) (by decide) (by decide) (by decide)
        (by decide) (Or.inl (by decide)),
        raw_run_single _ _ _ 'n' _ (by decide) (by decide) (by decide) (by decide)
        (by decide) (Or.inl (by decide))]
      exact ih _
    · simp only [List.cons_append, List.nil_append]
      rw [raw_run_single _ _ _ '\\' _ (by decide) (by decide) (by decide) (by decide)
        (by decide) (Or.inl (by decide)),
        raw_run_single _ _ _ 't' _ (by decide) (by decide) (by decide) (by decide)
        (by decide) (Or.inl (by decide))]
      exact ih _
    · simp only [List.cons_append, List.nil_append]
      rw [raw_run_single _ _ _ c _ hn p1 p2 p3 p4 (Or.inl h1)]
      exact ih _

theorem raw_run_quoted (dB dK : Nat) (hd : 0 < dB + dK) (s : Text) (esc : Bool)
    (h : str_ok s = true) (hp : str_plain s = true) :
    raw_run esc dB dK (quoted s) = some (false, dB, dK) := by
  simp only [quoted]
  rw [raw_run_quote _ _ _ _ hd]
  exact raw_run_string_body dB dK hd s false h hp

mutual
/-- Above depth 0 the key scanner passes a value whose strings hold no brace or bracket. -/
theorem raw_run_value : ∀ (v : JValue), v.wf = true → v.plain = true → ∀ (dB dK : Nat),
    0 < dB + dK → raw_run false dB dK (render v) = some (false, dB, dK)
  | .str s, h, hp, dB, dK, hd => by
    simp only [JValue.wf] at h
    simp only [JValue.plain] at hp
    simpa only [render] using raw_run_quoted dB dK hd s false h hp
  | .lit t, h, _, dB, dK, _ => by
    simp only [JValue.wf, lit_ok, Bool.and_eq_true, Bool.not_eq_true'] at h
    simp only [render]
    rw [raw_run_lit dB dK t false h.2]
    simp
  | .obj ms, h, hp, dB, dK, _ => by
    simp only [JValue.wf] at h
    simp only [JValue.plain] at hp
    simp only [render]
    rw [raw_run_open_brace,
      raw_run_append _ _ _ _ _ _ (raw_run_members ms h hp (dB + 1) dK (by omega))]
    simp only [raw_run_close_brace]
    rfl
  | .arr es, h, hp, dB, dK, _ => by
    simp only [JValue.wf] at h
    simp only [JValue.plain] at hp
    simp only [render]
    rw [raw_run_open_bracket,
      raw_run_append _ _ _ _ _ _ (raw_run_elems es h hp dB (dK + 1) (by omega))]
    simp only [raw_run_close_bracket]
    rfl
theorem raw_run_members : ∀ (ms : JMembers), ms.wf = true → ms.plain = true →
    ∀ (dB dK : Nat), 0 < dB + dK →
    raw_run false dB dK (render_members ms) = some (false, dB, dK)
  | .nil, _, _, dB, dK, _ => by simp [render_members, raw_run]
  | .cons k v rest, h, hp, dB, dK, hd => by
    simp only [JMembers.wf, Bool.and_eq_true] at h
    simp only [JMembers.plain, Bool.and_eq_true] at hp
    simp only [render_members]
    rw [raw_run_append _ _ _ _ _ _ (raw_run_quoted dB dK hd k false h.1.1 hp.1.1)]
    simp only [raw_run_colon]
    rw [raw_run_append _ _ _ _ _ _ (raw_run_value v h.1.2 hp.1.2 dB dK hd)]
    exact raw_run_more_members rest h.2 hp.2 dB dK hd
theorem raw_run_more_members : ∀ (ms : JMembers), ms.wf = true → ms.plain = true →
    ∀ (dB dK : Nat), 0 < dB + dK →
    raw_run false dB dK (render_more_members ms) = some (false, dB, dK)
  | .nil, _, _, dB, dK, _ => by simp [render_more_members, raw_run]
  | .cons k v rest, h, hp, dB, dK, hd => by
    simp only [JMembers.wf, Bool.and_eq_true] at h
    simp only [JMembers.plain, Bool.and_eq_true] at hp
    simp only [render_more_members]
    rw [raw_run_comma,
      raw_run_append _ _ _ _ _ _ (raw_run_quoted dB dK hd k false h.1.1 hp.1.1)]
    simp only [raw_run_colon]
    rw [raw_run_append _ _ _ _ _ _ (raw_run_value v h.1.2 hp.1.2 dB dK hd)]
    exact raw_run_more_members rest h.2 hp.2 dB dK hd
theorem raw_run_elems : ∀ (es : JElems), es.wf = true → es.plain = true →
    ∀ (dB dK : Nat), 0 < dB + dK →
    raw_run false dB dK (render_elems es) = some (false, dB, dK)
  | .nil, _, _, dB, dK, _ => by simp [render_elems, raw_run]
  | .cons v rest, h, hp, dB, dK, hd => by
    simp only [JElems.wf, Bool.and_eq_true] at h
    simp only [JElems.plain, Bool.and_eq_true] at hp
    simp only [render_elems]
    rw [raw_run_append _ _ _ _ _ _ (raw_run_value v h.1 hp.1 dB dK hd)]
    exact raw_run_more_elems rest h.2 hp.2 dB dK hd
theorem raw_run_more_elems : ∀ (es : JElems), es.wf = true → es.plain = true →
    ∀ (dB dK : Nat), 0 < dB + dK →
    raw_run false dB dK (render_more_elems es) = some (false, dB, dK)
  | .nil, _, _, dB, dK, _ => by simp [render_more_elems, raw_run]
  | .cons v rest, h, hp, dB, dK, hd => by
    simp only [JElems.wf, Bool.and_eq_true] at h
    simp only [JElems.plain, Bool.and_eq_true] at hp
    simp only [render_more_elems]
    rw [raw_run_comma,
      raw_run_append _ _ _ _ _ _ (raw_run_value v h.1 hp.1 dB dK hd)]
    exact raw_run_more_elems rest h.2 hp.2 dB dK hd
end

/-! ### The key scanner over the members of the scanned object -/

theorem render_length_pos : ∀ v : JValue, v.wf = true → 0 < (render v).length
  | .str s, _ => by simp [render, quoted]
  | .lit t, h => by
    simp only [JValue.wf, lit_ok, Bool.and_eq_true, Bool.not_eq_true', List.isEmpty_eq_false] at h
    simp only [render]
    exact List.length_pos.mpr h.1
  | .obj ms, _ => by simp [render]
  | .arr es, _ => by simp [render]

/-- A member value at depth 0 is passed by the key scanner. -/
theorem key_scan_value_skip (key next : Text) (fuel i : Nat) (v : JValue) (hwf : v.wf = true)
    (hnp : v.nested_plain = true) (hk : key_text_ok key = true)
    (hnext : next.head? ≠ some ':') :
    key_scan key ((render v).length + fuel) i false false 0 0 (render v ++ next)
      = key_scan key fuel (i + (render v).length) false false 0 0 next := by
  cases v with
  | str s =>
    simp only [JValue.wf] at hwf
    simp only [render]
    exact key_scan_quoted_skip key next fuel i s hwf (no_match next s key hwf hk (Or.inr hnext))
  | lit t =>
    simp only [JValue.wf, lit_ok, Bool.and_eq_true, Bool.not_eq_true'] at hwf
    simp only [render]
    rw [key_scan_raw_skip key next fuel t i false 0 0 _ (raw_run_lit 0 0 t false hwf.2)]
    simp
  | obj ms =>
    simp only [JValue.wf] at hwf
    simp only [JValue.nested_plain] at hnp
    have h : raw_run false 0 0 (render (.obj ms)) = some (false, 0, 0) := by
      simp only [render]
      rw [raw_run_open_brace,
        raw_run_append _ _ _ _ _ _ (raw_run_members ms hwf hnp 1 0 (by omega))]
      simp only [raw_run_close_brace]
      rfl
    rw [key_scan_raw_skip key next fuel _ i false 0 0 _ h]
  | arr es =>
    simp only [JValue.wf] at hwf
    simp only [JValue.nested_plain] at hnp
    have h : raw_run false 0 0 (render (.arr es)) = some (false, 0, 0) := by
      simp only [render]
      rw [raw_run_open_bracket,
        raw_run_append _ _ _ _ _ _ (raw_run_elems es hwf hnp 0 1 (by omega))]
      simp only [raw_run_close_bracket]
      rfl
    rw [key_scan_raw_skip key next fuel _ i false 0 0 _ h]

theorem key_scan_colon (key : Text) (fuel i : Nat) (cs : Text) :
    key_scan key (fuel + 1) i false false 0 0 (':' :: cs)
      = key_scan key fuel (i + 1) false false 0 0 cs := by
  have h : raw_run false 0 0 [':'] = some (false, 0, 0) := by
    rw [raw_run_colon]; rfl
  have := key_scan_raw_skip key cs fuel [':'] i false 0 0 _ h
  simpa [Nat.add_comm] using this

theorem key_scan_comma (key : Text) (fuel i : Nat) (cs : Text) :
    key_scan key (fuel + 1) i false false 0 0 (',' :: cs)
      = key_scan key fuel (i + 1) false false 0 0 cs := by
  have h : raw_run false 0 0 [','] = some (false, 0, 0) := by
    rw [raw_run_comma]; rfl
  have := key_scan_raw_skip key cs fuel [','] i false 0 0 _ h
  simpa [Nat.add_comm] using this

/-- A member whose key text differs from the key is passed by the key scanner. -/
theorem key_scan_member_skip (key next : Text) (fuel i : Nat) (k : Text) (v : JValue)
    (hk0 : str_ok k = true) (hwf : v.wf = true) (hnp : v.nested_plain = true)
    (hk : key_text_ok key = true) (hne : key ≠ escape k) (hnext : next.head? ≠ some ':') :
    key_scan key ((quoted k ++ ':' :: render v).length + fuel) i false false 0 0
        ((quoted k ++ ':' :: render v) ++ next)
      = key_scan key fuel (i + (quoted k ++ ':' :: render v).length) false false 0 0 next := by
  have e : (quoted k ++ ':' :: render v).length + fuel
      = (quoted k).length + (((render v).length + fuel) + 1) := by
    simp only [List.length_append, List.length_cons]; omega
  rw [e, List.append_assoc, List.cons_append,
    key_scan_quoted_skip key _ _ i k hk0 (no_match _ k key hk0 hk (Or.inl hne)),
    key_scan_colon, key_scan_value_skip key next fuel _ v hwf hnp hk hnext]
  congr 1
  simp only [List.length_append, List.length_cons]
  omega

theorem more_members_head (ms : JMembers) (tail : Text) (h : tail.head? ≠ some ':') :
    (render_more_members ms ++ tail).head? ≠ some ':' := by
  cases ms with
  | nil => simpa [render_more_members] using h
  | cons k v rest => simp [render_more_members]

/-- The key scanner passes further members none of which has the key. -/
theorem key_scan_more_members (key tail : Text) (fuel : Nat) (hk : key_text_ok key = true)
    (htail : tail.head? ≠ some ':') : ∀ (ms : JMembers) (i : Nat), ms.wf = true →
    ms.nested_plain = true → key ∉ ms.key_texts →
    key_scan key ((render_more_members ms).length + fuel) i false false 0 0
        (render_more_members ms ++ tail)
      = key_scan key fuel (i + (render_more_members ms).length) false false 0 0 tail
  | .nil, i, _, _, _ => by simp [render_more_members]
  | .cons k v rest, i, h, hnp, hne => by
    simp only [JMembers.wf, Bool.and_eq_true] at h
    simp only [JMembers.nested_plain, Bool.and_eq_true] at hnp
    simp only [JMembers.key_texts, List.mem_cons, not_or] at hne
    rw [render_more_members_cons]
    have e : (',' :: ((quoted k ++ ':' :: render v) ++ render_more_members rest)).length + fuel
        = ((quoted k ++ ':' :: render v).length + ((render_more_members rest).length + fuel)) + 1 := by
      simp only [List.length_cons, List.length_append]; omega
    rw [e, List.cons_append, key_scan_comma, List.append_assoc,
      key_scan_member_skip key _ _ _ k v h.1.1 h.1.2 hnp.1 hk hne.1
        (more_members_head rest tail htail),
      key_scan_more_members key tail fuel hk htail rest _ h.2 hnp.2 hne.2]
    congr 1
    simp only [List.length_cons, List.length_append]
    omega

/-- The key scanner passes members none of which has the key. -/
theorem key_scan_members (key tail : Text) (fuel : Nat) (hk : key_text_ok key = true)
    (htail : tail.head? ≠ some ':') (ms : JMembers) (i : Nat) (h : ms.wf = true)
    (hnp : ms.nested_plain = true) (hne : key ∉ ms.key_texts) :
    key_scan key ((render_members ms).length + fuel) i false false 0 0
        (render_members ms ++ tail)
      = key_scan key fuel (i + (render_members ms).length) false false 0 0 tail := by
  cases ms with
  | nil => simp [render_members]
  | cons k v rest =>
    simp only [JMembers.wf, Bool.and_eq_true] at h
    simp only [JMembers.nested_plain, Bool.and_eq_true] at hnp
    simp only [JMembers.key_texts, List.mem_cons, not_or] at hne
    rw [render_members_cons]
    have e : ((quoted k ++ ':' :: render v) ++ render_more_members rest).length + fuel
        = (quoted k ++ ':' :: render v).length + ((render_more_members rest).length + fuel) := by
      simp only [List.length_append]; omega
    rw [e, List.append_assoc,
      key_scan_member_skip key _ _ _ k v h.1.1 h.1.2 hnp.1 hk hne.1
        (more_members_head rest tail htail),
      key_scan_more_members key tail fuel hk htail rest _ h.2 hnp.2 hne.2]
    congr 1
    simp only [List.length_append]
    omega

theorem root_view_drop (ms : JMembers) :
    (render (.obj ms)).drop 1 = render_members ms ++ ['}'] := by
  simp [render]

theorem root_view_esc (ms : JMembers) : esc_at (render (.obj ms)) 1 = false := by
  simp [esc_at, render, char_at]

/-- On the root view the key scanner finds no key that is not the text of a member key. -/
theorem find_key_absent (ms : JMembers) (key : Text) (hwf : ms.wf = true)
    (hnp : ms.nested_plain = true) (hk : key_text_ok key = true) (hne : key ∉ ms.key_texts) :
    json_find_element_key (render (.obj ms)) key 1 ((render (.obj ms)).length - 1)
      = USIZE_MAX := by
  rw [json_find_element_key, key_loop_eq_scan, root_view_drop, root_view_esc,
    render_obj_length]
  have := key_scan_members key ['}'] 0 hk (by simp) ms 1 hwf hnp hne
  simp only [Nat.add_zero] at this
  rw [show (render_members ms).length + 2 - 1 - 1 = (render_members ms).length by omega, this]
  simp [key_scan]

theorem find_element_key_absent (ms : JMembers) (key : Text) (hwf : ms.wf = true)
    (hnp : ms.nested_plain = true) (hk : key_text_ok key = true) (hne : key ∉ ms.key_texts)
    (hlen : (render (.obj ms)).length < 2 ^ 64) :
    (root_view ms).find_element_key key = { start := 0, end_ := 0 } := by
  simp only [JSON.find_element_key, root_view]
  rw [find_key_absent ms key hwf hnp hk hne]
  have : USIZE_MAX > (render (.obj ms)).length - 1 := by
    simp only [USIZE_MAX]; omega
  simp [this]

/-! ### The stripping pass of the constructor -/

theorem char_at_append_length (p : Text) (c : Char) (suf : Text) :
    char_at (p ++ c :: suf) p.length = c := by
  induction p with
  | nil => simp [char_at]
  | cons a p ih => simpa [char_at] using ih

theorem char_at_before (p : Text) (d c : Char) (suf : Text) :
    char_at ((p ++ [d]) ++ c :: suf) ((p ++ [d]).length - 1) = d := by
  have : (p ++ [d]) ++ c :: suf = p ++ d :: (c :: suf) := by simp
  rw [this]
  simpa using char_at_append_length p d (c :: suf)

theorem remove_at_length (p : Text) (c : Char) (suf : Text) :
    remove (p ++ c :: suf) p.length 1 = p ++ suf := by
  simp [remove, List.take_append_eq_append_take, List.drop_append_eq_append_drop]

theorem prev_test (p : Text) (c : Char) (suf : Text) :
    (p.length + 1 ≤ 1 ∨ char_at (p ++ c :: suf) (p.length - 1) ≠ '\\')
      ↔ p.reverse.head? ≠ some '\\' := by
  induction p using List.reverseRecOn with
  | nil => simp
  | append_singleton p d _ =>
    rw [char_at_before]
    simp

theorem strip_loop_step (p : Text) (c : Char) (suf : Text) (inQ : Bool) :
    strip_loop (p.length + 1) (p ++ c :: suf) inQ =
      if c = '"' ∧ p.reverse.head? ≠ some '\\' then strip_loop p.length (p ++ c :: suf) (!inQ)
      else if !inQ ∧ char_whitespace c then strip_loop p.length (p ++ suf) inQ
      else strip_loop p.length (p ++ c :: suf) inQ := by
  rw [strip_loop, char_at_append_length, remove_at_length]
  simp only [prev_test]

theorem strip_loop_eq_back : ∀ (n : Nat) (p suf : Text) (inQ : Bool), p.length = n →
    strip_loop n (p ++ suf) inQ = strip_back p.reverse inQ suf
  | 0, p, suf, inQ, h => by
    have : p = [] := List.length_eq_zero.mp h
    subst this
    simp [strip_loop, strip_back]
  | n + 1, p, suf, inQ, h => by
    rcases List.eq_nil_or_concat p with rfl | ⟨q, c, rfl⟩
    · simp at h
    · simp only [List.concat_eq_append] at h ⊢
      have hn : q.length = n := by simpa using h
      have i1 := strip_loop_eq_back n q (c :: suf) (!inQ) hn
      have i2 := strip_loop_eq_back n q suf inQ hn
      have i3 := strip_loop_eq_back n q (c :: suf) inQ hn
      subst hn
      have e : (q ++ [c]) ++ suf = q ++ c :: suf := by simp
      rw [e, strip_loop_step, i1, i2, i3]
      simp only [List.reverse_append, List.reverse_cons, List.reverse_nil, List.nil_append,
        List.singleton_append, strip_back]

theorem strip_whitespace_eq_back (s : Text) :
    strip_whitespace s = strip_back s.reverse false [] := by
  have := strip_loop_eq_back s.length s [] false rfl
  simpa [strip_whitespace, length_bytes] using this

theorem decide_succ_odd (m : Nat) : decide ((1 + m) % 2 = 1) = !decide (m % 2 = 1) := by
  rcases Nat.mod_two_eq_zero_or_one m with h | h
  · have : (1 + m) % 2 = 1 := by omega
    simp [h, this]
  · have : (1 + m) % 2 = 0 := by omega
    simp [h, this]

theorem toggle_parity_eq : ∀ (l : Text) (esc : Bool),
    toggle_parity esc l = decide (toggling_quotes esc l % 2 = 1)
  | [], esc => by simp [toggle_parity, toggling_quotes]
  | c :: l, esc => by
    simp only [toggle_parity, toggling_quotes, toggle_parity_eq l]
    by_cases hq : c = '"' ∧ esc = false
    · simp only [if_pos hq, decide_succ_odd, decide_eq_true hq]
      simp
    · simp only [if_neg hq, decide_eq_false hq]
      simp

/-- The backward pass over the text `l` that follows the reversed text `p` keeps what the
forward form keeps, when the forward form starts in the quote state in which the backward
pass ends. -/
theorem strip_back_forward : ∀ (l p : Text) (inQ : Bool) (acc : Text),
    strip_back (l.reverse ++ p) inQ acc
      = strip_back p (xor inQ (toggle_parity (decide (p.head? = some '\\')) l))
          (strip_forward (decide (p.head? = some '\\'))
            (xor inQ (toggle_parity (decide (p.head? = some '\\')) l)) l ++ acc)
  | [], p, inQ, acc => by
    simp [toggle_parity, strip_forward]
  | c :: l, p, inQ, acc => by
    have ih := strip_back_forward l (c :: p) inQ acc
    simp only [List.reverse_cons, List.append_assoc, List.singleton_append]
    rw [ih]
    simp only [List.head?_cons, Option.some.injEq, strip_back, toggle_parity,
      strip_forward]
    generalize toggle_parity (decide (c = '\\')) l = n
    by_cases hq : c = '"' ∧ p.head? ≠ some '\\'
    · have hq' : c = '"' ∧ decide (p.head? = some '\\') = false := by
        simpa using hq
      have hnb : decide (c = '\\') = false := by
        rw [hq.1]; decide
      rw [if_pos hq, if_pos hq', decide_eq_true hq', hnb]
      cases inQ <;> cases n <;> simp
    · have hq' : ¬ (c = '"' ∧ decide (p.head? = some '\\') = false) := by
        simpa using hq
      rw [if_neg hq, if_neg hq', decide_eq_false hq']
      simp only [Bool.false_xor]
      by_cases hw : (!(xor inQ n)) = true ∧ char_whitespace c = true
      · have hw' : xor inQ n = false ∧ char_whitespace c = true := by
          simpa using hw
        rw [if_pos hw, if_pos hw']
      · have hw' : ¬ (xor inQ n = false ∧ char_whitespace c = true) := by
          simpa using hw
        rw [if_neg hw, if_neg hw']
        simp

/-- The stripping pass equals its forward form when the loop toggles its quote state an
even number of times. -/
theorem strip_whitespace_forward (s : Text) (h : toggle_parity false s = false) :
    strip_whitespace s = strip_forward false false s := by
  rw [strip_whitespace_eq_back]
  have := strip_back_forward s [] false []
  simp only [List.append_nil, List.head?_nil] at this
  rw [this]
  simp [strip_back, h]

theorem lex_step_quote_state (esc inQ : Bool) (dB dK : Nat) (c : Char)
    (r : Bool × Nat × Nat × Bool) (h : lex_step esc inQ dB dK c = some r) :
    r.1 = (if c = '"' ∧ esc = false then !inQ else inQ) := by
  obtain ⟨q, x, y, t⟩ := r
  simp only [lex_step] at h
  by_cases hc : c = '"' ∧ esc = false
  · simp only [if_pos hc] at h ⊢
    cases inQ
    · simp only [Bool.not_false, if_true, Option.some.injEq, Prod.mk.injEq] at h
      exact h.1.symm
    · simp only [Bool.not_true, Bool.false_eq_true, if_false] at h
      split_ifs at h <;> simp only [Option.some.injEq, Prod.mk.injEq] at h <;> exact h.1.symm
  · simp only [if_neg hc] at h ⊢
    cases inQ
    · simp only [Bool.false_eq_true, if_false] at h
      split_ifs at h <;> simp only [Option.some.injEq, Prod.mk.injEq] at h <;> exact h.1.symm
    · simp only [if_true, Option.some.injEq, Prod.mk.injEq] at h
      exact h.1.symm

/-- A segment that the lexer passes is kept whole by the forward form of the stripping
loop, and the quotes at which the loop toggles account for the change of the quote state. -/
theorem lex_run_keep (rest : Text) : ∀ (seg : Text) (esc inQ : Bool) (dB dK : Nat)
    (r : Bool × Bool × Nat × Nat), lex_run esc inQ dB dK seg = some r →
    toggle_parity esc (seg ++ rest) = xor (xor inQ r.2.1) (toggle_parity r.1 rest) ∧
      strip_forward esc inQ (seg ++ rest) = seg ++ strip_forward r.1 r.2.1 rest
  | [], esc, inQ, dB, dK, r, h => by
    simp only [lex_run, Option.some.injEq] at h
    subst h
    simp
  | c :: seg, esc, inQ, dB, dK, r, h => by
    simp only [lex_run] at h
    split at h
    · exact absurd h (by simp)
    · split at h
      · exact absurd h (by simp)
      · rename_i q x y top hs
        split at h
        · exact absurd h (by simp)
        · split at h
          · exact absurd h (by simp)
          · rename_i hw
            have hq := lex_step_quote_state esc inQ dB dK c _ hs
            simp only at hq
            rw [List.cons_append]
            simp only [toggle_parity, strip_forward]
            by_cases hc : c = '"' ∧ esc = false
            · have hnb : decide (c = '\\') = false := by
                rw [hc.1]; decide
              rw [if_pos hc] at hq
              rw [hq, hnb] at h
              obtain ⟨ih1, ih2⟩ := lex_run_keep rest seg _ _ _ _ r h
              rw [if_pos hc, decide_eq_true hc, ih2, hnb, ih1]
              constructor
              · cases inQ <;> cases r.2.1 <;> cases toggle_parity r.1 rest <;> rfl
              · rfl
            · rw [if_neg hc] at hq
              rw [hq] at h hw
              obtain ⟨ih1, ih2⟩ := lex_run_keep rest seg _ _ _ _ r h
              have hw' : ¬ (inQ = false ∧ char_whitespace c = true) := hw
              rw [if_neg hc, if_neg hw', decide_eq_false hc, ih2, ih1]
              constructor
              · cases inQ <;> cases r.2.1 <;> cases toggle_parity r.1 rest <;> rfl
              · rfl

theorem strip_whitespace_render (v : JValue) (h : v.wf = true) :
    strip_whitespace (render v) = render v := by
  have := lex_run_keep [] (render v) false false 0 0 _ (lex_run_value v h 0 0)
  simp only [List.append_nil, toggle_parity, strip_forward] at this
  rw [strip_whitespace_forward _ (by simpa using this.1)]
  exact this.2

theorem render_obj_last (ms : JMembers) :
    char_at (render (.obj ms)) ((render_members ms).length + 1) = '}' := by
  have : render (.obj ms) = ('{' :: render_members ms) ++ '}' :: [] := by simp [render]
  rw [this]
  simpa using char_at_append_length ('{' :: render_members ms) '}' []

/-- The constructor accepts the text of an object and returns its root view. -/
theorem construct_render (ms : JMembers) (h : ms.wf = true)
    (hlen : (render (.obj ms)).length < 2 ^ 64) :
    JSON.construct (render (.obj ms)) = .ok (root_view ms) := by
  have hs : strip_whitespace (render (.obj ms)) = render (.obj ms) :=
    strip_whitespace_render (.obj ms) (by simpa [JValue.wf] using h)
  have hl := render_obj_length ms
  simp only [JSON.construct, hs, length_bytes, root_view]
  have h0 : char_at (render (.obj ms)) 0 = '{' := by simp [render, char_at]
  have he : ((render (.obj ms)).length + 2 ^ 64 - 1) % 2 ^ 64 = (render_members ms).length + 1 := by
    omega
  rw [he]
  simp only [h0, render_obj_last, ne_eq, not_true_eq_false, if_false]
  rw [hl]
  rfl

/-! ### Views of length zero -/

theorem find_element_key_zero (buffer key : Text) :
    JSON.find_element_key { string := buffer, start := 0, end_ := 0 } key
      = { start := 0, end_ := 0 } := by
  simp [JSON.find_element_key, json_find_element_key, json_find_element_key_loop, USIZE_MAX]

theorem find_element_index_zero (buffer : Text) (index : Nat) :
    JSON.find_element_index { string := buffer, start := 0, end_ := 0 } index
      = { start := 0, end_ := 0 } := by
  simp only [JSON.find_element_index, json_find_element_index, json_find_element_index_loop,
    json_find_element_delimiter, json_find_element_delimiter_loop, USIZE_MAX]
  by_cases h : 0 = index
  · simp [h]
  · simp [h]

theorem not_found_zero : JSONElement.found { start := 0, end_ := 0 } = false := rfl

/-! ### Scope navigation -/

theorem scope_of_spec (j : JSON) (e : JSONElement) (o c : Char) :
    (e.found = true ∧ char_at j.string e.start = o ∧ char_at j.string (e.end_ - 1) = c →
        j.scope_of e o c = { string := j.string, start := e.start + 1, end_ := e.end_ - 1 }) ∧
      (¬ (e.found = true ∧ char_at j.string e.start = o ∧ char_at j.string (e.end_ - 1) = c) →
        j.scope_of e o c = { string := j.string, start := 0, end_ := 0 }) := by
  constructor
  · rintro ⟨h1, h2, h3⟩
    simp [JSON.scope_of, h1, h2, h3]
  · intro h
    simp only [JSON.scope_of]
    by_cases h1 : e.found = true
    · by_cases h2 : char_at j.string e.start = o
      · have h3 : char_at j.string (e.end_ - 1) ≠ c := fun h3 => h ⟨h1, h2, h3⟩
        simp [h1, h2, h3]
      · simp [h1, h2]
    · simp [h1]

/-! ### Undoing the escapes -/

/-- The text of a string with a subset of the three escapes applied. -/
theorem replace_go_skip_one (pat rep : Text) (c : Char) (cs : Text) :
    replace_go pat rep 1 (c :: cs) = replace_go pat rep 0 cs := rfl

theorem replace_two_hit (a b : Char) (rep cs : Text) :
    replace_go [a, b] rep 0 (a :: b :: cs) = rep ++ replace_go [a, b] rep 0 cs := by
  simp [replace_go]

theorem replace_two_miss (a b c : Char) (rep cs : Text)
    (h : ¬ (c = a ∧ cs.head? = some b)) :
    replace_go [a, b] rep 0 (c :: cs) = c :: replace_go [a, b] rep 0 cs := by
  have : ¬ ([a, b].isPrefixOf (c :: cs) = true) := by
    cases cs with
    | nil => simp [List.isPrefixOf]
    | cons d cs =>
      simp only [List.isPrefixOf, Bool.and_true, Bool.and_eq_true, beq_iff_eq]
      rintro ⟨h1, h2⟩
      exact h ⟨h1.symm, by simp [h2]⟩
  simp [replace_go, this]

theorem escape_char_plain (c : Char) (h1 : c ≠ '"') (h2 : c ≠ '\n') (h3 : c ≠ '\t') :
    escape_char c = [c] ∧ escape_char_nt c = [c] ∧ escape_char_t c = [c] := by
  simp [escape_char, escape_char_nt, escape_char_t, h1, h2, h3]

/-- The text in which only line feeds and tabs are escaped. -/
theorem unescape_quote : ∀ s : Text, str_ok s = true →
    replace (escape s) ['\\', '"'] ['"'] = (s.map escape_char_nt).flatten
  | [], _ => rfl
  | c :: s, h => by
    simp only [str_ok, List.all_cons, Bool.and_eq_true, decide_eq_true_eq] at h
    obtain ⟨⟨hb, hn⟩, hs⟩ := h
    have ih := unescape_quote s hs
    simp only [replace] at ih ⊢
    simp only [escape, List.map_cons, List.flatten_cons]
    by_cases h1 : c = '"'
    · subst h1
      rw [show escape_char '"' = ['\\', '"'] from rfl, show escape_char_nt '"' = ['"'] from rfl]
      simp only [List.cons_append, List.nil_append]
      rw [replace_two_hit, ih]
      simp
    · by_cases h2 : c = '\n'
      · subst h2
        rw [show escape_char '\n' = ['\\', 'n'] from rfl,
          show escape_char_nt '\n' = ['\\', 'n'] from rfl]
        simp only [List.cons_append, List.nil_append]
        rw [replace_two_miss _ _ _ _ _ (by simp), replace_two_miss _ _ _ _ _ (by simp), ih]
      · by_cases h3 : c = '\t'
        · subst h3
          rw [show escape_char '\t' = ['\\', 't'] from rfl,
            show escape_char_nt '\t' = ['\\', 't'] from rfl]
          simp only [List.cons_append, List.nil_append]
          rw [replace_two_miss _ _ _ _ _ (by simp), replace_two_miss _ _ _ _ _ (by simp), ih]
        · obtain ⟨e1, e2, _⟩ := escape_char_plain c h1 h2 h3
          rw [e1, e2]
          simp only [List.cons_append, List.nil_append]
          rw [replace_two_miss _ _ _ _ _ (fun h => hb h.1), ih]

theorem unescape_newline : ∀ s : Text, str_ok s = true →
    replace (s.map escape_char_nt).flatten ['\\', 'n'] ['\n'] = (s.map escape_char_t).flatten
  | [], _ => rfl
  | c :: s, h => by
    simp only [str_ok, List.all_cons, Bool.and_eq_true, decide_eq_true_eq] at h
    obtain ⟨⟨hb, hn⟩, hs⟩ := h
    have ih := unescape_newline s hs
    simp only [replace] at ih ⊢
    simp only [List.map_cons, List.flatten_cons]
    by_cases h2 : c = '\n'
    · subst h2
      rw [show escape_char_nt '\n' = ['\\', 'n'] from rfl,
        show escape_char_t '\n' = ['\n'] from rfl]
      simp only [List.cons_append, List.nil_append]
      rw [replace_two_hit, ih]
      simp
    · by_cases h3 : c = '\t'
      · subst h3
        rw [show escape_char_nt '\t' = ['\\', 't'] from rfl,
          show escape_char_t '\t' = ['\\', 't'] from rfl]
        simp only [List.cons_append, List.nil_append]
        rw [replace_two_miss _ _ _ _ _ (by simp), replace_two_miss _ _ _ _ _ (by simp), ih]
      · have e1 : escape_char_nt c = [c] := by simp [escape_char_nt, h2, h3]
        have e2 : escape_char_t c = [c] := by simp [escape_char_t, h3]
        rw [e1, e2]
        simp only [List.cons_append, List.nil_append]
        rw [replace_two_miss _ _ _ _ _ (fun h => hb h.1), ih]

theorem unescape_tab : ∀ s : Text, str_ok s = true →
    replace (s.map escape_char_t).flatten ['\\', 't'] ['\t'] = s
  | [], _ => rfl
  | c :: s, h => by
    simp only [str_ok, List.all_cons, Bool.and_eq_true, decide_eq_true_eq] at h
    obtain ⟨⟨hb, hn⟩, hs⟩ := h
    have ih := unescape_tab s hs
    simp only [replace] at ih ⊢
    simp only [List.map_cons, List.flatten_cons]
    by_cases h3 : c = '\t'
    · subst h3
      rw [show escape_char_t '\t' = ['\\', 't'] from rfl]
      simp only [List.cons_append, List.nil_append]
      rw [replace_two_hit, ih]
      simp
    · have e2 : escape_char_t c = [c] := by simp [escape_char_t, h3]
      rw [e2]
      simp only [List.cons_append, List.nil_append]
      rw [replace_two_miss _ _ _ _ _ (fun h => hb h.1), ih]

/-- The three replacements of `get_string` undo `escape`. -/
theorem unescape_escape (s : Text) (h : str_ok s = true) :
    replace (replace (replace (escape s) ['\\', '"'] ['"']) ['\\', 'n'] ['\n'])
      ['\\', 't'] ['\t'] = s := by
  rw [unescape_quote s h, unescape_newline s h, unescape_tab s h]

/-! ### A string value behind a key -/

theorem render_more_members_append : ∀ (a b : JMembers),
    render_more_members (a.append b) = render_more_members a ++ render_more_members b
  | .nil, b => by simp [JMembers.append, render_more_members]
  | .cons k v rest, b => by
    simp [JMembers.append, render_more_members, render_more_members_append rest b]

theorem render_members_append (pre : JMembers) (k : Text) (v : JValue) (post : JMembers) :
    render_members (pre.append (.cons k v post))
      = render_lead pre ++ (quoted k ++ ':' :: (render v ++ render_more_members post)) := by
  cases pre with
  | nil => simp [JMembers.append, render_lead, render_members]
  | cons k0 v0 rest =>
    simp [JMembers.append, render_lead, render_members, render_more_members_append,
      render_more_members]

theorem key_scan_lead (key tail : Text) (fuel : Nat) (hk : key_text_ok key = true)
    (pre : JMembers) (i : Nat) (h : pre.wf = true) (hnp : pre.nested_plain = true)
    (hne : key ∉ pre.key_texts) :
    key_scan key ((render_lead pre).length + fuel) i false false 0 0 (render_lead pre ++ tail)
      = key_scan key fuel (i + (render_lead pre).length) false false 0 0 tail := by
  cases pre with
  | nil => simp [render_lead]
  | cons k0 v0 rest =>
    simp only [render_lead]
    have e : (render_members (.cons k0 v0 rest) ++ [',']).length + fuel
        = (render_members (.cons k0 v0 rest)).length + (fuel + 1) := by
      simp only [List.length_append, List.length_singleton]; omega
    rw [e, List.append_assoc, List.singleton_append,
      key_scan_members key _ _ hk (by simp) _ i h hnp hne, key_scan_comma]
    congr 1
    simp only [List.length_append, List.length_singleton]
    omega

theorem delimiter_scan_comma (end_ fuel i : Nat) (esc : Bool) (cs : Text) :
    delimiter_scan end_ (fuel + 1) i esc false 0 0 (',' :: cs) = i := by
  rw [delimiter_scan_step]
  simp [lex_step, NUL]

/-- From the opening quote of a string value the delimiter scanner stops right after the
closing quote, at the comma or at the end of the view. -/
theorem delimiter_after_quoted (A R s : Text) (end_ : Nat) (hs : str_ok s = true)
    (hesc : esc_at (A ++ (quoted s ++ R)) A.length = false)
    (hend : A.length + (quoted s).length ≤ end_)
    (hR : end_ = A.length + (quoted s).length ∨ R.head? = some ',') :
    json_find_element_delimiter (A ++ (quoted s ++ R)) A.length end_
      = A.length + (quoted s).length := by
  rw [json_find_element_delimiter, delimiter_loop_eq_scan, hesc, List.drop_left]
  have e : end_ - A.length = (quoted s).length + (end_ - A.length - (quoted s).length) := by
    omega
  rw [e, delimiter_scan_skip _ _ _ _ _ _ _ _ _ _ (lex_run_quoted 0 0 s hs)]
  simp only
  rcases hR with hR | hR
  · have : end_ - A.length - (quoted s).length = 0 := by omega
    rw [this, delimiter_scan]
    exact hR
  · cases R with
    | nil => simp at hR
    | cons r R =>
      simp only [List.head?_cons, Option.some.injEq] at hR
      subst hR
      rcases Nat.eq_zero_or_pos (end_ - A.length - (quoted s).length) with h0 | h0
      · rw [h0, delimiter_scan]
        omega
      · obtain ⟨f, hf⟩ := Nat.exists_eq_add_of_lt h0
        simp only [Nat.zero_add] at hf
        rw [hf, delimiter_scan_comma]

/-- The accessor tail `string_of` applied to the span of a string value returns its
characters. -/
theorem string_of_quoted (A R s d : Text) (st en : Nat) (hs : str_ok s = true)
    (hA : A ≠ []) :
    JSON.string_of { string := A ++ (quoted s ++ R), start := st, end_ := en }
      { start := A.length, end_ := A.length + (quoted s).length } d = s := by
  have hf : JSONElement.found { start := A.length, end_ := A.length + (quoted s).length }
      = true := by
    have : A.length ≠ 0 := fun h => hA (List.length_eq_zero.mp h)
    simp [JSONElement.found, this]
  have h1 : char_at (A ++ (quoted s ++ R)) A.length = '"' := by
    simpa [quoted] using char_at_append_length A '"' (escape s ++ '"' :: R)
  have h2 : char_at (A ++ (quoted s ++ R)) (A.length + (quoted s).length - 1) = '"' := by
    have e : A ++ (quoted s ++ R) = (A ++ '"' :: escape s) ++ '"' :: R := by
      simp [quoted]
    have l : A.length + (quoted s).length - 1 = (A ++ '"' :: escape s).length := by
      simp [quoted]
    rw [e, l]
    exact char_at_append_length _ _ _
  have h3 : substr (A ++ (quoted s ++ R)) (A.length + 1) (A.length + (quoted s).length - 1)
      = escape s := by
    have e : A ++ (quoted s ++ R) = ((A ++ ['"']) ++ escape s) ++ ('"' :: R) := by
      simp [quoted]
    have l : A.length + (quoted s).length - 1 = ((A ++ ['"']) ++ escape s).length := by
      simp [quoted]
    have l2 : A.length + 1 = (A ++ ['"']).length := by simp
    rw [substr, e, l, List.take_left, l2, List.drop_left]
  simp only [JSON.string_of, hf, h1, h2, h3, Bool.not_true, Bool.false_eq_true, if_false,
    ne_eq, not_true_eq_false]
  exact unescape_escape s hs

/-- The text of a document that binds `k` to the string `s` after the members `pre`. -/
theorem render_bound_string (pre post : JMembers) (k s : Text) :
    render (.obj (pre.append (.cons k (.str s) post)))
      = ('{' :: (render_lead pre ++ (quoted k ++ [':'])))
          ++ (quoted s ++ (render_more_members post ++ ['}'])) := by
  simp [render, render_members_append]

theorem find_key_bound (pre post : JMembers) (k : Text) (v : JValue) (hk : str_ok k = true)
    (hpre : pre.wf = true) (hnp : pre.nested_plain = true)
    (hne : escape k ∉ pre.key_texts) :
    json_find_element_key (render (.obj (pre.append (.cons k v post)))) (escape k) 1
        ((render (.obj (pre.append (.cons k v post)))).length - 1)
      = ('{' :: (render_lead pre ++ (quoted k ++ [':']))).length := by
  rw [json_find_element_key, key_loop_eq_scan, root_view_drop, root_view_esc,
    render_obj_length, render_members_append]
  have e : (render_lead pre ++ (quoted k ++ ':' :: (render v ++ render_more_members post))).length
        + 2 - 1 - 1
      = (render_lead pre).length
        + (((escape k).length + 1 + (render v ++ render_more_members post).length + 1) + 1) := by
    simp only [List.length_append, List.length_cons, quoted, List.length_nil]
    omega
  rw [e, List.append_assoc,
    key_scan_lead (escape k) _ _ (key_text_ok_escape k hk) pre 1 hpre hnp hne]
  have e2 : quoted k ++ ':' :: (render v ++ render_more_members post) ++ ['}']
      = '"' :: (escape k ++ '"' :: ':' :: (render v ++ render_more_members post ++ ['}'])) := by
    simp [quoted]
  rw [e2, key_scan_hit]
  simp only [List.length_cons, List.length_append, quoted, List.length_nil]
  omega

/-- The span that `find_element_key` returns for a key bound to a string. -/
theorem find_element_key_bound_string (pre post : JMembers) (k s : Text)
    (hk : str_ok k = true) (hs : str_ok s = true) (hpre : pre.wf = true)
    (hnp : pre.nested_plain = true) (hne : escape k ∉ pre.key_texts) :
    (root_view (pre.append (.cons k (.str s) post))).find_element_key (escape k)
      = { start := ('{' :: (render_lead pre ++ (quoted k ++ [':']))).length,
          end_ := ('{' :: (render_lead pre ++ (quoted k ++ [':']))).length + (quoted s).length } := by
  have hkey := find_key_bound pre post k (.str s) hk hpre hnp hne
  have htext := render_bound_string pre post k s
  simp only [JSON.find_element_key, root_view]
  rw [hkey]
  generalize hA : ('{' :: (render_lead pre ++ (quoted k ++ [':']))) = A at htext ⊢
  have hlen : (render (.obj (pre.append (.cons k (.str s) post)))).length
      = A.length + (quoted s).length + (render_more_members post).length + 1 := by
    rw [htext]
    simp only [List.length_append, List.length_singleton]
    omega
  have hesc : esc_at (A ++ (quoted s ++ (render_more_members post ++ ['}']))) A.length = false := by
    subst hA
    have e : ('{' :: (render_lead pre ++ (quoted k ++ [':'])))
          ++ (quoted s ++ (render_more_members post ++ ['}']))
        = ('{' :: (render_lead pre ++ quoted k)) ++ ':' :: (quoted s ++ (render_more_members post ++ ['}'])) := by
      simp
    have l : ('{' :: (render_lead pre ++ (quoted k ++ [':']))).length - 1
        = ('{' :: (render_lead pre ++ quoted k)).length := by
      simp only [List.length_cons, List.length_append, List.length_nil]
      omega
    simp only [esc_at]
    rw [l, e, char_at_append_length]
    simp
  have hR : (render (.obj (pre.append (.cons k (.str s) post)))).length - 1
        = A.length + (quoted s).length
      ∨ (render_more_members post ++ ['}']).head? = some ',' := by
    cases post with
    | nil =>
      left
      rw [hlen]
      simp [render_more_members]
    | cons k2 v2 rest =>
      right
      simp [render_more_members]
  have hd := delimiter_after_quoted A (render_more_members post ++ ['}']) s
    ((render (.obj (pre.append (.cons k (.str s) post)))).length - 1) hs hesc
    (by rw [hlen]; omega) hR
  rw [← htext] at hd
  rw [hd]
  have h1 : ¬ A.length > (render (.obj (pre.append (.cons k (.str s) post)))).length - 1 := by
    rw [hlen]; omega
  have h2 : ¬ (A.length + (quoted s).length
        > (render (.obj (pre.append (.cons k (.str s) post)))).length - 1
      ∨ A.length + (quoted s).length ≤ A.length) := by
    rw [hlen]
    simp only [quoted, List.length_cons, List.length_append]
    omega
  simp only [h1, h2, if_false]

/-- On the root view `get_string` returns the characters of the string bound to the key. -/
theorem get_string_bound (pre post : JMembers) (k s d : Text)
    (hk : str_ok k = true) (hs : str_ok s = true) (hpre : pre.wf = true)
    (hnp : pre.nested_plain = true) (hne : escape k ∉ pre.key_texts) :
    (root_view (pre.append (.cons k (.str s) post))).get_string (escape k) d = s := by
  rw [JSON.get_string, find_element_key_bound_string pre post k s hk hs hpre hnp hne]
  simp only [root_view]
  rw [render_bound_string]
  exact string_of_quoted _ _ s d _ _ hs (by simp)

theorem strip_back_length : ∀ (r : Text) (inQ : Bool) (acc : Text),
    (strip_back r inQ acc).length ≤ r.length + acc.length
  | [], _, acc => by simp [strip_back]
  | c :: r, inQ, acc => by
    simp only [strip_back]
    have h1 := strip_back_length r (!inQ) (c :: acc)
    have h2 := strip_back_length r inQ acc
    have h3 := strip_back_length r inQ (c :: acc)
    simp only [List.length_cons] at h1 h3 ⊢
    split_ifs <;> omega

theorem strip_whitespace_length (s : Text) : (strip_whitespace s).length ≤ s.length := by
  rw [strip_whitespace_eq_back]
  simpa using strip_back_length s.reverse false []

theorem char_at_zero (b : Text) (c : Char) (hc : c ≠ NUL) :
    char_at b 0 = c ↔ b.head? = some c := by
  cases b with
  | nil => simp [char_at, hc.symm]
  | cons a b => simp [char_at]

theorem char_at_last (b : Text) (c : Char) (hc : c ≠ NUL) :
    char_at b (b.length - 1) = c ↔ b.getLast? = some c := by
  rw [List.getLast?_eq_getElem?]
  simp only [char_at, List.getD_eq_getElem?_getD]
  cases h : b[b.length - 1]? with
  | none => simp [hc.symm]
  | some a => simp

/-- The constructor succeeds exactly on a stripped buffer that opens with `{` and closes
with `}`, and then returns the window between them. -/
theorem construct_cases (text : Text) (hlen : text.length < 2 ^ 64) :
    (((strip_whitespace text).head? = some '{' ∧ (strip_whitespace text).getLast? = some '}') →
        JSON.construct text =
          .ok ⟨strip_whitespace text, 1, (strip_whitespace text).length - 1⟩) ∧
      (¬ ((strip_whitespace text).head? = some '{' ∧
          (strip_whitespace text).getLast? = some '}') →
        JSON.construct text = .error .no_open_brace ∨
          JSON.construct text = .error .no_closing_brace) := by
  have hl := strip_whitespace_length text
  simp only [JSON.construct, length_bytes]
  generalize strip_whitespace text = b at hl
  by_cases h0 : b.head? = some '{'
  · have hb : b ≠ [] := by
      rintro rfl
      simp at h0
    have hpos : 0 < b.length := List.length_pos.mpr hb
    have he : (b.length + 2 ^ 64 - 1) % 2 ^ 64 = b.length - 1 := by omega
    have c0 := (char_at_zero b '{' (by decide)).mpr h0
    rw [he]
    by_cases h1 : b.getLast? = some '}'
    · have c1 := (char_at_last b '}' (by decide)).mpr h1
      simp [c0, c1, h0, h1]
    · have c1 : char_at b (b.length - 1) ≠ '}' :=
        fun h => h1 ((char_at_last b '}' (by decide)).mp h)
      simp [c0, c1, h0, h1]
  · have c0 : char_at b 0 ≠ '{' := fun h => h0 ((char_at_zero b '{' (by decide)).mp h)
    simp [c0, h0]

/-! ## The claims about the JSON query engine -/

/-- C1, as amended: for every well-formed single-object document whose strings use no escape
other than `\"`, `\n`, `\t` and whose strings nested inside object or array values hold no
brace or bracket, and for every key that holds no double quote except right after a
backslash, ends in no unpaired backslash and is not the text of a top-level key, the
constructor succeeds with the root view and `object(key)` and `array(key)` on the root
view return the view with start = end = 0. -/
theorem absent_key_gives_zero_view (ms : JMembers) (key : Text) (hwf : ms.wf = true)
    (hnp : ms.nested_plain = true) (hk : key_text_ok key = true)
    (hne : key ∉ ms.key_texts) (hlen : (render (.obj ms)).length < 2 ^ 64) :
    JSON.construct (render (.obj ms)) = .ok (root_view ms) ∧
      (root_view ms).object key = ⟨render (.obj ms), 0, 0⟩ ∧
      (root_view ms).array key = ⟨render (.obj ms), 0, 0⟩ := by
  refine ⟨construct_render ms hwf hlen, ?_, ?_⟩
  · rw [JSON.object, find_element_key_absent ms key hwf hnp hk hne hlen]
    rfl
  · rw [JSON.array, find_element_key_absent ms key hwf hnp hk hne hlen]
    rfl

/-- C1, witness: the key `c` on `{"a":"x,y","b":2}`. -/
theorem absent_key_gives_zero_view_witness :
    members_comma.wf = true ∧ members_comma.nested_plain = true ∧ key_text_ok ['c'] = true ∧
      ['c'] ∉ members_comma.key_texts ∧ (render (.obj members_comma)).length < 2 ^ 64 ∧
      JSON.construct (render (.obj members_comma)) = .ok (root_view members_comma) ∧
      (root_view members_comma).object ['c'] = ⟨render (.obj members_comma), 0, 0⟩ ∧
      (root_view members_comma).array ['c'] = ⟨render (.obj members_comma), 0, 0⟩ :=
  ⟨by decide, by decide, by decide, by decide, by decide,
    absent_key_gives_zero_view members_comma ['c'] (by decide) (by decide) (by decide)
      (by decide) (by decide)⟩

/-- C1, counterexample: three documents on which `array(key)`, for a key that is not a
top-level key, is a scope of two elements instead of the view (0,0):
`{"a":"b","c":[7,8]}` with the key `a":"b","c`, the text `{"a":"\\","b":":[7,8],"}` with
the key `:`, and `{"a":{"x":"}"},"b":":[7,8],"}` with the key `:`. -/
theorem absent_key_counterexample :
    (members_bc.wf = true ∧ key_with_quotes ∉ members_bc.key_texts ∧
        (root_view members_bc).array key_with_quotes = ⟨render (.obj members_bc), 14, 17⟩) ∧
      (JSON.construct text_backslash = .ok ⟨text_backslash, 1, 23⟩ ∧
        JSON.array ⟨text_backslash, 1, 23⟩ [':'] = ⟨text_backslash, 17, 20⟩) ∧
      (members_nested_brace.wf = true ∧ [':'] ∉ members_nested_brace.key_texts ∧
        (root_view members_nested_brace).array [':']
          = ⟨render (.obj members_nested_brace), 22, 25⟩) := by
  decide

/-- C2: on the view with start = end = 0 over any buffer every leaf accessor returns the
default it is given: the five accessors by key for every key and the five accessors by
index for every index, 0 included. The conversion from `float` to `double` and back is
assumed to return the `float` it started from. -/
theorem leaf_accessors_on_zero_view {F D : Type} (atof : Text → D) (atoi : Text → Int)
    (to_double : F → D) (to_float : D → F) (hcast : ∀ x, to_float (to_double x) = x)
    (buffer key : Text) (index : Nat) (ds : Text) (dd : D) (df : F) (di : Int) (db : Bool) :
    JSON.get_string ⟨buffer, 0, 0⟩ key ds = ds ∧
      JSON.get_double atof ⟨buffer, 0, 0⟩ key dd = dd ∧
      JSON.get_float atof to_double to_float ⟨buffer, 0, 0⟩ key df = df ∧
      JSON.get_int atoi ⟨buffer, 0, 0⟩ key di = di ∧
      JSON.get_bool ⟨buffer, 0, 0⟩ key db = db ∧
      JSON.get_string_at ⟨buffer, 0, 0⟩ index ds = ds ∧
      JSON.get_double_at atof ⟨buffer, 0, 0⟩ index dd = dd ∧
      JSON.get_float_at atof to_double to_float ⟨buffer, 0, 0⟩ index df = df ∧
      JSON.get_int_at atoi ⟨buffer, 0, 0⟩ index di = di ∧
      JSON.get_bool_at ⟨buffer, 0, 0⟩ index db = db := by
  simp [JSON.get_string, JSON.get_double, JSON.get_float, JSON.get_int, JSON.get_bool,
    JSON.get_string_at, JSON.get_double_at, JSON.get_float_at, JSON.get_int_at,
    JSON.get_bool_at, JSON.string_of, find_element_key_zero, find_element_index_zero,
    not_found_zero, hcast]

/-- C2, witness: the buffer `{"a":1,"b":2}`, the key `a` and the index 0, with integers
standing for both number types. -/
theorem leaf_accessors_on_zero_view_witness :
    (∀ x : Int, id (id x) = x) ∧
      JSON.get_string ⟨render (.obj members_ab), 0, 0⟩ ['a'] ['d'] = ['d'] ∧
      JSON.get_int (fun _ => 7) ⟨render (.obj members_ab), 0, 0⟩ ['a'] 5 = 5 ∧
      JSON.get_bool_at ⟨render (.obj members_ab), 0, 0⟩ 0 true = true :=
  have h := leaf_accessors_on_zero_view (F := Int) (D := Int) (fun _ => 7) (fun _ => 7) id id
    (fun _ => rfl) (render (.obj members_ab)) ['a'] 0 ['d'] 5 5 5 true
  ⟨fun _ => rfl, h.1, h.2.2.2.1, h.2.2.2.2.2.2.2.2.2⟩

/-- C3: for every well-formed object document with n ≥ 0 top-level members (strings with no
escape other than `\"`, `\n`, `\t`) the constructor succeeds and `count()` on the root view
returns n, whatever commas the member values hold inside strings, objects or arrays. -/
theorem count_root_members (ms : JMembers) (hwf : ms.wf = true)
    (hlen : (render (.obj ms)).length < 2 ^ 64) :
    JSON.construct (render (.obj ms)) = .ok (root_view ms) ∧
      (root_view ms).count = ms.length :=
  ⟨construct_render ms hwf hlen, count_root_view ms hwf hlen⟩

/-- C3, witness: `{"a":"x,y","b":2}` has count 2. -/
theorem count_root_members_witness :
    members_comma.wf = true ∧ (render (.obj members_comma)).length < 2 ^ 64 ∧
      JSON.construct (render (.obj members_comma)) = .ok (root_view members_comma) ∧
      (root_view members_comma).count = 2 :=
  ⟨by decide, by decide, count_root_members members_comma (by decide) (by decide)⟩

/-- C4, the failing input: on `{"a":[1]}` the constructor succeeds, `array("a")` is the
one-byte scope of the element `1`, and `count()` on it returns 0 although the array has one
element; on `{"a":[1,2,{"x":3}]}` it returns 3. -/
theorem count_one_byte_array :
    JSON.construct (render (.obj members_single)) = .ok (root_view members_single) ∧
      (root_view members_single).array ['a'] = ⟨render (.obj members_single), 6, 7⟩ ∧
      ((root_view members_single).array ['a']).count = 0 ∧
      ((root_view members_array).array ['a']).count = 3 := by
  decide

theorem wf_append : ∀ (a b : JMembers), (a.append b).wf = (a.wf && b.wf)
  | .nil, b => by simp [JMembers.append, JMembers.wf]
  | .cons k v rest, b => by
    simp [JMembers.append, JMembers.wf, wf_append rest b, Bool.and_assoc]

/-- C5, as amended: `get_string` undoes the escaping of a string bound to a top-level key when
the members before it are in the supported form. For every string `s` without backslash,
if a well-formed document whose strings use no escape other than `\"`, `\n`, `\t` binds a
top-level key to the quoted text obtained from `s` by replacing each double quote with
`\"`, each line feed with `\n` and each tab with `\t`, if no member before it has the same
key text, and if no string nested inside an object or array value of a member before it
holds a brace or bracket, then the constructor succeeds and `get_string` with the text of
the key returns exactly `s`, for every default `d`. -/
theorem get_string_undoes_escaping (pre post : JMembers) (k s d : Text)
    (hk : str_ok k = true) (hs : str_ok s = true) (hpre : pre.wf = true)
    (hpost : post.wf = true) (hnp : pre.nested_plain = true)
    (hne : escape k ∉ pre.key_texts)
    (hlen : (render (.obj (pre.append (.cons k (.str s) post)))).length < 2 ^ 64) :
    JSON.construct (render (.obj (pre.append (.cons k (.str s) post))))
        = .ok (root_view (pre.append (.cons k (.str s) post))) ∧
      (root_view (pre.append (.cons k (.str s) post))).get_string (escape k) d = s := by
  refine ⟨construct_render _ ?_ hlen, get_string_bound pre post k s d hk hs hpre hnp hne⟩
  rw [wf_append]
  simp [JMembers.wf, JValue.wf, hpre, hk, hs, hpost]

/-- C5, witness: `{"a":"say \"hi\""}` gives `say "hi"`, whatever the default. -/
theorem get_string_undoes_escaping_witness :
    str_ok ['a'] = true ∧ str_ok ['s', 'a', 'y', ' ', '"', 'h', 'i', '"'] = true ∧
      JMembers.nil.wf = true ∧ JMembers.nil.nested_plain = true ∧
      escape ['a'] ∉ JMembers.nil.key_texts ∧
      (render (.obj members_say)).length < 2 ^ 64 ∧
      JSON.construct (render (.obj members_say)) = .ok (root_view members_say) ∧
      (root_view members_say).get_string ['a'] ['d']
        = ['s', 'a', 'y', ' ', '"', 'h', 'i', '"'] :=
  ⟨by decide, by decide, by decide, by decide, by decide, by decide,
    get_string_undoes_escaping .nil .nil ['a'] ['s', 'a', 'y', ' ', '"', 'h', 'i', '"'] ['d']
      (by decide) (by decide) (by decide) (by decide) (by decide) (by decide) (by decide)⟩

/-- C5, counterexample: on the text `{"z":"\\","a":"hi"}` and on `{"z":["]"],"a":"hi"}` the
key `a` is bound to the quoted text of `hi`, yet `get_string("a", "d")` returns the default
`d`. -/
theorem get_string_counterexample :
    (JSON.construct text_backslash_hi = .ok ⟨text_backslash_hi, 1, 18⟩ ∧
        JSON.get_string ⟨text_backslash_hi, 1, 18⟩ ['a'] ['d'] = ['d']) ∧
      (members_nested_bracket.wf = true ∧
        JSON.construct (render (.obj members_nested_bracket))
          = .ok (root_view members_nested_bracket) ∧
        (root_view members_nested_bracket).get_string ['a'] ['d'] = ['d']) := by
  decide

/-- C6: constructing a JSON document from a non-empty text succeeds if and only if, after
the whitespace stripping, the first character is `{` and the last one is `}`; then the root
view is `[1, length - 1)` of the stripped buffer; otherwise one of the two invalid-root-scope
errors is raised. -/
theorem construct_root_scope (text : Text) (_hne : text ≠ []) (hlen : text.length < 2 ^ 64) :
    (((strip_whitespace text).head? = some '{' ∧ (strip_whitespace text).getLast? = some '}') →
        JSON.construct text =
          .ok ⟨strip_whitespace text, 1, (strip_whitespace text).length - 1⟩) ∧
      (¬ ((strip_whitespace text).head? = some '{' ∧
          (strip_whitespace text).getLast? = some '}') →
        JSON.construct text = .error .no_open_brace ∨
          JSON.construct text = .error .no_closing_brace) :=
  construct_cases text hlen

/-- C6, witness: the text `{ }` is stripped to `{}` and yields the empty root scope with
start = end = 1. -/
theorem construct_root_scope_witness :
    (['{', ' ', '}'] : Text) ≠ [] ∧ (['{', ' ', '}'] : Text).length < 2 ^ 64 ∧
      strip_whitespace ['{', ' ', '}'] = ['{', '}'] ∧
      JSON.construct ['{', ' ', '}'] = .ok ⟨['{', '}'], 1, 1⟩ :=
  ⟨by decide, by decide, by decide,
    (construct_root_scope ['{', ' ', '}'] (by decide) (by decide)).1 (by decide)⟩

/-- C8: scope navigation never fails and returns the inner span only on a delimiter match:
`object(key)` and `object_at(index)` return the view `[e.start + 1, e.end - 1)` when the
lookup finds an element `e` whose first byte is `{` and whose last byte is `}`, `array(key)`
and `array_at(index)` do the same for `[` and `]`, and in every other case the result is the
view (0,0), which is never the inner view; so `object("a")` on `{"a":[1]}` is (0,0). -/
theorem scope_navigation (j : JSON) (key : Text) (index : Nat) :
    j.navigates (j.object key) (j.find_element_key key) '{' '}' ∧
      j.navigates (j.object_at index) (j.find_element_index index) '{' '}' ∧
      j.navigates (j.array key) (j.find_element_key key) '[' ']' ∧
      j.navigates (j.array_at index) (j.find_element_index index) '[' ']' ∧
      (root_view members_single).object ['a'] = ⟨render (.obj members_single), 0, 0⟩ := by
  have hne : ∀ a b : Nat, (⟨j.string, a + 1, b⟩ : JSON) ≠ ⟨j.string, 0, 0⟩ := by
    intro a b h
    simp at h
  exact ⟨⟨(scope_of_spec j _ _ _).1, (scope_of_spec j _ _ _).2, hne _ _⟩,
    ⟨(scope_of_spec j _ _ _).1, (scope_of_spec j _ _ _).2, hne _ _⟩,
    ⟨(scope_of_spec j _ _ _).1, (scope_of_spec j _ _ _).2, hne _ _⟩,
    ⟨(scope_of_spec j _ _ _).1, (scope_of_spec j _ _ _).2, hne _ _⟩, by decide⟩

/-! ## The staleness cache -/

theorem running_dead (f : Build → Build) (s : Build) (x : Step) (h : s.fatal = some x) :
    Build.running f s = s := by
  simp [Build.running, h]

theorem running_alive (f : Build → Build) (s : Build) (h : s.fatal = none) :
    Build.running f s = f s := by
  simp [Build.running, h]

theorem fatal_cases (s : Build) : s.fatal = none ∨ ∃ x, s.fatal = some x := by
  cases h : s.fatal with
  | none => exact Or.inl rfl
  | some x => exact Or.inr ⟨x, rfl⟩

theorem frame_id : Frame (fun s => s) :=
  fun _ => ⟨rfl, fun h => h, fun _ hc => Or.inl hc⟩

theorem frame_dead (f : Build → Build) (s : Build) (x : Step) (h : s.fatal = some x) :
    (Build.running f s).data = s.data ∧ ((Build.running f s).fatal = none → s.fatal = none) ∧
      ∀ c ∈ (Build.running f s).log, c ∈ s.log ∨ c.is_check = false := by
  rw [running_dead f s x h]
  exact frame_id s

theorem mem_log_append (s : Build) (step : Step) (hc : step.is_check = false) :
    ∀ c ∈ s.log ++ [step], c ∈ s.log ∨ c.is_check = false := by
  intro c hm
  simp only [List.mem_append, List.mem_singleton] at hm
  rcases hm with hm | rfl
  · exact Or.inl hm
  · exact Or.inr hc

theorem frame_record (step : Step) (hc : step.is_check = false) : Frame (record step) := by
  intro s
  rcases fatal_cases s with hf | ⟨x, hf⟩
  · rw [record, running_alive _ s hf]
    exact ⟨rfl, fun _ => hf, mem_log_append s step hc⟩
  · exact frame_dead _ s x hf

theorem frame_call (w : World) (step : Step) (hc : step.is_check = false) :
    Frame (call w step) := by
  intro s
  rcases fatal_cases s with hf | ⟨x, hf⟩
  · rw [call, running_alive _ s hf]
    by_cases hw : w.fails step = true
    · rw [if_pos hw]
      exact ⟨rfl, fun _ => hf, mem_log_append s step hc⟩
    · rw [if_neg hw]
      exact ⟨rfl, fun _ => hf, mem_log_append s step hc⟩
  · exact frame_dead _ s x hf

theorem frame_call_if (d : Build → Bool) (w : World) (step : Step)
    (hc : step.is_check = false) : Frame (call_if d w step) := by
  intro s
  by_cases h : d s = true
  · rw [call_if, if_pos h]
    exact frame_call w step hc s
  · rw [call_if, if_neg h]
    exact frame_id s

theorem frame_comp (f g : Build → Build) (hf : Frame f) (hg : Frame g) :
    Frame (fun s => g (f s)) := by
  intro s
  obtain ⟨h1, h2, h5⟩ := hf s
  obtain ⟨h3, h4, h6⟩ := hg (f s)
  refine ⟨h3.trans h1, fun h => h2 (h4 h), ?_⟩
  intro c hm
  rcases h6 c hm with h | h
  · exact h5 c h
  · exact Or.inr h

theorem frame_stage (b : Bool) (f : Build → Build) (hf : Frame f) : Frame (stage b f) := by
  intro s
  cases b
  · exact frame_id s
  · exact hf s

theorem frame_compile (w : World) : Frame (build_compile w) := by
  intro s
  exact frame_comp _ (call w .compile_run_ninja)
    (frame_comp _ (call w .compile_write_ninja)
      (frame_comp (call w .compile_project) (call w .compile_engine)
        (frame_call w .compile_project rfl) (frame_call w .compile_engine rfl))
      (frame_call w .compile_write_ninja rfl))
    (frame_call w .compile_run_ninja rfl) s

/-- The fields that a framing step leaves alone. -/
theorem frame_fields (f : Build → Build) (hf : Frame f) (s : Build) :
    (f s).cacheDirty = s.cacheDirty ∧ (f s).cacheDirtyObjects = s.cacheDirtyObjects ∧
      (f s).cacheDirtyShaders = s.cacheDirtyShaders ∧
      (f s).cacheDirtyAssets = s.cacheDirtyAssets ∧
      (f s).cacheDirtyBinary = s.cacheDirtyBinary ∧
      (f s).cacheBufferPrevious = s.cacheBufferPrevious ∧
      (f s).cacheBufferCurrent = s.cacheBufferCurrent ∧ (f s).cacheFile = s.cacheFile := by
  have h := (hf s).1
  simp only [Build.data, Prod.mk.injEq] at h
  exact h

/-! ### First run -/

/-- The global flag is set and every cache check made so far left its stage dirty. -/
theorem all_dirty_frame (f : Build → Build) (hf : Frame f) (s : Build)
    (h : s.cacheDirty = true ∧ ∀ c ∈ s.log, s.flag_of c = true) :
    (f s).cacheDirty = true ∧ ∀ c ∈ (f s).log, (f s).flag_of c = true := by
  obtain ⟨e1, e2, e3, e4, e5, _, _, _⟩ := frame_fields f hf s
  refine ⟨e1.trans h.1, ?_⟩
  intro c hc
  have hflag : (f s).flag_of c = s.flag_of c := by
    cases c <;> simp [Build.flag_of, e2, e3, e4, e5]
  rw [hflag]
  rcases (hf s).2.2 c hc with hm | hm
  · exact h.2 c hm
  · cases c <;> first | rfl | simp [Step.is_check] at hm

/-- A cache check that runs with the global flag set keeps the invariant of the first
run. -/
theorem all_dirty_step (f : Build → Build) (step : Step) (s : Build)
    (h : s.cacheDirty = true ∧ ∀ c ∈ s.log, s.flag_of c = true)
    (h1 : (f s).cacheDirty = true) (h2 : (f s).log = s.log ++ [step])
    (h3 : (f s).flag_of step = true)
    (h4 : ∀ c, s.flag_of c = true → (f s).flag_of c = true) :
    (f s).cacheDirty = true ∧ ∀ c ∈ (f s).log, (f s).flag_of c = true := by
  refine ⟨h1, ?_⟩
  intro c hc
  rw [h2] at hc
  simp only [List.mem_append, List.mem_singleton] at hc
  rcases hc with hc | rfl
  · exact h4 c (h.2 c hc)
  · exact h3

theorem all_dirty_objects (w : World) (s : Build)
    (h : s.cacheDirty = true ∧ ∀ c ∈ s.log, s.flag_of c = true) :
    (objects_cache w s).cacheDirty = true ∧
      ∀ c ∈ (objects_cache w s).log, (objects_cache w s).flag_of c = true := by
  rcases fatal_cases s with hf | ⟨x, hf⟩
  · rw [objects_cache, running_alive _ s hf]
    apply all_dirty_step _ .objects_cache s h
    · simp [h.1]
    · simp [h.1]
    · simp [h.1, Build.flag_of]
    · intro c hc
      cases c <;> simp_all [Build.flag_of]
  · rw [objects_cache, running_dead _ s x hf]
    exact h

theorem all_dirty_shaders (w : World) (s : Build)
    (h : s.cacheDirty = true ∧ ∀ c ∈ s.log, s.flag_of c = true) :
    (shaders_cache w s).cacheDirty = true ∧
      ∀ c ∈ (shaders_cache w s).log, (shaders_cache w s).flag_of c = true := by
  rcases fatal_cases s with hf | ⟨x, hf⟩
  · rw [shaders_cache, running_alive _ s hf]
    apply all_dirty_step _ .shaders_cache s h
    · simp [h.1]
    · simp [h.1]
    · simp [h.1, Build.flag_of]
    · intro c hc
      cases c <;> simp_all [Build.flag_of]
  · rw [shaders_cache, running_dead _ s x hf]
    exact h

theorem all_dirty_assets (w : World) (s : Build)
    (h : s.cacheDirty = true ∧ ∀ c ∈ s.log, s.flag_of c = true) :
    (assets_cache w s).cacheDirty = true ∧
      ∀ c ∈ (assets_cache w s).log, (assets_cache w s).flag_of c = true := by
  rcases fatal_cases s with hf | ⟨x, hf⟩
  · rw [assets_cache, running_alive _ s hf]
    apply all_dirty_step _ .assets_cache s h
    · simp [h.1]
    · simp [h.1]
    · simp [h.1, Build.flag_of]
    · intro c hc
      cases c <;> simp_all [Build.flag_of]
  · rw [assets_cache, running_dead _ s x hf]
    exact h

theorem all_dirty_binary (w : World) (s : Build)
    (h : s.cacheDirty = true ∧ ∀ c ∈ s.log, s.flag_of c = true) :
    (binary_cache w s).cacheDirty = true ∧
      ∀ c ∈ (binary_cache w s).log, (binary_cache w s).flag_of c = true := by
  rcases fatal_cases s with hf | ⟨x, hf⟩
  · rw [binary_cache, running_alive _ s hf]
    apply all_dirty_step _ .binary_cache s h
    · simp [h.1]
    · simp
    · simp [h.1, Build.flag_of]
    · intro c hc
      cases c <;> simp_all [Build.flag_of]
  · rw [binary_cache, running_dead _ s x hf]
    exact h

theorem all_dirty_save (s : Build)
    (h : s.cacheDirty = true ∧ ∀ c ∈ s.log, s.flag_of c = true) :
    (cache_save s).cacheDirty = true ∧
      ∀ c ∈ (cache_save s).log, (cache_save s).flag_of c = true := by
  rcases fatal_cases s with hf | ⟨x, hf⟩
  · rw [cache_save, running_alive _ s hf]
    apply all_dirty_step _ .cache_save s h
    · simp [h.1]
    · simp
    · simp [Build.flag_of]
    · intro c hc
      cases c <;> simp_all [Build.flag_of]
  · rw [cache_save, running_dead _ s x hf]
    exact h

theorem all_dirty_build_objects (w : World) (s : Build)
    (h : s.cacheDirty = true ∧ ∀ c ∈ s.log, s.flag_of c = true) :
    (build_objects w s).cacheDirty = true ∧
      ∀ c ∈ (build_objects w s).log, (build_objects w s).flag_of c = true := by
  unfold build_objects
  exact all_dirty_frame _ (frame_call_if _ w _ (by rfl)) _
    (all_dirty_frame _ (frame_call_if _ w _ (by rfl)) _
      (all_dirty_frame _ (frame_call_if _ w _ (by rfl)) _
        (all_dirty_frame _ (frame_call_if _ w _ (by rfl)) _
          (all_dirty_frame _ (frame_call_if _ w _ (by rfl)) _
            (all_dirty_objects w _
              (all_dirty_frame _ (frame_call w _ (by rfl)) _
                (all_dirty_frame _ (frame_call w _ (by rfl)) _ h)))))))

theorem all_dirty_build_graphics (w : World) (s : Build)
    (h : s.cacheDirty = true ∧ ∀ c ∈ s.log, s.flag_of c = true) :
    (build_graphics w s).cacheDirty = true ∧
      ∀ c ∈ (build_graphics w s).log, (build_graphics w s).flag_of c = true := by
  unfold build_graphics
  exact all_dirty_frame _ (frame_call_if _ w _ (by rfl)) _
    (all_dirty_frame _ (frame_call_if _ w _ (by rfl)) _
      (all_dirty_shaders w _
        (all_dirty_frame _ (frame_call w _ (by rfl)) _
          (all_dirty_frame _ (frame_call w _ (by rfl)) _ h))))

theorem all_dirty_build_assets (w : World) (s : Build)
    (h : s.cacheDirty = true ∧ ∀ c ∈ s.log, s.flag_of c = true) :
    (build_assets w s).cacheDirty = true ∧
      ∀ c ∈ (build_assets w s).log, (build_assets w s).flag_of c = true := by
  unfold build_assets
  exact all_dirty_frame _ (frame_call_if _ w _ (by rfl)) _
    (all_dirty_frame _ (frame_call_if _ w _ (by rfl)) _
      (all_dirty_frame _ (frame_call_if _ w _ (by rfl)) _
        (all_dirty_assets w _
          (all_dirty_frame _ (frame_call w _ (by rfl)) _
            (all_dirty_frame _ (frame_call w _ (by rfl)) _ h)))))

theorem all_dirty_build_binary (w : World) (s : Build)
    (h : s.cacheDirty = true ∧ ∀ c ∈ s.log, s.flag_of c = true) :
    (build_binary w s).cacheDirty = true ∧
      ∀ c ∈ (build_binary w s).log, (build_binary w s).flag_of c = true := by
  unfold build_binary
  exact all_dirty_frame _ (frame_call_if _ w _ (by rfl)) _ (all_dirty_binary w _ h)

theorem all_dirty_stage (b : Bool) (f : Build → Build)
    (hf : ∀ s : Build, (s.cacheDirty = true ∧ ∀ c ∈ s.log, s.flag_of c = true) →
      ((f s).cacheDirty = true ∧ ∀ c ∈ (f s).log, (f s).flag_of c = true))
    (s : Build) (h : s.cacheDirty = true ∧ ∀ c ∈ s.log, s.flag_of c = true) :
    (stage b f s).cacheDirty = true ∧
      ∀ c ∈ (stage b f s).log, (stage b f s).flag_of c = true := by
  cases b
  · exact h
  · exact hf s h

/-- Once the global flag is set, the rest of `build` keeps every executed check dirty. -/
theorem all_dirty_build_from (w : World) (s : Build)
    (hd : (build_cache w s).cacheDirty = true) (hl : (build_cache w s).log = []) :
    (build_from w s).cacheDirty = true ∧
      ∀ c ∈ (build_from w s).log, (build_from w s).flag_of c = true := by
  have h0 : (build_cache w s).cacheDirty = true ∧
      ∀ c ∈ (build_cache w s).log, (build_cache w s).flag_of c = true := by
    refine ⟨hd, ?_⟩
    rw [hl]
    intro c hc
    simp at hc
  unfold build_from
  exact all_dirty_stage _ _ (all_dirty_frame _ (frame_record _ (by rfl))) _
    (all_dirty_save _
      (all_dirty_stage _ _ (all_dirty_frame _ (frame_compile w)) _
        (all_dirty_stage _ _ (all_dirty_build_binary w) _
          (all_dirty_stage _ _ (all_dirty_build_assets w) _
            (all_dirty_stage _ _ (all_dirty_build_graphics w) _
              (all_dirty_stage _ _ (all_dirty_build_objects w) _ h0))))))

/-- C9: first run. If the previous cache buffer fails to load, then for all counters and
whatever the clean flag, every stage cache check that executes (`objects_cache`,
`shaders_cache`, `assets_cache`, `binary_cache`) leaves the dirty flag of its stage true;
in the world `world_full` all four checks execute. -/
theorem first_run_all_dirty (w : World) :
    (Step.objects_cache ∈ (build w none).log → (build w none).cacheDirtyObjects = true) ∧
      (Step.shaders_cache ∈ (build w none).log → (build w none).cacheDirtyShaders = true) ∧
      (Step.assets_cache ∈ (build w none).log → (build w none).cacheDirtyAssets = true) ∧
      (Step.binary_cache ∈ (build w none).log → (build w none).cacheDirtyBinary = true) ∧
      (build w none).cacheDirty = true ∧
      (∀ c ∈ [Step.objects_cache, Step.shaders_cache, Step.assets_cache, Step.binary_cache],
        c ∈ (build world_full none).log) := by
  have h := all_dirty_build_from w (Build.initial none)
    (by simp [build_cache, Build.running, Build.initial])
    (by simp [build_cache, Build.running, Build.initial])
  exact ⟨fun hm => h.2 _ hm, fun hm => h.2 _ hm, fun hm => h.2 _ hm, fun hm => h.2 _ hm, h.1,
    by decide⟩

/-! ### Second run -/

theorem writes_frame (f : Build → Build) (hf : Frame f) (L : List Nat) (b : Bool) (s : Build)
    (h : run_writes L b s) : run_writes L b (f s) := by
  obtain ⟨_, _, _, _, _, _, e7, e8⟩ := frame_fields f hf s
  intro hn
  rw [e7, e8]
  exact h ((hf s).2.1 hn)

theorem writes_check (f : Build → Build) (x : Nat) (L : List Nat) (s : Build)
    (hdead : ∀ y, s.fatal = some y → f s = s)
    (halive : s.fatal = none → (f s).fatal = none ∧
      (f s).cacheBufferCurrent.data = s.cacheBufferCurrent.data ++ [x])
    (h : run_writes L false s) : run_writes (L ++ [x]) false (f s) := by
  intro hn
  rcases fatal_cases s with hf | ⟨y, hf⟩
  · obtain ⟨_, h2⟩ := halive hf
    rw [h2, (h hf).1]
    simp
  · rw [hdead y hf, hf] at hn
    exact absurd hn (by simp)

theorem writes_objects (w : World) (L : List Nat) (s : Build) (h : run_writes L false s) :
    run_writes (L ++ [w.objectFilesCount]) false (objects_cache w s) := by
  apply writes_check _ _ L s _ _ h
  · intro y hy
    rw [objects_cache, running_dead _ s y hy]
  · intro hn
    rw [objects_cache, running_alive _ s hn]
    by_cases hd : s.cacheDirty = true <;> simp [hd, hn, Buffer.write]

theorem writes_shaders (w : World) (L : List Nat) (s : Build) (h : run_writes L false s) :
    run_writes (L ++ [w.shaderFileCount]) false (shaders_cache w s) := by
  apply writes_check _ _ L s _ _ h
  · intro y hy
    rw [shaders_cache, running_dead _ s y hy]
  · intro hn
    rw [shaders_cache, running_alive _ s hn]
    by_cases hd : s.cacheDirty = true <;> simp [hd, hn, Buffer.write]

theorem writes_assets (w : World) (L : List Nat) (s : Build) (h : run_writes L false s) :
    run_writes (L ++ [w.assetFileCount]) false (assets_cache w s) := by
  apply writes_check _ _ L s _ _ h
  · intro y hy
    rw [assets_cache, running_dead _ s y hy]
  · intro hn
    rw [assets_cache, running_alive _ s hn]
    by_cases hd : s.cacheDirty = true <;> simp [hd, hn, Buffer.write]

theorem writes_binary (w : World) (L : List Nat) (b : Bool) (s : Build)
    (h : run_writes L b s) : run_writes L b (binary_cache w s) := by
  rcases fatal_cases s with hf | ⟨y, hf⟩
  · rw [binary_cache, running_alive _ s hf]
    intro _
    exact h hf
  · rw [binary_cache, running_dead _ s y hf]
    exact h

theorem writes_build_cache (w : World) (L : List Nat) (b : Bool) (s : Build)
    (h : run_writes L b s) : run_writes L b (build_cache w s) := by
  rcases fatal_cases s with hf | ⟨y, hf⟩
  · rw [build_cache, running_alive _ s hf]
    intro _
    cases hc : s.cacheFile with
    | none => simpa [hc] using h hf
    | some c => simpa [hc] using h hf
  · rw [build_cache, running_dead _ s y hf]
    exact h

theorem writes_save (L : List Nat) (s : Build) (h : run_writes L false s) :
    run_writes L true (cache_save s) := by
  rcases fatal_cases s with hf | ⟨y, hf⟩
  · rw [cache_save, running_alive _ s hf]
    intro _
    simp [(h hf).1]
  · rw [cache_save, running_dead _ s y hf]
    intro hn
    rw [hf] at hn
    exact absurd hn (by simp)

theorem writes_stage_true (f : Build → Build) (P Q : Build → Prop)
    (hf : ∀ s, P s → Q (f s)) (s : Build) (h : P s) : Q (stage true f s) :=
  hf s h

theorem writes_build_objects (w : World) (L : List Nat) (s : Build)
    (h : run_writes L false s) :
    run_writes (L ++ [w.objectFilesCount]) false (build_objects w s) := by
  unfold build_objects
  exact writes_frame _ (frame_call_if _ w _ (by rfl)) _ _ _
    (writes_frame _ (frame_call_if _ w _ (by rfl)) _ _ _
      (writes_frame _ (frame_call_if _ w _ (by rfl)) _ _ _
        (writes_frame _ (frame_call_if _ w _ (by rfl)) _ _ _
          (writes_frame _ (frame_call_if _ w _ (by rfl)) _ _ _
            (writes_objects w _ _
              (writes_frame _ (frame_call w _ (by rfl)) _ _ _
                (writes_frame _ (frame_call w _ (by rfl)) _ _ _ h)))))))

theorem writes_build_graphics (w : World) (L : List Nat) (s : Build)
    (h : run_writes L false s) :
    run_writes (L ++ [w.shaderFileCount]) false (build_graphics w s) := by
  unfold build_graphics
  exact writes_frame _ (frame_call_if _ w _ (by rfl)) _ _ _
    (writes_frame _ (frame_call_if _ w _ (by rfl)) _ _ _
      (writes_shaders w _ _
        (writes_frame _ (frame_call w _ (by rfl)) _ _ _
          (writes_frame _ (frame_call w _ (by rfl)) _ _ _ h))))

theorem writes_build_assets (w : World) (L : List Nat) (s : Build)
    (h : run_writes L false s) :
    run_writes (L ++ [w.assetFileCount]) false (build_assets w s) := by
  unfold build_assets
  exact writes_frame _ (frame_call_if _ w _ (by rfl)) _ _ _
    (writes_frame _ (frame_call_if _ w _ (by rfl)) _ _ _
      (writes_frame _ (frame_call_if _ w _ (by rfl)) _ _ _
        (writes_assets w _ _
          (writes_frame _ (frame_call w _ (by rfl)) _ _ _
            (writes_frame _ (frame_call w _ (by rfl)) _ _ _ h)))))

theorem writes_build_binary (w : World) (L : List Nat) (b : Bool) (s : Build)
    (h : run_writes L b s) : run_writes L b (build_binary w s) := by
  unfold build_binary
  exact writes_frame _ (frame_call_if _ w _ (by rfl)) _ _ _ (writes_binary w _ _ _ h)

/-- With codegen and build enabled an invocation writes the three counters in the order
objects, shaders, assets and stores them when it reaches the step Finish. -/
theorem writes_build (w : World) (hc : w.codegen = ['1']) (hb : w.build = ['1'])
    (file : Option (List Nat)) :
    run_writes [w.objectFilesCount, w.shaderFileCount, w.assetFileCount] true
      (build w file) := by
  have h0 : run_writes [] false (Build.initial file) := by
    intro _
    simp [Build.initial]
  have h := writes_frame _ (frame_stage (decide (w.run = ['1'])) _
      (frame_record .executable_run (by rfl))) _ _ _
    (writes_save _ _
      (writes_frame _ (frame_compile w) _ _ _
        (writes_build_binary w _ _ _
          (writes_build_assets w _ _
            (writes_build_graphics w _ _
              (writes_build_objects w _ _
                (writes_build_cache w _ _ _ h0)))))))
  simpa [build, build_from, hc, hb, stage] using h

theorem clean_frame (f : Build → Build) (hf : Frame f) (B : List Nat) (n : Nat) (bz : Prop)
    (s : Build) (h : run_clean B n bz s) : run_clean B n bz (f s) := by
  obtain ⟨e1, e2, e3, e4, e5, e6, _, _⟩ := frame_fields f hf s
  obtain ⟨h1, h2, h3, h4, h5, h6⟩ := h
  refine ⟨e1.trans h1, e2.trans h2, e3.trans h3, e4.trans h4, fun hb => e5.trans (h5 hb), ?_⟩
  intro hn
  rw [e6]
  exact h6 ((hf s).2.1 hn)

theorem clean_objects (w : World) (B : List Nat) (n : Nat) (bz : Prop) (s : Build)
    (hB : B.get? n = some w.objectFilesCount) (h : run_clean B n bz s) :
    run_clean B (n + 1) bz (objects_cache w s) := by
  obtain ⟨h1, h2, h3, h4, h5, h6⟩ := h
  rcases fatal_cases s with hf | ⟨y, hf⟩
  · rw [objects_cache, running_alive _ s hf]
    have hp := h6 hf
    have hB' := hB
    simp only [List.get?_eq_getElem?] at hB'
    simp [run_clean, h1, h2, h3, h4, hp, Buffer.read, hf]
    exact ⟨hB'.symm, h5⟩
  · rw [objects_cache, running_dead _ s y hf]
    exact ⟨h1, h2, h3, h4, h5, fun hn => by rw [hf] at hn; exact absurd hn (by simp)⟩

theorem clean_shaders (w : World) (B : List Nat) (n : Nat) (bz : Prop) (s : Build)
    (hB : B.get? n = some w.shaderFileCount) (h : run_clean B n bz s) :
    run_clean B (n + 1) bz (shaders_cache w s) := by
  obtain ⟨h1, h2, h3, h4, h5, h6⟩ := h
  rcases fatal_cases s with hf | ⟨y, hf⟩
  · rw [shaders_cache, running_alive _ s hf]
    have hp := h6 hf
    have hB' := hB
    simp only [List.get?_eq_getElem?] at hB'
    simp [run_clean, h1, h2, h3, h4, hp, Buffer.read, hf]
    exact ⟨hB'.symm, h5⟩
  · rw [shaders_cache, running_dead _ s y hf]
    exact ⟨h1, h2, h3, h4, h5, fun hn => by rw [hf] at hn; exact absurd hn (by simp)⟩

theorem clean_assets (w : World) (B : List Nat) (n : Nat) (bz : Prop) (s : Build)
    (hB : B.get? n = some w.assetFileCount) (h : run_clean B n bz s) :
    run_clean B (n + 1) bz (assets_cache w s) := by
  obtain ⟨h1, h2, h3, h4, h5, h6⟩ := h
  rcases fatal_cases s with hf | ⟨y, hf⟩
  · rw [assets_cache, running_alive _ s hf]
    have hp := h6 hf
    have hB' := hB
    simp only [List.get?_eq_getElem?] at hB'
    simp [run_clean, h1, h2, h3, h4, hp, Buffer.read, hf]
    exact ⟨hB'.symm, h5⟩
  · rw [assets_cache, running_dead _ s y hf]
    exact ⟨h1, h2, h3, h4, h5, fun hn => by rw [hf] at hn; exact absurd hn (by simp)⟩

theorem clean_binary (w : World) (B : List Nat) (n : Nat) (s : Build)
    (h : run_clean B n True s) : run_clean B n (w.binarySize = 0) (binary_cache w s) := by
  obtain ⟨h1, h2, h3, h4, h5, h6⟩ := h
  rcases fatal_cases s with hf | ⟨y, hf⟩
  · rw [binary_cache, running_alive _ s hf]
    have hp := h6 hf
    have hb := h5 trivial
    refine ⟨h1, h2, h3, h4, ?_, fun _ => hp⟩
    intro hz
    simp [h1, hb, hz]
  · rw [binary_cache, running_dead _ s y hf]
    exact ⟨h1, h2, h3, h4, fun _ => h5 trivial, h6⟩

theorem clean_save (B : List Nat) (n : Nat) (bz : Prop) (s : Build)
    (h : run_clean B n bz s) : run_clean B n bz (cache_save s) := by
  rcases fatal_cases s with hf | ⟨y, hf⟩
  · rw [cache_save, running_alive _ s hf]
    exact h
  · rw [cache_save, running_dead _ s y hf]
    exact h

theorem clean_build_objects (w : World) (B : List Nat) (n : Nat) (bz : Prop) (s : Build)
    (hB : B.get? n = some w.objectFilesCount) (h : run_clean B n bz s) :
    run_clean B (n + 1) bz (build_objects w s) := by
  unfold build_objects
  exact clean_frame _ (frame_call_if _ w _ (by rfl)) _ _ _ _
    (clean_frame _ (frame_call_if _ w _ (by rfl)) _ _ _ _
      (clean_frame _ (frame_call_if _ w _ (by rfl)) _ _ _ _
        (clean_frame _ (frame_call_if _ w _ (by rfl)) _ _ _ _
          (clean_frame _ (frame_call_if _ w _ (by rfl)) _ _ _ _
            (clean_objects w _ _ _ _ hB
              (clean_frame _ (frame_call w _ (by rfl)) _ _ _ _
                (clean_frame _ (frame_call w _ (by rfl)) _ _ _ _ h)))))))

theorem clean_build_graphics (w : World) (B : List Nat) (n : Nat) (bz : Prop) (s : Build)
    (hB : B.get? n = some w.shaderFileCount) (h : run_clean B n bz s) :
    run_clean B (n + 1) bz (build_graphics w s) := by
  unfold build_graphics
  exact clean_frame _ (frame_call_if _ w _ (by rfl)) _ _ _ _
    (clean_frame _ (frame_call_if _ w _ (by rfl)) _ _ _ _
      (clean_shaders w _ _ _ _ hB
        (clean_frame _ (frame_call w _ (by rfl)) _ _ _ _
          (clean_frame _ (frame_call w _ (by rfl)) _ _ _ _ h))))

theorem clean_build_assets (w : World) (B : List Nat) (n : Nat) (bz : Prop) (s : Build)
    (hB : B.get? n = some w.assetFileCount) (h : run_clean B n bz s) :
    run_clean B (n + 1) bz (build_assets w s) := by
  unfold build_assets
  exact clean_frame _ (frame_call_if _ w _ (by rfl)) _ _ _ _
    (clean_frame _ (frame_call_if _ w _ (by rfl)) _ _ _ _
      (clean_frame _ (frame_call_if _ w _ (by rfl)) _ _ _ _
        (clean_assets w _ _ _ _ hB
          (clean_frame _ (frame_call w _ (by rfl)) _ _ _ _
            (clean_frame _ (frame_call w _ (by rfl)) _ _ _ _ h)))))

theorem clean_build_binary (w : World) (B : List Nat) (n : Nat) (s : Build)
    (h : run_clean B n True s) : run_clean B n (w.binarySize = 0) (build_binary w s) := by
  unfold build_binary
  exact clean_frame _ (frame_call_if _ w _ (by rfl)) _ _ _ _ (clean_binary w _ _ _ h)

/-- With codegen and build enabled, no clean request and the three counters of this run
stored in the cache file, nothing becomes dirty. -/
theorem clean_build (w : World) (hc : w.codegen = ['1']) (hb : w.build = ['1'])
    (hclean : w.clean ≠ ['1']) :
    run_clean [w.objectFilesCount, w.shaderFileCount, w.assetFileCount] 3
      (w.binarySize = 0)
      (build w (some [w.objectFilesCount, w.shaderFileCount, w.assetFileCount])) := by
  have h0 : run_clean [w.objectFilesCount, w.shaderFileCount, w.assetFileCount] 0 True
      (build_cache w
        (Build.initial (some [w.objectFilesCount, w.shaderFileCount, w.assetFileCount]))) := by
    simp [run_clean, build_cache, Build.running, Build.initial, hclean]
  have h := clean_frame _ (frame_stage (decide (w.run = ['1'])) _
      (frame_record .executable_run (by rfl))) _ _ _ _
    (clean_save _ _ _ _
      (clean_frame _ (frame_compile w) _ _ _ _
        (clean_build_binary w _ _ _
          (clean_build_assets w _ _ _ _ (by rfl)
            (clean_build_graphics w _ _ _ _ (by rfl)
              (clean_build_objects w _ _ _ _ (by rfl) h0))))))
  simpa [build, build_from, hc, hb, stage] using h

/-- C10: the second run is a fixpoint. Let a completed run with codegen and build enabled
and the counters (o, s, a) store its buffer: the stored file holds o, s, a in that order.
A following run with the same switches and counters, the clean flag off and that file
loaded leaves the objects, shaders and assets dirty flags (and the global one) false, the
binary flag false when the binary blob is empty, and, when it completes, its current buffer
and the file it stores are again o, s, a. -/
theorem second_run_fixpoint (w1 w2 : World) (file : Option (List Nat))
    (h1c : w1.codegen = ['1']) (h1b : w1.build = ['1'])
    (h2c : w2.codegen = ['1']) (h2b : w2.build = ['1']) (hclean : w2.clean ≠ ['1'])
    (ho : w2.objectFilesCount = w1.objectFilesCount)
    (hs : w2.shaderFileCount = w1.shaderFileCount)
    (ha : w2.assetFileCount = w1.assetFileCount)
    (hdone : (build w1 file).fatal = none) :
    (build w1 file).cacheFile
        = some [w1.objectFilesCount, w1.shaderFileCount, w1.assetFileCount] ∧
      (build w2 (build w1 file).cacheFile).cacheDirty = false ∧
      (build w2 (build w1 file).cacheFile).cacheDirtyObjects = false ∧
      (build w2 (build w1 file).cacheFile).cacheDirtyShaders = false ∧
      (build w2 (build w1 file).cacheFile).cacheDirtyAssets = false ∧
      (w2.binarySize = 0 → (build w2 (build w1 file).cacheFile).cacheDirtyBinary = false) ∧
      ((build w2 (build w1 file).cacheFile).fatal = none →
        (build w2 (build w1 file).cacheFile).cacheBufferCurrent.data
            = [w1.objectFilesCount, w1.shaderFileCount, w1.assetFileCount] ∧
          (build w2 (build w1 file).cacheFile).cacheFile = (build w1 file).cacheFile) := by
  have hfile := ((writes_build w1 h1c h1b file) hdone).2 rfl
  rw [hfile]
  have hcl := clean_build w2 h2c h2b hclean
  have hwr := writes_build w2 h2c h2b
    (some [w2.objectFilesCount, w2.shaderFileCount, w2.assetFileCount])
  rw [ho, hs, ha] at hcl hwr
  obtain ⟨c1, c2, c3, c4, c5, _⟩ := hcl
  exact ⟨rfl, c1, c2, c3, c4, c5, fun hn => ⟨(hwr hn).1, (hwr hn).2 rfl⟩⟩

/-- C10, witness: two runs of `world_full` (counters 3, 4, 5), the first without a cache
file. -/
theorem second_run_fixpoint_witness :
    world_full.codegen = ['1'] ∧ world_full.build = ['1'] ∧ world_full.clean ≠ ['1'] ∧
      (build world_full none).fatal = none ∧
      (build world_full none).cacheFile = some [3, 4, 5] ∧
      (build world_full (build world_full none).cacheFile).cacheDirtyObjects = false ∧
      (build world_full (build world_full none).cacheFile).cacheDirtyShaders = false ∧
      (build world_full (build world_full none).cacheFile).cacheDirtyAssets = false ∧
      (build world_full (build world_full none).cacheFile).cacheDirtyBinary = false ∧
      (build world_full (build world_full none).cacheFile).cacheBufferCurrent.data
        = [3, 4, 5] :=
  have h := second_run_fixpoint world_full world_full none (by decide) (by decide)
    (by decide) (by decide) (by decide) rfl rfl rfl (by decide)
  ⟨by decide, by decide, by decide, by decide, h.1, h.2.2.1, h.2.2.2.1, h.2.2.2.2.1,
    h.2.2.2.2.2.1 rfl, (h.2.2.2.2.2.2 (by decide)).1⟩

/-! ### An array value behind a key -/

/-- From the first byte of a value the delimiter scanner stops right after the value, at the
comma or at the end of the view. -/
theorem delimiter_after_segment (A R seg : Text) (end_ : Nat)
    (hseg : lex_run false false 0 0 seg = some (false, false, 0, 0))
    (hesc : esc_at (A ++ (seg ++ R)) A.length = false)
    (hend : A.length + seg.length ≤ end_)
    (hR : end_ = A.length + seg.length ∨ R.head? = some ',') :
    json_find_element_delimiter (A ++ (seg ++ R)) A.length end_ = A.length + seg.length := by
  rw [json_find_element_delimiter, delimiter_loop_eq_scan, hesc, List.drop_left]
  have e : end_ - A.length = seg.length + (end_ - A.length - seg.length) := by
    omega
  rw [e, delimiter_scan_skip _ _ _ _ _ _ _ _ _ _ hseg]
  simp only
  rcases hR with hR | hR
  · have : end_ - A.length - seg.length = 0 := by omega
    rw [this, delimiter_scan]
    exact hR
  · cases R with
    | nil => simp at hR
    | cons r R =>
      simp only [List.head?_cons, Option.some.injEq] at hR
      subst hR
      rcases Nat.eq_zero_or_pos (end_ - A.length - seg.length) with h0 | h0
      · rw [h0, delimiter_scan]
        omega
      · obtain ⟨f, hf⟩ := Nat.exists_eq_add_of_lt h0
        simp only [Nat.zero_add] at hf
        rw [hf, delimiter_scan_comma]

/-- The text of a document that binds `k` to the value `v` after the members `pre`. -/
theorem render_bound (pre post : JMembers) (k : Text) (v : JValue) :
    render (.obj (pre.append (.cons k v post)))
      = ('{' :: (render_lead pre ++ (quoted k ++ [':'])))
          ++ (render v ++ (render_more_members post ++ ['}'])) := by
  simp [render, render_members_append]

/-- The span that `find_element_key` returns for the first member with the key: the text
of its value. -/
theorem find_element_key_bound (pre post : JMembers) (k : Text) (v : JValue)
    (hk : str_ok k = true) (hv : v.wf = true) (hpre : pre.wf = true)
    (hnp : pre.nested_plain = true) (hne : escape k ∉ pre.key_texts) :
    (root_view (pre.append (.cons k v post))).find_element_key (escape k)
      = { start := ('{' :: (render_lead pre ++ (quoted k ++ [':']))).length,
          end_ := ('{' :: (render_lead pre ++ (quoted k ++ [':']))).length + (render v).length } := by
  have hkey := find_key_bound pre post k v hk hpre hnp hne
  have htext := render_bound pre post k v
  have hpos := render_length_pos v hv
  simp only [JSON.find_element_key, root_view]
  rw [hkey]
  generalize hA : ('{' :: (render_lead pre ++ (quoted k ++ [':']))) = A at htext ⊢
  have hlen : (render (.obj (pre.append (.cons k v post)))).length
      = A.length + (render v).length + (render_more_members post).length + 1 := by
    rw [htext]
    simp only [List.length_append, List.length_singleton]
    omega
  have hesc : esc_at (A ++ (render v ++ (render_more_members post ++ ['}']))) A.length = false := by
    subst hA
    have e : ('{' :: (render_lead pre ++ (quoted k ++ [':'])))
          ++ (render v ++ (render_more_members post ++ ['}']))
        = ('{' :: (render_lead pre ++ quoted k)) ++ ':' :: (render v ++ (render_more_members post ++ ['}'])) := by
      simp
    have l : ('{' :: (render_lead pre ++ (quoted k ++ [':']))).length - 1
        = ('{' :: (render_lead pre ++ quoted k)).length := by
      simp only [List.length_cons, List.length_append, List.length_nil]
      omega
    simp only [esc_at]
    rw [l, e, char_at_append_length]
    simp
  have hR : (render (.obj (pre.append (.cons k v post)))).length - 1
        = A.length + (render v).length
      ∨ (render_more_members post ++ ['}']).head? = some ',' := by
    cases post with
    | nil =>
      left
      rw [hlen]
      simp [render_more_members]
    | cons k2 v2 rest =>
      right
      simp [render_more_members]
  have hd := delimiter_after_segment A (render_more_members post ++ ['}']) (render v)
    ((render (.obj (pre.append (.cons k v post)))).length - 1) (lex_run_value v hv 0 0) hesc
    (by rw [hlen]; omega) hR
  rw [← htext] at hd
  rw [hd]
  have h1 : ¬ A.length > (render (.obj (pre.append (.cons k v post)))).length - 1 := by
    rw [hlen]; omega
  have h2 : ¬ (A.length + (render v).length
        > (render (.obj (pre.append (.cons k v post)))).length - 1
      ∨ A.length + (render v).length ≤ A.length) := by
    rw [hlen]
    omega
  simp only [h1, h2, if_false]

theorem count_scan_more_elems (tail : Text) (f : Nat) : ∀ (es : JElems), es.wf = true →
    ∀ count : Nat,
    count_scan ((render_more_elems es).length + f) false false 0 0 count
      (render_more_elems es ++ tail) = count_scan f false false 0 0 (count + es.length) tail
  | .nil, _, count => by simp [render_more_elems, JElems.length]
  | .cons v rest, h, count => by
    simp only [JElems.wf, Bool.and_eq_true] at h
    rw [render_more_elems_cons]
    have e : (',' :: (render v ++ render_more_elems rest)).length + f
        = ((render v).length + ((render_more_elems rest).length + f)) + 1 := by
      simp only [List.length_cons, List.length_append]; omega
    rw [e, List.cons_append, count_scan_comma, List.append_assoc,
      count_scan_skip _ _ _ _ _ _ _ _ _ (lex_run_value v h.1 0 0)]
    simp only
    rw [count_scan_more_elems tail f rest h.2]
    simp only [JElems.length]
    congr 1
    omega

theorem count_scan_elems (tail : Text) (f : Nat) (v : JValue) (rest : JElems)
    (h : (JElems.cons v rest).wf = true) :
    count_scan ((render_elems (.cons v rest)).length + f) false false 0 0 1
      (render_elems (.cons v rest) ++ tail)
      = count_scan f false false 0 0 (JElems.cons v rest).length tail := by
  simp only [JElems.wf, Bool.and_eq_true] at h
  rw [render_elems_cons]
  have e : (render v ++ render_more_elems rest).length + f
      = (render v).length + ((render_more_elems rest).length + f) := by
    simp only [List.length_append]; omega
  rw [e, List.append_assoc, count_scan_skip _ _ _ _ _ _ _ _ _ (lex_run_value v h.1 0 0)]
  simp only
  rw [count_scan_more_elems tail f rest h.2]
  simp only [JElems.length]
  congr 1
  omega

/-- `count()` on a view that spans the text of the elements of an array: 0 when the text
has at most one byte, else the number of elements. -/
theorem count_elems_view (A R : Text) (es : JElems) (hwf : es.wf = true)
    (hlen : A.length + (render_elems es).length < 2 ^ 64) :
    JSON.count ⟨(A ++ ['[']) ++ (render_elems es ++ (']' :: R)), A.length + 1,
        A.length + 1 + (render_elems es).length⟩
      = if (render_elems es).length ≤ 1 then 0 else es.length := by
  simp only [JSON.count]
  have e1 : (A.length + 1 + (render_elems es).length + 2 ^ 64 - (A.length + 1)) % 2 ^ 64
      = (render_elems es).length := by omega
  rw [e1]
  by_cases h1 : (render_elems es).length ≤ 1
  · simp [h1]
  · rw [if_neg h1, if_neg h1, count_loop_eq_scan]
    have l : A.length + 1 = (A ++ ['[']).length := by simp
    have hd : ((A ++ ['[']) ++ (render_elems es ++ (']' :: R))).drop (A.length + 1)
        = render_elems es ++ (']' :: R) := by
      rw [l, List.drop_left]
    have hesc : esc_at ((A ++ ['[']) ++ (render_elems es ++ (']' :: R))) (A.length + 1)
        = false := by
      have e : (A ++ ['[']) ++ (render_elems es ++ (']' :: R))
          = A ++ '[' :: (render_elems es ++ (']' :: R)) := by simp
      simp only [esc_at, Nat.add_sub_cancel]
      rw [e, char_at_append_length]
      simp
    rw [hd, hesc,
      show A.length + 1 + (render_elems es).length - (A.length + 1) = (render_elems es).length
        by omega]
    cases es with
    | nil => simp [render_elems] at h1
    | cons v rest =>
      have := count_scan_elems (']' :: R) 0 v rest hwf
      simp only [Nat.add_zero] at this
      rw [this]
      simp [count_scan]

/-- The view that `array( key )` returns for a top-level key bound to an array, and what
`count()` gives on it: 0 when the text between the brackets has at most one byte, the
number of elements otherwise. -/
theorem array_count_bound (pre post : JMembers) (k : Text) (es : JElems)
    (hk : str_ok k = true) (hes : es.wf = true) (hpre : pre.wf = true)
    (hnp : pre.nested_plain = true) (hne : escape k ∉ pre.key_texts)
    (hlen : (render (.obj (pre.append (.cons k (.arr es) post)))).length < 2 ^ 64) :
    (root_view (pre.append (.cons k (.arr es) post))).array (escape k)
        = ⟨render (.obj (pre.append (.cons k (.arr es) post))),
            ('{' :: (render_lead pre ++ (quoted k ++ [':']))).length + 1,
            ('{' :: (render_lead pre ++ (quoted k ++ [':']))).length + 1
              + (render_elems es).length⟩ ∧
      ((root_view (pre.append (.cons k (.arr es) post))).array (escape k)).count
        = if (render_elems es).length ≤ 1 then 0 else es.length := by
  have hv : (JValue.arr es).wf = true := by simpa [JValue.wf] using hes
  have hel := find_element_key_bound pre post k (.arr es) hk hv hpre hnp hne
  have htext := render_bound pre post k (.arr es)
  generalize hA : ('{' :: (render_lead pre ++ (quoted k ++ [':']))) = A at hel htext ⊢
  have hApos : 0 < A.length := by
    subst hA
    simp
  have hr : render (.arr es) = '[' :: (render_elems es ++ [']']) := by
    simp [render]
  have htext2 : render (.obj (pre.append (.cons k (.arr es) post)))
      = (A ++ ['[']) ++ (render_elems es ++ (']' :: (render_more_members post ++ ['}']))) := by
    rw [htext, hr]
    simp
  have hview : (root_view (pre.append (.cons k (.arr es) post))).array (escape k)
      = ⟨render (.obj (pre.append (.cons k (.arr es) post))), A.length + 1,
          A.length + 1 + (render_elems es).length⟩ := by
    simp only [JSON.array]
    rw [hel]
    have hfound : JSONElement.found
        { start := A.length, end_ := A.length + (render (.arr es)).length } = true := by
      simp only [JSONElement.found]
      have : ¬ A.length = 0 := by omega
      simp [this]
    have hopen : char_at (root_view (pre.append (.cons k (.arr es) post))).string A.length
        = '[' := by
      simp only [root_view]
      rw [htext, hr]
      exact char_at_append_length A '[' _
    have hclose : char_at (root_view (pre.append (.cons k (.arr es) post))).string
        (A.length + (render (.arr es)).length - 1) = ']' := by
      simp only [root_view]
      have e : render (.obj (pre.append (.cons k (.arr es) post)))
          = (A ++ ('[' :: render_elems es)) ++ ']' :: (render_more_members post ++ ['}']) := by
        rw [htext, hr]
        simp
      have l : A.length + (render (.arr es)).length - 1 = (A ++ ('[' :: render_elems es)).length := by
        rw [hr]
        simp only [List.length_cons, List.length_append, List.length_nil]
        omega
      rw [l, e]
      exact char_at_append_length _ ']' _
    rw [((scope_of_spec _ _ _ _).1 ⟨hfound, hopen, hclose⟩)]
    simp only [root_view, JSON.mk.injEq, true_and]
    rw [hr]
    simp only [List.length_cons, List.length_append, List.length_nil]
    omega
  refine ⟨hview, ?_⟩
  rw [hview, htext2]
  apply count_elems_view A _ es hes
  have : (render (.obj (pre.append (.cons k (.arr es) post)))).length
      ≥ A.length + (render_elems es).length := by
    rw [htext2]
    simp only [List.length_append]
    omega
  omega

/-! ## The cache checks one by one -/

theorem objects_cache_alive (w : World) (s : Build) (h : s.fatal = none) :
    (objects_cache w s).cacheDirtyObjects
        = (s.cacheDirtyObjects || s.cacheDirty
            || decide (some w.objectFilesCount ≠ s.cacheBufferPrevious.read.1)) ∧
      (objects_cache w s).cacheBufferCurrent.data
        = s.cacheBufferCurrent.data ++ [w.objectFilesCount] := by
  rw [objects_cache, running_alive _ s h]
  by_cases hd : s.cacheDirty = true
  · simp [hd, Buffer.write]
  · simp [hd, Buffer.write]

theorem shaders_cache_alive (w : World) (s : Build) (h : s.fatal = none) :
    (shaders_cache w s).cacheDirtyShaders
        = (s.cacheDirtyShaders || s.cacheDirty
            || decide (some w.shaderFileCount ≠ s.cacheBufferPrevious.read.1)) ∧
      (shaders_cache w s).cacheBufferCurrent.data
        = s.cacheBufferCurrent.data ++ [w.shaderFileCount] ∧
      (shaders_cache w s).cacheDirtyAssets
        = (s.cacheDirtyAssets || (shaders_cache w s).cacheDirtyShaders) := by
  rw [shaders_cache, running_alive _ s h]
  by_cases hd : s.cacheDirty = true
  · simp [hd, Buffer.write]
  · simp [hd, Buffer.write]

theorem assets_cache_alive (w : World) (s : Build) (h : s.fatal = none) :
    (assets_cache w s).cacheDirtyAssets
        = (s.cacheDirtyAssets || s.cacheDirty
            || decide (some w.assetFileCount ≠ s.cacheBufferPrevious.read.1)) ∧
      (assets_cache w s).cacheBufferCurrent.data
        = s.cacheBufferCurrent.data ++ [w.assetFileCount] := by
  rw [assets_cache, running_alive _ s h]
  by_cases hd : s.cacheDirty = true
  · simp [hd, Buffer.write]
  · simp [hd, Buffer.write]

theorem bool_or3 (a b c : Bool) : (a || b || c) = true ↔ a = true ∨ b = true ∨ c = true := by
  cases a <;> cases b <;> cases c <;> simp

/-- C13: the contract of a stage check. For each of `objects_cache`, `shaders_cache` and
`assets_cache`, called while the process is alive: the dirty flag of the stage is true
after the call if and only if it was true on entry, or the global dirty flag is set, or the
current counter of the stage differs from the next counter of the previous buffer at its
cursor (a cursor past the last counter gives no counter, which differs); and the call
appends exactly the current counter of the stage to the current buffer. -/
theorem stage_check_contract (w : World) (s : Build) (h : s.fatal = none) :
    (((objects_cache w s).cacheDirtyObjects = true ↔
        s.cacheDirtyObjects = true ∨ s.cacheDirty = true ∨
          some w.objectFilesCount ≠ s.cacheBufferPrevious.read.1) ∧
      (objects_cache w s).cacheBufferCurrent.data
        = s.cacheBufferCurrent.data ++ [w.objectFilesCount]) ∧
    (((shaders_cache w s).cacheDirtyShaders = true ↔
        s.cacheDirtyShaders = true ∨ s.cacheDirty = true ∨
          some w.shaderFileCount ≠ s.cacheBufferPrevious.read.1) ∧
      (shaders_cache w s).cacheBufferCurrent.data
        = s.cacheBufferCurrent.data ++ [w.shaderFileCount]) ∧
    (((assets_cache w s).cacheDirtyAssets = true ↔
        s.cacheDirtyAssets = true ∨ s.cacheDirty = true ∨
          some w.assetFileCount ≠ s.cacheBufferPrevious.read.1) ∧
      (assets_cache w s).cacheBufferCurrent.data
        = s.cacheBufferCurrent.data ++ [w.assetFileCount]) := by
  obtain ⟨o1, o2⟩ := objects_cache_alive w s h
  obtain ⟨s1, s2, _⟩ := shaders_cache_alive w s h
  obtain ⟨a1, a2⟩ := assets_cache_alive w s h
  refine ⟨⟨?_, o2⟩, ⟨?_, s2⟩, ⟨?_, a2⟩⟩
  · rw [o1, bool_or3, decide_eq_true_iff]
  · rw [s1, bool_or3, decide_eq_true_iff]
  · rw [a1, bool_or3, decide_eq_true_iff]

/-- C13, witness: the three checks on the state after `build_cache` with the stored
counters 3, 4, 5 loaded, in a world with the counters 3, 9, 5: the objects and assets
checks match the first stored counter or not, each appends its own counter. -/
theorem stage_check_contract_witness :
    (build_cache world_shaders_changed (Build.initial (some [3, 4, 5]))).fatal = none ∧
      (objects_cache world_shaders_changed
        (build_cache world_shaders_changed (Build.initial (some [3, 4, 5])))).cacheDirtyObjects
          = false ∧
      (shaders_cache world_shaders_changed
        (build_cache world_shaders_changed
          (Build.initial (some [3, 4, 5])))).cacheBufferCurrent.data = [9] :=
  have h := stage_check_contract world_shaders_changed
    (build_cache world_shaders_changed (Build.initial (some [3, 4, 5]))) (by decide)
  ⟨by decide, by decide, h.2.1.2⟩

/-! ## Invariants of a run -/

theorem inv_call_if (P : Build → Prop) (d : Build → Bool) (w : World) (step : Step)
    (h : ∀ s, P s → P (call w step s)) (s : Build) (hs : P s) : P (call_if d w step s) := by
  by_cases hd : d s = true
  · rw [call_if, if_pos hd]
    exact h s hs
  · rw [call_if, if_neg hd]
    exact hs

theorem inv_stage (P : Build → Prop) (b : Bool) (f : Build → Build)
    (h : ∀ s, P s → P (f s)) (s : Build) (hs : P s) : P (stage b f s) := by
  cases b
  · exact hs
  · exact h s hs

/-- A property that every call of a collaborator and every cache check keeps is kept by
the five blocks of `build`. -/
theorem phases_inv (P : Build → Prop) (w : World)
    (hcall : ∀ step : Step, step.can_fail = true → ∀ s, P s → P (call w step s))
    (ho : ∀ s, P s → P (objects_cache w s)) (hsh : ∀ s, P s → P (shaders_cache w s))
    (ha : ∀ s, P s → P (assets_cache w s)) (hb : ∀ s, P s → P (binary_cache w s))
    (s : Build) (hs : P s) : P (build_phases w s) := by
  have hobj : ∀ s, P s → P (build_objects w s) := by
    intro s hs
    unfold build_objects
    exact inv_call_if P _ w _ (hcall _ (by rfl)) _
      (inv_call_if P _ w _ (hcall _ (by rfl)) _
        (inv_call_if P _ w _ (hcall _ (by rfl)) _
          (inv_call_if P _ w _ (hcall _ (by rfl)) _
            (inv_call_if P _ w _ (hcall _ (by rfl)) _
              (ho _ (hcall _ (by rfl) _ (hcall _ (by rfl) _ hs)))))))
  have hgfx : ∀ s, P s → P (build_graphics w s) := by
    intro s hs
    unfold build_graphics
    exact inv_call_if P _ w _ (hcall _ (by rfl)) _
      (inv_call_if P _ w _ (hcall _ (by rfl)) _
        (hsh _ (hcall _ (by rfl) _ (hcall _ (by rfl) _ hs))))
  have hast : ∀ s, P s → P (build_assets w s) := by
    intro s hs
    unfold build_assets
    exact inv_call_if P _ w _ (hcall _ (by rfl)) _
      (inv_call_if P _ w _ (hcall _ (by rfl)) _
        (inv_call_if P _ w _ (hcall _ (by rfl)) _
          (ha _ (hcall _ (by rfl) _ (hcall _ (by rfl) _ hs)))))
  have hbin : ∀ s, P s → P (build_binary w s) := by
    intro s hs
    unfold build_binary
    exact inv_call_if P _ w _ (hcall _ (by rfl)) _ (hb _ hs)
  have hcmp : ∀ s, P s → P (build_compile w s) := by
    intro s hs
    unfold build_compile
    exact hcall _ (by rfl) _ (hcall _ (by rfl) _ (hcall _ (by rfl) _ (hcall _ (by rfl) _ hs)))
  unfold build_phases
  exact inv_stage P _ _ hcmp _
    (inv_stage P _ _ hbin _
      (inv_stage P _ _ hast _
        (inv_stage P _ _ hgfx _
          (inv_stage P _ _ hobj _ hs))))

/-- The method `build` is "Check Cache", the five blocks, "Finish" and "Run Executable". -/
theorem build_from_eq (w : World) (s : Build) :
    build_from w s
      = stage (decide (w.run = ['1'])) (record .executable_run)
          (cache_save (build_phases w (build_cache w s))) := rfl

/-- A property kept by every statement of `build` holds at its end. -/
theorem build_inv (P : Build → Prop) (w : World)
    (hcall : ∀ step : Step, step.can_fail = true → ∀ s, P s → P (call w step s))
    (ho : ∀ s, P s → P (objects_cache w s)) (hsh : ∀ s, P s → P (shaders_cache w s))
    (ha : ∀ s, P s → P (assets_cache w s)) (hb : ∀ s, P s → P (binary_cache w s))
    (hc : ∀ s, P s → P (build_cache w s)) (hsave : ∀ s, P s → P (cache_save s))
    (hrun : ∀ s, P s → P (record .executable_run s))
    (s : Build) (hs : P s) : P (build_from w s) := by
  rw [build_from_eq]
  exact inv_stage P _ _ hrun _ (hsave _ (phases_inv P w hcall ho hsh ha hb _ (hc _ hs)))

theorem call_fields (w : World) (step : Step) (s : Build) :
    (call w step s).cacheDirty = s.cacheDirty ∧
      (call w step s).cacheDirtyObjects = s.cacheDirtyObjects ∧
      (call w step s).cacheDirtyShaders = s.cacheDirtyShaders ∧
      (call w step s).cacheDirtyAssets = s.cacheDirtyAssets ∧
      (call w step s).cacheDirtyBinary = s.cacheDirtyBinary ∧
      (call w step s).cacheBufferPrevious = s.cacheBufferPrevious ∧
      (call w step s).cacheBufferCurrent = s.cacheBufferCurrent ∧
      (call w step s).cacheFile = s.cacheFile := by
  rcases fatal_cases s with hf | ⟨x, hf⟩
  · rw [call, running_alive _ s hf]
    by_cases hw : w.fails step = true
    · simp [hw]
    · simp [hw]
  · rw [call, running_dead _ s x hf]
    simp

theorem record_fields (step : Step) (s : Build) :
    (record step s).cacheDirty = s.cacheDirty ∧
      (record step s).cacheDirtyObjects = s.cacheDirtyObjects ∧
      (record step s).cacheDirtyShaders = s.cacheDirtyShaders ∧
      (record step s).cacheDirtyAssets = s.cacheDirtyAssets ∧
      (record step s).cacheDirtyBinary = s.cacheDirtyBinary ∧
      (record step s).cacheBufferPrevious = s.cacheBufferPrevious ∧
      (record step s).cacheBufferCurrent = s.cacheBufferCurrent ∧
      (record step s).cacheFile = s.cacheFile := by
  rcases fatal_cases s with hf | ⟨x, hf⟩
  · rw [record, running_alive _ s hf]
    simp
  · rw [record, running_dead _ s x hf]
    simp

theorem call_if_fields (d : Build → Bool) (w : World) (step : Step) (s : Build) :
    (call_if d w step s).cacheDirty = s.cacheDirty ∧
      (call_if d w step s).cacheDirtyObjects = s.cacheDirtyObjects ∧
      (call_if d w step s).cacheDirtyShaders = s.cacheDirtyShaders ∧
      (call_if d w step s).cacheDirtyAssets = s.cacheDirtyAssets ∧
      (call_if d w step s).cacheDirtyBinary = s.cacheDirtyBinary ∧
      (call_if d w step s).cacheBufferPrevious = s.cacheBufferPrevious ∧
      (call_if d w step s).cacheBufferCurrent = s.cacheBufferCurrent ∧
      (call_if d w step s).cacheFile = s.cacheFile := by
  by_cases hd : d s = true
  · rw [call_if, if_pos hd]
    exact call_fields w step s
  · rw [call_if, if_neg hd]
    simp

/-! ### The shaders flag and the assets flag -/

theorem assets_cache_keeps (w : World) (s : Build) (h : s.cacheDirtyAssets = true) :
    (assets_cache w s).cacheDirtyAssets = true := by
  rcases fatal_cases s with hf | ⟨x, hf⟩
  · rw [(assets_cache_alive w s hf).1, h]
    simp
  · rw [assets_cache, running_dead _ s x hf]
    exact h

theorem assets_cache_shaders (w : World) (s : Build) :
    (assets_cache w s).cacheDirtyShaders = s.cacheDirtyShaders := by
  rcases fatal_cases s with hf | ⟨x, hf⟩
  · rw [assets_cache, running_alive _ s hf]
    by_cases hd : s.cacheDirty = true <;> simp [hd]
  · rw [assets_cache, running_dead _ s x hf]

/-- The assets flag on the way from `shaders_cache` to `assets_cache`. -/
theorem shaders_to_assets_keeps (w : World) (s : Build) (h : s.cacheDirtyAssets = true) :
    (shaders_to_assets_cache w s).cacheDirtyAssets = true := by
  unfold shaders_to_assets_cache
  apply assets_cache_keeps
  rw [(call_fields w _ _).2.2.2.1, (call_fields w _ _).2.2.2.1,
    (call_if_fields _ w _ _).2.2.2.1, (call_if_fields _ w _ _).2.2.2.1]
  exact h

/-- At every point of a run the shaders flag implies the assets flag. -/
theorem shaders_implies_assets (w : World) (s : Build)
    (h : s.cacheDirtyShaders = true → s.cacheDirtyAssets = true) :
    (build_from w s).cacheDirtyShaders = true → (build_from w s).cacheDirtyAssets = true := by
  apply build_inv (fun s => s.cacheDirtyShaders = true → s.cacheDirtyAssets = true) w _ _ _ _ _ _ _ _
    s h
  · intro step _ s hs
    rw [(call_fields w step s).2.2.1, (call_fields w step s).2.2.2.1]
    exact hs
  · intro s hs
    rcases fatal_cases s with hf | ⟨x, hf⟩
    · rw [objects_cache, running_alive _ s hf]
      by_cases hd : s.cacheDirty = true <;> simpa [hd] using hs
    · rw [objects_cache, running_dead _ s x hf]
      exact hs
  · intro s hs
    rcases fatal_cases s with hf | ⟨x, hf⟩
    · intro h1
      rw [(shaders_cache_alive w s hf).2.2, h1]
      simp
    · rw [shaders_cache, running_dead _ s x hf]
      exact hs
  · intro s hs h1
    rw [assets_cache_shaders] at h1
    exact assets_cache_keeps w s (hs h1)
  · intro s hs
    rcases fatal_cases s with hf | ⟨x, hf⟩
    · rw [binary_cache, running_alive _ s hf]
      simpa using hs
    · rw [binary_cache, running_dead _ s x hf]
      exact hs
  · intro s hs
    rcases fatal_cases s with hf | ⟨x, hf⟩
    · rw [build_cache, running_alive _ s hf]
      cases hc : s.cacheFile <;> simpa [hc] using hs
    · rw [build_cache, running_dead _ s x hf]
      exact hs
  · intro s hs
    rcases fatal_cases s with hf | ⟨x, hf⟩
    · rw [cache_save, running_alive _ s hf]
      simpa using hs
    · rw [cache_save, running_dead _ s x hf]
      exact hs
  · intro s hs
    rw [(record_fields _ s).2.2.1, (record_fields _ s).2.2.2.1]
    exact hs

/-- C11: the shaders flag forces the assets flag. Whenever `shaders_cache` is called while
the process is alive and leaves the shaders flag true, the assets flag is true right after
it and still true after the statements that follow up to and including `assets_cache`; at
the end of every run the shaders flag implies the assets flag. This happens with the cache
loaded, the clean flag off and the asset counter equal to the stored one (stored 3, 4, 5;
counters 3, 9, 5: shaders and assets dirty, objects not); the converse fails (stored 3, 4,
5; counters 3, 4, 6: assets dirty, shaders not). -/
theorem shaders_dirty_forces_assets_dirty (w : World) (s : Build) (file : Option (List Nat))
    (h : s.fatal = none) :
    ((shaders_cache w s).cacheDirtyShaders = true →
        (shaders_cache w s).cacheDirtyAssets = true ∧
        (shaders_to_assets_cache w (shaders_cache w s)).cacheDirtyAssets = true) ∧
      ((build w file).cacheDirtyShaders = true → (build w file).cacheDirtyAssets = true) ∧
      ((build world_shaders_changed (some [3, 4, 5])).cacheDirtyShaders = true ∧
        (build world_shaders_changed (some [3, 4, 5])).cacheDirtyAssets = true ∧
        (build world_shaders_changed (some [3, 4, 5])).cacheDirtyObjects = false ∧
        (build world_shaders_changed (some [3, 4, 5])).cacheDirty = false ∧
        Step.assets_cache ∈ (build world_shaders_changed (some [3, 4, 5])).log) ∧
      ((build world_assets_changed (some [3, 4, 5])).cacheDirtyAssets = true ∧
        (build world_assets_changed (some [3, 4, 5])).cacheDirtyShaders = false) := by
  refine ⟨?_, ?_, by decide, by decide⟩
  · intro h1
    have h2 : (shaders_cache w s).cacheDirtyAssets = true := by
      rw [(shaders_cache_alive w s h).2.2, h1]
      simp
    exact ⟨h2, shaders_to_assets_keeps w _ h2⟩
  · exact shaders_implies_assets w (Build.initial file) (by simp [Build.initial])

/-- C11, witness: `shaders_cache` called right after `build_cache` with the stored counters
3, 4, 5 and nine shader files. -/
theorem shaders_dirty_forces_assets_dirty_witness :
    (build_cache world_shaders_changed (Build.initial (some [3, 4, 5]))).fatal = none ∧
      (shaders_cache world_shaders_changed
        (build_cache world_shaders_changed (Build.initial (some [3, 4, 5])))).cacheDirtyShaders
          = true ∧
      (shaders_to_assets_cache world_shaders_changed
        (shaders_cache world_shaders_changed
          (build_cache world_shaders_changed (Build.initial (some [3, 4, 5]))))).cacheDirtyAssets
          = true :=
  have h := shaders_dirty_forces_assets_dirty world_shaders_changed
    (build_cache world_shaders_changed (Build.initial (some [3, 4, 5]))) none (by decide)
  ⟨by decide, by decide, (h.1 (by decide)).2⟩

/-! ### An explicit clean request -/

theorem build_cache_clean (w : World) (file : Option (List Nat)) (hclean : w.clean = ['1']) :
    (build_cache w (Build.initial file)).cacheDirty = true ∧
      (build_cache w (Build.initial file)).log = [] := by
  cases file <;> simp [build_cache, Build.running, Build.initial, hclean]

/-- C12: an explicit clean request. With the clean argument equal to "1" the global dirty
flag is true after `build_cache`, whether the stored cache file loads or not, and every
stage cache check that executes afterwards leaves the flag of its stage true; in the world
`world_clean` the stored counters 3, 4, 5 load and equal the counters of the run, all four
checks execute and all four flags are true. -/
theorem clean_request_all_dirty (w : World) (file : Option (List Nat))
    (hclean : w.clean = ['1']) :
    (build_cache w (Build.initial file)).cacheDirty = true ∧
      (build w file).cacheDirty = true ∧
      (Step.objects_cache ∈ (build w file).log → (build w file).cacheDirtyObjects = true) ∧
      (Step.shaders_cache ∈ (build w file).log → (build w file).cacheDirtyShaders = true) ∧
      (Step.assets_cache ∈ (build w file).log → (build w file).cacheDirtyAssets = true) ∧
      (Step.binary_cache ∈ (build w file).log → (build w file).cacheDirtyBinary = true) := by
  obtain ⟨hd, hl⟩ := build_cache_clean w file hclean
  have h := all_dirty_build_from w (Build.initial file) hd hl
  exact ⟨hd, h.1, fun hm => h.2 _ hm, fun hm => h.2 _ hm, fun hm => h.2 _ hm,
    fun hm => h.2 _ hm⟩

/-- C12, witness: the world `world_clean` with the stored counters 3, 4, 5, which are the
counters of the run: the file loads, all four checks execute and report dirty. -/
theorem clean_request_all_dirty_witness :
    world_clean.clean = ['1'] ∧
      (build_cache world_clean (Build.initial (some [3, 4, 5]))).cacheBufferPrevious.data
        = [world_clean.objectFilesCount, world_clean.shaderFileCount,
            world_clean.assetFileCount] ∧
      (∀ c ∈ [Step.objects_cache, Step.shaders_cache, Step.assets_cache, Step.binary_cache],
        c ∈ (build world_clean (some [3, 4, 5])).log) ∧
      (build world_clean (some [3, 4, 5])).cacheDirtyObjects = true ∧
      (build world_clean (some [3, 4, 5])).cacheDirtyShaders = true ∧
      (build world_clean (some [3, 4, 5])).cacheDirtyAssets = true ∧
      (build world_clean (some [3, 4, 5])).cacheDirtyBinary = true :=
  have h := clean_request_all_dirty world_clean (some [3, 4, 5]) (by decide)
  ⟨by decide, by decide, by decide, h.2.2.1 (by decide), h.2.2.2.1 (by decide),
    h.2.2.2.2.1 (by decide), h.2.2.2.2.2 (by decide)⟩

/-! ### The commit of the cache -/

theorem grows_running (f : Build → Build)
    (h : ∀ s, s.fatal = none → ∀ c ∈ s.log, c ∈ (f s).log) : Grows (Build.running f) := by
  intro s
  rcases fatal_cases s with hf | ⟨x, hf⟩
  · rw [running_alive _ s hf]
    exact ⟨fun _ => hf, h s hf⟩
  · rw [running_dead _ s x hf]
    exact ⟨fun h => h, fun _ hc => hc⟩

theorem grows_call (w : World) (step : Step) : Grows (call w step) := by
  apply grows_running
  intro s _ c hc
  by_cases hw : w.fails step = true
  · simp [hw, hc]
  · simp [hw, hc]

theorem grows_record (step : Step) : Grows (record step) := by
  apply grows_running
  intro s _ c hc
  simp [hc]

theorem grows_id : Grows (fun s => s) := fun _ => ⟨fun h => h, fun _ hc => hc⟩

theorem grows_call_if (d : Build → Bool) (w : World) (step : Step) :
    Grows (call_if d w step) := by
  intro s
  by_cases hd : d s = true
  · rw [call_if, if_pos hd]
    exact grows_call w step s
  · rw [call_if, if_neg hd]
    exact grows_id s

theorem grows_comp (f g : Build → Build) (hf : Grows f) (hg : Grows g) :
    Grows (fun s => g (f s)) := by
  intro s
  exact ⟨fun h => (hf s).1 ((hg (f s)).1 h), fun c hc => (hg (f s)).2 c ((hf s).2 c hc)⟩

theorem grows_stage (b : Bool) (f : Build → Build) (hf : Grows f) : Grows (stage b f) := by
  intro s
  cases b
  · exact grows_id s
  · exact hf s

theorem grows_objects_cache (w : World) : Grows (objects_cache w) := by
  apply grows_running
  intro s _ c hc
  by_cases hd : s.cacheDirty = true <;> simp [hd, hc]

theorem grows_shaders_cache (w : World) : Grows (shaders_cache w) := by
  apply grows_running
  intro s _ c hc
  by_cases hd : s.cacheDirty = true <;> simp [hd, hc]

theorem grows_assets_cache (w : World) : Grows (assets_cache w) := by
  apply grows_running
  intro s _ c hc
  by_cases hd : s.cacheDirty = true <;> simp [hd, hc]

theorem grows_binary_cache (w : World) : Grows (binary_cache w) := by
  apply grows_running
  intro s _ c hc
  simp [hc]

theorem grows_cache_save : Grows cache_save := by
  apply grows_running
  intro s _ c hc
  simp [hc]

theorem grows_build_objects (w : World) : Grows (build_objects w) := by
  intro s
  unfold build_objects
  exact grows_comp _ _ (grows_comp _ _ (grows_comp _ _ (grows_comp _ _ (grows_comp _ _
    (grows_comp _ _ (grows_comp _ _ (grows_call w _) (grows_call w _))
      (grows_objects_cache w)) (grows_call_if _ w _)) (grows_call_if _ w _))
        (grows_call_if _ w _)) (grows_call_if _ w _)) (grows_call_if _ w _) s

theorem grows_build_graphics (w : World) : Grows (build_graphics w) := by
  intro s
  unfold build_graphics
  exact grows_comp _ _ (grows_comp _ _ (grows_comp _ _ (grows_comp _ _ (grows_call w _)
    (grows_call w _)) (grows_shaders_cache w)) (grows_call_if _ w _)) (grows_call_if _ w _) s

theorem grows_build_assets (w : World) : Grows (build_assets w) := by
  intro s
  unfold build_assets
  exact grows_comp _ _ (grows_comp _ _ (grows_comp _ _ (grows_comp _ _ (grows_comp _ _
    (grows_call w _) (grows_call w _)) (grows_assets_cache w)) (grows_call_if _ w _))
      (grows_call_if _ w _)) (grows_call_if _ w _) s

theorem grows_build_binary (w : World) : Grows (build_binary w) := by
  intro s
  unfold build_binary
  exact grows_comp _ _ (grows_binary_cache w) (grows_call_if _ w _) s

theorem grows_build_compile (w : World) : Grows (build_compile w) := by
  intro s
  unfold build_compile
  exact grows_comp _ _ (grows_comp _ _ (grows_comp _ _ (grows_call w _) (grows_call w _))
    (grows_call w _)) (grows_call w _) s

/-- A step that records itself when it runs, followed by steps that grow: if the process
is alive at the end, the step is in the record. -/
theorem done_then (f g : Build → Build) (step : Step) (hg : Grows g)
    (hf : ∀ s, (f s).fatal = none → step ∈ (f s).log) (s : Build)
    (h : (g (f s)).fatal = none) : step ∈ (g (f s)).log :=
  (hg (f s)).2 step (hf s ((hg (f s)).1 h))

theorem done_running (f : Build → Build) (step : Step)
    (h : ∀ s, step ∈ (f s).log) (s : Build) (ha : (Build.running f s).fatal = none) :
    step ∈ (Build.running f s).log := by
  rcases fatal_cases s with hf | ⟨x, hf⟩
  · rw [running_alive _ s hf]
    exact h s
  · rw [running_dead _ s x hf, hf] at ha
    exact absurd ha (by simp)

theorem done_call (w : World) (step : Step) (s : Build) (h : (call w step s).fatal = none) :
    step ∈ (call w step s).log := by
  apply done_running _ step _ s h
  intro s
  by_cases hw : w.fails step = true <;> simp [hw]

theorem done_objects_cache (w : World) (s : Build) (h : (objects_cache w s).fatal = none) :
    Step.objects_cache ∈ (objects_cache w s).log := by
  apply done_running _ _ _ s h
  intro s
  by_cases hd : s.cacheDirty = true <;> simp [hd]

theorem done_shaders_cache (w : World) (s : Build) (h : (shaders_cache w s).fatal = none) :
    Step.shaders_cache ∈ (shaders_cache w s).log := by
  apply done_running _ _ _ s h
  intro s
  by_cases hd : s.cacheDirty = true <;> simp [hd]

theorem done_assets_cache (w : World) (s : Build) (h : (assets_cache w s).fatal = none) :
    Step.assets_cache ∈ (assets_cache w s).log := by
  apply done_running _ _ _ s h
  intro s
  by_cases hd : s.cacheDirty = true <;> simp [hd]

theorem done_binary_cache (w : World) (s : Build) (h : (binary_cache w s).fatal = none) :
    Step.binary_cache ∈ (binary_cache w s).log := by
  apply done_running _ _ _ s h
  intro s
  simp

theorem done_build_objects (w : World) (s : Build) (h : (build_objects w s).fatal = none) :
    Step.objects_cache ∈ (build_objects w s).log :=
  done_then (fun s => objects_cache w (call w .objects_gather (call w .objects_begin s)))
    (fun s => s |> call_if (·.cacheDirtyObjects) w .objects_parse
      |> call_if (·.cacheDirtyObjects) w .objects_resolve
      |> call_if (·.cacheDirtyObjects) w .objects_validate
      |> call_if (·.cacheDirtyObjects) w .objects_generate
      |> call_if (·.cacheDirtyObjects) w .objects_write) _
    (grows_comp _ _ (grows_comp _ _ (grows_comp _ _ (grows_comp _ _ (grows_call_if _ w _)
      (grows_call_if _ w _)) (grows_call_if _ w _)) (grows_call_if _ w _))
        (grows_call_if _ w _))
    (fun _ h => done_objects_cache w _ h) s h

theorem done_build_graphics (w : World) (s : Build) (h : (build_graphics w s).fatal = none) :
    Step.shaders_cache ∈ (build_graphics w s).log :=
  done_then (fun s => shaders_cache w (call w .shaders_gather (call w .gfx_begin s)))
    (fun s => s |> call_if (·.cacheDirtyShaders) w .gfx_build
      |> call_if (·.cacheDirtyShaders) w .gfx_write) _
    (grows_comp _ _ (grows_call_if _ w _) (grows_call_if _ w _))
    (fun _ h => done_shaders_cache w _ h) s h

theorem done_build_assets (w : World) (s : Build) (h : (build_assets w s).fatal = none) :
    Step.assets_cache ∈ (build_assets w s).log :=
  done_then (fun s => assets_cache w (call w .assets_gather (call w .assets_begin s)))
    (fun s => s |> call_if (·.cacheDirtyAssets) w .assets_build
      |> call_if (·.cacheDirtyAssets) w .assets_save_header
      |> call_if (·.cacheDirtyAssets) w .assets_save_source) _
    (grows_comp _ _ (grows_comp _ _ (grows_call_if _ w _) (grows_call_if _ w _))
      (grows_call_if _ w _))
    (fun _ h => done_assets_cache w _ h) s h

theorem done_build_binary (w : World) (s : Build) (h : (build_binary w s).fatal = none) :
    Step.binary_cache ∈ (build_binary w s).log :=
  done_then (binary_cache w) (call_if (·.cacheDirtyBinary) w .binary_save) _
    (grows_call_if _ w _) (fun _ h => done_binary_cache w _ h) s h

theorem done_build_compile (w : World) (s : Build) (h : (build_compile w s).fatal = none) :
    Step.compile_run_ninja ∈ (build_compile w s).log :=
  done_call w _ _ h

/-- When the five blocks end alive, the cache check of every enabled block and the call of
`ninja` are in the record. -/
theorem done_phases (w : World) (s : Build) (h : (build_phases w s).fatal = none) :
    (w.codegen = ['1'] → Step.objects_cache ∈ (build_phases w s).log) ∧
      (w.build = ['1'] →
        Step.shaders_cache ∈ (build_phases w s).log ∧
        Step.assets_cache ∈ (build_phases w s).log ∧
        Step.binary_cache ∈ (build_phases w s).log ∧
        Step.compile_run_ninja ∈ (build_phases w s).log) := by
  have g5 := grows_stage (decide (w.build = ['1'])) _ (grows_build_compile w)
  have g4 := grows_stage (decide (w.build = ['1'])) _ (grows_build_binary w)
  have g3 := grows_stage (decide (w.build = ['1'])) _ (grows_build_assets w)
  have g2 := grows_stage (decide (w.build = ['1'])) _ (grows_build_graphics w)
  generalize e1 : stage (decide (w.codegen = ['1'])) (build_objects w) s = s1
  generalize e2 : stage (decide (w.build = ['1'])) (build_graphics w) s1 = s2
  generalize e3 : stage (decide (w.build = ['1'])) (build_assets w) s2 = s3
  generalize e4 : stage (decide (w.build = ['1'])) (build_binary w) s3 = s4
  have e5 : build_phases w s = stage (decide (w.build = ['1'])) (build_compile w) s4 := by
    rw [← e4, ← e3, ← e2, ← e1]
    rfl
  rw [e5] at h ⊢
  have a4 : s4.fatal = none := (g5 s4).1 h
  have a3 : s3.fatal = none := by
    have := (g4 s3).1
    rw [e4] at this
    exact this a4
  have a2 : s2.fatal = none := by
    have := (g3 s2).1
    rw [e3] at this
    exact this a3
  have a1 : s1.fatal = none := by
    have := (g2 s1).1
    rw [e2] at this
    exact this a2
  have m4 : ∀ c ∈ s4.log, c ∈ (stage (decide (w.build = ['1'])) (build_compile w) s4).log :=
    (g5 s4).2
  have m3 : ∀ c ∈ s3.log, c ∈ s4.log := by
    have := (g4 s3).2
    rw [e4] at this
    exact this
  have m2 : ∀ c ∈ s2.log, c ∈ s3.log := by
    have := (g3 s2).2
    rw [e3] at this
    exact this
  have m1 : ∀ c ∈ s1.log, c ∈ s2.log := by
    have := (g2 s1).2
    rw [e2] at this
    exact this
  constructor
  · intro hc
    have e : s1 = build_objects w s := by
      rw [← e1]
      simp [stage, hc]
    rw [e] at a1 m1
    exact m4 _ (m3 _ (m2 _ (m1 _ (done_build_objects w s a1))))
  · intro hb
    have f2 : s2 = build_graphics w s1 := by
      rw [← e2]
      simp [stage, hb]
    have f3 : s3 = build_assets w s2 := by
      rw [← e3]
      simp [stage, hb]
    have f4 : s4 = build_binary w s3 := by
      rw [← e4]
      simp [stage, hb]
    have f5 : stage (decide (w.build = ['1'])) (build_compile w) s4 = build_compile w s4 := by
      simp [stage, hb]
    refine ⟨m4 _ (m3 _ (m2 _ ?_)), m4 _ (m3 _ ?_), m4 _ ?_, ?_⟩
    · rw [f2] at a2 ⊢
      exact done_build_graphics w s1 a2
    · rw [f3] at a3 ⊢
      exact done_build_assets w s2 a3
    · rw [f4] at a4 ⊢
      exact done_build_binary w s3 a4
    · rw [f5] at h ⊢
      exact done_build_compile w s4 h

/-- The end of a run in terms of the state after the five blocks: an aborted process stays
as it is, a process that is alive saves the current buffer and then runs the program if
asked to. -/
theorem build_end (w : World) (file : Option (List Nat)) :
    ((build_phases w (build_cache w (Build.initial file))).fatal ≠ none →
        build w file = build_phases w (build_cache w (Build.initial file))) ∧
      ((build_phases w (build_cache w (Build.initial file))).fatal = none →
        build w file =
          { build_phases w (build_cache w (Build.initial file)) with
            log := (build_phases w (build_cache w (Build.initial file))).log ++
              Step.cache_save :: (if w.run = ['1'] then [Step.executable_run] else []),
            cacheFile := some
              (build_phases w (build_cache w (Build.initial file))).cacheBufferCurrent.data }) := by
  rw [build, build_from_eq]
  generalize build_phases w (build_cache w (Build.initial file)) = p
  constructor
  · intro h
    rcases fatal_cases p with hf | ⟨x, hf⟩
    · exact absurd hf h
    · rw [cache_save, running_dead _ p x hf]
      by_cases hr : w.run = ['1']
      · simp only [stage, hr, decide_True, if_true]
        rw [record, running_dead _ p x hf]
      · simp [stage, hr]
  · intro hf
    rw [cache_save, running_alive _ p hf]
    by_cases hr : w.run = ['1']
    · simp only [stage, hr, decide_True, if_true]
      simp [record, Build.running, hf]
    · simp [stage, hr]

/-- Before "Finish" the stored cache file is the one the process found, the save of the
cache is not in the record, and no recorded call of a process that is alive has failed. -/
theorem unsaved_phases (w : World) (file : Option (List Nat)) :
    (build_phases w (build_cache w (Build.initial file))).cacheFile = file ∧
      Step.cache_save ∉ (build_phases w (build_cache w (Build.initial file))).log ∧
      ((build_phases w (build_cache w (Build.initial file))).fatal = none →
        ∀ c ∈ (build_phases w (build_cache w (Build.initial file))).log,
          c.can_fail = true → w.fails c = false) := by
  apply phases_inv (fun s => s.cacheFile = file ∧ Step.cache_save ∉ s.log ∧
      (s.fatal = none → ∀ c ∈ s.log, c.can_fail = true → w.fails c = false)) w
  · intro step hstep s ⟨h1, h2, h3⟩
    rcases fatal_cases s with hf | ⟨x, hf⟩
    · rw [call, running_alive _ s hf]
      by_cases hw : w.fails step = true
      · rw [if_pos hw]
        refine ⟨h1, ?_, ?_⟩
        · simp only [List.mem_append, List.mem_singleton, not_or]
          refine ⟨h2, ?_⟩
          intro e
          rw [← e] at hstep
          simp [Step.can_fail] at hstep
        · intro hn
          simp at hn
      · rw [if_neg hw]
        refine ⟨h1, ?_, ?_⟩
        · simp only [List.mem_append, List.mem_singleton, not_or]
          refine ⟨h2, ?_⟩
          intro e
          rw [← e] at hstep
          simp [Step.can_fail] at hstep
        · intro _ c hc hcf
          simp only [List.mem_append, List.mem_singleton] at hc
          rcases hc with hc | rfl
          · exact h3 hf c hc hcf
          · simpa using hw
    · rw [call, running_dead _ s x hf]
      exact ⟨h1, h2, h3⟩
  · intro s ⟨h1, h2, h3⟩
    rcases fatal_cases s with hf | ⟨x, hf⟩
    · rw [objects_cache, running_alive _ s hf]
      refine ⟨?_, ?_, ?_⟩
      · by_cases hd : s.cacheDirty = true <;> simpa [hd] using h1
      · by_cases hd : s.cacheDirty = true <;> simpa [hd] using h2
      · intro _ c hc hcf
        have hc2 : c ∈ s.log ∨ c = Step.objects_cache := by
          by_cases hd : s.cacheDirty = true <;> simpa [hd] using hc
        rcases hc2 with hc2 | rfl
        · exact h3 hf c hc2 hcf
        · simp [Step.can_fail] at hcf
    · rw [objects_cache, running_dead _ s x hf]
      exact ⟨h1, h2, h3⟩
  · intro s ⟨h1, h2, h3⟩
    rcases fatal_cases s with hf | ⟨x, hf⟩
    · rw [shaders_cache, running_alive _ s hf]
      refine ⟨?_, ?_, ?_⟩
      · by_cases hd : s.cacheDirty = true <;> simpa [hd] using h1
      · by_cases hd : s.cacheDirty = true <;> simpa [hd] using h2
      · intro _ c hc hcf
        have hc2 : c ∈ s.log ∨ c = Step.shaders_cache := by
          by_cases hd : s.cacheDirty = true <;> simpa [hd] using hc
        rcases hc2 with hc2 | rfl
        · exact h3 hf c hc2 hcf
        · simp [Step.can_fail] at hcf
    · rw [shaders_cache, running_dead _ s x hf]
      exact ⟨h1, h2, h3⟩
  · intro s ⟨h1, h2, h3⟩
    rcases fatal_cases s with hf | ⟨x, hf⟩
    · rw [assets_cache, running_alive _ s hf]
      refine ⟨?_, ?_, ?_⟩
      · by_cases hd : s.cacheDirty = true <;> simpa [hd] using h1
      · by_cases hd : s.cacheDirty = true <;> simpa [hd] using h2
      · intro _ c hc hcf
        have hc2 : c ∈ s.log ∨ c = Step.assets_cache := by
          by_cases hd : s.cacheDirty = true <;> simpa [hd] using hc
        rcases hc2 with hc2 | rfl
        · exact h3 hf c hc2 hcf
        · simp [Step.can_fail] at hcf
    · rw [assets_cache, running_dead _ s x hf]
      exact ⟨h1, h2, h3⟩
  · intro s ⟨h1, h2, h3⟩
    rcases fatal_cases s with hf | ⟨x, hf⟩
    · rw [binary_cache, running_alive _ s hf]
      refine ⟨by simpa using h1, by simpa using h2, ?_⟩
      intro _ c hc hcf
      have hc2 : c ∈ s.log ∨ c = Step.binary_cache := by simpa using hc
      rcases hc2 with hc2 | rfl
      · exact h3 hf c hc2 hcf
      · simp [Step.can_fail] at hcf
    · rw [binary_cache, running_dead _ s x hf]
      exact ⟨h1, h2, h3⟩
  · cases file <;> simp [build_cache, Build.running, Build.initial]

theorem count_not_mem (l : List Step) (c : Step) (h : c ∉ l) : l.count c = 0 :=
  List.count_eq_zero_of_not_mem h

/-- C14: the commit of the cache. In every invocation, with `p` the state after the five
blocks: if a fatal error was raised (by any call of a collaborator: a failed save of the
generated asset files, of the binary or of the build description, an empty backend
directory or a configs file that does not load inside `compile_engine` and
`compile_write_ninja`, a non-zero exit of `ninja`), the stored cache file is the one the
invocation found and the save of the cache was not made; otherwise the save was made
exactly once, as the step after all the blocks, it stored the current buffer, no recorded
call had failed, and the cache check of every enabled block and the call of `ninja` (when
`build` is enabled) are in the record before it. In `world_ninja_fails` the stored counters
1, 2, 3 survive the failed run. -/
theorem cache_commit_atomic (w : World) (file : Option (List Nat)) :
    ((build w file).fatal ≠ none →
        (build w file).cacheFile = file ∧ Step.cache_save ∉ (build w file).log) ∧
      ((build w file).fatal = none →
        (build w file).cacheFile = some (build w file).cacheBufferCurrent.data ∧
        (build w file).log
          = (build_phases w (build_cache w (Build.initial file))).log ++
              Step.cache_save :: (if w.run = ['1'] then [Step.executable_run] else []) ∧
        Step.cache_save ∉ (build_phases w (build_cache w (Build.initial file))).log ∧
        (∀ c ∈ (build w file).log, c.can_fail = true → w.fails c = false) ∧
        (w.codegen = ['1'] →
          Step.objects_cache ∈ (build_phases w (build_cache w (Build.initial file))).log) ∧
        (w.build = ['1'] →
          Step.shaders_cache ∈ (build_phases w (build_cache w (Build.initial file))).log ∧
          Step.assets_cache ∈ (build_phases w (build_cache w (Build.initial file))).log ∧
          Step.binary_cache ∈ (build_phases w (build_cache w (Build.initial file))).log ∧
          Step.compile_run_ninja ∈
            (build_phases w (build_cache w (Build.initial file))).log)) ∧
      (build w file).log.count Step.cache_save ≤ 1 ∧
      ((build world_ninja_fails (some [1, 2, 3])).fatal = some Step.compile_run_ninja ∧
        (build world_ninja_fails (some [1, 2, 3])).cacheFile = some [1, 2, 3] ∧
        (build world_full (some [1, 2, 3])).cacheFile = some [3, 4, 5]) := by
  obtain ⟨hdead, halive⟩ := build_end w file
  obtain ⟨k1, k2, k3⟩ := unsaved_phases w file
  have hdone := done_phases w (build_cache w (Build.initial file))
  generalize build_phases w (build_cache w (Build.initial file)) = p at hdead halive k1 k2 k3 hdone
  refine ⟨?_, ?_, ?_, by decide⟩
  · intro h
    rcases fatal_cases p with hf | ⟨x, hf⟩
    · rw [halive hf] at h
      exact absurd hf h
    · rw [hdead (by simp [hf])]
      exact ⟨k1, k2⟩
  · intro h
    rcases fatal_cases p with hf | ⟨x, hf⟩
    · rw [halive hf]
      refine ⟨rfl, rfl, k2, ?_, (hdone hf).1, (hdone hf).2⟩
      intro c hc hcf
      simp only [List.mem_append, List.mem_cons] at hc
      rcases hc with hc | rfl | hc
      · exact k3 hf c hc hcf
      · simp [Step.can_fail] at hcf
      · by_cases hr : w.run = ['1']
        · simp only [hr, if_true, List.mem_singleton] at hc
          subst hc
          simp [Step.can_fail] at hcf
        · simp [hr] at hc
    · rw [hdead (by simp [hf]), hf] at h
      exact absurd h (by simp)
  · rcases fatal_cases p with hf | ⟨x, hf⟩
    · rw [halive hf]
      simp only [List.count_append, List.count_cons_self]
      rw [count_not_mem _ _ k2]
      by_cases hr : w.run = ['1']
      · simp [hr]
      · simp [hr]
    · rw [hdead (by simp [hf]), count_not_mem _ _ k2]
      omega

/-! ### Two runs with different switches -/

/-- C15, the failing input: a first run with `build` and without `codegen` (3 shader files,
5 asset files) completes and stores the counters 3, 5, written by `shaders_cache` and
`assets_cache`. A second run with `codegen` and `build`, the clean flag off, 3 object
files, 5 shader files and 7 asset files completes; its first check is `objects_cache`,
whose read returns the counter that `shaders_cache` wrote, and its second is
`shaders_cache`, whose read returns the counter that `assets_cache` wrote: the objects
and shaders flags stay false although no objects counter was stored and the number of
shader files changed from 3 to 5. -/
theorem alignment_lost_between_runs :
    (build world_build_only none).fatal = none ∧
      counter_checks (build world_build_only none).log
        = [Step.shaders_cache, Step.assets_cache] ∧
      (build world_build_only none).cacheFile
        = some [world_build_only.shaderFileCount, world_build_only.assetFileCount] ∧
      world_codegen_build.clean ≠ ['1'] ∧
      (build world_codegen_build (build world_build_only none).cacheFile).fatal = none ∧
      counter_checks (build world_codegen_build (build world_build_only none).cacheFile).log
        = [Step.objects_cache, Step.shaders_cache, Step.assets_cache] ∧
      (build_cache world_codegen_build
          (Build.initial (build world_build_only none).cacheFile)).cacheBufferPrevious.read.1
        = some world_build_only.shaderFileCount ∧
      (build world_codegen_build (build world_build_only none).cacheFile).cacheDirty = false ∧
      (build world_codegen_build (build world_build_only none).cacheFile).cacheDirtyObjects
        = false ∧
      (build world_codegen_build (build world_build_only none).cacheFile).cacheDirtyShaders
        = false ∧
      world_codegen_build.shaderFileCount ≠ world_build_only.shaderFileCount := by
  decide

/-! ## The build graph assembler -/

theorem foldl_add_source (t : Target) (extensionObj : Text) : ∀ (files : List FileInfo)
    (g : Lists),
    files.foldl (fun g sourceFile =>
        compile_add_source g sourceFile.path
          (strjoin ["objects".toList ++ t.SLASH, sourceFile.path]) extensionObj) g
      = { g with sources := g.sources ++ files.map fun f =>
            { srcPath := f.path,
              objPath := path_change_extension ("objects".toList ++ t.SLASH ++ f.path)
                extensionObj } }
  | [], g => by simp
  | f :: files, g => by
    rw [List.foldl_cons, foldl_add_source t extensionObj files]
    simp [compile_add_source, strjoin]

/-- C16, as amended: `compile_add_sources` appends one record per file the traversal
reports, in that order; the source path of the record is the reported path and its object
path is `objects` and the separator followed by that same reported path with the extension
replaced, so the directories of the reported path are kept and none is taken off; the
other lists are left alone and the count of the files is returned (as a `u32`). -/
theorem compile_add_sources_records (t : Target)
    (directory_iterate : Text → Text → Bool → List FileInfo) (g : Lists)
    (directory : Text) (recurse : Bool) (extensionSrc extensionObj : Text) :
    (compile_add_sources t directory_iterate g directory recurse extensionSrc
        extensionObj).1
      = { g with sources := g.sources ++
            (directory_iterate directory extensionSrc recurse).map fun f =>
              { srcPath := f.path,
                objPath := path_change_extension ("objects".toList ++ t.SLASH ++ f.path)
                  extensionObj } } ∧
      (compile_add_sources t directory_iterate g directory recurse extensionSrc
        extensionObj).2 = (directory_iterate directory extensionSrc recurse).length % 2 ^ 32 ∧
      (compile_add_sources target_linux files_relative {} ['a'] true ".cpp".toList
        ".o".toList).1.sources
        = [⟨"x.cpp".toList, "objects/x.o".toList⟩,
            ⟨"b/y.cpp".toList, "objects/b/y.o".toList⟩] := by
  refine ⟨?_, rfl, by decide⟩
  simp only [compile_add_sources]
  exact foldl_add_source t extensionObj _ g

/-- C16, counterexample: gathering under the root `a`, with the object extension `.o`, the
sources that the traversal reports as `a/x.cpp` and `a/b/y.cpp` appends records whose
object paths are `objects/a/x.o` and `objects/a/b/y.o`, not `objects/x.o` and
`objects/b/y.o`. -/
theorem compile_add_sources_counterexample :
    (compile_add_sources target_linux files_under_a {} ['a'] true ".cpp".toList
        ".o".toList).1.sources
      = [⟨"a/x.cpp".toList, "objects/a/x.o".toList⟩,
          ⟨"a/b/y.cpp".toList, "objects/a/b/y.o".toList⟩] ∧
      (compile_add_sources target_linux files_under_a {} ['a'] true ".cpp".toList
        ".o".toList).1.sources.map Source.objPath
        ≠ ["objects/x.o".toList, "objects/b/y.o".toList] := by
  decide

theorem add_backend_sources_cases (t : Target)
    (directory_iterate : Text → Text → Bool → List FileInfo) (tc : Toolchain) (g : Lists)
    (subsystem path : Text) (recurse : Bool) (extensionSrc : Text)
    (hsize : ∀ d e r, (directory_iterate d e r).length < 2 ^ 32) :
    (Probe.empty directory_iterate ⟨subsystem, path, recurse, extensionSrc⟩ = true →
        add_backend_sources t directory_iterate tc g subsystem path recurse extensionSrc
          = .error (no_backend subsystem path)) ∧
      (Probe.empty directory_iterate ⟨subsystem, path, recurse, extensionSrc⟩ = false →
        ∃ g2, add_backend_sources t directory_iterate tc g subsystem path recurse
          extensionSrc = .ok g2) := by
  have e : (compile_add_sources t directory_iterate g path recurse extensionSrc
      tc.linkerExtensionObj).2 = (directory_iterate path extensionSrc recurse).length := by
    simp only [compile_add_sources]
    exact Nat.mod_eq_of_lt (hsize _ _ _)
  simp only [add_backend_sources, e, Probe.empty, List.isEmpty_iff]
  constructor
  · intro h
    simp [h]
  · intro h
    have : (directory_iterate path extensionSrc recurse).length ≠ 0 := by
      simpa using h
    simp [this]

theorem follows_pure (directory_iterate : Text → Text → Bool → List FileInfo)
    (F : Lists → Lists) : Follows directory_iterate (fun g => pure (F g)) [] := by
  intro g
  constructor
  · intro p hp
    simp at hp
  · intro _
    exact ⟨F g, rfl⟩

theorem follows_probe (t : Target) (directory_iterate : Text → Text → Bool → List FileInfo)
    (tc : Toolchain) (hsize : ∀ d e r, (directory_iterate d e r).length < 2 ^ 32)
    (F : Lists → Lists) (k : Lists → Except Text Lists) (ps : List Probe)
    (subsystem path : Text) (recurse : Bool) (extensionSrc : Text)
    (h : Follows directory_iterate k ps) :
    Follows directory_iterate
      (fun g => add_backend_sources t directory_iterate tc (F g) subsystem path recurse
        extensionSrc >>= k)
      (⟨subsystem, path, recurse, extensionSrc⟩ :: ps) := by
  intro g
  obtain ⟨h1, h2⟩ := add_backend_sources_cases t directory_iterate tc (F g) subsystem path
    recurse extensionSrc hsize
  cases he : Probe.empty directory_iterate ⟨subsystem, path, recurse, extensionSrc⟩
  · obtain ⟨g2, hg2⟩ := h2 he
    simp only [List.find?_cons, he, hg2]
    exact h g2
  · simp only [List.find?_cons, he, h1 he]
    constructor
    · intro p hp
      simp only [Option.some.injEq] at hp
      subst hp
      rfl
    · intro hp
      simp at hp

theorem follows_compile_engine (t : Target)
    (directory_iterate : Text → Text → Bool → List FileInfo) (tc : Toolchain)
    (pathEngine pathOutput : Text)
    (hsize : ∀ d e r, (directory_iterate d e r).length < 2 ^ 32) :
    Follows directory_iterate (compile_engine t directory_iterate tc pathEngine pathOutput)
      (backend_probes t pathEngine) := by
  rcases t with ⟨S, w, m, l, gl, d3, ba, bf, bn, bg, bt, bti, bw, pw, pm⟩
  cases gl <;> cases w <;> cases m <;> cases l <;> cases d3
  all_goals
    unfold compile_engine backend_probes
    simp only [strjoin, List.flatten, List.append_assoc, List.append_nil, if_true, if_false,
      Bool.false_eq_true, List.nil_append, List.cons_append, pure_bind, bind_assoc]
  all_goals repeat (first | exact follows_pure _ _ | apply follows_probe _ _ _ hsize)

/-- C17: the fatal errors of `compile_engine`, for a traversal that reports fewer than 2^32
files for a directory (the count is returned as a `u32`). The method raises a fatal error
if and only if one of the backend directories (audio, filesystem, network, gfx, the OpenGL
sub-backend of the platform when OpenGL is selected, thread, time, window) yields no
source; the message is that of the first such directory in this order, with the subsystem
and the probed path. The directories generated, source, vendor, core and manta are not
among them: with `files_backends_only` they yield nothing and no error is raised. -/
theorem compile_engine_fatal (t : Target)
    (directory_iterate : Text → Text → Bool → List FileInfo) (tc : Toolchain)
    (pathEngine pathOutput : Text) (g : Lists)
    (hsize : ∀ d e r, (directory_iterate d e r).length < 2 ^ 32) :
    ((∃ message, compile_engine t directory_iterate tc pathEngine pathOutput g
          = .error message) ↔
        ∃ p ∈ backend_probes t pathEngine,
          directory_iterate p.path p.extension p.recurse = []) ∧
      (∀ p, (backend_probes t pathEngine).find? (Probe.empty directory_iterate) = some p →
        compile_engine t directory_iterate tc pathEngine pathOutput g
          = .error (no_backend p.subsystem p.path)) ∧
      (files_backends_only "source/core".toList ".cpp".toList true = [] ∧
        ∃ g2, compile_engine target_linux files_backends_only toolchain_gcc "source".toList
          "projects/game/output".toList {} = .ok g2) := by
  obtain ⟨h1, h2⟩ := follows_compile_engine t directory_iterate tc pathEngine pathOutput
    hsize g
  refine ⟨⟨?_, ?_⟩, h1, by decide, ?_⟩
  · rintro ⟨message, hm⟩
    cases hf : (backend_probes t pathEngine).find? (Probe.empty directory_iterate) with
    | none =>
      obtain ⟨g2, hg2⟩ := h2 hf
      rw [hg2] at hm
      exact absurd hm (by simp)
    | some p =>
      refine ⟨p, List.mem_of_find?_eq_some hf, ?_⟩
      have := List.find?_some hf
      simpa [Probe.empty] using this
  · rintro ⟨p, hp, he⟩
    cases hf : (backend_probes t pathEngine).find? (Probe.empty directory_iterate) with
    | none =>
      have := List.find?_eq_none.mp hf p hp
      simp [Probe.empty, he] at this
    | some q => exact ⟨_, h1 q hf⟩
  · have hs : ∀ d e r, (files_backends_only d e r).length < 2 ^ 32 := by
      intro d e r
      unfold files_backends_only
      split <;> simp
    exact (follows_compile_engine target_linux files_backends_only toolchain_gcc
      "source".toList "projects/game/output".toList hs {}).2 (by decide)

/-- C17, witness: on Linux with OpenGL and a traversal that finds nothing, the error names
`'audio'` and the path `source/manta/backend/audio/alsa`. -/
theorem compile_engine_fatal_witness :
    (∀ d e r, (files_none d e r).length < 2 ^ 32) ∧
      compile_engine target_linux files_none toolchain_gcc "source".toList
          "projects/game/output".toList {}
        = .error "No backend found for 'audio' (source/manta/backend/audio/alsa)".toList :=
  ⟨fun _ _ _ => by simp [files_none],
    (compile_engine_fatal target_linux files_none toolchain_gcc "source".toList
      "projects/game/output".toList {} (fun _ _ _ => by simp [files_none])).2.1
        ⟨"'audio'".toList, "source/manta/backend/audio/alsa".toList, true, ".cpp".toList⟩
        (by decide)⟩

/-! ## The build description -/

theorem foldl_append_map {α : Type} (f : α → Text) : ∀ (xs : List α) (init : Text),
    xs.foldl (fun out x => out ++ f x) init = init ++ (xs.map f).flatten
  | [], init => by simp
  | x :: xs, init => by
    rw [List.foldl_cons, foldl_append_map f xs]
    simp

theorem intercalate_cons (sep : Text) : ∀ (xs : List Text) (x : Text),
    List.intercalate sep (x :: xs) = x ++ (xs.map fun y => sep ++ y).flatten
  | [], x => by simp [List.intercalate]
  | y :: ys, x => by
    have ih := intercalate_cons sep ys y
    simp only [List.intercalate] at ih ⊢
    simp only [List.intersperse, List.flatten_cons, List.map_cons]
    rw [ih]
    simp

theorem length_bytes_pos (s : Text) : (length_bytes s > 0) = (s ≠ []) := by
  cases s <;> simp [length_bytes]

/-- The section "Rule compile" appends the rule with the command of the specification. -/
theorem rule_compile_eq (t : Target) (tc : Toolchain) (snprintf : Nat → Text → Text → Text)
    (includeDirectories : List Text) (cfg cfgWarn output : Text) :
    rule_compile t tc snprintf includeDirectories cfg cfgWarn output
      = output ++ ("rule compile\n".toList
          ++ (if t.PIPELINE_COMPILER_MSVC then "  deps = msvc\n".toList
              else "  deps = gcc\n  depfile = $out.d\n".toList)
          ++ "  command = ".toList ++ compile_command tc snprintf includeDirectories cfg cfgWarn
          ++ "\n\n".toList) := by
  have e : (fun (output : Text) includeDirectory =>
        (output ++ " ".toList) ++ snprintf 1024 tc.compilerFlagsIncludes includeDirectory)
      = fun output includeDirectory =>
        output ++ (" ".toList ++ snprintf 1024 tc.compilerFlagsIncludes includeDirectory) := by
    funext o d
    simp
  simp only [rule_compile, e, foldl_append_map, compile_command, compile_flags,
    List.cons_append, List.nil_append, intercalate_cons, length_bytes_pos]
  by_cases h1 : cfg = [] <;> by_cases h2 : cfgWarn = [] <;>
    simp [h1, h2, List.map_map, Function.comp_def]

theorem rule_rc_eq (t : Target) (output : Text) :
    rule_rc t output
      = output ++ (if t.PIPELINE_OS_WINDOWS then
          "rule rc\n".toList
            ++ "  command = windres --input $in --output $out --output-format=coff\n\n".toList
          else []) := by
  by_cases h : t.PIPELINE_OS_WINDOWS = true <;> simp [rule_rc, h]

theorem rule_link_eq (t : Target) (tc : Toolchain) (libraries : List Text)
    (cfgLink output : Text) :
    rule_link t tc libraries cfgLink output
      = output ++ ("rule link\n".toList ++ "  command = ".toList
          ++ link_command t tc libraries cfgLink ++ "\n\n".toList) := by
  have e : (fun (output : Text) library =>
        if t.OS_MACOS = true then (output ++ " -framework ".toList) ++ library
        else ((output ++ " ".toList) ++ tc.linkerPrefixLibrary ++ library)
          ++ tc.linkerExtensionLibrary)
      = fun output library => output ++ library_reference t tc library := by
    funext o l
    by_cases h : t.OS_MACOS = true <;> simp [library_reference, h]
  simp only [rule_link, e, foldl_append_map, link_command, length_bytes_pos]
  by_cases h1 : cfgLink = [] <;> simp [h1]

theorem build_sources_eq (t : Target) (sources : List Source) (output : Text) :
    build_sources t sources output
      = output ++ (unlines (sources.map (compile_edge t)) ++ ['\n']) := by
  have e : (fun (output : Text) (source : Source) =>
        ((((output ++ "build ".toList) ++ source.objPath)
          ++ (": compile ..".toList ++ t.SLASH ++ "..".toList ++ t.SLASH ++ "..".toList
            ++ t.SLASH ++ "..".toList ++ t.SLASH)) ++ source.srcPath) ++ "\n".toList)
      = fun output source => output ++ (compile_edge t source ++ ['\n']) := by
    funext o s
    simp [compile_edge, root_offset]
  simp only [build_sources, e, foldl_append_map, unlines, List.map_map, Function.comp_def]
  simp

theorem build_rc_eq (t : Target) (rcs : List Source) (output : Text) :
    build_rc t rcs output
      = output ++ (if t.PIPELINE_OS_WINDOWS then unlines (rcs.map (rc_edge t)) ++ ['\n']
          else []) := by
  have e : (fun (output : Text) (rc : Source) =>
        ((((output ++ "build ".toList) ++ rc.objPath)
          ++ (": rc ..".toList ++ t.SLASH ++ "..".toList ++ t.SLASH ++ "..".toList
            ++ t.SLASH ++ "..".toList ++ t.SLASH)) ++ rc.srcPath) ++ "\n".toList)
      = fun output rc => output ++ (rc_edge t rc ++ ['\n']) := by
    funext o s
    simp [rc_edge, root_offset]
  by_cases h : t.PIPELINE_OS_WINDOWS = true
  · simp only [build_rc, h, if_true, e, foldl_append_map, unlines, List.map_map,
      Function.comp_def]
    simp
  · simp [build_rc, h]

theorem build_exe_eq (t : Target) (tc : Toolchain) (args : Arguments)
    (sources rcs : List Source) (output : Text) :
    build_exe t tc args sources rcs output
      = output ++ (link_edge t tc args sources rcs ++ ['\n']) := by
  have e : (fun (output : Text) (source : Source) => (output ++ " ".toList) ++ source.objPath)
      = fun output source => output ++ (" ".toList ++ source.objPath) := by
    funext o s
    simp
  by_cases h : t.PIPELINE_OS_WINDOWS = true
  · simp only [build_exe, h, if_true, e, foldl_append_map, link_edge]
    simp
  · simp only [build_exe, h, e, foldl_append_map, link_edge]
    simp

theorem unlines_append (a b : List Text) : unlines (a ++ b) = unlines a ++ unlines b := by
  simp [unlines]

theorem unlines_cons (l : Text) (ls : List Text) : unlines (l :: ls) = l ++ '\n' :: unlines ls := by
  simp [unlines]

theorem unlines_nil : unlines [] = [] := rfl

/-- The text of the description is the text of its lines. -/
theorem ninja_output_eq (t : Target) (tc : Toolchain) (args : Arguments)
    (snprintf : Nat → Text → Text → Text) (g : Lists) (j : JSON) :
    ninja_output t tc args snprintf g j
      = unlines (ninja_lines t tc args snprintf g (j.get_string "compilerFlags".toList [])
          (j.get_string "compilerFlagsWarnings".toList [])
          (j.get_string "linkerFlags".toList [])) := by
  have ha : "rule compile\n".toList = "rule compile".toList ++ ['\n'] := rfl
  have hb : "  deps = msvc\n".toList = "  deps = msvc".toList ++ ['\n'] := rfl
  have hc : "  deps = gcc\n  depfile = $out.d\n".toList
      = "  deps = gcc".toList ++ '\n' :: ("  depfile = $out.d".toList ++ ['\n']) := rfl
  have hd : "\n\n".toList = ['\n', '\n'] := rfl
  have he : "rule rc\n".toList = "rule rc".toList ++ ['\n'] := rfl
  have hf : "  command = windres --input $in --output $out --output-format=coff\n\n".toList
      = "  command = windres --input $in --output $out --output-format=coff".toList
        ++ ['\n', '\n'] := rfl
  have hg : "rule link\n".toList = "rule link".toList ++ ['\n'] := rfl
  simp only [ninja_output, rule_compile_eq, rule_rc_eq, rule_link_eq, build_sources_eq,
    build_rc_eq, build_exe_eq, ninja_lines, ha, hb, hc, hd, he, hf, hg]
  cases t.PIPELINE_COMPILER_MSVC <;> cases t.PIPELINE_OS_WINDOWS <;>
    simp only [if_true, if_false, Bool.false_eq_true, unlines_append, unlines_cons,
      unlines_nil, List.append_assoc, List.cons_append, List.nil_append, List.append_nil,
      List.singleton_append]

/-! ### The lines of the description -/

theorem lines_of_line : ∀ (l rest : Text), single_line l →
    lines_of (l ++ '\n' :: rest) = l :: lines_of rest
  | [], rest, _ => by simp [lines_of]
  | c :: l, rest, h => by
    have hc : c ≠ '\n' := by
      intro e
      exact h (by simp [e])
    have hl : single_line l := by
      intro e
      exact h (by simp [e])
    rw [List.cons_append, lines_of, if_neg hc, lines_of_line l rest hl]

theorem lines_of_unlines : ∀ (ls : List Text), (∀ l ∈ ls, single_line l) →
    lines_of (unlines ls) = ls ++ [[]]
  | [], _ => by simp [unlines, lines_of]
  | l :: ls, h => by
    rw [unlines_cons, lines_of_line l _ (h l (by simp)),
      lines_of_unlines ls (fun x hx => h x (by simp [hx]))]
    simp

theorem build_edges_unlines (ls : List Text) (h : ∀ l ∈ ls, single_line l) :
    build_edges (unlines ls) = ls.filter is_build_edge := by
  rw [build_edges, lines_of_unlines ls h, List.filter_append]
  simp [is_build_edge]

theorem single_line_append (a b : Text) : single_line (a ++ b) ↔ single_line a ∧ single_line b := by
  simp [single_line, not_or]

theorem single_line_flatten (xs : List Text) :
    single_line xs.flatten ↔ ∀ x ∈ xs, single_line x := by
  induction xs with
  | nil => simp [single_line]
  | cons x xs ih => simp [single_line_append, ih]

theorem is_build_edge_build (rest : Text) : is_build_edge ("build ".toList ++ rest) = true := by
  simp [is_build_edge]

theorem filter_edges_map {α : Type} (f : α → Text) (xs : List α)
    (h : ∀ x, is_build_edge (f x) = true) : (xs.map f).filter is_build_edge = xs.map f := by
  rw [List.filter_eq_self]
  intro l hl
  obtain ⟨x, _, rfl⟩ := List.mem_map.mp hl
  exact h x

theorem compile_edge_build (t : Target) (s : Source) : is_build_edge (compile_edge t s) = true := by
  simp only [compile_edge, List.append_assoc]
  exact is_build_edge_build _

theorem rc_edge_build (t : Target) (s : Source) : is_build_edge (rc_edge t s) = true := by
  simp only [rc_edge, List.append_assoc]
  exact is_build_edge_build _

theorem link_edge_build (t : Target) (tc : Toolchain) (args : Arguments)
    (sources rcs : List Source) : is_build_edge (link_edge t tc args sources rcs) = true := by
  simp only [link_edge, List.append_assoc]
  exact is_build_edge_build _

/-- The build edges among the lines of the description. -/
theorem filter_ninja_lines (t : Target) (tc : Toolchain) (args : Arguments)
    (snprintf : Nat → Text → Text → Text) (g : Lists) (a b c : Text) :
    (ninja_lines t tc args snprintf g a b c).filter is_build_edge
      = g.sources.map (compile_edge t)
        ++ (if t.PIPELINE_OS_WINDOWS then g.rcs.map (rc_edge t) else [])
        ++ [link_edge t tc args g.sources g.rcs] := by
  have h1 : is_build_edge "rule compile".toList = false := rfl
  have h2 : is_build_edge "  deps = msvc".toList = false := rfl
  have h3 : is_build_edge "  deps = gcc".toList = false := rfl
  have h4 : is_build_edge "  depfile = $out.d".toList = false := rfl
  have h5 : ∀ x : Text, is_build_edge ("  command = ".toList ++ x) = false := fun _ => rfl
  have h6 : is_build_edge [] = false := rfl
  have h7 : is_build_edge "rule rc".toList = false := rfl
  have h8 : is_build_edge
      "  command = windres --input $in --output $out --output-format=coff".toList = false := rfl
  have h9 : is_build_edge "rule link".toList = false := rfl
  simp only [ninja_lines]
  cases t.PIPELINE_COMPILER_MSVC <;> cases t.PIPELINE_OS_WINDOWS <;>
    simp only [if_true, if_false, Bool.false_eq_true, List.filter_append, List.filter_cons,
      List.filter_nil, h1, h2, h3, h4, h5, h6, h7, h8, h9, link_edge_build,
      filter_edges_map _ _ (compile_edge_build t), filter_edges_map _ _ (rc_edge_build t),
      List.nil_append, List.append_nil, List.append_assoc]

theorem single_line_root_offset (t : Target) (h : single_line t.SLASH) :
    single_line (root_offset t) := by
  have d : single_line "..".toList := by decide
  simp only [root_offset, single_line_append]
  exact ⟨⟨⟨⟨⟨⟨⟨d, h⟩, d⟩, h⟩, d⟩, h⟩, d⟩, h⟩

theorem single_line_compile_edge (t : Target) (s : Source) (h : single_line t.SLASH)
    (h1 : single_line s.objPath) (h2 : single_line s.srcPath) :
    single_line (compile_edge t s) := by
  have d1 : single_line "build ".toList := by decide
  have d2 : single_line ": compile ".toList := by decide
  simp only [compile_edge, single_line_append]
  exact ⟨⟨⟨⟨d1, h1⟩, d2⟩, single_line_root_offset t h⟩, h2⟩

theorem single_line_rc_edge (t : Target) (s : Source) (h : single_line t.SLASH)
    (h1 : single_line s.objPath) (h2 : single_line s.srcPath) :
    single_line (rc_edge t s) := by
  have d1 : single_line "build ".toList := by decide
  have d2 : single_line ": rc ".toList := by decide
  simp only [rc_edge, single_line_append]
  exact ⟨⟨⟨⟨d1, h1⟩, d2⟩, single_line_root_offset t h⟩, h2⟩

theorem single_line_paths (xs : List Source) (h : ∀ s ∈ xs, single_line s.objPath) :
    single_line (xs.map fun s => " ".toList ++ s.objPath).flatten := by
  rw [single_line_flatten]
  intro x hx
  obtain ⟨s, hs, rfl⟩ := List.mem_map.mp hx
  rw [single_line_append]
  exact ⟨by decide, h s hs⟩

theorem single_line_link_edge (t : Target) (tc : Toolchain) (args : Arguments)
    (sources rcs : List Source) (h1 : single_line args.project)
    (h2 : single_line tc.linkerExtensionExe) (h3 : ∀ s ∈ sources, single_line s.objPath)
    (h4 : ∀ s ∈ rcs, single_line s.objPath) :
    single_line (link_edge t tc args sources rcs) := by
  have d1 : single_line "build ".toList := by decide
  have d2 : single_line ": link".toList := by decide
  simp only [link_edge, single_line_append]
  refine ⟨⟨⟨⟨⟨d1, h1⟩, h2⟩, d2⟩, single_line_paths _ h3⟩, ?_⟩
  cases t.PIPELINE_OS_WINDOWS
  · simp [single_line]
  · simpa using single_line_paths _ h4

/-- Every line of the description is a single line when the inputs are. -/
theorem single_line_ninja_lines (t : Target) (tc : Toolchain) (args : Arguments)
    (snprintf : Nat → Text → Text → Text) (g : Lists) (a b c : Text)
    (h : single_line_inputs t tc args snprintf g a b c) :
    ∀ l ∈ ninja_lines t tc args snprintf g a b c, single_line l := by
  obtain ⟨h1, h2, h3, h4, h5, h6, h7⟩ := h
  have d0 : single_line [] := by decide
  have d1 : single_line "rule compile".toList := by decide
  have d2 : single_line "  deps = msvc".toList := by decide
  have d3 : single_line "  deps = gcc".toList := by decide
  have d4 : single_line "  depfile = $out.d".toList := by decide
  have d5 : single_line "  command = ".toList := by decide
  have d6 : single_line "rule rc".toList := by decide
  have d7 : single_line
      "  command = windres --input $in --output $out --output-format=coff".toList := by decide
  have d8 : single_line "rule link".toList := by decide
  have c1 := (single_line_append _ _).mpr ⟨d5, h1⟩
  have c2 := (single_line_append _ _).mpr ⟨d5, h2⟩
  have e1 : ∀ l ∈ g.sources.map (compile_edge t), single_line l := by
    intro l hl
    obtain ⟨s, hs, rfl⟩ := List.mem_map.mp hl
    exact single_line_compile_edge t s h7 (h3 s hs).1 (h3 s hs).2
  have e2 : ∀ l ∈ g.rcs.map (rc_edge t), single_line l := by
    intro l hl
    obtain ⟨s, hs, rfl⟩ := List.mem_map.mp hl
    exact single_line_rc_edge t s h7 (h4 s hs).1 (h4 s hs).2
  have e3 := single_line_link_edge t tc args g.sources g.rcs h5 h6 (fun s hs => (h3 s hs).1)
    (fun s hs => (h4 s hs).1)
  simp only [ninja_lines]
  cases t.PIPELINE_COMPILER_MSVC <;> cases t.PIPELINE_OS_WINDOWS <;>
    simp only [if_true, if_false, Bool.false_eq_true, List.forall_mem_append,
      List.forall_mem_cons, List.forall_mem_singleton, List.not_mem_nil, false_imp_iff,
      implies_true, d0, d1, d2, d3, d4, d6, d7, d8, c1, c2, e3, and_self, true_and,
      and_true] <;>
    first | exact e1 | exact ⟨e1, e2⟩

theorem compile_write_ninja_ok (t : Target) (tc : Toolchain) (args : Arguments)
    (snprintf : Nat → Text → Text → Text) (g : Lists) (contents : Text) (root : JSON)
    (hroot : JSON.construct contents = .ok root) :
    compile_write_ninja t tc args snprintf g (some contents)
      = .ok (ninja_output t tc args snprintf g (configsJSON root args)) := by
  simp [compile_write_ninja, hroot]

/-- C19, as amended: the build edges of the rendered description. When the configs file
loads and its root scope is valid, and no rule command, path, project name, executable
extension or separator holds a line feed, `compile_write_ninja` renders a text whose lines that declare
a build edge are, in this order: one edge `build <objectPath>: compile <offset><sourcePath>`
per source record in accumulation order, where the offset is `..` and the separator four
times (`../../../../` when the separator is `/`); the resource edges where resources are
compiled in; and one final edge `build <project><exeExtension>: link` followed by every
object path in the same order and then every resource object path. Without resource files
there are |sources| + 1 build edges. -/
theorem ninja_build_edges (t : Target) (tc : Toolchain) (args : Arguments)
    (snprintf : Nat → Text → Text → Text) (g : Lists) (contents : Text) (root : JSON)
    (hroot : JSON.construct contents = .ok root)
    (hline : single_line_inputs t tc args snprintf g
      ((configsJSON root args).get_string "compilerFlags".toList [])
      ((configsJSON root args).get_string "compilerFlagsWarnings".toList [])
      ((configsJSON root args).get_string "linkerFlags".toList [])) :
    ∃ output, compile_write_ninja t tc args snprintf g (some contents) = .ok output ∧
      build_edges output
        = g.sources.map (compile_edge t)
          ++ (if t.PIPELINE_OS_WINDOWS then g.rcs.map (rc_edge t) else [])
          ++ [link_edge t tc args g.sources g.rcs] ∧
      (t.PIPELINE_OS_WINDOWS = false ∨ g.rcs = [] →
        (build_edges output).length = g.sources.length + 1 ∧
        link_edge t tc args g.sources g.rcs
          = "build ".toList ++ args.project ++ tc.linkerExtensionExe ++ ": link".toList
            ++ (g.sources.map fun s => " ".toList ++ s.objPath).flatten) ∧
      (t.SLASH = ['/'] → ∀ s : Source, compile_edge t s
        = "build ".toList ++ s.objPath ++ ": compile ../../../../".toList ++ s.srcPath) := by
  refine ⟨_, compile_write_ninja_ok t tc args snprintf g contents root hroot, ?_, ?_, ?_⟩
  · rw [ninja_output_eq, build_edges_unlines _ (single_line_ninja_lines _ _ _ _ _ _ _ _ hline),
      filter_ninja_lines]
  · intro h
    rw [ninja_output_eq, build_edges_unlines _ (single_line_ninja_lines _ _ _ _ _ _ _ _ hline),
      filter_ninja_lines]
    rcases h with h | h
    · simp [h, link_edge]
    · cases t.PIPELINE_OS_WINDOWS <;> simp [h, link_edge]
  · intro h s
    simp [compile_edge, root_offset, h]

set_option maxRecDepth 100000 in
/-- C19, witness: the description for two source records on Linux with the configs
document `{"debug":{"compile":{"gcc":{"compilerFlags":"-O0 -g","linkerFlags":"-lm"}}}}` has
the three build edges of the two records and of the executable `game`. -/
theorem ninja_build_edges_witness :
    JSON.construct (render (.obj members_configs)) = .ok (root_view members_configs) ∧
      ∃ output, compile_write_ninja target_linux toolchain_gcc args_game snprintf_s lists_two
          (some (render (.obj members_configs))) = .ok output ∧
        build_edges output
          = ["build objects/source/main.o: compile ../../../../source/main.cpp".toList,
              "build objects/source/core/json.o: compile ../../../../source/core/json.cpp".toList,
              "build game: link objects/source/main.o objects/source/core/json.o".toList] :=
  have hroot := construct_render members_configs (by decide) (by decide)
  have h := ninja_build_edges target_linux toolchain_gcc args_game snprintf_s lists_two
    (render (.obj members_configs)) (root_view members_configs) hroot (by decide)
  ⟨hroot, h.choose, h.choose_spec.1, h.choose_spec.2.1.trans (by decide)⟩

/-- C20: the command of the compile rule. When the configs file loads and its root scope
is valid, the text that `compile_write_ninja` renders begins with the compile rule, whose
command is the compiler name of the toolchain, ` $in `, the output flag and `$out `, then,
separated by one blank each: the toolchain core flags, the architecture flags, the project
compiler flags, the project warning flags, the toolchain warning flags and one include flag
per include directory in accumulation order, formatted with the include template of the
toolchain. A project flag text that is empty contributes nothing, not even a blank. -/
theorem compile_rule_command (t : Target) (tc : Toolchain) (args : Arguments)
    (snprintf : Nat → Text → Text → Text) (g : Lists) (contents : Text) (root : JSON)
    (hroot : JSON.construct contents = .ok root) :
    compile_write_ninja t tc args snprintf g (some contents)
        = .ok (("rule compile\n".toList
            ++ (if t.PIPELINE_COMPILER_MSVC then "  deps = msvc\n".toList
                else "  deps = gcc\n  depfile = $out.d\n".toList)
            ++ "  command = ".toList
            ++ compile_command tc snprintf g.includeDirectories
                ((configsJSON root args).get_string "compilerFlags".toList [])
                ((configsJSON root args).get_string "compilerFlagsWarnings".toList [])
            ++ "\n\n".toList)
          ++ build_exe t tc args g.sources g.rcs (build_rc t g.rcs (build_sources t g.sources
              (rule_link t tc g.libraries
                ((configsJSON root args).get_string "linkerFlags".toList [])
                (rule_rc t []))))) ∧
      (∀ includeDirectories cfg cfgWarn, cfg ≠ [] → cfgWarn ≠ [] →
        compile_command tc snprintf includeDirectories cfg cfgWarn
          = tc.compilerName ++ " $in ".toList ++ tc.compilerOutput ++ "$out ".toList
            ++ tc.compilerFlags ++ " ".toList ++ tc.compilerFlagsArchitecture
            ++ " ".toList ++ cfg ++ " ".toList ++ cfgWarn
            ++ " ".toList ++ tc.compilerFlagsWarnings
            ++ (includeDirectories.map fun d =>
                " ".toList ++ snprintf 1024 tc.compilerFlagsIncludes d).flatten) ∧
      (∀ includeDirectories,
        compile_command tc snprintf includeDirectories [] []
          = tc.compilerName ++ " $in ".toList ++ tc.compilerOutput ++ "$out ".toList
            ++ tc.compilerFlags ++ " ".toList ++ tc.compilerFlagsArchitecture
            ++ " ".toList ++ tc.compilerFlagsWarnings
            ++ (includeDirectories.map fun d =>
                " ".toList ++ snprintf 1024 tc.compilerFlagsIncludes d).flatten) := by
  refine ⟨?_, ?_, ?_⟩
  · rw [compile_write_ninja_ok t tc args snprintf g contents root hroot]
    simp only [ninja_output, rule_compile_eq, rule_rc_eq, rule_link_eq, build_sources_eq,
      build_rc_eq, build_exe_eq, List.append_assoc, List.nil_append]
  · intro incs cfg cfgWarn h1 h2
    simp only [compile_command, compile_flags, List.cons_append, List.nil_append,
      intercalate_cons, h1, h2, if_false]
    simp [List.map_map, Function.comp_def]
  · intro incs
    simp only [compile_command, compile_flags, List.cons_append, List.nil_append,
      intercalate_cons, if_true]
    simp [List.map_map, Function.comp_def]

set_option maxRecDepth 100000 in
/-- C20, witness: the description rendered for `toolchain_gcc`, one include directory and
the configs document `{"debug":{"compile":{"gcc":{"compilerFlags":"-O0 -g",
"linkerFlags":"-lm"}}}}`, which has no project warning flags. -/
theorem compile_rule_command_witness :
    JSON.construct (render (.obj members_configs)) = .ok (root_view members_configs) ∧
      compile_write_ninja target_linux toolchain_gcc args_game snprintf_s lists_two
          (some (render (.obj members_configs)))
        = .ok ("rule compile\n  deps = gcc\n  depfile = $out.d\n".toList
          ++ "  command = g++ $in -o $out -c -MD -m64 -O0 -g -Wall -I../generated\n\n".toList
          ++ "rule link\n  command = g++ $in -o $out -s -lm -lX11\n\n".toList
          ++ "build objects/source/main.o: compile ../../../../source/main.cpp\n".toList
          ++ "build objects/source/core/json.o: compile ../../../../source/core/json.cpp\n".toList
          ++ "\nbuild game: link objects/source/main.o objects/source/core/json.o\n".toList) :=
  have hroot := construct_render members_configs (by decide) (by decide)
  ⟨hroot, (compile_rule_command target_linux toolchain_gcc args_game snprintf_s lists_two
    (render (.obj members_configs)) (root_view members_configs) hroot).1.trans (by decide)⟩

/-! ## Views inside a document -/

theorem root_view_eq (ms : JMembers) : root_view ms = members_view [] ms [] := by
  simp [root_view, members_view, render]
  omega

theorem members_view_drop (A R : Text) (ms : JMembers) :
    (A ++ '{' :: (render_members ms ++ '}' :: R)).drop (A.length + 1)
      = render_members ms ++ '}' :: R := by
  have e : A ++ '{' :: (render_members ms ++ '}' :: R)
      = (A ++ ['{']) ++ (render_members ms ++ '}' :: R) := by simp
  have l : A.length + 1 = (A ++ ['{']).length := by simp
  rw [e, l, List.drop_left]

theorem members_view_esc (A R : Text) (ms : JMembers) :
    esc_at (A ++ '{' :: (render_members ms ++ '}' :: R)) (A.length + 1) = false := by
  simp only [esc_at, Nat.add_sub_cancel]
  rw [char_at_append_length]
  simp

/-- The key scanner does not find a key that the object of the view does not have. -/
theorem view_find_key_absent (A R : Text) (ms : JMembers) (key : Text) (hwf : ms.wf = true)
    (hnp : ms.nested_plain = true) (hk : key_text_ok key = true) (hne : key ∉ ms.key_texts) :
    json_find_element_key (A ++ '{' :: (render_members ms ++ '}' :: R)) key (A.length + 1)
      (A.length + 1 + (render_members ms).length) = USIZE_MAX := by
  rw [json_find_element_key, key_loop_eq_scan, members_view_drop, members_view_esc]
  have := key_scan_members key ('}' :: R) 0 hk (by simp) ms (A.length + 1) hwf hnp hne
  simp only [Nat.add_zero] at this
  rw [show A.length + 1 + (render_members ms).length - (A.length + 1)
    = (render_members ms).length by omega, this]
  simp [key_scan]

theorem view_find_element_key_absent (A R : Text) (ms : JMembers) (key : Text)
    (hwf : ms.wf = true) (hnp : ms.nested_plain = true) (hk : key_text_ok key = true)
    (hne : key ∉ ms.key_texts)
    (hlen : (A ++ '{' :: (render_members ms ++ '}' :: R)).length < 2 ^ 64) :
    (members_view A ms R).find_element_key key = { start := 0, end_ := 0 } := by
  simp only [JSON.find_element_key, members_view]
  rw [view_find_key_absent A R ms key hwf hnp hk hne]
  have : USIZE_MAX > A.length + 1 + (render_members ms).length := by
    simp only [List.length_append, List.length_cons] at hlen
    simp only [USIZE_MAX]
    omega
  simp [this]

/-- The key scanner stops behind the colon of the first member with the key. -/
theorem view_find_key_bound (A R : Text) (pre post : JMembers) (k : Text) (v : JValue)
    (hk : str_ok k = true) (hpre : pre.wf = true) (hnp : pre.nested_plain = true)
    (hne : escape k ∉ pre.key_texts) :
    json_find_element_key
        (A ++ '{' :: (render_members (pre.append (.cons k v post)) ++ '}' :: R)) (escape k)
        (A.length + 1) (A.length + 1 + (render_members (pre.append (.cons k v post))).length)
      = (A ++ '{' :: (render_lead pre ++ (quoted k ++ [':']))).length := by
  rw [json_find_element_key, key_loop_eq_scan, members_view_drop, members_view_esc,
    render_members_append]
  have e : A.length + 1
        + (render_lead pre ++ (quoted k ++ ':' :: (render v ++ render_more_members post))).length
        - (A.length + 1)
      = (render_lead pre).length
        + (((escape k).length + 1 + (render v ++ render_more_members post).length + 1) + 1) := by
    simp only [List.length_append, List.length_cons, quoted, List.length_nil]
    omega
  rw [e, List.append_assoc,
    key_scan_lead (escape k) _ _ (key_text_ok_escape k hk) pre (A.length + 1) hpre hnp hne]
  have e2 : quoted k ++ ':' :: (render v ++ render_more_members post) ++ '}' :: R
      = '"' :: (escape k ++ '"' :: ':' :: (render v ++ render_more_members post ++ '}' :: R)) := by
    simp [quoted]
  rw [e2, key_scan_hit]
  simp only [List.length_cons, List.length_append, quoted, List.length_nil]
  omega

/-- The text around the value of a member of the object of a view. -/
theorem view_text_bound (A R : Text) (pre post : JMembers) (k : Text) (v : JValue) :
    A ++ '{' :: (render_members (pre.append (.cons k v post)) ++ '}' :: R)
      = (A ++ '{' :: (render_lead pre ++ (quoted k ++ [':'])))
          ++ (render v ++ (render_more_members post ++ '}' :: R)) := by
  simp [render_members_append]

/-- The span that `find_element_key` returns in a view for the first member with the key:
the text of its value. -/
theorem view_find_element_key_bound (A R : Text) (pre post : JMembers) (k : Text)
    (v : JValue) (hk : str_ok k = true) (hv : v.wf = true) (hpre : pre.wf = true)
    (hnp : pre.nested_plain = true) (hne : escape k ∉ pre.key_texts) :
    (members_view A (pre.append (.cons k v post)) R).find_element_key (escape k)
      = { start := (A ++ '{' :: (render_lead pre ++ (quoted k ++ [':']))).length,
          end_ := (A ++ '{' :: (render_lead pre ++ (quoted k ++ [':']))).length
            + (render v).length } := by
  have hkey := view_find_key_bound A R pre post k v hk hpre hnp hne
  have htext := view_text_bound A R pre post k v
  have hpos := render_length_pos v hv
  simp only [JSON.find_element_key, members_view]
  rw [hkey]
  have hend : A.length + 1 + (render_members (pre.append (.cons k v post))).length
      = (A ++ '{' :: (render_lead pre ++ (quoted k ++ [':']))).length + (render v).length
        + (render_more_members post).length := by
    rw [render_members_append]
    simp only [List.length_append, List.length_cons, List.length_nil]
    omega
  rw [hend, htext]
  generalize hB : (A ++ '{' :: (render_lead pre ++ (quoted k ++ [':']))) = B
  have hesc : esc_at (B ++ (render v ++ (render_more_members post ++ '}' :: R))) B.length
      = false := by
    subst hB
    have e : (A ++ '{' :: (render_lead pre ++ (quoted k ++ [':'])))
          ++ (render v ++ (render_more_members post ++ '}' :: R))
        = (A ++ '{' :: (render_lead pre ++ quoted k))
          ++ ':' :: (render v ++ (render_more_members post ++ '}' :: R)) := by
      simp
    have l : (A ++ '{' :: (render_lead pre ++ (quoted k ++ [':']))).length - 1
        = (A ++ '{' :: (render_lead pre ++ quoted k)).length := by
      simp only [List.length_cons, List.length_append, List.length_nil]
      omega
    simp only [esc_at]
    rw [l, e, char_at_append_length]
    simp
  have hR : B.length + (render v).length + (render_more_members post).length
        = B.length + (render v).length
      ∨ (render_more_members post ++ '}' :: R).head? = some ',' := by
    cases post with
    | nil =>
      left
      simp [render_more_members]
    | cons k2 v2 rest =>
      right
      simp [render_more_members]
  have hd := delimiter_after_segment B (render_more_members post ++ '}' :: R) (render v)
    (B.length + (render v).length + (render_more_members post).length)
    (lex_run_value v hv 0 0) hesc (by omega) hR
  rw [hd]
  have h1 : ¬ B.length > B.length + (render v).length + (render_more_members post).length := by
    omega
  have h2 : ¬ (B.length + (render v).length
        > B.length + (render v).length + (render_more_members post).length
      ∨ B.length + (render v).length ≤ B.length) := by
    omega
  simp only [h1, h2, if_false]

theorem object_zero (buffer key : Text) :
    JSON.object ⟨buffer, 0, 0⟩ key = ⟨buffer, 0, 0⟩ := by
  rw [JSON.object, find_element_key_zero]
  rfl

theorem navigate_zero (buffer : Text) : ∀ keys : List Text,
    navigate ⟨buffer, 0, 0⟩ keys = ⟨buffer, 0, 0⟩
  | [] => rfl
  | key :: keys => by
    rw [navigate, List.foldl_cons, object_zero]
    exact navigate_zero buffer keys

theorem get_string_zero (buffer key d : Text) :
    JSON.get_string ⟨buffer, 0, 0⟩ key d = d := by
  rw [JSON.get_string, find_element_key_zero]
  rfl

/-- In a view, `object( key )` for a key bound to an object is the view of that object. -/
theorem view_object_bound (A R : Text) (pre post : JMembers) (k : Text) (inner : JMembers)
    (hk : str_ok k = true) (hv : inner.wf = true) (hpre : pre.wf = true)
    (hnp : pre.nested_plain = true) (hne : escape k ∉ pre.key_texts) :
    (members_view A (pre.append (.cons k (.obj inner) post)) R).object (escape k)
      = members_view (A ++ '{' :: (render_lead pre ++ (quoted k ++ [':']))) inner
          (render_more_members post ++ '}' :: R) := by
  have hvw : (JValue.obj inner).wf = true := by simpa [JValue.wf] using hv
  have hel := view_find_element_key_bound A R pre post k (.obj inner) hk hvw hpre hnp hne
  have htext := view_text_bound A R pre post k (.obj inner)
  generalize hB : (A ++ '{' :: (render_lead pre ++ (quoted k ++ [':']))) = B at hel htext ⊢
  have hBpos : 0 < B.length := by
    subst hB
    simp
  have hr : render (.obj inner) = '{' :: (render_members inner ++ ['}']) := by
    simp [render]
  rw [JSON.object, hel]
  have hstr : (members_view A (pre.append (.cons k (.obj inner) post)) R).string
      = B ++ '{' :: (render_members inner ++ '}' :: (render_more_members post ++ '}' :: R)) := by
    simp only [members_view]
    rw [htext, hr]
    simp
  have hfound : JSONElement.found
      { start := B.length, end_ := B.length + (render (.obj inner)).length } = true := by
    simp only [JSONElement.found]
    have : ¬ B.length = 0 := by omega
    simp [this]
  have hopen : char_at (members_view A (pre.append (.cons k (.obj inner) post)) R).string
      B.length = '{' := by
    rw [hstr]
    exact char_at_append_length B '{' _
  have hclose : char_at (members_view A (pre.append (.cons k (.obj inner) post)) R).string
      (B.length + (render (.obj inner)).length - 1) = '}' := by
    rw [hstr]
    have e : B ++ '{' :: (render_members inner ++ '}' :: (render_more_members post ++ '}' :: R))
        = (B ++ ('{' :: render_members inner)) ++ '}' :: (render_more_members post ++ '}' :: R) := by
      simp
    have l : B.length + (render (.obj inner)).length - 1
        = (B ++ ('{' :: render_members inner)).length := by
      rw [hr]
      simp only [List.length_cons, List.length_append, List.length_nil]
      omega
    rw [l, e]
    exact char_at_append_length _ '}' _
  rw [((scope_of_spec _ _ _ _).1 ⟨hfound, hopen, hclose⟩), hstr]
  simp only [members_view, JSON.mk.injEq, true_and]
  rw [hr]
  simp only [List.length_cons, List.length_append, List.length_nil]
  omega

theorem lit_head (t : Text) (h : lit_ok t = true) : ∃ c rest, t = c :: rest ∧ c ≠ '{' := by
  cases t with
  | nil => simp [lit_ok] at h
  | cons c rest =>
    refine ⟨c, rest, rfl, ?_⟩
    simp only [lit_ok, List.isEmpty_cons, Bool.not_false, Bool.true_and, List.all_cons,
      Bool.and_eq_true] at h
    intro e
    rw [e] at h
    simp [is_lit_char] at h

/-- In a view, `object( key )` for a key bound to a value that is not an object is the view
(0,0). -/
theorem view_object_other (A R : Text) (pre post : JMembers) (k : Text) (v : JValue)
    (hk : str_ok k = true) (hv : v.wf = true) (hpre : pre.wf = true)
    (hnp : pre.nested_plain = true) (hne : escape k ∉ pre.key_texts)
    (hobj : ∀ inner, v ≠ .obj inner) :
    (members_view A (pre.append (.cons k v post)) R).object (escape k)
      = ⟨A ++ '{' :: (render_members (pre.append (.cons k v post)) ++ '}' :: R), 0, 0⟩ := by
  have hel := view_find_element_key_bound A R pre post k v hk hv hpre hnp hne
  have htext := view_text_bound A R pre post k v
  rw [JSON.object, hel]
  have hopen : char_at (members_view A (pre.append (.cons k v post)) R).string
      (A ++ '{' :: (render_lead pre ++ (quoted k ++ [':']))).length ≠ '{' := by
    simp only [members_view]
    rw [htext]
    cases v with
    | str s =>
      simp only [render, quoted, List.cons_append]
      rw [char_at_append_length]
      decide
    | lit t =>
      obtain ⟨c, rest, ht, hc⟩ := lit_head t (by simpa [JValue.wf] using hv)
      simp only [render, ht, List.cons_append]
      rw [char_at_append_length]
      exact hc
    | obj inner => exact absurd rfl (hobj inner)
    | arr es =>
      simp only [render, List.cons_append]
      rw [char_at_append_length]
      decide
  rw [((scope_of_spec _ _ _ _).2 (fun h => hopen h.2.1))]
  rfl

theorem find_none : ∀ (ms : JMembers) (key : Text), ms.find key = none → key ∉ ms.key_texts
  | .nil, _, _ => by simp [JMembers.key_texts]
  | .cons k v rest, key, h => by
    simp only [JMembers.find] at h
    by_cases e : escape k = key
    · simp [e] at h
    · simp only [e, if_false] at h
      simp only [JMembers.key_texts, List.mem_cons, not_or]
      exact ⟨fun e2 => e e2.symm, find_none rest key h⟩

theorem find_split : ∀ (ms : JMembers) (key : Text) (v : JValue), ms.find key = some v →
    ∃ (pre : JMembers) (k : Text) (post : JMembers), ms = pre.append (.cons k v post) ∧ escape k = key ∧ key ∉ pre.key_texts
  | .nil, _, _, h => by simp [JMembers.find] at h
  | .cons k0 v0 rest, key, v, h => by
    simp only [JMembers.find] at h
    by_cases e : escape k0 = key
    · simp only [e, if_true, Option.some.injEq] at h
      subst h
      exact ⟨.nil, k0, rest, rfl, e, by simp [JMembers.key_texts]⟩
    · simp only [e, if_false] at h
      obtain ⟨pre, k, post, h1, h2, h3⟩ := find_split rest key v h
      refine ⟨.cons k0 v0 pre, k, post, ?_, h2, ?_⟩
      · rw [h1]
        rfl
      · simp only [JMembers.key_texts, List.mem_cons, not_or]
        exact ⟨fun e2 => e e2.symm, h3⟩

theorem nested_plain_append : ∀ (a b : JMembers),
    (a.append b).nested_plain = (a.nested_plain && b.nested_plain)
  | .nil, b => by simp [JMembers.append, JMembers.nested_plain]
  | .cons k v rest, b => by
    simp [JMembers.append, JMembers.nested_plain, nested_plain_append rest b, Bool.and_assoc]

theorem value_plain_nested (v : JValue) (h : v.plain = true) : v.nested_plain = true := by
  cases v with
  | str s => rfl
  | lit t => rfl
  | obj ms => simpa [JValue.nested_plain, JValue.plain] using h
  | arr es => simpa [JValue.nested_plain, JValue.plain] using h

theorem members_plain_nested : ∀ (ms : JMembers), ms.plain = true → ms.nested_plain = true
  | .nil, _ => rfl
  | .cons k v rest, h => by
    simp only [JMembers.plain, Bool.and_eq_true] at h
    simp only [JMembers.nested_plain, Bool.and_eq_true]
    exact ⟨value_plain_nested v h.1.2, members_plain_nested rest h.2⟩

/-- The facts about a member found by `find` that the lemmas on views need. -/
theorem find_facts (ms : JMembers) (key : Text) (v : JValue) (h : ms.find key = some v)
    (hwf : ms.wf = true) (hnp : ms.nested_plain = true) :
    ∃ (pre : JMembers) (k : Text) (post : JMembers), ms = pre.append (.cons k v post) ∧ escape k = key ∧
      escape k ∉ pre.key_texts ∧ str_ok k = true ∧ v.wf = true ∧ pre.wf = true ∧
      pre.nested_plain = true ∧ v.nested_plain = true := by
  obtain ⟨pre, k, post, h1, h2, h3⟩ := find_split ms key v h
  rw [h1, wf_append] at hwf
  rw [h1, nested_plain_append] at hnp
  simp only [JMembers.wf, JMembers.nested_plain, Bool.and_eq_true] at hwf hnp
  exact ⟨pre, k, post, h1, h2, h2 ▸ h3, hwf.2.1.1, hwf.2.1.2, hwf.1, hnp.1, hnp.2.1⟩

/-- Navigation by `object( key )` through a document in the supported form follows
`descend`: it ends in the view of the object that `descend` reaches, or in the view
(0,0) when a key is absent or bound to a value that is not an object. -/
theorem navigate_descend : ∀ (keys : List Text) (A R : Text) (ms : JMembers),
    ms.wf = true → ms.nested_plain = true → (∀ key ∈ keys, key_text_ok key = true) →
    (A ++ '{' :: (render_members ms ++ '}' :: R)).length < 2 ^ 64 →
    (descend ms keys = none →
        navigate (members_view A ms R) keys
          = ⟨A ++ '{' :: (render_members ms ++ '}' :: R), 0, 0⟩) ∧
      (∀ inner, descend ms keys = some inner →
        ∃ A2 R2, A2 ++ '{' :: (render_members inner ++ '}' :: R2)
            = A ++ '{' :: (render_members ms ++ '}' :: R) ∧
          navigate (members_view A ms R) keys = members_view A2 inner R2 ∧
          inner.wf = true ∧ inner.nested_plain = true)
  | [], A, R, ms, hwf, hnp, _, _ => by
    constructor
    · intro h
      simp [descend] at h
    · intro inner h
      simp only [descend, Option.some.injEq] at h
      subst h
      exact ⟨A, R, rfl, rfl, hwf, hnp⟩
  | key :: keys, A, R, ms, hwf, hnp, hk, hlen => by
    have hkey : key_text_ok key = true := hk key (by simp)
    have hkeys : ∀ x ∈ keys, key_text_ok x = true := fun x hx => hk x (by simp [hx])
    have hzero : JSON.object (members_view A ms R) key
          = ⟨A ++ '{' :: (render_members ms ++ '}' :: R), 0, 0⟩ →
        navigate (members_view A ms R) (key :: keys)
          = ⟨A ++ '{' :: (render_members ms ++ '}' :: R), 0, 0⟩ := by
      intro h0
      rw [navigate, List.foldl_cons, h0]
      exact navigate_zero _ keys
    cases hf : ms.find key with
    | none =>
      have hd : descend ms (key :: keys) = none := by simp [descend, hf]
      rw [hd]
      refine ⟨fun _ => hzero ?_, fun inner h => by simp at h⟩
      rw [JSON.object,
        view_find_element_key_absent A R ms key hwf hnp hkey (find_none ms key hf) hlen]
      rfl
    | some v =>
      obtain ⟨pre, k, post, h1, h2, h3, h4, h5, h6, h7, h8⟩ :=
        find_facts ms key v hf hwf hnp
      cases v with
      | obj inner =>
        have hd : descend ms (key :: keys) = descend inner keys := by simp [descend, hf]
        have hiw : inner.wf = true := by simpa [JValue.wf] using h5
        have hip : inner.nested_plain = true :=
          members_plain_nested inner (by simpa [JValue.nested_plain] using h8)
        have hobj := view_object_bound A R pre post k inner h4 hiw h6 h7 h3
        rw [h2, ← h1] at hobj
        have htext := view_text_bound A R pre post k (.obj inner)
        rw [← h1] at htext
        have htext2 : (A ++ '{' :: (render_lead pre ++ (quoted k ++ [':'])))
              ++ '{' :: (render_members inner ++ '}' :: (render_more_members post ++ '}' :: R))
            = A ++ '{' :: (render_members ms ++ '}' :: R) := by
          rw [htext]
          simp [render]
        have ih := navigate_descend keys
          (A ++ '{' :: (render_lead pre ++ (quoted k ++ [':'])))
          (render_more_members post ++ '}' :: R) inner hiw hip hkeys (by rw [htext2]; exact hlen)
        have hnav : navigate (members_view A ms R) (key :: keys)
            = navigate (members_view (A ++ '{' :: (render_lead pre ++ (quoted k ++ [':'])))
                inner (render_more_members post ++ '}' :: R)) keys := by
          rw [navigate, List.foldl_cons, hobj]
          rfl
        rw [hd, hnav, ← htext2]
        exact ih
      | str s =>
        have hd : descend ms (key :: keys) = none := by simp [descend, hf]
        rw [hd]
        refine ⟨fun _ => hzero ?_, fun inner h => by simp at h⟩
        have := view_object_other A R pre post k (.str s) h4 h5 h6 h7 h3 (by simp)
        rw [h2, ← h1] at this
        exact this
      | lit t =>
        have hd : descend ms (key :: keys) = none := by simp [descend, hf]
        rw [hd]
        refine ⟨fun _ => hzero ?_, fun inner h => by simp at h⟩
        have := view_object_other A R pre post k (.lit t) h4 h5 h6 h7 h3 (by simp)
        rw [h2, ← h1] at this
        exact this
      | arr es =>
        have hd : descend ms (key :: keys) = none := by simp [descend, hf]
        rw [hd]
        refine ⟨fun _ => hzero ?_, fun inner h => by simp at h⟩
        have := view_object_other A R pre post k (.arr es) h4 h5 h6 h7 h3 (by simp)
        rw [h2, ← h1] at this
        exact this

theorem configsJSON_navigate (root : JSON) (args : Arguments) :
    configsJSON root args = navigate root [args.config, "compile".toList, args.toolchain] := by
  simp only [configsJSON, navigate, List.foldl_cons, List.foldl_nil]

/-- C18, as amended: a missing configuration field never aborts and gives the default, for
documents in the supported form. For every well-formed configuration document whose
strings use no escape other than `\"`, `\n`, `\t` and hold no brace or bracket inside a
nested object or array, and for config, toolchain and field names without a double quote
or a lone backslash: the constructor accepts the document, and if the selected config, its
`compile` member or the selected toolchain in it is absent or not an object (`descend`
gives `none`), or the field is not a key of the toolchain object, then
`object(config).object("compile").object(toolchain).get_string(field)` returns the
default; `compile_write_ninja` then renders its text without a fatal error. For every
buffer, `object( key )` on the view (0,0) is the view (0,0) and `get_string` on it
returns the default. -/
theorem missing_config_gives_default (ms : JMembers) (args : Arguments) (field d : Text)
    (hwf : ms.wf = true) (hnp : ms.nested_plain = true)
    (hc : key_text_ok args.config = true) (ht : key_text_ok args.toolchain = true)
    (hf : key_text_ok field = true) (hlen : (render (.obj ms)).length < 2 ^ 64)
    (habsent : ∀ inner, descend ms [args.config, "compile".toList, args.toolchain] = some inner →
      field ∉ inner.key_texts) :
    JSON.construct (render (.obj ms)) = .ok (root_view ms) ∧
      (configsJSON (root_view ms) args).get_string field d = d ∧
      (∀ (t : Target) (tc : Toolchain) (snprintf : Nat → Text → Text → Text) (g : Lists),
        ∃ output, compile_write_ninja t tc args snprintf g (some (render (.obj ms)))
          = .ok output) ∧
      (∀ buffer key : Text, JSON.object ⟨buffer, 0, 0⟩ key = ⟨buffer, 0, 0⟩) ∧
      (∀ buffer key : Text, JSON.get_string ⟨buffer, 0, 0⟩ key d = d) := by
  have hroot := construct_render ms hwf hlen
  refine ⟨hroot, ?_, fun t tc snprintf g => ⟨_, compile_write_ninja_ok t tc args snprintf g _ _
    hroot⟩, object_zero, fun buffer key => get_string_zero buffer key d⟩
  have hk : ∀ key ∈ [args.config, "compile".toList, args.toolchain], key_text_ok key = true := by
    intro key hkey
    simp only [List.mem_cons, List.mem_singleton, List.not_mem_nil, or_false] at hkey
    rcases hkey with rfl | rfl | rfl
    · exact hc
    · decide
    · exact ht
  have hlen2 : (([] : Text) ++ '{' :: (render_members ms ++ '}' :: [])).length < 2 ^ 64 := by
    simpa [render] using hlen
  obtain ⟨h1, h2⟩ := navigate_descend [args.config, "compile".toList, args.toolchain] [] [] ms
    hwf hnp hk hlen2
  rw [configsJSON_navigate, root_view_eq]
  cases hd : descend ms [args.config, "compile".toList, args.toolchain] with
  | none =>
    rw [h1 hd]
    exact get_string_zero _ _ _
  | some inner =>
    obtain ⟨A2, R2, htext, hnav, hiw, hip⟩ := h2 inner hd
    rw [hnav, JSON.get_string,
      view_find_element_key_absent A2 R2 inner field hiw hip hf (habsent inner hd)
        (by rw [htext]; exact hlen2)]
    rfl

/-- C18, witness: in `{"debug":{"compile":{"gcc":{"compilerFlags":"-O0 -g",
"linkerFlags":"-lm"}}}}` the toolchain object has no field `compilerFlagsWarnings`. -/
theorem missing_config_gives_default_witness :
    members_configs.wf = true ∧ members_configs.nested_plain = true ∧
      "compilerFlagsWarnings".toList ∉
        (JMembers.cons "compilerFlags".toList (.str "-O0 -g".toList)
          (.cons "linkerFlags".toList (.str "-lm".toList) .nil)).key_texts ∧
      (configsJSON (root_view members_configs) args_game).get_string
        "compilerFlagsWarnings".toList [] = [] :=
  ⟨by decide, by decide, by decide,
    (missing_config_gives_default members_configs args_game "compilerFlagsWarnings".toList []
      (by decide) (by decide) (by decide) (by decide) (by decide) (by decide)
      (fun inner h => by
        have e : descend members_configs [args_game.config, "compile".toList,
            args_game.toolchain]
          = some (.cons "compilerFlags".toList (.str "-O0 -g".toList)
              (.cons "linkerFlags".toList (.str "-lm".toList) .nil)) := rfl
        rw [e] at h
        cases h
        decide)).2.1⟩

/-- C18, counterexample: the document `{"a":"b","c":{"compile":{"gcc":{"compilerFlags":
"-O2"}}}}` is well-formed and has no key `a":"b","c`, yet with that config name the
chained query returns `-O2` for `compilerFlags`, not the empty default. -/
theorem missing_config_counterexample :
    members_trick.wf = true ∧ args_trick.config ∉ members_trick.key_texts ∧
      JSON.construct (render (.obj members_trick)) = .ok (root_view members_trick) ∧
      (configsJSON (root_view members_trick) args_trick).get_string "compilerFlags".toList []
        = "-O2".toList :=
  ⟨by decide, by decide, construct_render members_trick (by decide) (by decide), by decide⟩

/-! ### The link rule -/

/-- C21: the command of the link rule. When the configs file loads and its root scope is
valid, the text that `compile_write_ninja` renders holds, after the compile rule and the
resource rule, the link rule whose command is the linker name of the toolchain, ` $in `,
the output flag and `$out `, the toolchain linker flags, a blank and the project linker
flags when these are not empty, then one reference per accumulated library in accumulation
order: ` -framework <name>` under `OS_MACOS`, else a blank and the name between the library
prefix and the library extension of the toolchain. `compile_add_library` appends without
looking for duplicates, so a library added twice is referenced twice. -/
theorem link_rule_command (t : Target) (tc : Toolchain) (args : Arguments)
    (snprintf : Nat → Text → Text → Text) (g : Lists) (contents : Text) (root : JSON)
    (hroot : JSON.construct contents = .ok root) :
    compile_write_ninja t tc args snprintf g (some contents)
        = .ok (rule_rc t (rule_compile t tc snprintf g.includeDirectories
              ((configsJSON root args).get_string "compilerFlags".toList [])
              ((configsJSON root args).get_string "compilerFlagsWarnings".toList []) [])
          ++ ("rule link\n  command = ".toList
            ++ link_command t tc g.libraries
                ((configsJSON root args).get_string "linkerFlags".toList [])
            ++ "\n\n".toList)
          ++ build_exe t tc args g.sources g.rcs (build_rc t g.rcs
              (build_sources t g.sources []))) ∧
      (∀ libraries cfgLink, t.OS_MACOS = true →
        link_command t tc libraries cfgLink
          = tc.linkerName ++ " $in ".toList ++ tc.linkerOutput ++ "$out ".toList
            ++ tc.linkerFlags ++ (if cfgLink = [] then [] else " ".toList ++ cfgLink)
            ++ (libraries.map fun l => " -framework ".toList ++ l).flatten) ∧
      (∀ libraries cfgLink, t.OS_MACOS = false →
        link_command t tc libraries cfgLink
          = tc.linkerName ++ " $in ".toList ++ tc.linkerOutput ++ "$out ".toList
            ++ tc.linkerFlags ++ (if cfgLink = [] then [] else " ".toList ++ cfgLink)
            ++ (libraries.map fun l =>
                " ".toList ++ tc.linkerPrefixLibrary ++ l ++ tc.linkerExtensionLibrary).flatten) ∧
      (∀ (h : Lists) (a b : Text),
        (compile_add_library (compile_add_library (compile_add_library h a) b) a).libraries
          = h.libraries ++ [a, b, a]) := by
  refine ⟨?_, ?_, ?_, ?_⟩
  · rw [compile_write_ninja_ok t tc args snprintf g contents root hroot]
    have e : "rule link\n  command = ".toList = "rule link\n".toList ++ "  command = ".toList :=
      rfl
    simp only [ninja_output, rule_compile_eq, rule_rc_eq, rule_link_eq, build_sources_eq,
      build_rc_eq, build_exe_eq, e, List.append_assoc, List.nil_append]
  · intro libraries cfgLink h
    have e : library_reference t tc = fun l => " -framework ".toList ++ l := by
      funext l
      simp [library_reference, h]
    simp only [link_command, e]
  · intro libraries cfgLink h
    have e : library_reference t tc
        = fun l => " ".toList ++ tc.linkerPrefixLibrary ++ l ++ tc.linkerExtensionLibrary := by
      funext l
      simp [library_reference, h]
    simp only [link_command, e]
  · intro h a b
    simp [compile_add_library]

set_option maxRecDepth 100000 in
/-- C21, witness: the description rendered on macOS for the libraries `Cocoa`, `OpenGL`,
`Cocoa` and the configs document
`{"debug":{"compile":{"gcc":{"compilerFlags":"-O0 -g","linkerFlags":"-lm"}}}}`. -/
theorem link_rule_command_witness :
    JSON.construct (render (.obj members_configs)) = .ok (root_view members_configs) ∧
      compile_write_ninja target_macos toolchain_gcc args_game snprintf_s lists_frameworks
          (some (render (.obj members_configs)))
        = .ok ("rule compile\n  deps = gcc\n  depfile = $out.d\n".toList
          ++ "  command = g++ $in -o $out -c -MD -m64 -O0 -g -Wall\n\n".toList
          ++ "rule link\n  command = g++ $in -o $out -s -lm".toList
          ++ " -framework Cocoa -framework OpenGL -framework Cocoa\n\n".toList
          ++ "build objects/source/main.o: compile ../../../../source/main.cpp\n".toList
          ++ "\nbuild game: link objects/source/main.o\n".toList) :=
  have hroot := construct_render members_configs (by decide) (by decide)
  ⟨hroot, (link_rule_command target_macos toolchain_gcc args_game snprintf_s lists_frameworks
    (render (.obj members_configs)) (root_view members_configs) hroot).1.trans (by decide)⟩

/-! ### Lookups that go wrong -/

/-- C23, the failing input: `{"z":{"s":"}"},"a":1}` is well-formed, its strings use no
escape, and `a` is its second top-level key, whose value starts at offset 19. The key
scanner returns the failure value for `a`, so `find_element_key` returns the empty
element and `get_int` the default: inside the nested object the scanner does not track
quotes and takes the brace in the string `"}"` for the end of the object. With `x` in the
place of that brace the lookup returns 19. -/
theorem key_lookup_misses_present_key :
    members_brace_in_nested.wf = true ∧ ['a'] ∈ members_brace_in_nested.key_texts ∧
      JSON.construct (render (.obj members_brace_in_nested))
        = .ok ⟨render (.obj members_brace_in_nested), 1, 20⟩ ∧
      (render (.obj members_brace_in_nested)).drop 18 = [':', '1', '}'] ∧
      json_find_element_key (render (.obj members_brace_in_nested)) ['a'] 1 20 = USIZE_MAX ∧
      JSON.find_element_key ⟨render (.obj members_brace_in_nested), 1, 20⟩ ['a'] = ⟨0, 0⟩ ∧
      JSON.get_int (fun _ => 1) ⟨render (.obj members_brace_in_nested), 1, 20⟩ ['a'] 7 = 7 ∧
      json_find_element_key (render (.obj members_plain_in_nested)) ['a'] 1 20 = 19 := by
  decide

/-- C29, the failing input: the constructor accepts `{"a":"}`; `find_element_key` for `a`
returns the element (5,6), one byte long, and both quote checks of `get_string` read that
same byte, a double quote, and pass; the range handed to `substr` is (6,5), its start
after its end. The same happens to `get_string_at( 0 )` on the array of `{"a":["]}`, with
the element (6,7) and the range (7,6). -/
theorem get_string_range_inverted :
    JSON.construct text_lone_quote = .ok ⟨text_lone_quote, 1, 6⟩ ∧
      JSON.find_element_key ⟨text_lone_quote, 1, 6⟩ ['a'] = ⟨5, 6⟩ ∧
      JSONElement.found ⟨5, 6⟩ = true ∧
      char_at text_lone_quote 5 = '"' ∧ char_at text_lone_quote (6 - 1) = '"' ∧
      ¬ (5 + 1 ≤ 6 - 1) ∧
      JSON.construct text_lone_quote_element = .ok ⟨text_lone_quote_element, 1, 8⟩ ∧
      JSON.array ⟨text_lone_quote_element, 1, 8⟩ ['a'] = ⟨text_lone_quote_element, 6, 7⟩ ∧
      JSON.find_element_index ⟨text_lone_quote_element, 6, 7⟩ 0 = ⟨6, 7⟩ ∧
      char_at text_lone_quote_element 6 = '"' ∧
      char_at text_lone_quote_element (7 - 1) = '"' ∧ ¬ (6 + 1 ≤ 7 - 1) := by
  decide

/-! ### The boolean accessors -/

set_option maxRecDepth 100000 in
/-- C26: `get_bool` and `get_bool_at`. The supplied default is what they return for every
default if and only if the element is not found; when the element is found the result does
not depend on the default and is true exactly when the buffer from the start of the element
on begins with `true` or with `1`. In
`{"a":10,"b":false,"c":0,"d":"true","e":true,"f":[10,false,0,"true"]}` the values `10` and
`true` give true, the values `false`, `0` and the string `"true"` give false against the
default true, by key and by index, and the absent key `q` gives the default. -/
theorem get_bool_contract (j : JSON) (key : Text) (index : Nat) :
    (((∀ d, j.get_bool key d = d) ↔ (j.find_element_key key).found = false) ∧
      ((j.find_element_key key).found = true → ∀ d, j.get_bool key d
        = (contains_at j.string "true".toList (j.find_element_key key).start
          || contains_at j.string "1".toList (j.find_element_key key).start))) ∧
    (((∀ d, j.get_bool_at index d = d) ↔ (j.find_element_index index).found = false) ∧
      ((j.find_element_index index).found = true → ∀ d, j.get_bool_at index d
        = (contains_at j.string "true".toList (j.find_element_index index).start
          || contains_at j.string "1".toList (j.find_element_index index).start))) ∧
    ((root_view members_bools).get_bool ['a'] false = true ∧
      (root_view members_bools).get_bool ['b'] true = false ∧
      (root_view members_bools).get_bool ['c'] true = false ∧
      (root_view members_bools).get_bool ['d'] true = false ∧
      (root_view members_bools).get_bool ['e'] false = true ∧
      (root_view members_bools).get_bool ['q'] true = true ∧
      (root_view members_bools).get_bool ['q'] false = false ∧
      ((root_view members_bools).array ['f']).get_bool_at 0 false = true ∧
      ((root_view members_bools).array ['f']).get_bool_at 1 true = false ∧
      ((root_view members_bools).array ['f']).get_bool_at 2 true = false ∧
      ((root_view members_bools).array ['f']).get_bool_at 3 true = false ∧
      ((root_view members_bools).array ['f']).get_bool_at 4 true = true ∧
      ((root_view members_bools).array ['f']).get_bool_at 4 false = false) := by
  refine ⟨⟨⟨?_, ?_⟩, ?_⟩, ⟨⟨?_, ?_⟩, ?_⟩, ?_⟩
  · intro h
    by_contra hf
    have hf2 : (j.find_element_key key).found = true := by simpa using hf
    have h1 := h true
    have h2 := h false
    simp only [JSON.get_bool, hf2, Bool.not_true, Bool.false_eq_true, if_false] at h1 h2
    rw [h1] at h2
    exact absurd h2 (by decide)
  · intro hf d
    simp [JSON.get_bool, hf]
  · intro hf d
    simp [JSON.get_bool, hf]
  · intro h
    by_contra hf
    have hf2 : (j.find_element_index index).found = true := by simpa using hf
    have h1 := h true
    have h2 := h false
    simp only [JSON.get_bool_at, hf2, Bool.not_true, Bool.false_eq_true, if_false] at h1 h2
    rw [h1] at h2
    exact absurd h2 (by decide)
  · intro hf d
    simp [JSON.get_bool_at, hf]
  · intro hf d
    simp [JSON.get_bool_at, hf]
  · decide

/-! ### The dirty flags only rise -/

theorem flags_le_refl (s : Build) : s.flags_le s :=
  ⟨fun h => h, fun h => h, fun h => h, fun h => h, fun h => h⟩

theorem flags_le_trans (a b c : Build) (h1 : a.flags_le b) (h2 : b.flags_le c) :
    a.flags_le c :=
  ⟨fun h => h2.1 (h1.1 h), fun h => h2.2.1 (h1.2.1 h), fun h => h2.2.2.1 (h1.2.2.1 h),
    fun h => h2.2.2.2.1 (h1.2.2.2.1 h), fun h => h2.2.2.2.2 (h1.2.2.2.2 h)⟩

theorem flags_le_of_eq (s t : Build) (h1 : t.cacheDirty = s.cacheDirty)
    (h2 : t.cacheDirtyObjects = s.cacheDirtyObjects)
    (h3 : t.cacheDirtyShaders = s.cacheDirtyShaders)
    (h4 : t.cacheDirtyAssets = s.cacheDirtyAssets)
    (h5 : t.cacheDirtyBinary = s.cacheDirtyBinary) : s.flags_le t := by
  unfold Build.flags_le
  rw [h1, h2, h3, h4, h5]
  exact flags_le_refl s

theorem flags_le_call (w : World) (step : Step) (s : Build) : s.flags_le (call w step s) := by
  obtain ⟨h1, h2, h3, h4, h5, _⟩ := call_fields w step s
  exact flags_le_of_eq _ _ h1 h2 h3 h4 h5

theorem flags_le_call_if (d : Build → Bool) (w : World) (step : Step) (s : Build) :
    s.flags_le (call_if d w step s) := by
  obtain ⟨h1, h2, h3, h4, h5, _⟩ := call_if_fields d w step s
  exact flags_le_of_eq _ _ h1 h2 h3 h4 h5

theorem flags_le_record (step : Step) (s : Build) : s.flags_le (record step s) := by
  obtain ⟨h1, h2, h3, h4, h5, _⟩ := record_fields step s
  exact flags_le_of_eq _ _ h1 h2 h3 h4 h5

theorem flags_le_running (f : Build → Build) (s : Build)
    (h : s.fatal = none → s.flags_le (f s)) : s.flags_le (Build.running f s) := by
  rcases fatal_cases s with hf | ⟨x, hf⟩
  · rw [running_alive _ s hf]
    exact h hf
  · rw [running_dead _ s x hf]
    exact flags_le_refl s

theorem flags_le_build_cache (w : World) (s : Build) : s.flags_le (build_cache w s) := by
  apply flags_le_running
  intro _
  unfold Build.flags_le
  cases hc : s.cacheFile with
  | none => simp
  | some c =>
    simp only
    refine ⟨?_, fun h => h, fun h => h, fun h => h, fun h => h⟩
    intro h
    simp [h]

theorem flags_le_objects_cache (w : World) (s : Build) : s.flags_le (objects_cache w s) := by
  apply flags_le_running
  intro _
  unfold Build.flags_le
  by_cases hd : s.cacheDirty = true
  · simp [hd]
  · simp only [hd, if_false]
    refine ⟨fun h => h, ?_, fun h => h, fun h => h, fun h => h⟩
    intro h
    simp [h]

theorem flags_le_shaders_cache (w : World) (s : Build) : s.flags_le (shaders_cache w s) := by
  apply flags_le_running
  intro _
  unfold Build.flags_le
  by_cases hd : s.cacheDirty = true
  · simp [hd]
  · simp only [hd, if_false]
    refine ⟨fun h => h, fun h => h, ?_, ?_, fun h => h⟩
    · intro h
      simp [h]
    · intro h
      simp [h]

theorem flags_le_assets_cache (w : World) (s : Build) : s.flags_le (assets_cache w s) := by
  apply flags_le_running
  intro _
  unfold Build.flags_le
  by_cases hd : s.cacheDirty = true
  · simp [hd]
  · simp only [hd, if_false]
    refine ⟨fun h => h, fun h => h, fun h => h, ?_, fun h => h⟩
    intro h
    simp [h]

theorem flags_le_binary_cache (w : World) (s : Build) : s.flags_le (binary_cache w s) := by
  apply flags_le_running
  intro _
  unfold Build.flags_le
  refine ⟨fun h => h, fun h => h, fun h => h, fun h => h, ?_⟩
  intro h
  simp [h]

theorem flags_le_cache_save (s : Build) : s.flags_le (cache_save s) := by
  apply flags_le_running
  intro _
  exact flags_le_of_eq _ _ rfl rfl rfl rfl rfl

theorem global_running (f : Build → Build) (s : Build)
    (h : s.fatal = none → (f s).cacheDirty = s.cacheDirty) :
    (Build.running f s).cacheDirty = s.cacheDirty := by
  rcases fatal_cases s with hf | ⟨x, hf⟩
  · rw [running_alive _ s hf]
    exact h hf
  · rw [running_dead _ s x hf]

theorem global_objects_cache (w : World) (s : Build) :
    (objects_cache w s).cacheDirty = s.cacheDirty := by
  apply global_running
  intro _
  by_cases hd : s.cacheDirty = true <;> simp [hd]

theorem global_shaders_cache (w : World) (s : Build) :
    (shaders_cache w s).cacheDirty = s.cacheDirty := by
  apply global_running
  intro _
  by_cases hd : s.cacheDirty = true <;> simp [hd]

theorem global_assets_cache (w : World) (s : Build) :
    (assets_cache w s).cacheDirty = s.cacheDirty := by
  apply global_running
  intro _
  by_cases hd : s.cacheDirty = true <;> simp [hd]

theorem global_binary_cache (w : World) (s : Build) :
    (binary_cache w s).cacheDirty = s.cacheDirty := by
  apply global_running
  intro _
  rfl

theorem global_cache_save (s : Build) : (cache_save s).cacheDirty = s.cacheDirty := by
  apply global_running
  intro _
  rfl

/-- The global flag at the end of a run is the one that `build_cache` left. -/
theorem global_build (w : World) (s : Build) :
    (build_from w s).cacheDirty = (build_cache w s).cacheDirty := by
  rw [build_from_eq]
  have hp : (build_phases w (build_cache w s)).cacheDirty = (build_cache w s).cacheDirty := by
    apply phases_inv (fun t => t.cacheDirty = (build_cache w s).cacheDirty) w _ _ _ _ _ _ rfl
    · intro step _ t ht
      rw [(call_fields w step t).1]
      exact ht
    · intro t ht
      rw [global_objects_cache]
      exact ht
    · intro t ht
      rw [global_shaders_cache]
      exact ht
    · intro t ht
      rw [global_assets_cache]
      exact ht
    · intro t ht
      rw [global_binary_cache]
      exact ht
  cases hr : decide (w.run = ['1'])
  · simp only [stage, Bool.false_eq_true, if_false]
    rw [global_cache_save, hp]
  · simp only [stage, if_true]
    rw [(record_fields _ _).1, global_cache_save, hp]

/-- The flags that are true after `build_cache` are true at the end of the run. -/
theorem flags_le_after_cache (w : World) (s : Build) :
    (build_cache w s).flags_le (build_from w s) := by
  rw [build_from_eq]
  have hp : (build_cache w s).flags_le (build_phases w (build_cache w s)) := by
    apply phases_inv (fun t => (build_cache w s).flags_le t) w _ _ _ _ _ _ (flags_le_refl _)
    · intro step _ t ht
      exact flags_le_trans _ _ _ ht (flags_le_call w step t)
    · intro t ht
      exact flags_le_trans _ _ _ ht (flags_le_objects_cache w t)
    · intro t ht
      exact flags_le_trans _ _ _ ht (flags_le_shaders_cache w t)
    · intro t ht
      exact flags_le_trans _ _ _ ht (flags_le_assets_cache w t)
    · intro t ht
      exact flags_le_trans _ _ _ ht (flags_le_binary_cache w t)
  have hs := flags_le_trans _ _ _ hp (flags_le_cache_save _)
  cases hr : decide (w.run = ['1'])
  · simpa only [stage, Bool.false_eq_true, if_false] using hs
  · simp only [stage, if_true]
    exact flags_le_trans _ _ _ hs (flags_le_record _ _)

/-- C30: the dirty flags are monotone. Every statement of the pipeline (`build_cache`, the
four cache checks, a call of a collaborator, guarded or not, the save of the cache, the
run of the program), applied to any state, leaves true each of the five flags that was
true; every statement other than `build_cache` leaves the global flag as it was; so the
flags that are true after `build_cache` are true at the end of the run, and the global
flag at the end is the one that `build_cache` left. -/
theorem dirty_flags_monotone (w : World) (s : Build) (step : Step) (d : Build → Bool)
    (file : Option (List Nat)) :
    (s.flags_le (build_cache w s) ∧ s.flags_le (objects_cache w s) ∧
      s.flags_le (shaders_cache w s) ∧ s.flags_le (assets_cache w s) ∧
      s.flags_le (binary_cache w s) ∧ s.flags_le (call w step s) ∧
      s.flags_le (call_if d w step s) ∧ s.flags_le (cache_save s) ∧
      s.flags_le (record step s)) ∧
    ((objects_cache w s).cacheDirty = s.cacheDirty ∧
      (shaders_cache w s).cacheDirty = s.cacheDirty ∧
      (assets_cache w s).cacheDirty = s.cacheDirty ∧
      (binary_cache w s).cacheDirty = s.cacheDirty ∧
      (call w step s).cacheDirty = s.cacheDirty ∧
      (call_if d w step s).cacheDirty = s.cacheDirty ∧
      (cache_save s).cacheDirty = s.cacheDirty ∧
      (record step s).cacheDirty = s.cacheDirty) ∧
    ((build_cache w (Build.initial file)).flags_le (build w file) ∧
      (build w file).cacheDirty = (build_cache w (Build.initial file)).cacheDirty) := by
  refine ⟨⟨flags_le_build_cache w s, flags_le_objects_cache w s, flags_le_shaders_cache w s,
    flags_le_assets_cache w s, flags_le_binary_cache w s, flags_le_call w step s,
    flags_le_call_if d w step s, flags_le_cache_save s, flags_le_record step s⟩,
    ⟨global_objects_cache w s, global_shaders_cache w s, global_assets_cache w s,
      global_binary_cache w s, (call_fields w step s).1, (call_if_fields d w step s).1,
      global_cache_save s, (record_fields step s).1⟩, ?_, global_build w _⟩
  exact flags_le_after_cache w _

/-! ### Reads of the previous buffer -/

theorem previous_objects_cache (w : World) (s : Build) (h : s.fatal = none) :
    (s.cacheDirty = true → (objects_cache w s).cacheBufferPrevious = s.cacheBufferPrevious) ∧
      (s.cacheDirty = false →
        (objects_cache w s).cacheBufferPrevious = s.cacheBufferPrevious.read.2) := by
  rw [objects_cache, running_alive _ s h]
  constructor <;> intro hd <;> simp [hd]

theorem previous_shaders_cache (w : World) (s : Build) (h : s.fatal = none) :
    (s.cacheDirty = true → (shaders_cache w s).cacheBufferPrevious = s.cacheBufferPrevious) ∧
      (s.cacheDirty = false →
        (shaders_cache w s).cacheBufferPrevious = s.cacheBufferPrevious.read.2) := by
  rw [shaders_cache, running_alive _ s h]
  constructor <;> intro hd <;> simp [hd]

theorem previous_assets_cache (w : World) (s : Build) (h : s.fatal = none) :
    (s.cacheDirty = true → (assets_cache w s).cacheBufferPrevious = s.cacheBufferPrevious) ∧
      (s.cacheDirty = false →
        (assets_cache w s).cacheBufferPrevious = s.cacheBufferPrevious.read.2) := by
  rw [assets_cache, running_alive _ s h]
  constructor <;> intro hd <;> simp [hd]

theorem previous_kept (f : Build → Build) (s : Build)
    (h : s.fatal = none → s.cacheDirty = true → (f s).cacheBufferPrevious = s.cacheBufferPrevious)
    (hd : s.cacheDirty = true) :
    (Build.running f s).cacheBufferPrevious = s.cacheBufferPrevious := by
  rcases fatal_cases s with hf | ⟨x, hf⟩
  · rw [running_alive _ s hf]
    exact h hf hd
  · rw [running_dead _ s x hf]

/-- With the global flag set, the five blocks leave the previous buffer and its cursor as
they are. -/
theorem previous_phases (w : World) (s : Build) (hd : s.cacheDirty = true) :
    (build_phases w s).cacheDirty = true ∧
      (build_phases w s).cacheBufferPrevious = s.cacheBufferPrevious := by
  apply phases_inv
    (fun t => t.cacheDirty = true ∧ t.cacheBufferPrevious = s.cacheBufferPrevious) w _ _ _ _ _ _
    ⟨hd, rfl⟩
  · intro step _ t ht
    rw [(call_fields w step t).1, (call_fields w step t).2.2.2.2.2.1]
    exact ht
  · intro t ht
    rw [global_objects_cache]
    refine ⟨ht.1, ?_⟩
    rw [objects_cache, previous_kept _ t _ ht.1]
    · exact ht.2
    · intro _ h
      simp [h]
  · intro t ht
    rw [global_shaders_cache]
    refine ⟨ht.1, ?_⟩
    rw [shaders_cache, previous_kept _ t _ ht.1]
    · exact ht.2
    · intro _ h
      simp [h]
  · intro t ht
    rw [global_assets_cache]
    refine ⟨ht.1, ?_⟩
    rw [assets_cache, previous_kept _ t _ ht.1]
    · exact ht.2
    · intro _ h
      simp [h]
  · intro t ht
    rw [global_binary_cache]
    refine ⟨ht.1, ?_⟩
    rcases fatal_cases t with hf | ⟨x, hf⟩
    · rw [binary_cache, running_alive _ t hf]
      exact ht.2
    · rw [binary_cache, running_dead _ t x hf]
      exact ht.2

theorem previous_build (w : World) (s : Build) (hd : (build_cache w s).cacheDirty = true) :
    (build_from w s).cacheBufferPrevious = (build_cache w s).cacheBufferPrevious := by
  rw [build_from_eq]
  have hp := (previous_phases w (build_cache w s) hd).2
  have hs : (cache_save (build_phases w (build_cache w s))).cacheBufferPrevious
      = (build_cache w s).cacheBufferPrevious := by
    rw [← hp]
    rcases fatal_cases (build_phases w (build_cache w s)) with hf | ⟨x, hf⟩
    · rw [cache_save, running_alive _ _ hf]
    · rw [cache_save, running_dead _ _ x hf]
  cases hr : decide (w.run = ['1'])
  · simpa only [stage, Bool.false_eq_true, if_false] using hs
  · simp only [stage, if_true]
    rw [(record_fields _ _).2.2.2.2.2.1, hs]

/-- C27: the previous buffer is read only when the global flag is false. Each of
`objects_cache`, `shaders_cache`, `assets_cache`, called while the process is alive, leaves
the previous buffer and its read cursor untouched when the global dirty flag is true, and
advances the cursor by the one read when the flag is false. In a run the flag is false
after `build_cache` only if the stored file loaded into the previous buffer and no clean
was requested; and if the flag is true at the end of the run, the cursor of the previous
buffer is still where `build_cache` left it, at 0. -/
theorem previous_read_only_when_clean (w : World) (s : Build) (file : Option (List Nat))
    (h : s.fatal = none) :
    ((s.cacheDirty = true →
        (objects_cache w s).cacheBufferPrevious = s.cacheBufferPrevious ∧
        (shaders_cache w s).cacheBufferPrevious = s.cacheBufferPrevious ∧
        (assets_cache w s).cacheBufferPrevious = s.cacheBufferPrevious) ∧
      (s.cacheDirty = false →
        (objects_cache w s).cacheBufferPrevious.tell = s.cacheBufferPrevious.tell + 1 ∧
        (shaders_cache w s).cacheBufferPrevious.tell = s.cacheBufferPrevious.tell + 1 ∧
        (assets_cache w s).cacheBufferPrevious.tell = s.cacheBufferPrevious.tell + 1)) ∧
    ((build_cache w (Build.initial file)).cacheDirty = false →
      w.clean ≠ ['1'] ∧ ∃ counters, file = some counters ∧
        (build_cache w (Build.initial file)).cacheBufferPrevious = ⟨counters, 0⟩) ∧
    ((build w file).cacheDirty = true →
      (build w file).cacheBufferPrevious
          = (build_cache w (Build.initial file)).cacheBufferPrevious ∧
        (build w file).cacheBufferPrevious.tell = 0) := by
  refine ⟨⟨?_, ?_⟩, ?_, ?_⟩
  · intro hd
    exact ⟨(previous_objects_cache w s h).1 hd, (previous_shaders_cache w s h).1 hd,
      (previous_assets_cache w s h).1 hd⟩
  · intro hd
    rw [(previous_objects_cache w s h).2 hd, (previous_shaders_cache w s h).2 hd,
      (previous_assets_cache w s h).2 hd]
    exact ⟨rfl, rfl, rfl⟩
  · intro hd
    cases file with
    | none => simp [build_cache, Build.running, Build.initial] at hd
    | some counters =>
      simp only [build_cache, Build.running, Build.initial] at hd ⊢
      by_cases hc : w.clean = ['1']
      · simp [hc] at hd
      · exact ⟨hc, counters, rfl, by simp⟩
  · intro hd
    rw [build, global_build] at hd
    have e := previous_build w (Build.initial file) hd
    refine ⟨e, ?_⟩
    rw [build, e]
    cases file <;> simp [build_cache, Build.running, Build.initial]

/-- C27, witness: `objects_cache` right after `build_cache`, first with the stored counters
3, 4, 5 loaded (the cursor moves from 0 to 1), then in the world `world_clean` (the cursor
stays at 0). -/
theorem previous_read_only_when_clean_witness :
    (build_cache world_full (Build.initial (some [3, 4, 5]))).fatal = none ∧
      (build_cache world_full (Build.initial (some [3, 4, 5]))).cacheDirty = false ∧
      (objects_cache world_full
        (build_cache world_full (Build.initial (some [3, 4, 5])))).cacheBufferPrevious.tell
          = 1 ∧
      (build world_clean (some [3, 4, 5])).cacheBufferPrevious = ⟨[3, 4, 5], 0⟩ :=
  have h := previous_read_only_when_clean world_full
    (build_cache world_full (Build.initial (some [3, 4, 5]))) none (by decide)
  ⟨by decide, by decide, (h.1.2 (by decide)).1, by decide⟩

/-! ### The flags at the end of a run -/

/-- A completed run has the cache check of every enabled block in its record. -/
theorem done_build (w : World) (file : Option (List Nat)) (h : (build w file).fatal = none) :
    (w.codegen = ['1'] → Step.objects_cache ∈ (build w file).log) ∧
      (w.build = ['1'] →
        Step.shaders_cache ∈ (build w file).log ∧ Step.assets_cache ∈ (build w file).log ∧
        Step.binary_cache ∈ (build w file).log) := by
  obtain ⟨hdead, halive⟩ := build_end w file
  have hdone := done_phases w (build_cache w (Build.initial file))
  generalize build_phases w (build_cache w (Build.initial file)) = p at hdead halive hdone
  rcases fatal_cases p with hf | ⟨x, hf⟩
  · rw [halive hf]
    obtain ⟨d1, d2⟩ := hdone hf
    refine ⟨fun hc => ?_, fun hb => ⟨?_, ?_, ?_⟩⟩
    · simp [d1 hc]
    · simp [(d2 hb).1]
    · simp [(d2 hb).2.1]
    · simp [(d2 hb).2.2.1]
  · rw [hdead (by simp [hf]), hf] at h
    exact absurd h (by simp)

/-- The flags that no executed cache check has written are false: the objects, shaders and
binary flags while the check of their stage has not run, the assets flag while neither
`shaders_cache` nor `assets_cache` has run. -/
theorem unchecked_flags (w : World) (file : Option (List Nat)) :
    (Step.objects_cache ∉ (build w file).log → (build w file).cacheDirtyObjects = false) ∧
      (Step.shaders_cache ∉ (build w file).log → (build w file).cacheDirtyShaders = false) ∧
      (Step.binary_cache ∉ (build w file).log → (build w file).cacheDirtyBinary = false) ∧
      (Step.shaders_cache ∉ (build w file).log → Step.assets_cache ∉ (build w file).log →
        (build w file).cacheDirtyAssets = false) := by
  have hkeep : ∀ (f : Build → Build) (s : Build),
      ((Step.objects_cache ∉ s.log → s.cacheDirtyObjects = false) ∧
        (Step.shaders_cache ∉ s.log → s.cacheDirtyShaders = false) ∧
        (Step.binary_cache ∉ s.log → s.cacheDirtyBinary = false) ∧
        (Step.shaders_cache ∉ s.log → Step.assets_cache ∉ s.log →
          s.cacheDirtyAssets = false)) →
      (∀ c ∈ s.log, c ∈ (f s).log) →
      (f s).cacheDirtyObjects = s.cacheDirtyObjects →
      (f s).cacheDirtyShaders = s.cacheDirtyShaders →
      (f s).cacheDirtyAssets = s.cacheDirtyAssets →
      (f s).cacheDirtyBinary = s.cacheDirtyBinary →
      ((Step.objects_cache ∉ (f s).log → (f s).cacheDirtyObjects = false) ∧
        (Step.shaders_cache ∉ (f s).log → (f s).cacheDirtyShaders = false) ∧
        (Step.binary_cache ∉ (f s).log → (f s).cacheDirtyBinary = false) ∧
        (Step.shaders_cache ∉ (f s).log → Step.assets_cache ∉ (f s).log →
          (f s).cacheDirtyAssets = false)) := by
    intro f s ⟨p1, p2, p3, p4⟩ hg e1 e2 e3 e4
    rw [e1, e2, e3, e4]
    exact ⟨fun h => p1 fun hm => h (hg _ hm), fun h => p2 fun hm => h (hg _ hm),
      fun h => p3 fun hm => h (hg _ hm),
      fun h h' => p4 (fun hm => h (hg _ hm)) fun hm => h' (hg _ hm)⟩
  apply build_inv (fun s =>
    (Step.objects_cache ∉ s.log → s.cacheDirtyObjects = false) ∧
      (Step.shaders_cache ∉ s.log → s.cacheDirtyShaders = false) ∧
      (Step.binary_cache ∉ s.log → s.cacheDirtyBinary = false) ∧
      (Step.shaders_cache ∉ s.log → Step.assets_cache ∉ s.log →
        s.cacheDirtyAssets = false)) w
  · intro step _ s hs
    obtain ⟨_, e1, e2, e3, e4, _⟩ := call_fields w step s
    exact hkeep (call w step) s hs (grows_call w step s).2 e1 e2 e3 e4
  · intro s ⟨p1, p2, p3, p4⟩
    rcases fatal_cases s with hf | ⟨x, hf⟩
    · rw [objects_cache, running_alive _ s hf]
      by_cases hd : s.cacheDirty = true <;> simp [hd] <;> exact ⟨p2, p3, p4⟩
    · rw [objects_cache, running_dead _ s x hf]
      exact ⟨p1, p2, p3, p4⟩
  · intro s ⟨p1, p2, p3, p4⟩
    rcases fatal_cases s with hf | ⟨x, hf⟩
    · rw [shaders_cache, running_alive _ s hf]
      by_cases hd : s.cacheDirty = true <;> simp [hd] <;> exact ⟨p1, p3⟩
    · rw [shaders_cache, running_dead _ s x hf]
      exact ⟨p1, p2, p3, p4⟩
  · intro s ⟨p1, p2, p3, p4⟩
    rcases fatal_cases s with hf | ⟨x, hf⟩
    · rw [assets_cache, running_alive _ s hf]
      by_cases hd : s.cacheDirty = true <;> simp [hd] <;> exact ⟨p1, p2, p3⟩
    · rw [assets_cache, running_dead _ s x hf]
      exact ⟨p1, p2, p3, p4⟩
  · intro s ⟨p1, p2, p3, p4⟩
    rcases fatal_cases s with hf | ⟨x, hf⟩
    · rw [binary_cache, running_alive _ s hf]
      simp
      exact ⟨p1, p2, p4⟩
    · rw [binary_cache, running_dead _ s x hf]
      exact ⟨p1, p2, p3, p4⟩
  · intro s hs
    refine hkeep (build_cache w) s hs ?_ ?_ ?_ ?_ ?_
    all_goals
      rcases fatal_cases s with hf | ⟨x, hf⟩
      · rw [build_cache, running_alive _ s hf]
        cases hc : s.cacheFile <;> simp [hc]
      · rw [build_cache, running_dead _ s x hf]
        try simp
  · intro s hs
    refine hkeep cache_save s hs (grows_cache_save s).2 ?_ ?_ ?_ ?_
    all_goals
      rcases fatal_cases s with hf | ⟨x, hf⟩
      · rw [cache_save, running_alive _ s hf]
      · rw [cache_save, running_dead _ s x hf]
  · intro s hs
    obtain ⟨_, e1, e2, e3, e4, _⟩ := record_fields .executable_run s
    exact hkeep (record .executable_run) s hs (grows_record _ s).2 e1 e2 e3 e4
  · simp [Build.initial]

/-- C22, as amended: the dirty flags at the end of an invocation. For every world (every
combination of the switches and of failing calls) and every stored file: if the global
dirty flag is true at the end, the flag of every stage whose cache check was executed is
true; in a run that completes these are the objects flag under `codegen` and the shaders,
assets and binary flags under `build`; and if the shaders flag is true, the assets flag is
true. The objects, shaders and binary flags are false when the cache check of their stage
was not executed, and the assets flag is false when neither `shaders_cache` nor
`assets_cache` was executed. -/
theorem dirty_flag_invariant (w : World) (file : Option (List Nat)) :
    ((build w file).cacheDirty = true →
        (Step.objects_cache ∈ (build w file).log → (build w file).cacheDirtyObjects = true) ∧
        (Step.shaders_cache ∈ (build w file).log → (build w file).cacheDirtyShaders = true) ∧
        (Step.assets_cache ∈ (build w file).log → (build w file).cacheDirtyAssets = true) ∧
        (Step.binary_cache ∈ (build w file).log → (build w file).cacheDirtyBinary = true)) ∧
      ((build w file).cacheDirty = true → (build w file).fatal = none →
        (w.codegen = ['1'] → (build w file).cacheDirtyObjects = true) ∧
        (w.build = ['1'] →
          (build w file).cacheDirtyShaders = true ∧ (build w file).cacheDirtyAssets = true ∧
          (build w file).cacheDirtyBinary = true)) ∧
      ((build w file).cacheDirtyShaders = true → (build w file).cacheDirtyAssets = true) ∧
      ((Step.objects_cache ∉ (build w file).log → (build w file).cacheDirtyObjects = false) ∧
        (Step.shaders_cache ∉ (build w file).log → (build w file).cacheDirtyShaders = false) ∧
        (Step.binary_cache ∉ (build w file).log → (build w file).cacheDirtyBinary = false) ∧
        (Step.shaders_cache ∉ (build w file).log → Step.assets_cache ∉ (build w file).log →
          (build w file).cacheDirtyAssets = false)) := by
  have hl : (build_cache w (Build.initial file)).log = [] := by
    cases file <;> simp [build_cache, Build.running, Build.initial]
  have hall : (build w file).cacheDirty = true →
      ∀ c ∈ (build w file).log, (build w file).flag_of c = true := by
    intro hd
    rw [build, global_build] at hd
    exact (all_dirty_build_from w (Build.initial file) hd hl).2
  refine ⟨?_, ?_, shaders_implies_assets w (Build.initial file) (by simp [Build.initial]),
    unchecked_flags w file⟩
  · intro hd
    exact ⟨fun hm => hall hd _ hm, fun hm => hall hd _ hm, fun hm => hall hd _ hm,
      fun hm => hall hd _ hm⟩
  · intro hd hf
    obtain ⟨d1, d2⟩ := done_build w file hf
    exact ⟨fun hc => hall hd _ (d1 hc),
      fun hb => ⟨hall hd _ (d2 hb).1, hall hd _ (d2 hb).2.1, hall hd _ (d2 hb).2.2⟩⟩

/-- C22, counterexample: a first run with `build` and without `codegen` ends with the
global flag true and the objects flag false; a first run with neither switch ends with the
global flag true and all four stage flags false; a first run with both switches that
`Gfx::build` ends with a fatal error has the global flag true and the binary flag false,
and its assets flag is true, set by `shaders_cache`, although `assets_cache` did not run. -/
theorem dirty_flag_counterexample :
    ((build world_build_only none).fatal = none ∧
      (build world_build_only none).cacheDirty = true ∧
      (build world_build_only none).cacheDirtyObjects = false) ∧
    ((build world_no_phase none).cacheDirty = true ∧
      (build world_no_phase none).cacheDirtyObjects = false ∧
      (build world_no_phase none).cacheDirtyShaders = false ∧
      (build world_no_phase none).cacheDirtyAssets = false ∧
      (build world_no_phase none).cacheDirtyBinary = false) ∧
    ((build world_gfx_fails none).fatal = some Step.gfx_build ∧
      (build world_gfx_fails none).cacheDirty = true ∧
      (build world_gfx_fails none).cacheDirtyBinary = false ∧
      Step.assets_cache ∉ (build world_gfx_fails none).log ∧
      (build world_gfx_fails none).cacheDirtyAssets = true) := by
  decide

/-! ### Derived views -/

theorem ite_ge (lo : Nat) (c : Prop) [Decidable c] (a b : Nat)
    (ha : a = USIZE_MAX ∨ lo ≤ a) (hb : b = USIZE_MAX ∨ lo ≤ b) :
    (if c then a else b) = USIZE_MAX ∨ lo ≤ (if c then a else b) := by
  by_cases h : c
  · rw [if_pos h]
    exact ha
  · rw [if_neg h]
    exact hb

theorem key_loop_ge (buffer key : Text) : ∀ (fuel i : Nat) (inQ : Bool) (dB dK : Nat),
    json_find_element_key_loop buffer key fuel i inQ dB dK = USIZE_MAX ∨
      i ≤ json_find_element_key_loop buffer key fuel i inQ dB dK
  | 0, _, _, _, _ => Or.inl rfl
  | fuel + 1, i, inQ, dB, dK => by
    have ih : ∀ (q : Bool) (a b : Nat),
        json_find_element_key_loop buffer key fuel (i + 1) q a b = USIZE_MAX ∨
          i ≤ json_find_element_key_loop buffer key fuel (i + 1) q a b := by
      intro q a b
      rcases key_loop_ge buffer key fuel (i + 1) q a b with h | h
      · exact Or.inl h
      · exact Or.inr (by omega)
    rw [json_find_element_key_loop]
    repeat' apply ite_ge
    all_goals first | exact Or.inl rfl | exact ih _ _ _ | exact Or.inr (by omega)

theorem index_loop_ge (buffer : Text) (index lo : Nat) :
    ∀ (fuel i : Nat) (inQ : Bool) (dB dK last count : Nat), lo ≤ last → lo ≤ i →
    json_find_element_index_loop buffer index fuel i inQ dB dK last count = USIZE_MAX ∨
      lo ≤ json_find_element_index_loop buffer index fuel i inQ dB dK last count
  | 0, _, _, _, _, last, count, hl, _ => by
    rw [json_find_element_index_loop]
    apply ite_ge
    · exact Or.inr hl
    · exact Or.inl rfl
  | fuel + 1, i, inQ, dB, dK, last, count, hl, hi => by
    have ih : ∀ (q : Bool) (a b : Nat),
        json_find_element_index_loop buffer index fuel (i + 1) q a b last count = USIZE_MAX ∨
          lo ≤ json_find_element_index_loop buffer index fuel (i + 1) q a b last count :=
      fun q a b => index_loop_ge buffer index lo fuel (i + 1) q a b last count hl (by omega)
    have ih2 : ∀ (q : Bool) (a b : Nat),
        json_find_element_index_loop buffer index fuel (i + 1) q a b (i + 1) (count + 1)
            = USIZE_MAX ∨
          lo ≤ json_find_element_index_loop buffer index fuel (i + 1) q a b (i + 1)
            (count + 1) :=
      fun q a b => index_loop_ge buffer index lo fuel (i + 1) q a b (i + 1) (count + 1)
        (by omega) (by omega)
    rw [json_find_element_index_loop]
    repeat' apply ite_ge
    all_goals first | exact Or.inl rfl | exact Or.inr hl | exact ih _ _ _ | exact ih2 _ _ _

/-- The element that a lookup returns is the empty element or a span of at least one byte
inside the view. -/
theorem element_span (v : JSON) (indexStart : Nat)
    (h : indexStart = USIZE_MAX ∨ v.start ≤ indexStart) (hse : v.start ≤ v.end_)
    (hsize : v.end_ < 2 ^ 64) :
    (if indexStart > v.end_ then ({ start := 0, end_ := 0 } : JSONElement)
      else
        if json_find_element_delimiter v.string indexStart v.end_ > v.end_ ∨
            json_find_element_delimiter v.string indexStart v.end_ ≤ indexStart then
          { start := 0, end_ := 0 }
        else { start := indexStart,
               end_ := json_find_element_delimiter v.string indexStart v.end_ })
      = ⟨0, 0⟩ ∨
    ∃ s e, (if indexStart > v.end_ then ({ start := 0, end_ := 0 } : JSONElement)
      else
        if json_find_element_delimiter v.string indexStart v.end_ > v.end_ ∨
            json_find_element_delimiter v.string indexStart v.end_ ≤ indexStart then
          { start := 0, end_ := 0 }
        else { start := indexStart,
               end_ := json_find_element_delimiter v.string indexStart v.end_ })
      = ⟨s, e⟩ ∧ v.start ≤ s ∧ s < e ∧ e ≤ v.end_ := by
  by_cases h1 : indexStart > v.end_
  · left
    rw [if_pos h1]
  · rw [if_neg h1]
    by_cases h2 : json_find_element_delimiter v.string indexStart v.end_ > v.end_ ∨
        json_find_element_delimiter v.string indexStart v.end_ ≤ indexStart
    · left
      rw [if_pos h2]
    · right
      rw [if_neg h2]
      refine ⟨_, _, rfl, ?_, ?_, ?_⟩
      · rcases h with h | h
        · simp only [USIZE_MAX] at h
          omega
        · exact h
      · omega
      · omega

theorem find_element_key_span (v : JSON) (key : Text) (hse : v.start ≤ v.end_)
    (hsize : v.end_ < 2 ^ 64) :
    v.find_element_key key = ⟨0, 0⟩ ∨
      ∃ s e, v.find_element_key key = ⟨s, e⟩ ∧ v.start ≤ s ∧ s < e ∧ e ≤ v.end_ :=
  element_span v _ (key_loop_ge v.string key _ _ _ _ _) hse hsize

theorem find_element_index_span (v : JSON) (index : Nat) (hse : v.start ≤ v.end_)
    (hsize : v.end_ < 2 ^ 64) :
    v.find_element_index index = ⟨0, 0⟩ ∨
      ∃ s e, v.find_element_index index = ⟨s, e⟩ ∧ v.start ≤ s ∧ s < e ∧ e ≤ v.end_ :=
  element_span v _
    (index_loop_ge v.string index v.start _ _ _ _ _ _ _ (Nat.le_refl _) (Nat.le_refl _)) hse
    hsize

/-- The scope of an element inside the view is the failure view or strictly inside the
view, when the two delimiters differ. -/
theorem scope_of_inside (v : JSON) (el : JSONElement) (o c : Char) (hoc : o ≠ c)
    (h : el = ⟨0, 0⟩ ∨ ∃ s e, el = ⟨s, e⟩ ∧ v.start ≤ s ∧ s < e ∧ e ≤ v.end_) :
    v.inside (v.scope_of el o c) := by
  by_cases hd : el.found = true ∧ char_at v.string el.start = o ∧
      char_at v.string (el.end_ - 1) = c
  · rw [(scope_of_spec v el o c).1 hd]
    rcases h with h | ⟨s, e, h, h1, h2, h3⟩
    · rw [h] at hd
      exact absurd hd.1 (by decide)
    · subst h
      right
      have hne : e - 1 ≠ s := by
        intro heq
        simp only at hd
        rw [heq] at hd
        exact hoc (hd.2.1.symm.trans hd.2.2)
      simp only
      refine ⟨trivial, ?_, ?_, ?_⟩ <;> omega
  · rw [(scope_of_spec v el o c).2 hd]
    exact Or.inl rfl

theorem inside_valid (v r : JSON) (h : v.inside r) (hv : v.valid) : r.valid := by
  rcases h with h | ⟨h0, h1, h2, h3⟩
  · rw [h]
    exact ⟨Nat.le_refl _, Nat.zero_le _⟩
  · refine ⟨h2, ?_⟩
    rw [h0]
    have := hv.2
    omega

/-- C28: derived views stay strictly inside their parent. For every view `v` with
`v.start <= v.end <= ` the length of the buffer (a `usize`), each of `object( key )`,
`array( key )`, `object_at( index )`, `array_at( index )` returns the failure view (0,0)
or a view `r` of the same buffer with `v.start < r.start <= r.end < v.end`; in both cases
the result again has its window in order and within the buffer, so the same holds along
every chain of navigation. -/
theorem derived_views_inside (v : JSON) (key : Text) (index : Nat) (hv : v.valid)
    (hsize : v.string.length < 2 ^ 64) :
    (v.inside (v.object key) ∧ v.inside (v.array key) ∧ v.inside (v.object_at index) ∧
      v.inside (v.array_at index)) ∧
    ((v.object key).valid ∧ (v.array key).valid ∧ (v.object_at index).valid ∧
      (v.array_at index).valid) := by
  have hs : v.end_ < 2 ^ 64 := Nat.lt_of_le_of_lt hv.2 hsize
  have h1 : v.inside (v.object key) :=
    scope_of_inside v _ '{' '}' (by decide) (find_element_key_span v key hv.1 hs)
  have h2 : v.inside (v.array key) :=
    scope_of_inside v _ '[' ']' (by decide) (find_element_key_span v key hv.1 hs)
  have h3 : v.inside (v.object_at index) :=
    scope_of_inside v _ '{' '}' (by decide) (find_element_index_span v index hv.1 hs)
  have h4 : v.inside (v.array_at index) :=
    scope_of_inside v _ '[' ']' (by decide) (find_element_index_span v index hv.1 hs)
  exact ⟨⟨h1, h2, h3, h4⟩, inside_valid v _ h1 hv, inside_valid v _ h2 hv,
    inside_valid v _ h3 hv, inside_valid v _ h4 hv⟩

set_option maxRecDepth 100000 in
/-- C28, witness: in `{"a":10,"b":false,"c":0,"d":"true","e":true,"f":[10,false,0,"true"]}`
the root view is (1,67) and `array( "f" )` is the view (49,66). -/
theorem derived_views_inside_witness :
    (root_view members_bools).valid ∧ (render (.obj members_bools)).length < 2 ^ 64 ∧
      root_view members_bools = ⟨render (.obj members_bools), 1, 67⟩ ∧
      (root_view members_bools).array ['f'] = ⟨render (.obj members_bools), 49, 66⟩ ∧
      (root_view members_bools).inside ((root_view members_bools).array ['f']) :=
  ⟨by decide, by decide, by decide, by decide,
    (derived_views_inside (root_view members_bools) ['f'] 0 (by decide) (by decide)).1.2.1⟩

/-! ### The calls of a run -/

theorem dead_running (f : Build → Build) (s : Build) (h : s.fatal ≠ none) :
    Build.running f s = s := by
  rcases fatal_cases s with hf | ⟨x, hf⟩
  · exact absurd hf h
  · exact running_dead f s x hf

theorem emits_call (w : World) (step : Step) : Emits (call w step) (fun _ => [step]) := by
  intro s
  refine ⟨fun h => dead_running _ s h, fun h => ⟨[step], ?_, List.prefix_refl _, fun _ => rfl⟩⟩
  rw [call, running_alive _ s h]
  by_cases hw : w.fails step = true <;> simp [hw]

theorem emits_record (step : Step) : Emits (record step) (fun _ => [step]) := by
  intro s
  refine ⟨fun h => dead_running _ s h, fun h => ⟨[step], ?_, List.prefix_refl _, fun _ => rfl⟩⟩
  rw [record, running_alive _ s h]

theorem emits_call_if (d : Build → Bool) (w : World) (step : Step)
    (hd : ∀ s, d (call w step s) = d s) :
    Emits (call_if d w step) (fun t => if d t then [step] else []) := by
  intro s
  by_cases h : d s = true
  · have e : call_if d w step s = call w step s := by rw [call_if, if_pos h]
    rw [e]
    have hc := emits_call w step s
    simp only [hd, h, if_true]
    exact hc
  · have e : call_if d w step s = s := by rw [call_if, if_neg h]
    rw [e]
    refine ⟨fun _ => rfl, fun _ => ⟨[], by simp, ?_, fun _ => ?_⟩⟩
    · simp [h]
    · simp [h]

theorem emits_objects_cache (w : World) :
    Emits (objects_cache w) (fun _ => [Step.objects_cache]) := by
  intro s
  refine ⟨fun h => dead_running _ s h, fun h => ⟨_, ?_, List.prefix_refl _, fun _ => rfl⟩⟩
  rw [objects_cache, running_alive _ s h]
  by_cases hd : s.cacheDirty = true <;> simp [hd]

theorem emits_shaders_cache (w : World) :
    Emits (shaders_cache w) (fun _ => [Step.shaders_cache]) := by
  intro s
  refine ⟨fun h => dead_running _ s h, fun h => ⟨_, ?_, List.prefix_refl _, fun _ => rfl⟩⟩
  rw [shaders_cache, running_alive _ s h]
  by_cases hd : s.cacheDirty = true <;> simp [hd]

theorem emits_assets_cache (w : World) :
    Emits (assets_cache w) (fun _ => [Step.assets_cache]) := by
  intro s
  refine ⟨fun h => dead_running _ s h, fun h => ⟨_, ?_, List.prefix_refl _, fun _ => rfl⟩⟩
  rw [assets_cache, running_alive _ s h]
  by_cases hd : s.cacheDirty = true <;> simp [hd]

theorem emits_binary_cache (w : World) :
    Emits (binary_cache w) (fun _ => [Step.binary_cache]) := by
  intro s
  refine ⟨fun h => dead_running _ s h, fun h => ⟨_, ?_, List.prefix_refl _, fun _ => rfl⟩⟩
  rw [binary_cache, running_alive _ s h]

theorem emits_cache_save : Emits cache_save (fun _ => [Step.cache_save]) := by
  intro s
  refine ⟨fun h => dead_running _ s h, fun h => ⟨_, ?_, List.prefix_refl _, fun _ => rfl⟩⟩
  rw [cache_save, running_alive _ s h]

theorem emits_build_cache (w : World) : Emits (build_cache w) (fun _ => []) := by
  intro s
  refine ⟨fun h => dead_running _ s h, fun h => ⟨[], ?_, List.prefix_refl _, fun _ => rfl⟩⟩
  rw [build_cache, running_alive _ s h]
  cases hc : s.cacheFile <;> simp [hc]

/-- Two steps in sequence add their calls in sequence, when the second step leaves alone
what the calls of the first are read from. -/
theorem emits_comp (f g : Build → Build) (Lf Lg : Build → List Step) (hf : Emits f Lf)
    (hg : Emits g Lg) (hk : ∀ s, Lf (g s) = Lf s) :
    Emits (fun s => g (f s)) (fun t => Lf t ++ Lg t) := by
  intro s
  refine ⟨fun h => ?_, fun h => ?_⟩
  · show g (f s) = s
    rw [(hf s).1 h]
    exact (hg s).1 h
  · obtain ⟨p, hp, hpre, hall⟩ := (hf s).2 h
    show ∃ q, (g (f s)).log = s.log ++ q ∧ q <+: Lf (g (f s)) ++ Lg (g (f s)) ∧
      ((g (f s)).fatal = none → q = Lf (g (f s)) ++ Lg (g (f s)))
    rcases fatal_cases (f s) with ha | ⟨x, ha⟩
    · obtain ⟨q, hq, hqpre, hqall⟩ := (hg (f s)).2 ha
      refine ⟨p ++ q, ?_, ?_, fun hend => ?_⟩
      · rw [hq, hp, List.append_assoc]
      · rw [hk, hall ha]
        exact (List.prefix_append_right_inj _).2 hqpre
      · rw [hk, hall ha, hqall hend]
    · have hdead : (f s).fatal ≠ none := by simp [ha]
      have e : g (f s) = f s := (hg (f s)).1 hdead
      rw [e]
      refine ⟨p, hp, ?_, fun hend => absurd hend hdead⟩
      exact hpre.trans (List.prefix_append _ _)

theorem emits_stage (b : Bool) (f : Build → Build) (L : Build → List Step) (hf : Emits f L) :
    Emits (stage b f) (fun t => guarded b (L t)) := by
  intro s
  cases b
  · exact ⟨fun _ => rfl, fun _ => ⟨[], by simp [stage], by simp [guarded], fun _ => rfl⟩⟩
  · exact hf s

theorem emits_congr (f : Build → Build) (L M : Build → List Step) (hf : Emits f L)
    (h : ∀ t, L t = M t) : Emits f M := by
  have e : L = M := funext h
  rw [← e]
  exact hf

/-! #### Which steps leave which stage flag alone -/

theorem flag_call (c : Step) (w : World) (step : Step) (s : Build) :
    (call w step s).flag_of c = s.flag_of c := by
  obtain ⟨_, h1, h2, h3, h4, _⟩ := call_fields w step s
  cases c <;> simp only [Build.flag_of, h1, h2, h3, h4]

theorem flag_call_if (c : Step) (d : Build → Bool) (w : World) (step : Step) (s : Build) :
    (call_if d w step s).flag_of c = s.flag_of c := by
  obtain ⟨_, h1, h2, h3, h4, _⟩ := call_if_fields d w step s
  cases c <;> simp only [Build.flag_of, h1, h2, h3, h4]

theorem flag_record (c : Step) (step : Step) (s : Build) :
    (record step s).flag_of c = s.flag_of c := by
  obtain ⟨_, h1, h2, h3, h4, _⟩ := record_fields step s
  cases c <;> simp only [Build.flag_of, h1, h2, h3, h4]

theorem flag_cache_save (c : Step) (s : Build) : (cache_save s).flag_of c = s.flag_of c := by
  rcases fatal_cases s with hf | ⟨x, hf⟩
  · rw [cache_save, running_alive _ s hf]
    cases c <;> rfl
  · rw [cache_save, running_dead _ s x hf]

theorem flag_shaders_cache (w : World) (s : Build) :
    (shaders_cache w s).flag_of .objects_cache = s.flag_of .objects_cache := by
  rcases fatal_cases s with hf | ⟨x, hf⟩
  · rw [shaders_cache, running_alive _ s hf]
    by_cases hd : s.cacheDirty = true <;> simp [hd, Build.flag_of]
  · rw [shaders_cache, running_dead _ s x hf]

theorem flag_assets_cache (c : Step) (hc : c ≠ .assets_cache) (w : World) (s : Build) :
    (assets_cache w s).flag_of c = s.flag_of c := by
  rcases fatal_cases s with hf | ⟨x, hf⟩
  · rw [assets_cache, running_alive _ s hf]
    by_cases hd : s.cacheDirty = true <;> cases c <;> simp [hd, Build.flag_of] at hc ⊢
  · rw [assets_cache, running_dead _ s x hf]

theorem flag_binary_cache (c : Step) (hc : c ≠ .binary_cache) (w : World) (s : Build) :
    (binary_cache w s).flag_of c = s.flag_of c := by
  rcases fatal_cases s with hf | ⟨x, hf⟩
  · rw [binary_cache, running_alive _ s hf]
    cases c <;> simp [Build.flag_of] at hc ⊢
  · rw [binary_cache, running_dead _ s x hf]

theorem flag_stage (c : Step) (b : Bool) (f : Build → Build)
    (h : ∀ s, (f s).flag_of c = s.flag_of c) (s : Build) :
    (stage b f s).flag_of c = s.flag_of c := by
  cases b
  · rfl
  · exact h s

theorem flag_build_graphics (w : World) (s : Build) :
    (build_graphics w s).flag_of .objects_cache = s.flag_of .objects_cache := by
  simp only [build_graphics, flag_call, flag_call_if, flag_shaders_cache]

theorem flag_build_assets (c : Step) (hc : c ≠ .assets_cache) (w : World) (s : Build) :
    (build_assets w s).flag_of c = s.flag_of c := by
  simp only [build_assets, flag_call, flag_call_if, flag_assets_cache c hc]

theorem flag_build_binary (c : Step) (hc : c ≠ .binary_cache) (w : World) (s : Build) :
    (build_binary w s).flag_of c = s.flag_of c := by
  simp only [build_binary, flag_call, flag_call_if, flag_binary_cache c hc]

theorem flag_build_compile (c : Step) (w : World) (s : Build) :
    (build_compile w s).flag_of c = s.flag_of c := by
  simp only [build_compile, flag_call]

theorem flag_stage_compile (c : Step) (b : Bool) (w : World) (s : Build) :
    (stage b (build_compile w) s).flag_of c = s.flag_of c :=
  flag_stage c b _ (flag_build_compile c w) s

theorem flag_stage_record (c : Step) (b : Bool) (step : Step) (s : Build) :
    (stage b (record step) s).flag_of c = s.flag_of c :=
  flag_stage c b _ (flag_record c step) s

/-! #### The calls of each block -/

theorem emits_build_objects (w : World) :
    Emits (build_objects w) (fun t => objects_calls t.cacheDirtyObjects) := by
  have hd : ∀ (step : Step) (s : Build),
      (call w step s).flag_of .objects_cache = s.flag_of .objects_cache :=
    fun step s => flag_call _ w step s
  have h := emits_comp _ _ _ _ (emits_comp _ _ _ _ (emits_comp _ _ _ _ (emits_comp _ _ _ _
    (emits_comp _ _ _ _ (emits_comp _ _ _ _ (emits_comp _ _ _ _
      (emits_call w .objects_begin) (emits_call w .objects_gather) (fun _ => rfl))
      (emits_objects_cache w) (fun _ => rfl))
      (emits_call_if (·.flag_of .objects_cache) w .objects_parse (hd _)) (fun _ => rfl))
      (emits_call_if (·.flag_of .objects_cache) w .objects_resolve (hd _))
        (fun s => by simp only [flag_call_if]))
      (emits_call_if (·.flag_of .objects_cache) w .objects_validate (hd _))
        (fun s => by simp only [flag_call_if]))
      (emits_call_if (·.flag_of .objects_cache) w .objects_generate (hd _))
        (fun s => by simp only [flag_call_if]))
      (emits_call_if (·.flag_of .objects_cache) w .objects_write (hd _))
        (fun s => by simp only [flag_call_if])
  refine emits_congr _ _ _ h fun t => ?_
  cases hf : t.cacheDirtyObjects <;> simp [Build.flag_of, hf, objects_calls, guarded]

theorem emits_build_graphics (w : World) :
    Emits (build_graphics w) (fun t => graphics_calls t.cacheDirtyShaders) := by
  have hd : ∀ (step : Step) (s : Build),
      (call w step s).flag_of .shaders_cache = s.flag_of .shaders_cache :=
    fun step s => flag_call _ w step s
  have h := emits_comp _ _ _ _ (emits_comp _ _ _ _ (emits_comp _ _ _ _ (emits_comp _ _ _ _
      (emits_call w .gfx_begin) (emits_call w .shaders_gather) (fun _ => rfl))
      (emits_shaders_cache w) (fun _ => rfl))
      (emits_call_if (·.flag_of .shaders_cache) w .gfx_build (hd _)) (fun _ => rfl))
      (emits_call_if (·.flag_of .shaders_cache) w .gfx_write (hd _))
        (fun s => by simp only [flag_call_if])
  refine emits_congr _ _ _ h fun t => ?_
  cases hf : t.cacheDirtyShaders <;> simp [Build.flag_of, hf, graphics_calls, guarded]

theorem emits_build_assets (w : World) :
    Emits (build_assets w) (fun t => assets_calls t.cacheDirtyAssets) := by
  have hd : ∀ (step : Step) (s : Build),
      (call w step s).flag_of .assets_cache = s.flag_of .assets_cache :=
    fun step s => flag_call _ w step s
  have h := emits_comp _ _ _ _ (emits_comp _ _ _ _ (emits_comp _ _ _ _ (emits_comp _ _ _ _
    (emits_comp _ _ _ _
      (emits_call w .assets_begin) (emits_call w .assets_gather) (fun _ => rfl))
      (emits_assets_cache w) (fun _ => rfl))
      (emits_call_if (·.flag_of .assets_cache) w .assets_build (hd _)) (fun _ => rfl))
      (emits_call_if (·.flag_of .assets_cache) w .assets_save_header (hd _))
        (fun s => by simp only [flag_call_if]))
      (emits_call_if (·.flag_of .assets_cache) w .assets_save_source (hd _))
        (fun s => by simp only [flag_call_if])
  refine emits_congr _ _ _ h fun t => ?_
  cases hf : t.cacheDirtyAssets <;> simp [Build.flag_of, hf, assets_calls, guarded]

theorem emits_build_binary (w : World) :
    Emits (build_binary w) (fun t => binary_calls t.cacheDirtyBinary) := by
  have hd : ∀ (step : Step) (s : Build),
      (call w step s).flag_of .binary_cache = s.flag_of .binary_cache :=
    fun step s => flag_call _ w step s
  have h := emits_comp _ _ _ _ (emits_binary_cache w)
      (emits_call_if (·.flag_of .binary_cache) w .binary_save (hd _)) (fun _ => rfl)
  refine emits_congr _ _ _ h fun t => ?_
  cases hf : t.cacheDirtyBinary <;> simp [Build.flag_of, hf, binary_calls, guarded]

theorem emits_build_compile (w : World) :
    Emits (build_compile w) (fun _ => compile_calls) :=
  emits_comp _ _ _ _ (emits_comp _ _ _ _ (emits_comp _ _ _ _
    (emits_call w .compile_project) (emits_call w .compile_engine) (fun _ => rfl))
    (emits_call w .compile_write_ninja) (fun _ => rfl))
    (emits_call w .compile_run_ninja) (fun _ => rfl)

/-- The calls of `BuilderCore::build` from "Check Cache" on, read off the flags of the
state it leaves. -/
theorem emits_build_from (w : World) :
    Emits (build_from w) (fun t =>
      gated_calls (decide (w.codegen = ['1'])) (decide (w.build = ['1']))
        (decide (w.run = ['1'])) t.cacheDirtyObjects t.cacheDirtyShaders t.cacheDirtyAssets
        t.cacheDirtyBinary) := by
  have ho : ∀ t : Build, t.cacheDirtyObjects = t.flag_of .objects_cache := fun _ => rfl
  have hs : ∀ t : Build, t.cacheDirtyShaders = t.flag_of .shaders_cache := fun _ => rfl
  have ha : ∀ t : Build, t.cacheDirtyAssets = t.flag_of .assets_cache := fun _ => rfl
  have hb : ∀ t : Build, t.cacheDirtyBinary = t.flag_of .binary_cache := fun _ => rfl
  have h := emits_comp _ _ _ _ (emits_comp _ _ _ _ (emits_comp _ _ _ _ (emits_comp _ _ _ _
    (emits_comp _ _ _ _ (emits_comp _ _ _ _ (emits_comp _ _ _ _
      (emits_build_cache w)
      (emits_stage (decide (w.codegen = ['1'])) _ _ (emits_build_objects w)) (fun _ => rfl))
      (emits_stage (decide (w.build = ['1'])) _ _ (emits_build_graphics w))
        (fun s => by
          simp only [ho, flag_stage _ _ _ (flag_build_graphics w)]))
      (emits_stage (decide (w.build = ['1'])) _ _ (emits_build_assets w))
        (fun s => by
          simp only [ho, hs,
            flag_stage _ _ _ (flag_build_assets .objects_cache (by decide) w),
            flag_stage _ _ _ (flag_build_assets .shaders_cache (by decide) w)]))
      (emits_stage (decide (w.build = ['1'])) _ _ (emits_build_binary w))
        (fun s => by
          simp only [ho, hs, ha,
            flag_stage _ _ _ (flag_build_binary .objects_cache (by decide) w),
            flag_stage _ _ _ (flag_build_binary .shaders_cache (by decide) w),
            flag_stage _ _ _ (flag_build_binary .assets_cache (by decide) w)]))
      (emits_stage (decide (w.build = ['1'])) _ _ (emits_build_compile w))
        (fun s => by
          simp only [ho, hs, ha, hb, flag_stage_compile]))
      emits_cache_save
        (fun s => by simp only [ho, hs, ha, hb, flag_cache_save]))
      (emits_stage (decide (w.run = ['1'])) _ _ (emits_record .executable_run))
        (fun s => by simp only [ho, hs, ha, hb, flag_stage_record])
  refine emits_congr _ _ _ h fun t => ?_
  cases decide (w.codegen = ['1']) <;> cases decide (w.build = ['1']) <;>
    simp [gated_calls, guarded]

/-- C24: stage gating. For every world (every combination of the `codegen`, `build` and
`run` switches, of counters and of failing calls) and every stored cache file, the calls of
one invocation are, in this order: under `codegen` the objects stage; under `build` the
shaders stage, the assets stage, the binary stage and the compile phase; the save of the
cache; under `run` the produced program. In each stage the begin, gather and cache-check
calls are unconditional and the transform and write calls are there exactly when the dirty
flag of that stage is true. A run that no fatal error ends makes exactly these calls; a run
that a fatal error ends makes a prefix of them. -/
theorem stage_gating (w : World) (file : Option (List Nat)) :
    (build w file).log <+:
        gated_calls (decide (w.codegen = ['1'])) (decide (w.build = ['1']))
          (decide (w.run = ['1'])) (build w file).cacheDirtyObjects
          (build w file).cacheDirtyShaders (build w file).cacheDirtyAssets
          (build w file).cacheDirtyBinary ∧
      ((build w file).fatal = none →
        (build w file).log =
          gated_calls (decide (w.codegen = ['1'])) (decide (w.build = ['1']))
            (decide (w.run = ['1'])) (build w file).cacheDirtyObjects
            (build w file).cacheDirtyShaders (build w file).cacheDirtyAssets
            (build w file).cacheDirtyBinary) := by
  obtain ⟨p, hp, hpre, hall⟩ := (emits_build_from w (Build.initial file)).2 rfl
  have e : (build w file).log = p := by
    rw [build, hp]
    rfl
  rw [e]
  exact ⟨hpre, hall⟩

/-- C24, an instance: with `codegen`, `build` and `run`, stored counters 3, 4, 5 and counters
3, 4, 6 found, the objects and shaders stages make only their begin, gather and cache-check
calls, and the assets and binary stages also make their write calls. -/
theorem stage_gating_witness :
    (build world_assets_run (some [3, 4, 5])).fatal = none ∧
      (build world_assets_run (some [3, 4, 5])).log =
        [.objects_begin, .objects_gather, .objects_cache,
          .gfx_begin, .shaders_gather, .shaders_cache,
          .assets_begin, .assets_gather, .assets_cache,
          .assets_build, .assets_save_header, .assets_save_source,
          .binary_cache, .binary_save,
          .compile_project, .compile_engine, .compile_write_ninja, .compile_run_ninja,
          .cache_save, .executable_run] :=
  ⟨by decide, (stage_gating world_assets_run (some [3, 4, 5])).2 (by decide)⟩

/-! ### Index lookup in an array -/

theorem index_loop_eq_scan (b : Text) (index : Nat) :
    ∀ (fuel i : Nat) (inQ : Bool) (dB dK last count : Nat),
    json_find_element_index_loop b index fuel i inQ dB dK last count
      = index_scan index fuel i (esc_at b i) inQ dB dK last count (b.drop i)
  | 0, i, inQ, dB, dK, last, count => by simp [json_find_element_index_loop, index_scan]
  | fuel + 1, i, inQ, dB, dK, last, count => by
    by_cases h : i < b.length
    · rw [char_at_of_lt b i h, json_find_element_index_loop, index_scan]
      simp only [index_loop_eq_scan b index fuel, esc_at_succ, quote_at_eq, length_bytes]
      have h' : ¬ i ≥ b.length := by omega
      simp [h']
    · have h' : b.length ≤ i := by omega
      rw [List.drop_eq_nil_of_le h', json_find_element_index_loop, index_scan]
      simp [length_bytes, h']

theorem index_scan_step (index fuel i : Nat) (esc inQ : Bool) (dB dK last count : Nat)
    (c : Char) (cs : Text) :
    index_scan index (fuel + 1) i esc inQ dB dK last count (c :: cs) =
      if c = NUL then if count = index then last else USIZE_MAX
      else match lex_step esc inQ dB dK c with
        | none => if count = index then last else USIZE_MAX
        | some (q, x, y, top) =>
          if top = true ∧ c = ',' then
            if count = index then last
            else index_scan index fuel (i + 1) (decide (c = '\\')) q x y (i + 1) (count + 1) cs
          else index_scan index fuel (i + 1) (decide (c = '\\')) q x y last count cs := by
  rw [index_scan]
  simp only [lex_step]
  by_cases hc : c = NUL
  · simp [hc]
  simp only [hc, if_false]
  by_cases hq : (if c = '"' ∧ esc = false then !inQ else inQ) = true
  · simp only [hq, if_true]
    simp
  simp only [hq]
  simp only [Bool.not_eq_true] at hq
  by_cases h1 : c = '{'
  · simp [h1, hq]
  by_cases h2 : c = '['
  · simp [h2, hq]
  by_cases h3 : c = '}'
  · by_cases d : dB > 0 <;> simp [h3, hq, d]
  by_cases h4 : c = ']'
  · by_cases d : dK > 0 <;> simp [h4, hq, d]
  by_cases d : dB > 0 ∨ dK > 0
  · simp [h1, h2, h3, h4, hq, d]
  by_cases h5 : c = ','
  · simp [h1, h2, h3, h4, hq, d, h5]
  · simp [h1, h2, h3, h4, hq, d, h5]

theorem index_scan_skip (index : Nat) (rest : Text) (last count fuel : Nat) :
    ∀ (seg : Text) (i : Nat) (esc inQ : Bool) (dB dK : Nat) (r : Bool × Bool × Nat × Nat),
    lex_run esc inQ dB dK seg = some r →
    index_scan index (seg.length + fuel) i esc inQ dB dK last count (seg ++ rest)
      = index_scan index fuel (i + seg.length) r.1 r.2.1 r.2.2.1 r.2.2.2 last count rest
  | [], i, esc, inQ, dB, dK, r, h => by
    simp only [lex_run, Option.some.injEq] at h
    subst h
    simp
  | c :: seg, i, esc, inQ, dB, dK, r, h => by
    have e : (c :: seg).length + fuel = (seg.length + fuel) + 1 := by
      simp only [List.length_cons]; omega
    have e2 : i + (c :: seg).length = i + 1 + seg.length := by
      simp only [List.length_cons]; omega
    rw [e, e2, List.cons_append, index_scan_step]
    simp only [lex_run] at h
    split at h
    · exact absurd h (by simp)
    · rename_i hc
      rw [if_neg hc]
      split at h
      · exact absurd h (by simp)
      · rename_i q x y top hs
        split at h
        · exact absurd h (by simp)
        · rename_i ht
          split at h
          · exact absurd h (by simp)
          · rw [if_neg ht]
            exact index_scan_skip index rest last count fuel seg _ _ _ _ _ r h

theorem index_scan_comma (index fuel i last count : Nat) (esc : Bool) (cs : Text) :
    index_scan index (fuel + 1) i esc false 0 0 last count (',' :: cs)
      = if count = index then last
        else index_scan index fuel (i + 1) false false 0 0 (i + 1) (count + 1) cs := by
  rw [index_scan_step]
  simp [lex_step, NUL]

/-- The scan from the first byte of an element to the end of the elements: the start of
element number `index`, counted from the current one, or the failure value. -/
theorem index_scan_elems (index : Nat) (tail : Text) : ∀ (rest : JElems), rest.wf = true →
    ∀ (v : JValue), v.wf = true → ∀ (i count : Nat),
    index_scan index ((render v).length + (render_more_elems rest).length) i false false 0 0
        i count (render v ++ (render_more_elems rest ++ tail))
      = if count ≤ index ∧ index - count < (JElems.cons v rest).length then
          i + (JElems.cons v rest).offset (index - count)
        else USIZE_MAX
  | .nil, _, v, hv, i, count => by
    rw [index_scan_skip _ _ _ _ _ _ _ _ _ _ _ _ (lex_run_value v hv 0 0)]
    simp only [render_more_elems, List.length_nil, index_scan, JElems.length]
    by_cases h : count = index
    · subst h
      simp [JElems.offset]
    · rw [if_neg h, if_neg]
      omega
  | .cons v2 rest2, h, v, hv, i, count => by
    simp only [JElems.wf, Bool.and_eq_true] at h
    rw [index_scan_skip _ _ _ _ _ _ _ _ _ _ _ _ (lex_run_value v hv 0 0)]
    simp only
    rw [render_more_elems_cons]
    have e : (',' :: (render v2 ++ render_more_elems rest2)).length
        = ((render v2).length + (render_more_elems rest2).length) + 1 := by
      simp only [List.length_cons, List.length_append]
    rw [e, List.cons_append, index_scan_comma]
    by_cases hc : count = index
    · subst hc
      simp [JElems.offset, JElems.length]
    · rw [if_neg hc, List.append_assoc, index_scan_elems index tail rest2 h.2 v2 h.1]
      by_cases hlt : count < index
      · obtain ⟨k, hk⟩ := Nat.exists_eq_add_of_lt hlt
        subst hk
        have e1 : count + k + 1 - count = k + 1 := by omega
        have e2 : count + k + 1 - (count + 1) = k := by omega
        simp only [e1, e2, JElems.offset, JElems.length]
        by_cases hk : k < rest2.length + 1
        · rw [if_pos ⟨by omega, hk⟩, if_pos ⟨by omega, by omega⟩]
          omega
        · rw [if_neg (fun hh => hk hh.2), if_neg (fun hh => hk (by omega))]
      · rw [if_neg (fun hh => hlt (by omega)), if_neg (fun hh => hlt (by omega))]

theorem render_more_elems_eq (v : JValue) (rest : JElems) :
    render_more_elems (.cons v rest) = ',' :: render_elems (.cons v rest) := by
  simp [render_more_elems, render_elems]

/-- The text of the elements, after one byte `c0`, around element number `i`: the element
follows a byte that is no backslash, and a comma or nothing follows it. -/
theorem elems_split : ∀ (es : JElems) (i : Nat) (x : JValue) (c0 : Char), es.nth i = some x →
    c0 ≠ '\\' →
    ∃ (P : Text) (c : Char) (Q : Text), c0 :: render_elems es = P ++ c :: (render x ++ Q) ∧
      P.length = es.offset i ∧ c ≠ '\\' ∧ (Q = [] ∨ Q.head? = some ',')
  | .nil, _, _, _, h, _ => by simp [JElems.nth] at h
  | .cons v rest, 0, x, c0, h, hc => by
    simp only [JElems.nth, Option.some.injEq] at h
    subst h
    refine ⟨[], c0, render_more_elems rest, by simp [render_elems], by simp [JElems.offset],
      hc, ?_⟩
    cases rest with
    | nil => left; simp [render_more_elems]
    | cons v2 rest2 => right; simp [render_more_elems]
  | .cons v .nil, i + 1, x, c0, h, _ => by simp [JElems.nth] at h
  | .cons v (.cons v2 rest2), i + 1, x, c0, h, _ => by
    simp only [JElems.nth] at h
    obtain ⟨P, c, Q, h1, h2, h3, h4⟩ := elems_split (.cons v2 rest2) i x ',' h (by decide)
    refine ⟨c0 :: (render v ++ P), c, Q, ?_, ?_, h3, h4⟩
    · rw [render_elems_cons, render_more_elems_eq, h1]
      simp
    · simp only [List.length_cons, List.length_append, JElems.offset, h2]
      omega

theorem nth_wf : ∀ (es : JElems) (i : Nat) (x : JValue), es.wf = true → es.nth i = some x →
    x.wf = true
  | .nil, _, _, _, h => by simp [JElems.nth] at h
  | .cons v rest, 0, x, hw, h => by
    simp only [JElems.nth, Option.some.injEq] at h
    simp only [JElems.wf, Bool.and_eq_true] at hw
    rw [← h]
    exact hw.1
  | .cons v rest, i + 1, x, hw, h => by
    simp only [JElems.nth] at h
    simp only [JElems.wf, Bool.and_eq_true] at hw
    exact nth_wf rest i x hw.2 h

theorem nth_some : ∀ (es : JElems) (i : Nat), i < es.length → ∃ x, es.nth i = some x
  | .nil, _, h => by simp [JElems.length] at h
  | .cons v rest, 0, _ => ⟨v, rfl⟩
  | .cons v rest, i + 1, h => by
    simp only [JElems.length] at h
    exact nth_some rest i (by omega)

theorem nth_lt : ∀ (es : JElems) (i : Nat) (x : JValue), es.nth i = some x → i < es.length
  | .nil, _, _, h => by simp [JElems.nth] at h
  | .cons v rest, 0, _, _ => by simp [JElems.length]
  | .cons v rest, i + 1, x, h => by
    simp only [JElems.nth] at h
    have := nth_lt rest i x h
    simp only [JElems.length]
    omega

theorem substr_mid (A S R : Text) :
    substr (A ++ (S ++ R)) A.length (A.length + S.length) = S := by
  have e : A ++ (S ++ R) = (A ++ S) ++ R := by simp
  have l : A.length + S.length = (A ++ S).length := by simp
  rw [substr, e, l, List.take_left', List.drop_left']
  · rfl
  · rfl

/-- The start offset that `json_find_element_index` returns on the view of an array with
at least one element. -/
theorem find_index_elems (A R : Text) (v : JValue) (rest : JElems)
    (hwf : (JElems.cons v rest).wf = true) (index : Nat) :
    json_find_element_index (elems_view A (.cons v rest) R).string index
        (elems_view A (.cons v rest) R).start (elems_view A (.cons v rest) R).end_
      = if index < (JElems.cons v rest).length then
          A.length + 1 + (JElems.cons v rest).offset index
        else USIZE_MAX := by
  simp only [JElems.wf, Bool.and_eq_true] at hwf
  simp only [elems_view, json_find_element_index]
  rw [index_loop_eq_scan]
  have hb : A ++ '[' :: (render_elems (.cons v rest) ++ ']' :: R)
      = (A ++ ['[']) ++ (render_elems (.cons v rest) ++ ']' :: R) := by simp
  have l : A.length + 1 = (A ++ ['[']).length := by simp
  have hd : (A ++ '[' :: (render_elems (.cons v rest) ++ ']' :: R)).drop (A.length + 1)
      = render_elems (.cons v rest) ++ ']' :: R := by
    rw [hb, l, List.drop_left]
  have hesc : esc_at (A ++ '[' :: (render_elems (.cons v rest) ++ ']' :: R)) (A.length + 1)
      = false := by
    simp only [esc_at, Nat.add_sub_cancel]
    rw [char_at_append_length]
    simp
  rw [hd, hesc, Nat.add_sub_cancel_left, render_elems_cons, List.length_append,
    List.append_assoc, index_scan_elems index _ rest hwf.2 v hwf.1]
  simp

/-- The element that `find_element_index` returns on the view of an array of well-formed
elements: the span of element number `index`, or the empty element when there is none. -/
theorem find_element_index_elems (A R : Text) (es : JElems) (hwf : es.wf = true)
    (hlen : (elems_view A es R).string.length < 2 ^ 64) (index : Nat) :
    (∀ x, es.nth index = some x →
      (elems_view A es R).find_element_index index
          = ⟨A.length + 1 + es.offset index,
              A.length + 1 + es.offset index + (render x).length⟩ ∧
        substr (elems_view A es R).string (A.length + 1 + es.offset index)
          (A.length + 1 + es.offset index + (render x).length) = render x) ∧
    (es.nth index = none → (elems_view A es R).find_element_index index = ⟨0, 0⟩) := by
  have hsize : A.length + 1 + (render_elems es).length + 1 + R.length < 2 ^ 64 := by
    have : (elems_view A es R).string.length
        = A.length + 1 + (render_elems es).length + 1 + R.length := by
      simp only [elems_view, List.length_append, List.length_cons]
      omega
    omega
  refine ⟨fun x hx => ?_, fun hn => ?_⟩
  · obtain ⟨P, c, Q, h1, h2, h3, h4⟩ := elems_split es index x '[' hx (by decide)
    have hxwf := nth_wf es index x hwf hx
    have hpos := render_length_pos x hxwf
    have hlt := nth_lt es index x hx
    have hE : (render_elems es).length + 1 = P.length + 1 + (render x).length + Q.length := by
      have := congrArg List.length h1
      simp only [List.length_cons, List.length_append] at this
      omega
    have hbuf : (elems_view A es R).string
        = (A ++ (P ++ [c])) ++ (render x ++ (Q ++ ']' :: R)) := by
      have e : A ++ '[' :: (render_elems es ++ ']' :: R)
          = A ++ (('[' :: render_elems es) ++ ']' :: R) := by simp
      simp only [elems_view]
      rw [e, h1]
      simp
    have hA : (A ++ (P ++ [c])).length = A.length + 1 + es.offset index := by
      simp only [List.length_append, List.length_singleton, h2]
      omega
    have hstart : json_find_element_index (elems_view A es R).string index
        (elems_view A es R).start (elems_view A es R).end_
          = (A ++ (P ++ [c])).length := by
      cases es with
      | nil => simp [JElems.nth] at hx
      | cons v rest =>
        rw [find_index_elems A R v rest hwf index, if_pos hlt, hA]
    have hesc : esc_at ((A ++ (P ++ [c])) ++ (render x ++ (Q ++ ']' :: R)))
        (A ++ (P ++ [c])).length = false := by
      have e : (A ++ (P ++ [c])) ++ (render x ++ (Q ++ ']' :: R))
          = (A ++ P) ++ c :: (render x ++ (Q ++ ']' :: R)) := by simp
      have l : (A ++ (P ++ [c])).length - 1 = (A ++ P).length := by
        simp only [List.length_append, List.length_singleton]
        omega
      simp only [esc_at]
      rw [l, e, char_at_append_length]
      simp [h3]
    have hend : (elems_view A es R).end_
        = A.length + 1 + (render_elems es).length := rfl
    have hR : (elems_view A es R).end_ = (A ++ (P ++ [c])).length + (render x).length ∨
        (Q ++ ']' :: R).head? = some ',' := by
      rcases h4 with h4 | h4
      · left
        rw [hend, hA, ← h2]
        rw [h4] at hE
        simp only [List.length_nil] at hE
        omega
      · right
        cases Q with
        | nil => simp at h4
        | cons q Q => simpa using h4
    have hd := delimiter_after_segment (A ++ (P ++ [c])) (Q ++ ']' :: R) (render x)
      (elems_view A es R).end_ (lex_run_value x hxwf 0 0) hesc
      (by rw [hend, hA, ← h2]; omega) hR
    rw [← hbuf] at hd
    constructor
    · simp only [JSON.find_element_index]
      rw [hstart, hd]
      have c1 : ¬ (A ++ (P ++ [c])).length > (elems_view A es R).end_ := by
        rw [hend, hA, ← h2]
        omega
      have c2 : ¬ ((A ++ (P ++ [c])).length + (render x).length > (elems_view A es R).end_ ∨
          (A ++ (P ++ [c])).length + (render x).length ≤ (A ++ (P ++ [c])).length) := by
        rw [hend, hA, ← h2]
        omega
      rw [if_neg c1, if_neg c2, hA]
    · rw [hbuf, ← hA]
      exact substr_mid _ _ _
  · cases es with
    | nil =>
      simp only [JSON.find_element_index, elems_view, json_find_element_index,
        json_find_element_delimiter, render_elems, List.length_nil, Nat.add_zero,
        Nat.sub_self, json_find_element_index_loop, json_find_element_delimiter_loop]
      by_cases h0 : 0 = index
      · simp [h0]
      · have : USIZE_MAX > A.length + 1 := by
          simp only [USIZE_MAX]
          simp only [render_elems, List.length_nil] at hsize
          omega
        simp [h0, this]
    | cons v rest =>
      have hge : ¬ index < (JElems.cons v rest).length := by
        intro hlt
        obtain ⟨x, hx⟩ := nth_some _ _ hlt
        rw [hx] at hn
        exact absurd hn (by simp)
      simp only [JSON.find_element_index]
      rw [find_index_elems A R v rest hwf index, if_neg hge]
      have : USIZE_MAX > (elems_view A (.cons v rest) R).end_ := by
        simp only [USIZE_MAX, elems_view]
        omega
      rw [if_pos this]

/-- C25, as amended: index lookup on the scope of an array. For every array of `n >= 0`
well-formed elements (strings that use no escape other than `\"`, `\n`, `\t`) standing
anywhere in a buffer of fewer than 2^64 bytes, and every index `i`: when `i < n`,
`find_element_index( i )` on the scope between the brackets returns a span, the bytes of
the span are exactly the text of element number `i`, and the span starts after the texts
of the `i` earlier elements and their commas; when `i >= n` (so for every index on an empty
array) it returns the empty element (0,0). The elements may be strings holding commas and
objects or arrays holding commas. -/
theorem index_lookup (A R : Text) (es : JElems) (hwf : es.wf = true)
    (hlen : (elems_view A es R).string.length < 2 ^ 64) (i : Nat) :
    (i < es.length →
      ∃ x, es.nth i = some x ∧
        (elems_view A es R).find_element_index i
          = ⟨(elems_view A es R).start + es.offset i,
              (elems_view A es R).start + es.offset i + (render x).length⟩ ∧
        substr (elems_view A es R).string ((elems_view A es R).find_element_index i).start
          ((elems_view A es R).find_element_index i).end_ = render x) ∧
    (es.length ≤ i → (elems_view A es R).find_element_index i = ⟨0, 0⟩) := by
  obtain ⟨h1, h2⟩ := find_element_index_elems A R es hwf hlen i
  refine ⟨fun hlt => ?_, fun hge => ?_⟩
  · obtain ⟨x, hx⟩ := nth_some es i hlt
    obtain ⟨ha, hb⟩ := h1 x hx
    refine ⟨x, hx, ha, ?_⟩
    rw [ha]
    exact hb
  · apply h2
    cases hn : es.nth i with
    | none => rfl
    | some x =>
      have := nth_lt es i x hn
      omega

/-- C25, witness: in `{"a":[1,"x,y",{"k":[2,3]},[4,5]]}` the scope of the array is (6,31);
index 1 gives the span (8,13) of `"x,y"`, index 2 the span (14,25) of `{"k":[2,3]}`, and
index 4 gives the empty element. -/
theorem index_lookup_witness :
    elems_mixed.wf = true ∧
      (elems_view lead_a elems_mixed ['}']).string.length < 2 ^ 64 ∧
      (elems_view lead_a elems_mixed ['}']).string
        = "\x7b\"a\":[1,\"x,y\",\x7b\"k\":[2,3]\x7d,[4,5]]\x7d".toList ∧
      (elems_view lead_a elems_mixed ['}']).find_element_index 1 = ⟨8, 13⟩ ∧
      (elems_view lead_a elems_mixed ['}']).find_element_index 2 = ⟨14, 25⟩ ∧
      (elems_view lead_a elems_mixed ['}']).find_element_index 4 = ⟨0, 0⟩ :=
  ⟨by decide, by decide, by decide, by decide, by decide,
    (index_lookup lead_a ['}'] elems_mixed (by decide) (by decide) 4).2 (by decide)⟩

/-- C25, counterexample: in the well-formed document `{"a":["\\",2]}` the array has two
elements and `array( "a" )` is the scope (6,12) of its elements, yet index 1 gives the
empty element and index 0 gives the whole scope `"\\",2`: the closing quote of the first
string follows a backslash and is not taken for a quote. -/
theorem index_lookup_counterexample :
    JSON.construct text_backslash_array = .ok ⟨text_backslash_array, 1, 13⟩ ∧
      (⟨text_backslash_array, 1, 13⟩ : JSON).array ['a'] = ⟨text_backslash_array, 6, 12⟩ ∧
      (⟨text_backslash_array, 6, 12⟩ : JSON).find_element_index 1 = ⟨0, 0⟩ ∧
      (⟨text_backslash_array, 6, 12⟩ : JSON).find_element_index 0 = ⟨6, 12⟩ := by
  decide

/-! ### The counters stored by "Finish" -/

theorem writes_stage (b : Bool) (f : Build → Build) (L X : List Nat)
    (hf : ∀ s, run_writes L false s → run_writes (L ++ X) false (f s)) (s : Build)
    (h : run_writes L false s) :
    run_writes (L ++ (if b = true then X else [])) false (stage b f s) := by
  cases b
  · simpa [stage] using h
  · simpa [stage] using hf s h

theorem writes_stage_keep (b : Bool) (f : Build → Build) (L : List Nat) (c : Bool)
    (hf : ∀ s, run_writes L c s → run_writes L c (f s)) (s : Build)
    (h : run_writes L c s) : run_writes L c (stage b f s) := by
  cases b
  · exact h
  · exact hf s h

/-- An invocation writes the counters of the enabled stages, in the order objects, shaders,
assets, and stores them when it reaches the step "Finish". -/
theorem writes_enabled (w : World) (file : Option (List Nat)) :
    run_writes (enabled_counters w) true (build w file) := by
  have h0 : run_writes [] false (Build.initial file) := by
    intro _
    simp [Build.initial]
  have h := writes_frame _ (frame_stage (decide (w.run = ['1'])) _
      (frame_record .executable_run (by rfl))) _ _ _
    (writes_save _ _
      (writes_frame _ (frame_stage (decide (w.build = ['1'])) _ (frame_compile w)) _ _ _
        (writes_stage_keep (decide (w.build = ['1'])) _ _ _
          (fun s hs => writes_build_binary w _ _ s hs) _
          (writes_stage (decide (w.build = ['1'])) _ _ [w.assetFileCount]
            (fun s hs => writes_build_assets w _ s hs) _
            (writes_stage (decide (w.build = ['1'])) _ _ [w.shaderFileCount]
              (fun s hs => writes_build_graphics w _ s hs) _
              (writes_stage (decide (w.codegen = ['1'])) _ _ [w.objectFilesCount]
                (fun s hs => writes_build_objects w _ s hs) _
                (writes_build_cache w _ _ _ h0)))))))
  have e : enabled_counters w
      = (([] ++ if decide (w.codegen = ['1']) = true then [w.objectFilesCount] else [])
          ++ if decide (w.build = ['1']) = true then [w.shaderFileCount] else [])
          ++ if decide (w.build = ['1']) = true then [w.assetFileCount] else [] := by
    by_cases hc : w.codegen = ['1'] <;> by_cases hb : w.build = ['1'] <;>
      simp [enabled_counters, hc, hb]
  rw [e]
  exact h

theorem buffers_binary_cache (w : World) (s : Build) :
    (binary_cache w s).cacheBufferCurrent = s.cacheBufferCurrent ∧
      (binary_cache w s).cacheBufferPrevious = s.cacheBufferPrevious := by
  rcases fatal_cases s with hf | ⟨x, hf⟩
  · rw [binary_cache, running_alive _ s hf]
    exact ⟨rfl, rfl⟩
  · rw [binary_cache, running_dead _ s x hf]
    exact ⟨rfl, rfl⟩

theorem buffers_build_binary (w : World) (s : Build) :
    (build_binary w s).cacheBufferCurrent = s.cacheBufferCurrent ∧
      (build_binary w s).cacheBufferPrevious = s.cacheBufferPrevious := by
  obtain ⟨_, _, _, _, _, e6, e7, _⟩ := call_if_fields (·.cacheDirtyBinary) w .binary_save
    (binary_cache w s)
  obtain ⟨b1, b2⟩ := buffers_binary_cache w s
  rw [build_binary, e6, e7]
  exact ⟨b1, b2⟩

/-- With neither `codegen` nor `build` no call can end the process. -/
theorem no_phase_alive (w : World) (file : Option (List Nat)) (hc : w.codegen ≠ ['1'])
    (hb : w.build ≠ ['1']) : (build w file).fatal = none := by
  obtain ⟨_, halive⟩ := build_end w file
  have hp : build_phases w (build_cache w (Build.initial file))
      = build_cache w (Build.initial file) := by
    simp [build_phases, stage, hc, hb]
  rw [hp] at halive
  have ha : (build_cache w (Build.initial file)).fatal = none := by
    rw [build_cache, running_alive _ _ (by rfl)]
    cases file <;> rfl
  rw [halive ha]
  exact ha

/-- C31: the counters stored by "Finish". For every world and every stored file: a run that
no fatal error ends has saved the cache (the save is in its record), and the stored file
and the current buffer hold exactly the counters of the stages that the switches enable,
whatever was stored before: objects, shaders, assets with `codegen` and `build`; objects
with `codegen` alone; shaders, assets with `build` alone; nothing with neither, and then
every run completes and stores the empty file. A run that a fatal error ends keeps the
file it found. `binary_cache` and the whole binary block leave both buffers, with the read
cursor, as they are, in every state. -/
theorem finish_stores_enabled_counters (w : World) (file : Option (List Nat)) (s : Build) :
    ((build w file).fatal = none →
        (build w file).cacheFile = some (enabled_counters w) ∧
        (build w file).cacheBufferCurrent.data = enabled_counters w ∧
        Step.cache_save ∈ (build w file).log) ∧
      ((build w file).fatal ≠ none → (build w file).cacheFile = file) ∧
      ((w.codegen = ['1'] → w.build = ['1'] →
          enabled_counters w = [w.objectFilesCount, w.shaderFileCount, w.assetFileCount]) ∧
        (w.codegen = ['1'] → w.build ≠ ['1'] → enabled_counters w = [w.objectFilesCount]) ∧
        (w.codegen ≠ ['1'] → w.build = ['1'] →
          enabled_counters w = [w.shaderFileCount, w.assetFileCount]) ∧
        (w.codegen ≠ ['1'] → w.build ≠ ['1'] → enabled_counters w = [])) ∧
      (w.codegen ≠ ['1'] → w.build ≠ ['1'] →
        (build w file).fatal = none ∧ (build w file).cacheFile = some []) ∧
      ((binary_cache w s).cacheBufferCurrent = s.cacheBufferCurrent ∧
        (binary_cache w s).cacheBufferPrevious = s.cacheBufferPrevious ∧
        (build_binary w s).cacheBufferCurrent = s.cacheBufferCurrent ∧
        (build_binary w s).cacheBufferPrevious = s.cacheBufferPrevious) := by
  have hw := writes_enabled w file
  obtain ⟨hdead, halive⟩ := build_end w file
  obtain ⟨k1, _, _⟩ := unsaved_phases w file
  have hnone : ∀ (hc : w.codegen ≠ ['1']) (hb : w.build ≠ ['1']), enabled_counters w = [] := by
    intro hc hb
    simp [enabled_counters, hc, hb]
  refine ⟨fun h => ⟨(hw h).2 rfl, (hw h).1, ?_⟩, fun h => ?_, ⟨?_, ?_, ?_, hnone⟩,
    fun hc hb => ?_,
    (buffers_binary_cache w s).1, (buffers_binary_cache w s).2,
    (buffers_build_binary w s).1, (buffers_build_binary w s).2⟩
  · rcases fatal_cases (build_phases w (build_cache w (Build.initial file))) with hf | ⟨x, hf⟩
    · rw [halive hf]
      simp
    · rw [hdead (by simp [hf]), hf] at h
      exact absurd h (by simp)
  · rcases fatal_cases (build_phases w (build_cache w (Build.initial file))) with hf | ⟨x, hf⟩
    · rw [halive hf] at h
      exact absurd hf h
    · rw [hdead (by simp [hf])]
      exact k1
  · intro hc hb
    simp [enabled_counters, hc, hb]
  · intro hc hb
    simp [enabled_counters, hc, hb]
  · intro hc hb
    simp [enabled_counters, hc, hb]
  · have ha := no_phase_alive w file hc hb
    refine ⟨ha, ?_⟩
    rw [(hw ha).2 rfl, hnone hc hb]

/-- C31, instances: with the counters 1, 2, 3 stored before, a run with both switches
stores 3, 4, 5; a run with `codegen` alone stores 3; a run with `build` alone stores 3, 5;
a run with neither switch stores the empty file. -/
theorem finish_stores_enabled_counters_witness :
    (build world_full (some [1, 2, 3])).fatal = none ∧
      (build world_full (some [1, 2, 3])).cacheFile = some [3, 4, 5] ∧
      (build world_codegen_only (some [1, 2, 3])).cacheFile = some [3] ∧
      (build world_build_only (some [1, 2, 3])).cacheFile = some [3, 5] ∧
      (build world_no_phase (some [1, 2, 3])).cacheFile = some [] :=
  ⟨by decide,
    ((finish_stores_enabled_counters world_full (some [1, 2, 3]) {}).1 (by decide)).1,
    by decide, by decide, by decide⟩

/-! ### The stripping pass against the words of the specification -/

/-- On a text in which every double quote after a backslash is escaped by it, the loop of
the constructor toggles its quote state exactly at the unescaped double quotes. -/
theorem plain_reading : ∀ (t : Text) (prev inQ esc : Bool), (esc = true → prev = true) →
    quotes_plain prev inQ esc t = true →
    keep_outside_quotes inQ esc t = strip_forward prev inQ t ∧
      unescaped_quotes inQ esc t = toggling_quotes prev t
  | [], _, _, _, _, _ => ⟨rfl, rfl⟩
  | c :: cs, prev, inQ, esc, hinv, hp => by
    by_cases hq : c = '"' ∧ esc = false
    · simp only [quotes_plain, if_pos hq, Bool.and_eq_true, Bool.not_eq_true'] at hp
      obtain ⟨ih1, ih2⟩ := plain_reading cs false (!inQ) false (by simp) hp.2
      have hc : c = '"' ∧ prev = false := ⟨hq.1, hp.1⟩
      have hb : decide (c = '\\') = false := by
        rw [hq.1]
        decide
      constructor
      · simp only [keep_outside_quotes, strip_forward, if_pos hq, if_pos hc, ih1]
      · simp only [unescaped_quotes, toggling_quotes, if_pos hq, if_pos hc, ih2, hb]
    · simp only [quotes_plain, if_neg hq] at hp
      have hc : ¬ (c = '"' ∧ prev = false) := by
        intro h
        apply hq
        refine ⟨h.1, ?_⟩
        cases hesc : esc with
        | false => rfl
        | true =>
          have := hinv hesc
          rw [h.2] at this
          exact absurd this (by decide)
      obtain ⟨ih1, ih2⟩ := plain_reading cs (decide (c = '\\')) inQ
        (inQ && decide (c = '\\') && !esc)
        (by
          intro h
          simp only [Bool.and_eq_true] at h
          exact h.1.2)
        hp
      constructor
      · simp only [keep_outside_quotes, strip_forward, if_neg hq, if_neg hc, ih1]
      · simp only [unescaped_quotes, toggling_quotes, if_neg hq, if_neg hc, ih2, Nat.zero_add]

/-- C7, as amended: for every input text in which every double quote that directly follows
a backslash is escaped by that backslash (no double quote right after the escape `\\`, none
right after a backslash outside a string) and whose number of unescaped double quotes is
even, the stripping pass of the constructor leaves the input with exactly the whitespace
characters that lie outside double-quoted strings removed: every character inside a quoted
string and every character that is no whitespace is kept, in the original order. -/
theorem strip_removes_outside_whitespace (text : Text)
    (hplain : quotes_plain false false false text = true)
    (h : Even (unescaped_quotes false false text)) :
    strip_whitespace text = keep_outside_quotes false false text := by
  obtain ⟨h1, h2⟩ := plain_reading text false false false (by simp) hplain
  rw [h1]
  apply strip_whitespace_forward
  rw [toggle_parity_eq, ← h2]
  have := Nat.even_iff.mp h
  simp [this]

/-- C7, witness: `{ "say \"a b\"" : [1, "c d"] }` has four unescaped double quotes and becomes
`{"say \"a b\"":[1,"c d"]}`. -/
theorem strip_removes_outside_whitespace_witness :
    quotes_plain false false false text_spaced_escaped = true ∧
      unescaped_quotes false false text_spaced_escaped = 4 ∧
      strip_whitespace text_spaced_escaped
        = ['{', '"', 's', 'a', 'y', ' ', '\\', '"', 'a', ' ', 'b', '\\', '"', '"', ':',
            '[', '1', ',', '"', 'c', ' ', 'd', '"', ']', '}'] :=
  ⟨by decide, by decide,
    (strip_removes_outside_whitespace text_spaced_escaped (by decide) (by decide)).trans
      (by decide)⟩

/-- C7, counterexample: `{"a":"\\","b":"p q","c":"\\"}` is a well-formed document with
twelve double quotes, none of them escaped, and no whitespace outside its strings, so the
text with the whitespace outside strings removed is the text itself. The stripping pass
removes the blank inside the string `"p q"`: the closing quote of each string `"\\"` follows
a backslash and the pass does not take it for a quote. -/
theorem strip_counterexample :
    unescaped_quotes false false text_backslash_strings = 12 ∧
      keep_outside_quotes false false text_backslash_strings = text_backslash_strings ∧
      strip_whitespace text_backslash_strings
        = ['{', '"', 'a', '"', ':', '"', '\\', '\\', '"', ',', '"', 'b', '"', ':', '"', 'p',
            'q', '"', ',', '"', 'c', '"', ':', '"', '\\', '\\', '"', '}'] ∧
      strip_whitespace text_backslash_strings
        ≠ keep_outside_quotes false false text_backslash_strings ∧
      quotes_plain false false false text_backslash_strings = false := by
  decide

set_option maxRecDepth 100000 in
/-- C19, counterexample: the configs document
`{"debug":{"compile":{"gcc":{"linkerFlags":"-lm\nbuild evil: link"}}}}` is well-formed and
uses only the escape `\n`; the constructor accepts it and `get_string` returns linker flags
with a line feed. The description rendered for two source records and no resource files
(and the library `X11`) has four lines that declare a build edge, |sources| + 2: the
command of the link rule ends in the line `build evil: link -lX11`, which stands before the
edges of the two records and the final link edge. -/
theorem ninja_build_edges_counterexample :
    members_configs_feed.wf = true ∧
      JSON.construct (render (.obj members_configs_feed))
        = .ok (root_view members_configs_feed) ∧
      (configsJSON (root_view members_configs_feed) args_game).get_string
          "linkerFlags".toList [] = "-lm\nbuild evil: link".toList ∧
      lists_two.rcs = [] ∧
      ∃ output, compile_write_ninja target_linux toolchain_gcc args_game snprintf_s lists_two
          (some (render (.obj members_configs_feed))) = .ok output ∧
        build_edges output
          = ["build evil: link -lX11".toList,
              "build objects/source/main.o: compile ../../../../source/main.cpp".toList,
              "build objects/source/core/json.o: compile ../../../../source/core/json.cpp".toList,
              "build game: link objects/source/main.o objects/source/core/json.o".toList] ∧
        (build_edges output).length = lists_two.sources.length + 2 :=
  have hroot := construct_render members_configs_feed (by decide) (by decide)
  ⟨by decide, hroot, by decide, rfl, _,
    compile_write_ninja_ok target_linux toolchain_gcc args_game snprintf_s lists_two
      (render (.obj members_configs_feed)) (root_view members_configs_feed) hroot,
    by decide, by decide⟩

end Manta
